import Mathlib

/-!
# Elemental: distributed-matrix data-distribution engine

A shallow embedding of the parts of the Elemental sources that the distribution
contracts are about, and the theorems that settle those contracts.

Conventions of the embedding.

* C++ `Int` is embedded as the unbounded `Int`; the C++ operators `/` and `%`
  (truncation toward zero) are `Int.tdiv` and `Int.tmod`.  Signed overflow is
  undefined behaviour in the source and is not modelled.
* A const function that can throw returns `Except Error _`.  A member function
  that assigns to its object returns an `Outcome`: the object as it is when
  control leaves the function, and the exception that left it, if any; so what
  was assigned before a throw stays assigned, as in C++.
* `DEBUG_ONLY(cmd)` (new sources) and `#ifndef RELEASE ... #endif` (old sources)
  guard the consistency checks.  The macro is defined outside the sources at
  hand, so the build is a parameter `debug : Bool`: the guarded statements are
  executed exactly when `debug = true`.  `CallStackEntry`/`PushCallStack` only
  maintain a diagnostic call stack and are omitted.
* The local `Matrix<T>` is a descriptor (window sizes, leading dimension and the
  position `data_` of entry (0,0)) over a separately passed flat buffer
  `Buffer T`; so two descriptors over one buffer alias exactly as two C++
  matrices sharing storage do.
* Every process runs the same program on its own state; a communicator is
  embedded with the calling process's rank, its size, and the grid coordinates
  of each of its members, so that a collective can be evaluated on a whole
  grid of process states.
* A counting loop is `forLoop lo hi body` (upwards) or `forDown n body`
  (downwards), threading the variables the body assigns; `PARALLEL_FOR` loops
  are run in index order, their iterations being independent.
* A routine that blocks in `mpi::SendRecv` is embedded in two stages, up to the
  call and after it; the exchange delivers the partner's send buffer only if
  the partner names the calling process as destination, so that a result of
  the collective is also a proof that the exchange completes.
* In the pseudospectrum routines the machine reals are an arbitrary type with
  arbitrary operations and the external solves an arbitrary function; the
  `while( true )` loop is run with max(1, maxIts) sweeps of fuel, which is
  proved to reach a `break`.
* In the LQ routines the scalars are those of an arbitrary commutative ring
  with the conjugation as a parameter, so the arithmetic is exact; a local
  matrix is given by its entries as a function of the row and column index,
  and `RightReflector` is a parameter of the factorization.
-/

namespace elem

/-- Exceptions thrown by the library (`LogicError(...)`, `RuntimeError(...)`),
with their message; values interpolated into a message are left out. -/
inductive Error where
  | LogicError (msg : String)
  | RuntimeError (msg : String)
  deriving DecidableEq, Repr

/-- What a member function that assigns to its object (of type `σ`) leaves behind:
the object when control leaves the function, and the exception thrown, if any. -/
structure Outcome (σ : Type) where
  state : σ
  thrown : Option Error

namespace Outcome

/-- Normal return. -/
def ok {σ : Type} (s : σ) : Outcome σ := { state := s, thrown := none }

/-- The exception `e` leaves the function with the object being `s`. -/
def throw {σ : Type} (s : σ) (e : Error) : Outcome σ := { state := s, thrown := some e }

/-- Run a check that does not assign to the object `s`; continue with `k` when it
passes, leave with its exception otherwise. -/
def check {σ : Type} (s : σ) (c : Except Error Unit) (k : Outcome σ) : Outcome σ :=
  match c with
  | Except.ok _ => k
  | Except.error e => throw s e

/-- Sequencing of two calls on the same object: the second runs only if the first
returned normally. -/
def andThen {σ : Type} (o : Outcome σ) (k : σ → Outcome σ) : Outcome σ :=
  match o.thrown with
  | none => k o.state
  | some _ => o

end Outcome

/-- The macro `DEBUG_ONLY` (and `#ifndef RELEASE` of the older sources) is defined
outside the sources at hand; `debug` is the build: `DEBUG_ONLY(c)` runs the
check `c` in a build with the checks (`debug = true`) and is empty otherwise. -/
def DEBUG_ONLY (debug : Bool) (c : Except Error Unit) : Except Error Unit :=
  if debug then c else Except.ok ()

/-- Modelled from the spec: the enum `ViewType` is declared outside the sources at
hand; the spec lists the view/owner tag as OWNER (has private storage), VIEW
(mutable borrow), LOCKED_VIEW (read-only borrow). -/
inductive ViewType where
  | OWNER
  | VIEW
  | LOCKED_VIEW
  deriving DecidableEq, Repr

/-- Modelled from the spec: `IsViewing` is declared outside the sources at hand; a
VIEW and a LOCKED_VIEW borrow storage, an OWNER does not. -/
def IsViewing (v : ViewType) : Bool :=
  match v with
  | ViewType.OWNER => false
  | ViewType.VIEW => true
  | ViewType.LOCKED_VIEW => true

/-- Modelled from the spec: `IsLocked` is declared outside the sources at hand; only
a LOCKED_VIEW is read-only. -/
def IsLocked (v : ViewType) : Bool :=
  match v with
  | ViewType.OWNER => false
  | ViewType.VIEW => false
  | ViewType.LOCKED_VIEW => true

/-! ## Indexing helpers (`core/indexing/decl.hpp` declares them, the bodies are absent) -/

/-- Modelled from the spec: `Length(n, shift, stride)` is only declared in
`core/indexing/decl.hpp`; the spec defines it as
`max(0, ceil((n - shift)/stride))`.  For a positive stride the ceiling of
`(n - shift)/stride` is `-floor((shift - n)/stride)`. -/
def Length (n shift numProcs : Int) : Int :=
  max 0 (-((shift - n) / numProcs))

/-- Modelled from the spec: `Shift(rank, firstRank, numProcs)` is only declared in
`core/indexing/decl.hpp`; the spec defines the shift as
`(localRank - align) mod stride`, the mathematical (non-negative) residue. -/
def Shift (rank firstRank numProcs : Int) : Int :=
  (rank - firstRank) % numProcs

/-! ## Message passing (external collaborator) -/

namespace mpi

/-- Modelled from the spec: a communicator handle as seen by the calling process:
its own rank, the size, and for each rank the grid coordinates (mesh row, mesh
column) of the member holding that rank. -/
structure Comm where
  rank : Int
  size : Int
  member : Int → Int × Int

/-- Modelled from the spec: `mpi::CommRank`, the calling process's rank in the communicator. -/
def CommRank (comm : Comm) : Int := comm.rank

/-- Modelled from the spec: `mpi::CommSize`, the number of members. -/
def CommSize (comm : Comm) : Int := comm.size

/-- Modelled from the spec: `MPI_UNDEFINED`, returned as a rank outside the grid. -/
def UNDEFINED : Int := -32766

/-- Modelled from the spec: `mpi::Broadcast(value, root, comm)`: broadcast delivers
the same root-originated value to all receivers.  `held q` is the content of
the variable `value` on the process at grid coordinates `q` when it enters the
call; every member leaves the call with the content held by the member of rank
`root`. -/
def Broadcast {α : Type} (held : Int × Int → α) (root : Int) (comm : Comm) : α :=
  held (comm.member root)

end mpi

/-! ## Grid (`core/grid/decl.hpp` declares it, the bodies are absent) -/

/-- Modelled from the spec: the process grid as seen by one process: an r x c mesh,
the process's mesh row (`MCRank`) and mesh column (`MRRank`), and whether it
is in the grid.  `id` stands for the address of the `Grid` object, which is
what the sources compare (`grid_ != &grid`). -/
structure Grid where
  id : Nat
  height_ : Int
  width_ : Int
  inGrid_ : Bool
  matrixColRank_ : Int
  matrixRowRank_ : Int
  deriving DecidableEq, Repr

namespace Grid

def Height (g : Grid) : Int := g.height_
def Width (g : Grid) : Int := g.width_
def Size (g : Grid) : Int := g.height_ * g.width_
def InGrid (g : Grid) : Bool := g.inGrid_
def MCRank (g : Grid) : Int := g.matrixColRank_
def MRRank (g : Grid) : Int := g.matrixRowRank_

/-- Modelled from the spec: linear rank in the column-major ordering of the mesh. -/
def VCRank (g : Grid) : Int := g.matrixColRank_ + g.matrixRowRank_ * g.height_

/-- Modelled from the spec: linear rank in the row-major ordering of the mesh. -/
def VRRank (g : Grid) : Int := g.matrixRowRank_ + g.matrixColRank_ * g.width_

/-- Modelled from the spec: the sub-communicator of the process's mesh column (all
mesh rows), ranked by mesh row. -/
def MCComm (g : Grid) : mpi.Comm :=
  { rank := g.MCRank, size := g.height_, member := fun k => (k, g.matrixRowRank_) }

/-- Modelled from the spec: the sub-communicator of the process's mesh row (all
mesh columns), ranked by mesh column. -/
def MRComm (g : Grid) : mpi.Comm :=
  { rank := g.MRRank, size := g.width_, member := fun k => (g.matrixColRank_, k) }

/-- Modelled from the spec: all processes in column-major order. -/
def VCComm (g : Grid) : mpi.Comm :=
  { rank := g.VCRank, size := g.Size,
    member := fun k => (k % g.height_, k / g.height_) }

/-- Modelled from the spec: all processes in row-major order. -/
def VRComm (g : Grid) : mpi.Comm :=
  { rank := g.VRRank, size := g.Size,
    member := fun k => (k / g.width_, k % g.width_) }

/-- Modelled from the spec: `mpi::COMM_SELF` on the calling process. -/
def COMM_SELF (g : Grid) : mpi.Comm :=
  { rank := 0, size := 1, member := fun _ => (g.matrixColRank_, g.matrixRowRank_) }

end Grid

/-! ## Local matrix (`Matrix<T>` is used by the sources, its body is absent) -/

/-- The flat storage a local matrix points into. -/
abbrev Buffer (T : Type) := Int → T

/-- Modelled from the spec: the Local Buffer descriptor: a 2-D column-major window
with explicit leading dimension, owning or viewing (possibly locked);
`data_` is the position of entry (0,0) in the buffer and `memorySize_` the
number of entries of storage the matrix itself owns. -/
structure Matrix where
  viewType_ : ViewType
  height_ : Int
  width_ : Int
  ldim_ : Int
  data_ : Int
  memorySize_ : Int
  deriving DecidableEq, Repr

namespace Matrix

/-- Modelled from the spec: the constructor `Matrix(0,0,true)`: an empty owner. -/
def empty : Matrix :=
  { viewType_ := ViewType.OWNER, height_ := 0, width_ := 0, ldim_ := 1, data_ := 0,
    memorySize_ := 0 }

def Height (M : Matrix) : Int := M.height_
def Width (M : Matrix) : Int := M.width_
def LDim (M : Matrix) : Int := M.ldim_
def MemorySize (M : Matrix) : Int := M.memorySize_
def Locked (M : Matrix) : Bool := IsLocked M.viewType_
def Viewing (M : Matrix) : Bool := IsViewing M.viewType_

/-- Modelled from the spec: position in the buffer of local entry (i,j)
(column-major with leading dimension). -/
def Buffer (M : Matrix) (i j : Int) : Int := M.data_ + i + j * M.ldim_

/-- Modelled from the spec: out-of-bounds index is a usage error detected by a
local precondition check. -/
def AssertValidEntry (M : Matrix) (i j : Int) : Except Error Unit :=
  if i < 0 ∨ M.height_ ≤ i ∨ j < 0 ∨ M.width_ ≤ j then
    Except.error (Error.LogicError "Entry is out of bounds of local matrix")
  else Except.ok ()

/-- Modelled from the spec: `Matrix<T>::Get(i,j)` reads entry (i,j) of the window. -/
def Get {T : Type} (debug : Bool) (M : Matrix) (buf : elem.Buffer T) (i j : Int) :
    Except Error T := do
  DEBUG_ONLY debug (M.AssertValidEntry i j)
  return buf (M.Buffer i j)

/-- Modelled from the spec: mutation through a locked view must fail. -/
def AssertNotLocked (M : Matrix) : Except Error Unit :=
  if M.Locked then
    Except.error (Error.LogicError "Cannot modify data of locked matrices")
  else Except.ok ()

/-- Modelled from the spec: `Matrix<T>::Set(i,j,alpha)` writes entry (i,j) of the
window; out-of-bounds access and mutation through a locked view must fail. -/
def Set {T : Type} (debug : Bool) (M : Matrix) (buf : elem.Buffer T) (i j : Int)
    (alpha : T) : Outcome (elem.Buffer T) :=
  Outcome.check buf (DEBUG_ONLY debug (M.AssertValidEntry i j)) <|
  Outcome.check buf (DEBUG_ONLY debug M.AssertNotLocked) <|
  Outcome.ok (Function.update buf (M.Buffer i j) alpha)

/-- Modelled from the spec: `Matrix<T>::Empty_()` drops the storage and resets the
window to 0 x 0. -/
def Empty_ (_M : Matrix) : Matrix := Matrix.empty

/-- Modelled from the spec: `Matrix<T>::Resize_(height,width)` sets the window to
height x width; an owner reallocates its storage (leading dimension
max(height,1), window at the start of the storage), a view never reallocates. -/
def Resize_ (M : Matrix) (height width : Int) : Matrix :=
  if M.Viewing then { M with height_ := height, width_ := width }
  else
    { M with height_ := height, width_ := width, ldim_ := max height 1, data_ := 0,
             memorySize_ := max height 1 * width }

end Matrix

/-! ## AbstractDistMatrix (`src/core/dist_matrix/abstract.cpp`) -/

/-- The pure virtual members of `AbstractDistMatrix` that a concrete distribution
overrides: its communicators and strides, as functions of the grid. -/
structure Overrides where
  DistComm : Grid → mpi.Comm
  CrossComm : Grid → mpi.Comm
  RedundantComm : Grid → mpi.Comm
  ColComm : Grid → mpi.Comm
  RowComm : Grid → mpi.Comm
  ColStride : Grid → Int
  RowStride : Grid → Int

/-- The data members of `AbstractDistMatrix<T>`; the entries live in the buffer
that `matrix_` points into. -/
structure AbstractDistMatrix where
  viewType_ : ViewType
  height_ : Int
  width_ : Int
  matrix_ : Matrix
  colConstrained_ : Bool
  rowConstrained_ : Bool
  colAlign_ : Int
  rowAlign_ : Int
  colShift_ : Int
  rowShift_ : Int
  root_ : Int
  grid_ : Grid
  deriving DecidableEq, Repr

namespace AbstractDistMatrix

/-- The constructor `AbstractDistMatrix(grid, root)`; the shifts, which the
constructor leaves uninitialised, start at 0. -/
def new (grid : Grid) (root : Int) : AbstractDistMatrix :=
  { viewType_ := ViewType.OWNER, height_ := 0, width_ := 0, matrix_ := Matrix.empty,
    colConstrained_ := false, rowConstrained_ := false, colAlign_ := 0, rowAlign_ := 0,
    colShift_ := 0, rowShift_ := 0, root_ := root, grid_ := grid }

/-! ### Basic queries -/

def Height (A : AbstractDistMatrix) : Int := A.height_
def Width (A : AbstractDistMatrix) : Int := A.width_
def Viewing (A : AbstractDistMatrix) : Bool := IsViewing A.viewType_
def Locked (A : AbstractDistMatrix) : Bool := IsLocked A.viewType_
def LocalHeight (A : AbstractDistMatrix) : Int := A.matrix_.Height
def LocalWidth (A : AbstractDistMatrix) : Int := A.matrix_.Width
def LDim (A : AbstractDistMatrix) : Int := A.matrix_.LDim
def ColConstrained (A : AbstractDistMatrix) : Bool := A.colConstrained_
def RowConstrained (A : AbstractDistMatrix) : Bool := A.rowConstrained_
def ColAlign (A : AbstractDistMatrix) : Int := A.colAlign_
def RowAlign (A : AbstractDistMatrix) : Int := A.rowAlign_
def ColShift (A : AbstractDistMatrix) : Int := A.colShift_
def RowShift (A : AbstractDistMatrix) : Int := A.rowShift_
def Root (A : AbstractDistMatrix) : Int := A.root_
def ColStride (D : Overrides) (A : AbstractDistMatrix) : Int := D.ColStride A.grid_
def RowStride (D : Overrides) (A : AbstractDistMatrix) : Int := D.RowStride A.grid_

def ColRank (D : Overrides) (A : AbstractDistMatrix) : Int :=
  if A.grid_.InGrid then mpi.CommRank (D.ColComm A.grid_) else mpi.UNDEFINED

def RowRank (D : Overrides) (A : AbstractDistMatrix) : Int :=
  if A.grid_.InGrid then mpi.CommRank (D.RowComm A.grid_) else mpi.UNDEFINED

def DistRank (D : Overrides) (A : AbstractDistMatrix) : Int := mpi.CommRank (D.DistComm A.grid_)
def CrossRank (D : Overrides) (A : AbstractDistMatrix) : Int := mpi.CommRank (D.CrossComm A.grid_)
def RedundantRank (D : Overrides) (A : AbstractDistMatrix) : Int :=
  mpi.CommRank (D.RedundantComm A.grid_)
def DistSize (D : Overrides) (A : AbstractDistMatrix) : Int := mpi.CommSize (D.DistComm A.grid_)
def CrossSize (D : Overrides) (A : AbstractDistMatrix) : Int := mpi.CommSize (D.CrossComm A.grid_)
def RedundantSize (D : Overrides) (A : AbstractDistMatrix) : Int :=
  mpi.CommSize (D.RedundantComm A.grid_)

def Participating (D : Overrides) (A : AbstractDistMatrix) : Bool :=
  A.grid_.InGrid && (CrossRank D A == A.root_)

def RowOwner (D : Overrides) (A : AbstractDistMatrix) (i : Int) : Int :=
  (i + A.ColAlign).tmod (ColStride D A)

def ColOwner (D : Overrides) (A : AbstractDistMatrix) (j : Int) : Int :=
  (j + A.RowAlign).tmod (RowStride D A)

def Owner (D : Overrides) (A : AbstractDistMatrix) (i j : Int) : Int :=
  RowOwner D A i + ColOwner D A j * ColStride D A

def IsLocalRow (D : Overrides) (A : AbstractDistMatrix) (i : Int) : Bool :=
  Participating D A && ((i - A.ColShift).tmod (ColStride D A) == 0)

def IsLocalCol (D : Overrides) (A : AbstractDistMatrix) (j : Int) : Bool :=
  Participating D A && ((j - A.RowShift).tmod (RowStride D A) == 0)

def IsLocal (D : Overrides) (A : AbstractDistMatrix) (i j : Int) : Bool :=
  IsLocalRow D A i && IsLocalCol D A j

def LocalRow (debug : Bool) (D : Overrides) (A : AbstractDistMatrix) (i : Int) : Except Error Int := do
  DEBUG_ONLY debug
    (if !IsLocalRow D A i then
      Except.error (Error.LogicError "Requested local index of non-local row")
    else Except.ok ())
  return (i - A.ColShift).tdiv (ColStride D A)

def AssertNotLocked (A : AbstractDistMatrix) : Except Error Unit :=
  if A.Locked then
    Except.error (Error.LogicError "Assertion that matrix not be a locked view failed")
  else Except.ok ()

def AssertValidEntry (A : AbstractDistMatrix) (i j : Int) : Except Error Unit :=
  if i < 0 ∨ i ≥ A.Height ∨ j < 0 ∨ j ≥ A.Width then
    Except.error (Error.LogicError "Entry is out of bounds of matrix")
  else Except.ok ()

def AssertValidSubmatrix (A : AbstractDistMatrix) (i j height width : Int) :
    Except Error Unit := do
  if i < 0 ∨ j < 0 then
    throw (Error.LogicError "Indices of submatrix were negative")
  if height < 0 ∨ width < 0 then
    throw (Error.LogicError "Dimensions of submatrix were negative")
  if (i + height) > A.Height ∨ (j + width) > A.Width then
    throw (Error.LogicError "Submatrix is out of bounds")

/-! ### Modify the distribution metadata -/

def SetShifts (D : Overrides) (A : AbstractDistMatrix) : AbstractDistMatrix :=
  if Participating D A then
    { A with colShift_ := Shift (ColRank D A) A.colAlign_ (ColStride D A),
             rowShift_ := Shift (RowRank D A) A.rowAlign_ (RowStride D A) }
  else
    { A with colShift_ := 0, rowShift_ := 0 }

def SetColShift (D : Overrides) (A : AbstractDistMatrix) : AbstractDistMatrix :=
  if Participating D A then
    { A with colShift_ := Shift (ColRank D A) A.colAlign_ (ColStride D A) }
  else
    { A with colShift_ := 0 }

def SetRowShift (D : Overrides) (A : AbstractDistMatrix) : AbstractDistMatrix :=
  if Participating D A then
    { A with rowShift_ := Shift (RowRank D A) A.rowAlign_ (RowStride D A) }
  else
    { A with rowShift_ := 0 }

/-! ### Assignment and reconfiguration -/

def Empty (A : AbstractDistMatrix) : AbstractDistMatrix :=
  { A with matrix_ := A.matrix_.Empty_, viewType_ := ViewType.OWNER, height_ := 0, width_ := 0,
           colAlign_ := 0, rowAlign_ := 0, colConstrained_ := false, rowConstrained_ := false }

def EmptyData (A : AbstractDistMatrix) : AbstractDistMatrix :=
  { A with matrix_ := A.matrix_.Empty_, viewType_ := ViewType.OWNER, height_ := 0, width_ := 0 }

def SetGrid (D : Overrides) (A : AbstractDistMatrix) (grid : Grid) : AbstractDistMatrix :=
  if A.grid_.id != grid.id then
    SetShifts D { A.Empty with grid_ := grid }
  else A

def Resize (debug : Bool) (D : Overrides) (A : AbstractDistMatrix) (height width : Int) :
    Outcome AbstractDistMatrix :=
  Outcome.check A (DEBUG_ONLY debug A.AssertNotLocked) <|
  let A := { A with height_ := height, width_ := width }
  if Participating D A then
    Outcome.ok { A with matrix_ := A.matrix_.Resize_ (Length height A.ColShift (ColStride D A))
                                     (Length width A.RowShift (RowStride D A)) }
  else
    Outcome.ok A

end AbstractDistMatrix

/-! ## Concrete distributions -/

/-- The overrides of `DistMatrix<T,VR,STAR>` (`src/core/dist_matrix/vr_star.cpp`). -/
def VR_STAR : Overrides :=
  { DistComm := fun g => g.VRComm
    CrossComm := fun g => g.COMM_SELF
    RedundantComm := fun g => g.COMM_SELF
    ColComm := fun g => g.VRComm
    RowComm := fun g => g.COMM_SELF
    ColStride := fun g => g.Size
    RowStride := fun _ => 1 }

/-- Modelled from the spec: the overrides of `DistMatrix<T,MC,MR>`, whose source is
absent: rows cyclic over the mesh rows, columns cyclic over the mesh columns,
nothing replicated, distributed over all processes in column-major order. -/
def MC_MR : Overrides :=
  { DistComm := fun g => g.VCComm
    CrossComm := fun g => g.COMM_SELF
    RedundantComm := fun g => g.COMM_SELF
    ColComm := fun g => g.MCComm
    RowComm := fun g => g.MRComm
    ColStride := fun g => g.Height
    RowStride := fun g => g.Width }

/-- The view that the process at mesh row `row`, mesh column `col` has of an
r x c grid all of whose processes are in the grid. -/
def procGrid (r c row col : Int) : Grid :=
  { id := 0, height_ := r, width_ := c, inGrid_ := true,
    matrixColRank_ := row, matrixRowRank_ := col }

open AbstractDistMatrix

/-! ## Process families for the ownership statements -/

/-- What the ownership statement assumes of the state `A rc rr` held by the process
at coordinate (rc, rr) of an sc x sr distribution: it participates, sees the
strides and alignments, has those ranks, and its shifts are
`(rc - ca) mod sc` and `(rr - ra) mod sr`. -/
def OwnershipSetup (D : Overrides) (A : Int → Int → AbstractDistMatrix) (sc sr ca ra : Int) : Prop :=
  ∀ rc rr, 0 ≤ rc → rc < sc → 0 ≤ rr → rr < sr →
    Participating D (A rc rr) = true ∧
    ColStride D (A rc rr) = sc ∧ RowStride D (A rc rr) = sr ∧
    (A rc rr).ColAlign = ca ∧ (A rc rr).RowAlign = ra ∧
    (A rc rr).ColShift = (rc - ca) % sc ∧ (A rc rr).RowShift = (rr - ra) % sr

/-- The states that `SetShifts` produces on the six processes of a 2 x 3 grid for an
[MC,MR] matrix with alignments (1, 2). -/
def ownershipExample (rc rr : Int) : AbstractDistMatrix :=
  SetShifts MC_MR
    { AbstractDistMatrix.new (procGrid 2 3 rc rr) 0 with colAlign_ := 1, rowAlign_ := 2 }

/-! ## Single-entry manipulation (`abstract.cpp`) -/

namespace AbstractDistMatrix

def GetLocal {T : Type} (debug : Bool) (A : AbstractDistMatrix) (buf : Buffer T) (i j : Int) :
    Except Error T :=
  A.matrix_.Get debug buf i j

def SetLocal {T : Type} (debug : Bool) (A : AbstractDistMatrix) (buf : Buffer T)
    (iLoc jLoc : Int) (alpha : T) : Outcome (Buffer T) :=
  A.matrix_.Set debug buf iLoc jLoc alpha

/-- The member `Set(i,j,value)` as run by one process on its own state: what it
leaves of the buffer of the process (the descriptor is not assigned to). -/
def Set {T : Type} (debug : Bool) (D : Overrides) (A : AbstractDistMatrix) (buf : Buffer T)
    (i j : Int) (value : T) : Outcome (Buffer T) :=
  if CrossRank D A == A.Root then
    let owner := Owner D A i j
    if owner == DistRank D A then
      let iLoc := (i - A.ColShift).tdiv (ColStride D A)
      let jLoc := (j - A.RowShift).tdiv (RowStride D A)
      SetLocal debug A buf iLoc jLoc value
    else Outcome.ok buf
  else Outcome.ok buf

end AbstractDistMatrix

/-! ## A grid of processes -/

/-- What one process holds of a distributed matrix: the object and the buffer its
local matrix points into. -/
abbrev ProcState (T : Type) := AbstractDistMatrix × Buffer T

/-- The states of all processes, by grid coordinates (mesh row, mesh column). -/
abbrev World (T : Type) := Int × Int → ProcState T

namespace AbstractDistMatrix

/-- Content of the local variable `value` of `Get` on the process at `q` when it
enters `mpi::Broadcast( value, owner, DistComm() )`: the local entry on the
owner, uninitialised (`none`) elsewhere. -/
def Get.held {T : Type} (debug : Bool) (D : Overrides) (W : World T) (i j : Int) (q : Int × Int) :
    Except Error (Option T) :=
  let A := (W q).1
  let owner := Owner D A i j
  if owner == DistRank D A then
    let iLoc := (i - A.ColShift).tdiv (ColStride D A)
    let jLoc := (j - A.RowShift).tdiv (RowStride D A)
    (GetLocal debug A (W q).2 iLoc jLoc).map some
  else pure none

/-- Content of `value` on the process at `q` when it enters
`mpi::Broadcast( value, Root(), CrossComm() )`. -/
def Get.afterDist {T : Type} (debug : Bool) (D : Overrides) (W : World T) (i j : Int)
    (q : Int × Int) : Except Error (Option T) :=
  let A := (W q).1
  if CrossRank D A == A.Root then
    let owner := Owner D A i j
    mpi.Broadcast (Get.held debug D W i j) owner (D.DistComm A.grid_)
  else pure none

/-- The collective `Get(i,j)`, called by every process of the world with the same
(i,j): the value returned on the process at `q`.  An exception thrown by the
member a broadcast originates from is passed on to the receivers. -/
def Get {T : Type} (debug : Bool) (D : Overrides) (W : World T) (i j : Int) (q : Int × Int) :
    Except Error (Option T) := do
  let A := (W q).1
  DEBUG_ONLY debug
    (if !A.grid_.InGrid then
      Except.error (Error.LogicError "Get should only be called in-grid")
    else Except.ok ())
  mpi.Broadcast (Get.afterDist debug D W i j) A.Root (D.CrossComm A.grid_)

/-- The world after every process has called `Set(i,j,value)`. -/
def SetAll {T : Type} (debug : Bool) (D : Overrides) (W : World T) (i j : Int) (value : T) :
    World T :=
  fun q => ((W q).1, (Set debug D (W q).1 (W q).2 i j value).state)

end AbstractDistMatrix

/-- A well-formed world for distribution `D` on an r x c grid: every process sees
its own coordinates, the distribution communicators are laid out
consistently (distribution rank = ColRank + RowRank * ColStride, members of a
DistComm share the cross rank), and the metadata every process holds of the
H x Wd matrix agree, with the shifts that `SetShifts` and the local sizes
that `Resize` compute. -/
structure WorldOK {T : Type} (D : Overrides) (W : World T) (r c sc sr crossSize : Int)
    (H Wd ca ra root : Int) : Prop where
  sc_pos : 1 ≤ sc
  sr_pos : 1 ≤ sr
  ca_range : 0 ≤ ca ∧ ca < sc
  ra_range : 0 ≤ ra ∧ ra < sr
  root_range : 0 ≤ root ∧ root < crossSize
  inGrid : ∀ q : Int × Int, 0 ≤ q.1 → q.1 < r → 0 ≤ q.2 → q.2 < c →
    (W q).1.grid_.InGrid = true
  strides : ∀ q : Int × Int, 0 ≤ q.1 → q.1 < r → 0 ≤ q.2 → q.2 < c →
    ColStride D (W q).1 = sc ∧ RowStride D (W q).1 = sr
  ranks : ∀ q : Int × Int, 0 ≤ q.1 → q.1 < r → 0 ≤ q.2 → q.2 < c →
    0 ≤ ColRank D (W q).1 ∧ ColRank D (W q).1 < sc ∧
    0 ≤ RowRank D (W q).1 ∧ RowRank D (W q).1 < sr ∧
    DistRank D (W q).1 = ColRank D (W q).1 + RowRank D (W q).1 * sc
  distMember : ∀ q : Int × Int, 0 ≤ q.1 → q.1 < r → 0 ≤ q.2 → q.2 < c →
    ∀ k, 0 ≤ k → k < sc * sr →
      0 ≤ ((D.DistComm (W q).1.grid_).member k).1 ∧
      ((D.DistComm (W q).1.grid_).member k).1 < r ∧
      0 ≤ ((D.DistComm (W q).1.grid_).member k).2 ∧
      ((D.DistComm (W q).1.grid_).member k).2 < c ∧
      DistRank D (W ((D.DistComm (W q).1.grid_).member k)).1 = k ∧
      CrossRank D (W ((D.DistComm (W q).1.grid_).member k)).1 = CrossRank D (W q).1
  crossMember : ∀ q : Int × Int, 0 ≤ q.1 → q.1 < r → 0 ≤ q.2 → q.2 < c →
    ∀ k, 0 ≤ k → k < crossSize →
      0 ≤ ((D.CrossComm (W q).1.grid_).member k).1 ∧
      ((D.CrossComm (W q).1.grid_).member k).1 < r ∧
      0 ≤ ((D.CrossComm (W q).1.grid_).member k).2 ∧
      ((D.CrossComm (W q).1.grid_).member k).2 < c ∧
      CrossRank D (W ((D.CrossComm (W q).1.grid_).member k)).1 = k
  metadata : ∀ q : Int × Int, 0 ≤ q.1 → q.1 < r → 0 ≤ q.2 → q.2 < c →
    (W q).1.Height = H ∧ (W q).1.Width = Wd ∧ (W q).1.ColAlign = ca ∧
    (W q).1.RowAlign = ra ∧ (W q).1.Root = root
  shifts : ∀ q : Int × Int, 0 ≤ q.1 → q.1 < r → 0 ≤ q.2 → q.2 < c →
    (W q).1 = SetShifts D (W q).1
  sizes : ∀ q : Int × Int, 0 ≤ q.1 → q.1 < r → 0 ≤ q.2 → q.2 < c →
    Participating D (W q).1 = true →
      (W q).1.LocalHeight = Length H (W q).1.ColShift sc ∧
      (W q).1.LocalWidth = Length Wd (W q).1.RowShift sr
  unlocked : ∀ q : Int × Int, 0 ≤ q.1 → q.1 < r → 0 ≤ q.2 → q.2 < c →
    (W q).1.matrix_.Locked = false

/-! ## The scenario of the spec: a 4 x 4 matrix on a 2 x 2 grid -/

/-- The constructor `DistMatrix( height, width, grid, root )` (`vr_star.cpp`; the
same for every distribution): base constructor, `SetShifts()`, `Resize(height,width)`. -/
def DistMatrix.new (debug : Bool) (D : Overrides) (height width : Int) (grid : Grid) (root : Int) :
    Outcome AbstractDistMatrix :=
  Resize debug D (SetShifts D (AbstractDistMatrix.new grid root)) height width

/-- The 4 x 4 [MC,MR] matrix with default alignments on a 2 x 2 grid, as constructed
on the process at `q`, over a buffer of zeros. -/
def scenarioWorld (q : Int × Int) : ProcState Int :=
  ((DistMatrix.new true MC_MR 4 4 (procGrid 2 2 q.1 q.2) 0).state, fun _ => 0)

end elem

/-! ## The [*,MC] distribution of the older sources (`src/core/DistMatrix/Base_Star_MC.cpp`) -/

namespace elemental

open elem

/-- Modelled from the spec: `LocalLength`, the older name of `Length`, is declared
outside the sources at hand. -/
def LocalLength (n shift modulus : Int) : Int := Length n shift modulus

/-- Modelled from the spec: `Matrix<T>::View(A, i, j, height, width)`: a mutable
view of the height x width window of `A` at (i,j): the buffer position is
offset into the buffer of `A`, nothing is copied. -/
def Matrix.View (A : Matrix) (i j height width : Int) : Matrix :=
  { viewType_ := ViewType.VIEW, height_ := height, width_ := width, ldim_ := A.ldim_,
    data_ := A.Buffer i j, memorySize_ := 0 }

/-- Modelled from the spec: `Matrix<T>::LockedView(A, i, j, height, width)`: the
read-only counterpart of `View`. -/
def Matrix.LockedView (A : Matrix) (i j height width : Int) : Matrix :=
  { viewType_ := ViewType.LOCKED_VIEW, height_ := height, width_ := width, ldim_ := A.ldim_,
    data_ := A.Buffer i j, memorySize_ := 0 }

/-- The data members that `DistMatrixBase<T,Star,MC>` uses of its base class. -/
structure DistMatrixBase where
  _viewing : Bool
  _lockedView : Bool
  _height : Int
  _width : Int
  _constrainedRowAlignment : Bool
  _rowAlignment : Int
  _rowShift : Int
  _localMatrix : Matrix
  _grid : Grid
  deriving DecidableEq, Repr

namespace DistMatrixBase

def Height (A : DistMatrixBase) : Int := A._height
def Width (A : DistMatrixBase) : Int := A._width
def RowAlignment (A : DistMatrixBase) : Int := A._rowAlignment
def RowShift (A : DistMatrixBase) : Int := A._rowShift
def LocalMatrix (A : DistMatrixBase) : Matrix := A._localMatrix
def LocalHeight (A : DistMatrixBase) : Int := A._localMatrix.Height
def LocalWidth (A : DistMatrixBase) : Int := A._localMatrix.Width
def GetGrid (A : DistMatrixBase) : Grid := A._grid
def Viewing (A : DistMatrixBase) : Bool := A._viewing

/-- Modelled from the spec: the base-class assertion `AssertValidEntry(i,j)`:
accessing (i,j) outside [0,H) x [0,W) raises a bounds violation. -/
def AssertValidEntry (A : DistMatrixBase) (i j : Int) : Except Error Unit :=
  if i < 0 ∨ i ≥ A.Height ∨ j < 0 ∨ j ≥ A.Width then
    Except.error (Error.LogicError "Entry is out of bounds of matrix")
  else Except.ok ()

/-- Modelled from the spec: the base-class assertion
`AssertValidSubmatrix(A,i,j,height,width)`: a view fails if the requested
sub-rectangle is out of bounds of A. -/
def AssertValidSubmatrix (A : DistMatrixBase) (i j height width : Int) : Except Error Unit := do
  if i < 0 ∨ j < 0 then
    throw (Error.LogicError "Indices of submatrix were negative")
  if height < 0 ∨ width < 0 then
    throw (Error.LogicError "Dimensions of submatrix were negative")
  if (i + height) > A.Height ∨ (j + width) > A.Width then
    throw (Error.LogicError "Submatrix is out of bounds")

/-- Modelled from the spec: the base-class assertion `AssertNotLockedView()`:
operating on a locked view is a usage error. -/
def AssertNotLockedView (A : DistMatrixBase) : Except Error Unit :=
  if A._viewing && A._lockedView then
    Except.error (Error.LogicError "Assertion that matrix not be a locked view failed")
  else Except.ok ()

/-- Modelled from the spec: the base-class assertion `AssertFreeRowAlignment()`:
an alignment that was pinned explicitly cannot be set again. -/
def AssertFreeRowAlignment (A : DistMatrixBase) : Except Error Unit :=
  if A._constrainedRowAlignment then
    Except.error (Error.LogicError "Assertion that row alignment be free failed")
  else Except.ok ()

/-- Modelled from the spec: the base-class assertion `AssertNotStoringData()`. -/
def AssertNotStoringData (A : DistMatrixBase) : Except Error Unit :=
  if A._localMatrix.MemorySize > 0 then
    Except.error (Error.LogicError "Assertion that matrix not be storing data failed")
  else Except.ok ()

/-- Modelled from the spec: the base-class assertion `AssertSameGrid(A)`. -/
def AssertSameGrid (A B : DistMatrixBase) : Except Error Unit :=
  if A._grid.id != B._grid.id then
    Except.error (Error.LogicError "Assertion that grids match failed")
  else Except.ok ()

def GetLocalEntry {T : Type} (debug : Bool) (A : DistMatrixBase) (buf : Buffer T) (i j : Int) :
    Except Error T :=
  A._localMatrix.Get debug buf i j

def SetLocalEntry {T : Type} (debug : Bool) (A : DistMatrixBase) (buf : Buffer T) (i j : Int)
    (u : T) : Outcome (Buffer T) :=
  A._localMatrix.Set debug buf i j u

def AlignRows (debug : Bool) (A : DistMatrixBase) (rowAlignment : Int) :
    Outcome DistMatrixBase :=
  Outcome.check A (DEBUG_ONLY debug A.AssertFreeRowAlignment) <|
  let g := A.GetGrid
  Outcome.check A (DEBUG_ONLY debug
    (if rowAlignment < 0 ∨ rowAlignment ≥ g.Height then
      Except.error (Error.RuntimeError "Invalid row alignment for [* ,MC]")
    else Except.ok ())) <|
  Outcome.ok { A with _rowAlignment := rowAlignment,
                      _rowShift := Shift g.MCRank rowAlignment g.Height,
                      _constrainedRowAlignment := true,
                      _height := 0, _width := 0,
                      _localMatrix := A._localMatrix.Resize_ 0 0 }

def ResizeTo (debug : Bool) (A : DistMatrixBase) (height width : Int) :
    Outcome DistMatrixBase :=
  Outcome.check A (DEBUG_ONLY debug (do
    A.AssertNotLockedView
    if height < 0 ∨ width < 0 then
      throw (Error.LogicError "Height and width must be non-negative."))) <|
  Outcome.ok { A with _height := height, _width := width,
                      _localMatrix := A._localMatrix.Resize_ height
                        (LocalLength width A.RowShift A.GetGrid.Height) }

/-- The member `View(A, i, j, height, width)`: `B` becomes a view of the
height x width block of `A` at (i,j). -/
def View (debug : Bool) (B A : DistMatrixBase) (i j height width : Int) :
    Outcome DistMatrixBase :=
  Outcome.check B (DEBUG_ONLY debug (do
    B.AssertFreeRowAlignment
    B.AssertNotStoringData
    B.AssertSameGrid A
    A.AssertValidSubmatrix i j height width)) <|
  let g := B.GetGrid
  let r := g.Height
  let row := g.MCRank
  let B := { B with _height := height, _width := width }
  let B := { B with _rowAlignment := (A.RowAlignment + j).tmod r }
  let B := { B with _rowShift := Shift row B.RowAlignment r }
  let localWidthBefore := LocalLength j A.RowShift r
  let localWidth := LocalLength width B.RowShift r
  let B := { B with _localMatrix := Matrix.View A.LocalMatrix i localWidthBefore height localWidth }
  Outcome.ok { B with _viewing := true, _lockedView := false }

/-- The member `Set(i,j,u)` as run by one process: what it leaves of the buffer of
the process. -/
def Set {T : Type} (debug : Bool) (A : DistMatrixBase) (buf : Buffer T) (i j : Int) (u : T) :
    Outcome (Buffer T) :=
  Outcome.check buf (DEBUG_ONLY debug (A.AssertValidEntry i j)) <|
  let g := A.GetGrid
  let ownerRow := (j + A.RowAlignment).tmod g.Height
  if g.MCRank == ownerRow then
    let jLoc := (j - A.RowShift).tdiv g.Height
    A.SetLocalEntry debug buf i jLoc u
  else
    Outcome.ok buf

/-- Content of the variable `u` of `Get` on the process at `q` when it enters
`Broadcast( &u, 1, ownerRow, g.MCComm() )`. -/
def Get.held {T : Type} (debug : Bool) (W : Int × Int → DistMatrixBase × Buffer T) (i j : Int)
    (q : Int × Int) : Except Error (Option T) := do
  let A := (W q).1
  DEBUG_ONLY debug (A.AssertValidEntry i j)
  let g := A.GetGrid
  let ownerRow := (j + A.RowAlignment).tmod g.Height
  if g.MCRank == ownerRow then
    let jLoc := (j - A.RowShift).tdiv g.Height
    let u ← A.GetLocalEntry debug (W q).2 i jLoc
    return some u
  else
    return none

/-- The collective `Get(i,j)`: the value returned on the process at `q`. -/
def Get {T : Type} (debug : Bool) (W : Int × Int → DistMatrixBase × Buffer T) (i j : Int)
    (q : Int × Int) : Except Error (Option T) := do
  let A := (W q).1
  DEBUG_ONLY debug (A.AssertValidEntry i j)
  let g := A.GetGrid
  let ownerRow := (j + A.RowAlignment).tmod g.Height
  mpi.Broadcast (Get.held debug W i j) ownerRow g.MCComm

end DistMatrixBase

end elemental

namespace elem

open AbstractDistMatrix

end elem

namespace elemental

open elem

/-- Modelled from the spec: a freshly constructed [*,MC] matrix (the constructors
are outside the sources at hand): 0 x 0, default alignment 0, no storage; with
alignment 0 the row shift of a process in the grid is its mesh row. -/
def DistMatrixBase.new (g : Grid) : DistMatrixBase :=
  { _viewing := false, _lockedView := false, _height := 0, _width := 0,
    _constrainedRowAlignment := false, _rowAlignment := 0,
    _rowShift := if g.InGrid then g.MCRank else 0,
    _localMatrix := Matrix.empty, _grid := g }

/-- A 4 x 4 [*,MC] matrix with default alignment on a 2 x 2 grid, as held by the
process at `q` after `ResizeTo(4,4)`, over a buffer of zeros. -/
def starMcWorld (q : Int × Int) : DistMatrixBase × Buffer Int :=
  ((DistMatrixBase.ResizeTo true (DistMatrixBase.new (procGrid 2 2 q.1 q.2)) 4 4).state,
    fun _ => 0)

end elemental

namespace elem

open AbstractDistMatrix

/-- A fresh [VR,*] matrix (constructor `DistMatrix( grid, root )` of `vr_star.cpp`:
base constructor, then `SetShifts()`) on the process at mesh row 1, mesh
column 0 of a 2 x 2 grid. -/
def vrExample : AbstractDistMatrix :=
  SetShifts VR_STAR (AbstractDistMatrix.new (procGrid 2 2 1 0) 0)

/-! ## Realignment (`abstract.cpp`) -/

namespace AbstractDistMatrix

def Align (debug : Bool) (D : Overrides) (A : AbstractDistMatrix) (colAlign rowAlign : Int) :
    Outcome AbstractDistMatrix :=
  Outcome.check A (DEBUG_ONLY debug
    (if A.Viewing ∧ (A.colAlign_ ≠ colAlign ∨ A.rowAlign_ ≠ rowAlign) then
      Except.error (Error.LogicError "Tried to realign a view")
    else Except.ok ())) <|
  let A := if A.colAlign_ ≠ colAlign ∨ A.rowAlign_ ≠ rowAlign then A.Empty else A
  let A := { A with colConstrained_ := true, rowConstrained_ := true,
                    colAlign_ := colAlign, rowAlign_ := rowAlign }
  Outcome.ok (SetShifts D A)

def AlignCols (debug : Bool) (D : Overrides) (A : AbstractDistMatrix) (colAlign : Int) :
    Outcome AbstractDistMatrix :=
  Outcome.check A (DEBUG_ONLY debug
    (if A.Viewing ∧ A.colAlign_ ≠ colAlign then
      Except.error (Error.LogicError "Tried to realign a view")
    else Except.ok ())) <|
  let A := if A.colAlign_ ≠ colAlign then A.EmptyData else A
  let A := { A with colConstrained_ := true, colAlign_ := colAlign }
  Outcome.ok (SetShifts D A)

def AlignRows (debug : Bool) (D : Overrides) (A : AbstractDistMatrix) (rowAlign : Int) :
    Outcome AbstractDistMatrix :=
  Outcome.check A (DEBUG_ONLY debug
    (if A.Viewing ∧ A.rowAlign_ ≠ rowAlign then
      Except.error (Error.LogicError "Tried to realign a view")
    else Except.ok ())) <|
  let A := if A.rowAlign_ ≠ rowAlign then A.EmptyData else A
  let A := { A with rowConstrained_ := true, rowAlign_ := rowAlign }
  Outcome.ok (SetShifts D A)

def FreeAlignments (A : AbstractDistMatrix) : Outcome AbstractDistMatrix :=
  if !A.Viewing then
    Outcome.ok { A with colConstrained_ := false, rowConstrained_ := false }
  else
    Outcome.throw A (Error.LogicError "Cannot free alignments of views")

def SetRoot (debug : Bool) (D : Overrides) (A : AbstractDistMatrix) (root : Int) :
    Outcome AbstractDistMatrix :=
  Outcome.check A (DEBUG_ONLY debug
    (if root < 0 ∨ root ≥ mpi.CommSize (D.CrossComm A.grid_) then
      Except.error (Error.LogicError "Invalid root")
    else Except.ok ())) <|
  let A := if root ≠ A.root_ then A.Empty else A
  Outcome.ok { A with root_ := root }

def AlignAndResize (debug : Bool) (D : Overrides) (A : AbstractDistMatrix)
    (colAlign rowAlign height width : Int) (force : Bool) : Outcome AbstractDistMatrix :=
  let A :=
    if !A.Viewing then
      let A := if force || !A.ColConstrained then SetColShift D { A with colAlign_ := colAlign }
               else A
      if force || !A.RowConstrained then SetRowShift D { A with rowAlign_ := rowAlign }
      else A
    else A
  if force ∧ (A.colAlign_ ≠ colAlign ∨ A.rowAlign_ ≠ rowAlign) then
    Outcome.throw A (Error.LogicError "Could not set alignments")
  else
    Resize debug D A height width

def AlignColsAndResize (debug : Bool) (D : Overrides) (A : AbstractDistMatrix)
    (colAlign height width : Int) (force : Bool) : Outcome AbstractDistMatrix :=
  let A :=
    if !A.Viewing && (force || !A.ColConstrained) then
      SetColShift D { A with colAlign_ := colAlign }
    else A
  if force ∧ A.colAlign_ ≠ colAlign then
    Outcome.throw A (Error.LogicError "Could not set col alignment")
  else
    Resize debug D A height width

def AlignRowsAndResize (debug : Bool) (D : Overrides) (A : AbstractDistMatrix)
    (rowAlign height width : Int) (force : Bool) : Outcome AbstractDistMatrix :=
  let A :=
    if !A.Viewing && (force || !A.RowConstrained) then
      SetRowShift D { A with rowAlign_ := rowAlign }
    else A
  if force ∧ A.rowAlign_ ≠ rowAlign then
    Outcome.throw A (Error.LogicError "Could not set row alignment")
  else
    Resize debug D A height width

end AbstractDistMatrix

/-! ## Buffer attachment (`abstract.cpp`) -/

/-- Modelled from the spec: `Matrix<T>::Attach_(height, width, buffer, ldim)`: a
mutable view of externally provided storage; `buffer` is the position of the
storage. -/
def Matrix.Attach_ (_M : Matrix) (height width buffer ldim : Int) : Matrix :=
  { viewType_ := ViewType.VIEW, height_ := height, width_ := width, ldim_ := ldim,
    data_ := buffer, memorySize_ := 0 }

/-- Modelled from the spec: `Matrix<T>::LockedAttach_(height, width, buffer, ldim)`:
the read-only counterpart of `Attach_`. -/
def Matrix.LockedAttach_ (_M : Matrix) (height width buffer ldim : Int) : Matrix :=
  { viewType_ := ViewType.LOCKED_VIEW, height_ := height, width_ := width, ldim_ := ldim,
    data_ := buffer, memorySize_ := 0 }

namespace AbstractDistMatrix

def Attach (D : Overrides) (A : AbstractDistMatrix) (height width colAlign rowAlign : Int)
    (buffer ldim : Int) (g : Grid) (root : Int) : AbstractDistMatrix :=
  let A := A.Empty
  let A := { A with grid_ := g, root_ := root, height_ := height, width_ := width,
                    colAlign_ := colAlign, rowAlign_ := rowAlign,
                    colConstrained_ := true, rowConstrained_ := true,
                    viewType_ := ViewType.VIEW }
  let A := SetShifts D A
  if Participating D A then
    let localHeight := Length height A.colShift_ (ColStride D A)
    let localWidth := Length width A.rowShift_ (RowStride D A)
    { A with matrix_ := A.matrix_.Attach_ localHeight localWidth buffer ldim }
  else A

def LockedAttach (D : Overrides) (A : AbstractDistMatrix) (height width colAlign rowAlign : Int)
    (buffer ldim : Int) (g : Grid) (root : Int) : AbstractDistMatrix :=
  let A := A.Empty
  let A := { A with grid_ := g, root_ := root, height_ := height, width_ := width,
                    colAlign_ := colAlign, rowAlign_ := rowAlign,
                    colConstrained_ := true, rowConstrained_ := true,
                    viewType_ := ViewType.LOCKED_VIEW }
  let A := SetShifts D A
  if Participating D A then
    let localHeight := Length height A.colShift_ (ColStride D A)
    let localWidth := Length width A.rowShift_ (RowStride D A)
    { A with matrix_ := A.matrix_.LockedAttach_ localHeight localWidth buffer ldim }
  else A

end AbstractDistMatrix

/-- A locked view: a 4 x 3 [VR,*] matrix attached read-only (`LockedAttach`) to
storage at position 0 with leading dimension 4, on the process at mesh row 1,
mesh column 0 of a 2 x 2 grid. -/
def lockedExample : AbstractDistMatrix :=
  LockedAttach VR_STAR (AbstractDistMatrix.new (procGrid 2 2 1 0) 0) 4 3 0 0 0 4
    (procGrid 2 2 1 0) 0

/-- A mutable view: as `lockedExample`, attached with `Attach`. -/
def viewExample : AbstractDistMatrix :=
  Attach VR_STAR (AbstractDistMatrix.new (procGrid 2 2 1 0) 0) 4 3 0 0 0 4
    (procGrid 2 2 1 0) 0

/-- The 5 x 3 [VR,*] matrix with default alignments (constructor
`DistMatrix( 5, 3, grid, root )`) on the process at mesh row 1, mesh column 0
of a 2 x 2 grid. -/
def vrSized : AbstractDistMatrix :=
  (DistMatrix.new true VR_STAR 5 3 (procGrid 2 2 1 0) 0).state

/-! ## [VR,*]: realignment (`vr_star.cpp`) -/

/-- Modelled from the spec: the distribution templates (enum `Dist`, declared
outside the sources at hand). -/
inductive Dist where
  | MC
  | MD
  | MR
  | VC
  | VR
  | STAR
  | CIRC
  deriving DecidableEq, Repr

/-- Modelled from the spec: the Distribution Descriptor `elem::DistData` (declared
outside the sources at hand): the templates, alignments, root and grid of a
matrix. -/
structure DistData where
  colDist : Dist
  rowDist : Dist
  colAlign : Int
  rowAlign : Int
  root : Int
  grid : Grid
  deriving DecidableEq, Repr

/-- The member `DistMatrix<T,VR,STAR>::AlignWith( data )`. -/
def VR_STAR.AlignWith (debug : Bool) (A : AbstractDistMatrix) (data : DistData) :
    Outcome AbstractDistMatrix :=
  let A := SetGrid VR_STAR A data.grid
  if data.colDist = Dist.MR ∨ data.colDist = Dist.VR then
    AlignCols debug VR_STAR A data.colAlign
  else if data.rowDist = Dist.MR ∨ data.rowDist = Dist.VR then
    AlignCols debug VR_STAR A data.rowAlign
  else
    Outcome.check A
      (DEBUG_ONLY debug (Except.error (Error.LogicError "Nonsensical alignment")))
      (Outcome.ok A)

/-- The constructor `DistMatrix( height, width, colAlign, rowAlign, grid, root )`
(`vr_star.cpp`): base constructor, `SetShifts()`, `Align(colAlign,rowAlign)`,
`Resize(height,width)`. -/
def DistMatrix.newAligned (debug : Bool) (D : Overrides) (height width colAlign rowAlign : Int)
    (grid : Grid) (root : Int) : Outcome AbstractDistMatrix :=
  (Align debug D (SetShifts D (AbstractDistMatrix.new grid root)) colAlign rowAlign).andThen
    fun A => Resize debug D A height width

/-- A 5 x 3 [VR,*] matrix constructed with explicit alignments (0, 0), hence with
constrained alignments, on the process at mesh row 1, mesh column 0 of a 2 x 2
grid. -/
def vrConstrained : AbstractDistMatrix :=
  (DistMatrix.newAligned true VR_STAR 5 3 0 0 (procGrid 2 2 1 0) 0).state

/-- The descriptor of a [VR,*] matrix on the same grid with column alignment 1. -/
def dataAlignedAtOne : DistData :=
  { colDist := Dist.VR, rowDist := Dist.STAR, colAlign := 1, rowAlign := 0, root := 0,
    grid := procGrid 2 2 1 0 }

end elem

namespace elemental

open elem

/-- What a [*,MC] matrix satisfies on a process of an r-row grid: the process's
mesh row is in range, the row alignment is in range, the row shift is the one
the alignment determines, and the local matrix is Height x
LocalLength(Width, RowShift, r). -/
structure DistMatrixBase.Consistent (A : DistMatrixBase) : Prop where
  height_pos : 1 ≤ A.GetGrid.Height
  rank_range : 0 ≤ A.GetGrid.MCRank ∧ A.GetGrid.MCRank < A.GetGrid.Height
  align_range : 0 ≤ A.RowAlignment ∧ A.RowAlignment < A.GetGrid.Height
  shift : A.RowShift = Shift A.GetGrid.MCRank A.RowAlignment A.GetGrid.Height
  localHeight : A.LocalHeight = A.Height
  localWidth : A.LocalWidth = LocalLength A.Width A.RowShift A.GetGrid.Height

end elemental

namespace elem

open AbstractDistMatrix

end elem

namespace elemental

open elem

/-- The parent of the view example: the 4 x 4 [*,MC] matrix of `starMcWorld` on the
process at mesh row 1, mesh column 0. -/
def viewParent : DistMatrixBase := (starMcWorld (1, 0)).1

/-- A fresh [*,MC] matrix on the same process, to become the view. -/
def viewFresh : DistMatrixBase := DistMatrixBase.new (procGrid 2 2 1 0)

/-- The view of rows 1..2, columns 1..3 of `viewParent`. -/
def viewChild : DistMatrixBase := (DistMatrixBase.View true viewFresh viewParent 1 1 2 3).state

end elemental

namespace elem

open AbstractDistMatrix

/-- The world in which every process of an r x c grid has constructed the same
H x Wd matrix with alignments (ca, ra) (constructor
`DistMatrix( height, width, colAlign, rowAlign, grid, root )`), over arbitrary
buffers. -/
def constructedWorld {T : Type} (debug : Bool) (D : Overrides) (r c H Wd ca ra root : Int)
    (bufs : Int × Int → Buffer T) : World T :=
  fun q => ((DistMatrix.newAligned debug D H Wd ca ra (procGrid r c q.1 q.2) root).state, bufs q)


/-! ## Loops and raw memory -/

/-- The loop `for( Int j=lo; j<hi; ++j ) body`, threading the state the body updates. -/
def forLoop {σ : Type} (lo hi : Int) (body : Int → σ → σ) (s : σ) : σ :=
  (List.range (hi - lo).toNat).foldl (fun t (k : Nat) => body (lo + (k : Int)) t) s

/-- Modelled from the spec: `Min(a,b)` of the environment header. -/
def Min (a b : Int) : Int := min a b

/-- Modelled from the spec: `MemZero(buffer + off, n)` zeroes the n consecutive
entries starting at position `off`. -/
def MemZero {T : Type} [Zero T] (buf : Buffer T) (off n : Int) : Buffer T :=
  fun k => if off ≤ k ∧ k < off + n then 0 else buf k

/-- Modelled from the spec: `MemCopy(dest + dOff, source + sOff, n)` copies n
consecutive entries. -/
def MemCopy {T : Type} (dest : Buffer T) (dOff : Int) (source : Buffer T) (sOff n : Int) :
    Buffer T :=
  fun k => if dOff ≤ k ∧ k < dOff + n then source (sOff + (k - dOff)) else dest k

/-! ## MakeTriangular (`include/elemental/blas-like/level1/MakeTriangular.hpp`) -/

inductive UpperOrLower where
  | LOWER | UPPER
  deriving DecidableEq, Repr

/-- The sequential `MakeTriangular(uplo, Matrix<T>& A)`; `buffer` is the position
of entry (0,0), the result is the matrix after the call. -/
def MakeTriangular {T : Type} [Zero T] (uplo : UpperOrLower) (A : Matrix) (buf : Buffer T) :
    Matrix × Buffer T :=
  let height := A.Height
  let width := A.Width
  let ldim := A.LDim
  let buffer := A.Buffer 0 0
  if uplo = UpperOrLower.LOWER then
    (A, forLoop 1 width (fun j b =>
      let numZeroRows := Min j height
      MemZero b (buffer + j * ldim) numZeroRows) buf)
  else
    (A, forLoop 0 (Min width height) (fun j b =>
      let firstZeroRow := j + 1
      MemZero b (buffer + (firstZeroRow + j * ldim)) (height - firstZeroRow)) buf)

/-- An m x n matrix with leading dimension 3 stored from position 5 of its buffer,
filled with distinct non-zero values. -/
def triExample (m n : Int) : Matrix × Buffer Int :=
  ({ viewType_ := ViewType.VIEW, height_ := m, width_ := n, ldim_ := 3, data_ := 5,
     memorySize_ := 0 }, fun k => k + 100)


/-- Modelled from the spec: `Length_` is only declared in
`core/indexing/decl.hpp`; it is `Length` without the argument checks. -/
def Length_ (n shift numProcs : Int) : Int := Length n shift numProcs

/-- The distributed `MakeTriangular(uplo, DistMatrix<T,U,V>& A)` on one process:
the local buffer after the call. -/
def DistMatrix.MakeTriangular {T : Type} [Zero T] (uplo : UpperOrLower) (D : Overrides)
    (A : AbstractDistMatrix) (buf : Buffer T) : AbstractDistMatrix × Buffer T :=
  let height := A.Height
  let localHeight := A.LocalHeight
  let localWidth := A.LocalWidth
  let colShift := A.ColShift
  let rowShift := A.RowShift
  let colStride := ColStride D A
  let rowStride := RowStride D A
  let buffer := A.matrix_.Buffer 0 0
  let ldim := A.LDim
  if uplo = UpperOrLower.LOWER then
    (A, forLoop 0 localWidth (fun jLoc b =>
      let j := rowShift + jLoc * rowStride
      let lastZeroRow := j - 1
      if lastZeroRow ≥ 0 then
        let boundary := Min (lastZeroRow + 1) height
        let numZeroRows := Length_ boundary colShift colStride
        MemZero b (buffer + jLoc * ldim) numZeroRows
      else b) buf)
  else
    (A, forLoop 0 localWidth (fun jLoc b =>
      let j := rowShift + jLoc * rowStride
      let firstZeroRow := j + 1
      let numNonzeroRows := Length_ firstZeroRow colShift colStride
      if numNonzeroRows < localHeight then
        MemZero b (buffer + (numNonzeroRows + jLoc * ldim)) (localHeight - numNonzeroRows)
      else b) buf)

/-- The 4 x 4 [MC,MR] matrix on the process at mesh row 1, mesh column 0 of a 2 x 2
grid, over a buffer of distinct non-zero values. -/
def triDistExample : ProcState Int :=
  ((DistMatrix.new true MC_MR 4 4 (procGrid 2 2 1 0) 0).state, fun k => k + 100)

end elem

/-! ## [*,MC] <- [*,*] (`src/core/DistMatrix/Base_Star_MC.cpp`) -/

namespace elemental

open elem

namespace DistMatrixBase

/-- Modelled from the spec: the base-class assertion `AssertSameSize(A)`. -/
def AssertSameSize (B A : DistMatrixBase) : Except Error Unit :=
  if B.Height ≠ A.Height ∨ B.Width ≠ A.Width then
    Except.error (Error.LogicError "Assertion that matrices be the same size failed")
  else Except.ok ()

/-- Position in the buffer that `LocalBuffer(i,j)` points to. -/
def LocalBuffer (A : DistMatrixBase) (i j : Int) : Int := A._localMatrix.Buffer i j

/-- Position in the buffer that `LockedLocalBuffer(i,j)` points to. -/
def LockedLocalBuffer (A : DistMatrixBase) (i j : Int) : Int := A._localMatrix.Buffer i j

/-- The assignment `operator=( const DistMatrixBase<T,Star,Star>& A )` of
`DistMatrixBase<T,Star,MC>` as run by one process: `B` is `*this` with buffer
`bufB`, `A` the [*,*] matrix, whose local matrix over `bufA` is the whole matrix.
The `RELEASE` build copies column by column with `memcpy`, the other build entry
by entry through `SetLocalEntry` and `GetLocalEntry`. -/
def assignStarStar {T : Type} (debug : Bool) (B : DistMatrixBase) (bufB : Buffer T)
    (A : DistMatrixBase) (bufA : Buffer T) : Outcome (DistMatrixBase × Buffer T) :=
  Outcome.check (B, bufB) (DEBUG_ONLY debug (do
    B.AssertNotLockedView
    B.AssertSameGrid A
    if B.Viewing then
      B.AssertSameSize A)) <|
  let resized := if !B.Viewing then B.ResizeTo debug A.Height A.Width else Outcome.ok B
  match resized.thrown with
  | some e => Outcome.throw (resized.state, bufB) e
  | none =>
    let B := resized.state
    let r := B.GetGrid.Height
    let rowShift := B.RowShift
    let localHeight := B.LocalHeight
    let localWidth := B.LocalWidth
    if debug then
      let copied := forLoop 0 localWidth (fun j o =>
        forLoop 0 localHeight (fun i o =>
          o.andThen fun b =>
            match A.GetLocalEntry debug bufA i (rowShift + j * r) with
            | Except.ok v => B.SetLocalEntry debug b i j v
            | Except.error e => Outcome.throw b e) o) (Outcome.ok bufB)
      { state := (B, copied.state), thrown := copied.thrown }
    else
      Outcome.ok (B, forLoop 0 localWidth (fun j b =>
        let ACol := A.LockedLocalBuffer 0 (rowShift + j * r)
        let thisCol := B.LocalBuffer 0 j
        MemCopy b thisCol bufA ACol localHeight) bufB)

end DistMatrixBase

/-- A 3 x 5 [*,*] matrix on the process at mesh row 1, mesh column 0 of a 2 x 2
grid; its local matrix is the whole matrix, stored with leading dimension 4 from
position 2 of a buffer of distinct values. -/
def starStarExample : DistMatrixBase × Buffer Int :=
  ({ _viewing := false, _lockedView := false, _height := 3, _width := 5,
     _constrainedRowAlignment := false, _rowAlignment := 0, _rowShift := 0,
     _localMatrix := { viewType_ := ViewType.OWNER, height_ := 3, width_ := 5, ldim_ := 4,
                       data_ := 2, memorySize_ := 20 },
     _grid := procGrid 2 2 1 0 }, fun k => k + 100)

/-- A fresh [*,MC] matrix on the same process (its row shift is the mesh row, 1),
over a buffer of zeros: the destination of the assignment. -/
def starMcDest : DistMatrixBase × Buffer Int :=
  (DistMatrixBase.new (procGrid 2 2 1 0), fun _ => 0)

end elemental

namespace elem

open AbstractDistMatrix


/-! ## Redistribution into [VR,*] (`src/core/dist_matrix/vr_star.cpp`) -/

/-- Modelled from the spec: the overrides of `DistMatrix<T,VC,STAR>`, whose source
is absent: rows cyclic over all processes in column-major order, columns not
distributed. -/
def VC_STAR : Overrides :=
  { DistComm := fun g => g.VCComm
    CrossComm := fun g => g.COMM_SELF
    RedundantComm := fun g => g.COMM_SELF
    ColComm := fun g => g.VCComm
    RowComm := fun g => g.COMM_SELF
    ColStride := fun g => g.Size
    RowStride := fun _ => 1 }

/-- Modelled from the spec: `MaxLength(n, numProcs)` is only declared in
`core/indexing/decl.hpp`: the largest local length, that of shift 0. -/
def MaxLength (n numProcs : Int) : Int := Length n 0 numProcs

def AbstractDistMatrix.AssertSameGrid (A : AbstractDistMatrix) (grid : Grid) :
    Except Error Unit :=
  if A.grid_.id != grid.id then
    Except.error (Error.LogicError "Assertion that grids match failed")
  else Except.ok ()

/-- Modelled from the spec: the assignment `Matrix<T>::operator=( const Matrix<T>& A )`
copies the local buffer verbatim: an owner takes the size of `A`, then the
window of `A` is copied column by column. -/
def Matrix.assign {T : Type} (M : Matrix) (buf : elem.Buffer T) (A : Matrix)
    (bufA : elem.Buffer T) : Matrix × elem.Buffer T :=
  let M := if M.viewType_ = ViewType.OWNER then M.Resize_ A.Height A.Width else M
  (M, forLoop 0 M.Width (fun j b =>
    MemCopy b (M.Buffer 0 0 + j * M.LDim) bufA (A.Buffer 0 0 + j * A.LDim) M.Height) buf)

namespace mpi

/-- What a process hands to `mpi::SendRecv` for sending: the send buffer, the
number of entries and the rank of the destination. -/
structure Outgoing (T : Type) where
  buf : Buffer T
  count : Int
  dest : Int

/-- Modelled from the spec: `mpi::SendRecv( sbuf, sc, to, rbuf, rc, from, comm )`,
a paired point-to-point exchange. `out m` is what the process at grid coordinates
`m` hands over for sending when it enters the call (`none` when it does not
enter it). The call returns the receive buffer with the entries sent by the
member of rank `source`, provided that member sends to the calling process and
no more than `recvCount` entries; otherwise the exchange does not complete. -/
def SendRecv {T : Type} (out : Int × Int → Option (Outgoing T)) (recvBuf : Buffer T)
    (recvCount source : Int) (comm : Comm) : Option (Buffer T) :=
  match out (comm.member source) with
  | some m =>
    if m.dest = comm.rank ∧ m.count ≤ recvCount then
      some (MemCopy recvBuf 0 m.buf 0 m.count)
    else none
  | none => none

end mpi

namespace VR_STAR

/-- A process of one of the assignments below at the moment it enters
`mpi::SendRecv`: `*this` as resized, the packed send buffer, and the counts
and partner ranks it passes. -/
structure Exchange (T : Type) where
  B : AbstractDistMatrix
  sendBuf : Buffer T
  sendCount : Int
  sendRank : Int
  recvCount : Int
  recvRank : Int

/-- The "Unpack" loop that follows `mpi::SendRecv` in both assignments. -/
def unpack {T : Type} (bufB : Buffer T) (e : Exchange T) (recvBuf : Buffer T) : ProcState T :=
  let width := e.B.Width
  let localHeight := e.B.LocalHeight
  let thisBuf := e.B.matrix_.Buffer 0 0
  let thisLDim := e.B.LDim
  (e.B, forLoop 0 width (fun j b =>
    MemCopy b (thisBuf + j * thisLDim) recvBuf (j * localHeight) localHeight) bufB)

/-- The assignment `operator=( const DistMatrix<T,VC,STAR>& A )` on one process, up
to `mpi::SendRecv`: either the process has left the routine (normally, or by
an assertion), or it enters the exchange. `aux` is the auxiliary memory. -/
def assign_VC_STAR.enter {T : Type} (debug : Bool) (B : AbstractDistMatrix) (bufB : Buffer T)
    (A : AbstractDistMatrix) (bufA aux : Buffer T) : Outcome (ProcState T) ⊕ Exchange T :=
  match DEBUG_ONLY debug (do
      B.AssertNotLocked
      B.AssertSameGrid A.grid_) with
  | Except.error err => Sum.inl (Outcome.throw (B, bufB) err)
  | Except.ok _ =>
    let g := B.grid_
    let resized := Resize debug VR_STAR B A.Height A.Width
    match resized.thrown with
    | some err => Sum.inl (Outcome.throw (resized.state, bufB) err)
    | none =>
      let B := resized.state
      if !Participating VR_STAR B then Sum.inl (Outcome.ok (B, bufB))
      else
        let r := g.Height
        let c := g.Width
        let p := g.Size
        let rankCM := g.VCRank
        let rankRM := g.VRRank
        let height := B.Height
        let width := B.Width
        let localHeightOfA := A.LocalHeight
        let maxLocalHeight := MaxLength height p
        let portionSize := maxLocalHeight * width
        let colShift := B.ColShift
        let colShiftOfA := A.ColShift
        let sendRankRM := (rankRM + (p + colShiftOfA - colShift)).tmod p
        let recvRankCM := (rankCM + (p + colShift - colShiftOfA)).tmod p
        let recvRankRM := recvRankCM.tdiv r + c * recvRankCM.tmod r
        let ALDim := A.LDim
        let ABuf := A.matrix_.Buffer 0 0
        let sendBuf := forLoop 0 width (fun j s =>
          MemCopy s (j * localHeightOfA) bufA (ABuf + j * ALDim) localHeightOfA) aux
        Sum.inr { B := B, sendBuf := sendBuf, sendCount := portionSize,
                  sendRank := sendRankRM, recvCount := portionSize, recvRank := recvRankRM }

/-- The assignment `operator=( const DM& A )` ([VR,*] <- [VR,*]) on one process, up
to `mpi::SendRecv`: with equal column alignments after `AlignColsAndResize` the
local matrix is copied and the process leaves without communicating. -/
def assign_VR_STAR.enter {T : Type} (debug : Bool) (B : AbstractDistMatrix) (bufB : Buffer T)
    (A : AbstractDistMatrix) (bufA aux : Buffer T) : Outcome (ProcState T) ⊕ Exchange T :=
  match DEBUG_ONLY debug (do
      B.AssertNotLocked
      B.AssertSameGrid A.grid_) with
  | Except.error err => Sum.inl (Outcome.throw (B, bufB) err)
  | Except.ok _ =>
    let g := B.grid_
    let resized := AlignColsAndResize debug VR_STAR B A.ColAlign A.Height A.Width false
    match resized.thrown with
    | some err => Sum.inl (Outcome.throw (resized.state, bufB) err)
    | none =>
      let B := resized.state
      if !Participating VR_STAR B then Sum.inl (Outcome.ok (B, bufB))
      else if B.ColAlign = A.ColAlign then
        let copied := Matrix.assign B.matrix_ bufB A.matrix_ bufA
        Sum.inl (Outcome.ok ({ B with matrix_ := copied.1 }, copied.2))
      else
        let rank := g.VRRank
        let p := g.Size
        let colAlign := B.ColAlign
        let colAlignA := A.ColAlign
        let sendRank := (rank + p + colAlign - colAlignA).tmod p
        let recvRank := (rank + p + colAlignA - colAlign).tmod p
        let width := B.Width
        let localHeight := B.LocalHeight
        let localHeightOfA := A.LocalHeight
        let sendSize := localHeightOfA * width
        let recvSize := localHeight * width
        let ALDim := A.LDim
        let ABuf := A.matrix_.Buffer 0 0
        let sendBuf := forLoop 0 width (fun j s =>
          MemCopy s (j * localHeightOfA) bufA (ABuf + j * ALDim) localHeightOfA) aux
        Sum.inr { B := B, sendBuf := sendBuf, sendCount := sendSize, sendRank := sendRank,
                  recvCount := recvSize, recvRank := recvRank }

/-- A collective assignment into [VR,*] on the process at `q`: `enter q` is where
each process stands when it has run the routine up to `mpi::SendRecv`; a
process that enters the exchange (over `g.VRComm()`) unpacks what it receives.
`none`: the exchange of the process does not complete. -/
def exchange {T : Type} (enter : Int × Int → Outcome (ProcState T) ⊕ Exchange T)
    (WB : World T) (aux : Int × Int → Buffer T) (q : Int × Int) :
    Option (Outcome (ProcState T)) :=
  match enter q with
  | Sum.inl o => some o
  | Sum.inr e =>
    match mpi.SendRecv
        (fun m => match enter m with
          | Sum.inr em => some { buf := em.sendBuf, count := em.sendCount, dest := em.sendRank }
          | Sum.inl _ => none)
        (aux q) e.recvCount e.recvRank e.B.grid_.VRComm with
    | some recvBuf => some (Outcome.ok (unpack (WB q).2 e recvBuf))
    | none => none

/-- The collective `B = A` for A distributed [VC,*], on the process at `q`. -/
def assign_VC_STAR {T : Type} (debug : Bool) (WB WA : World T) (aux : Int × Int → Buffer T)
    (q : Int × Int) : Option (Outcome (ProcState T)) :=
  exchange (fun m => assign_VC_STAR.enter debug (WB m).1 (WB m).2 (WA m).1 (WA m).2 (aux m))
    WB aux q

/-- The collective `B = A` for A distributed [VR,*], on the process at `q`. -/
def assign_VR_STAR {T : Type} (debug : Bool) (WB WA : World T) (aux : Int × Int → Buffer T)
    (q : Int × Int) : Option (Outcome (ProcState T)) :=
  exchange (fun m => assign_VR_STAR.enter debug (WB m).1 (WB m).2 (WA m).1 (WA m).2 (aux m))
    WB aux q

end VR_STAR

/-- A freshly constructed, unsized [VR,*] matrix (constructor
`DistMatrix( grid, root )`: free alignments) on every process of a 2 x 2 grid, over
buffers of zeros: the destination of the assignments. -/
def vrDestWorld : World Int :=
  fun q => (SetShifts VR_STAR (AbstractDistMatrix.new (procGrid 2 2 q.1 q.2) 0), fun _ => 0)

/-- A 7 x 3 [VR,*] matrix with column alignment 1 on the 2 x 2 grid, over buffers of
distinct values (position k of the process at (a,b) holds 1000*a + 100*b + k). -/
def vrSourceWorld : World Int :=
  constructedWorld true VR_STAR 2 2 7 3 1 0 0 (fun q k => 1000 * q.1 + 100 * q.2 + k)

/-- Auxiliary memory filled with zeros. -/
def zeroAux : Int × Int → Buffer Int := fun _ _ => 0


/-- What the redistributions between [VC,*] and [VR,*] assume of a matrix
distributed by `D` over an r x c grid with column alignment `a` and root 0:
every process sees its own grid coordinates and holds the alignment and the
shifts that `SetShifts` computes from them. -/
def VecAligned {T : Type} (D : Overrides) (W : World T) (r c a : Int) : Prop :=
  ∀ q : Int × Int, 0 ≤ q.1 → q.1 < r → 0 ≤ q.2 → q.2 < c →
    (W q).1.grid_ = procGrid r c q.1 q.2 ∧ (W q).1.colAlign_ = a ∧ (W q).1.root_ = 0 ∧
    (W q).1 = SetShifts D (W q).1

/-- Every process holds the size H x Wd and a local matrix with the number of rows
that `Resize` computes. -/
def VecStored {T : Type} (D : Overrides) (W : World T) (r c H Wd : Int) : Prop :=
  ∀ q : Int × Int, 0 ≤ q.1 → q.1 < r → 0 ≤ q.2 → q.2 < c →
    (W q).1.Height = H ∧ (W q).1.Width = Wd ∧
    (W q).1.LocalHeight = Length H (W q).1.ColShift (ColStride D (W q).1)


/-- An 11 x 3 [VC,*] matrix with column alignment 3 on the 2 x 2 grid, over buffers of
distinct values (position k of the process at (a,b) holds 1000*a + 100*b + 10 + k). -/
def vcSourceWorld : World Int :=
  constructedWorld true VC_STAR 2 2 11 3 3 0 0 (fun q k => 1000 * q.1 + 100 * q.2 + 10 + k)

/-- An empty [VR,*] matrix with column alignment 1 on the 2 x 2 grid, over buffers of
zeros. -/
def vrAlignedDest : World Int :=
  constructedWorld true VR_STAR 2 2 0 0 1 0 0 (fun _ _ => 0)


/-! ## Pseudospectrum power iteration
(`include/elemental/lapack-like/props/Pseudospectrum/Power.hpp`)

The column vectors (k x 1 matrices) of the routine are modelled as functions from
the row index to the entry, the matrix `X` as a function of row and column; a
view of the leading rows or columns shares the entries with the matrix it views,
so the routines that work on views take the full vectors and the size of the
active window. -/

/-- The loop `for( Int j=n-1; j>=0; --j ) body`, threading the state. -/
def forDown {σ : Type} : Nat → (Int → σ → σ) → σ → σ
  | 0, _, s => s
  | k + 1, body, s => forDown k body (body k s)

/-- Modelled from the spec: `RowSwap( A, to, from )` on a column vector exchanges
the two entries. -/
def RowSwap {α : Type} (A : Int → α) (to_ from_ : Int) : Int → α :=
  fun k => if k = to_ then A from_ else if k = from_ then A to_ else A k

/-- Modelled from the spec: `ColumnSwap( A, to, from )` exchanges the two columns. -/
def ColumnSwap {α : Type} (A : Int → Int → α) (to_ from_ : Int) : Int → Int → α :=
  fun i k => if k = to_ then A i from_ else if k = from_ then A i to_ else A i k

/-- Modelled from the spec: `ZeroNorm` of an n x 1 matrix, the number of its
non-zero entries. -/
def ZeroNorm (A : Int → Int) (n : Int) : Int :=
  forLoop 0 n (fun j count => if A j ≠ 0 then count + 1 else count) 0

namespace pspec

/-- The vectors that deflation permutes together: the shifts, the preimage of
each position, the vectors `X` (one column per shift), the estimates and the
iteration counts. -/
structure Active (C Real : Type) where
  shifts : Int → C
  preimage : Int → Int
  X : Int → Int → C
  ests : Int → Real
  itCounts : Int → Int

/-- The sequential `pspec::Deflate`; `numActive` is `activeX.Width()`, the loop
state is `swapTo` and the vectors. -/
def Deflate {C Real : Type} (numActive : Int) (activeConverged : Int → Int)
    (active : Active C Real) : Active C Real :=
  (forDown numActive.toNat (fun swapFrom (st : Int × Active C Real) =>
    let swapTo := st.1
    let a := st.2
    if activeConverged swapFrom ≠ 0 then
      let a :=
        if swapTo ≠ swapFrom then
          { shifts := RowSwap a.shifts swapFrom swapTo
            preimage := RowSwap a.preimage swapFrom swapTo
            ests := RowSwap a.ests swapFrom swapTo
            itCounts := RowSwap a.itCounts swapFrom swapTo
            X := ColumnSwap a.X swapFrom swapTo }
        else a
      (swapTo - 1, a)
    else (swapTo, a)) (numActive - 1, active)).2

/-- The sequential `pspec::RestoreOrdering`; `numShifts` is `preimage.Height()`. -/
def RestoreOrdering {Real : Type} (numShifts : Int) (preimage : Int → Int)
    (invNorms : Int → Real) (itCounts : Int → Int) : (Int → Real) × (Int → Int) :=
  let invNormsCopy := invNorms
  let itCountsCopy := itCounts
  forLoop 0 numShifts (fun j (out : (Int → Real) × (Int → Int)) =>
    let dest := preimage j
    (Function.update out.1 dest (invNormsCopy j), Function.update out.2 dest (itCountsCopy j)))
    (invNorms, itCounts)

end pspec

/-- Five shifts with converged flags 0,1,0,1,1 at positions 0..4: the example for
deflation; position j holds shift 10+j, preimage j, estimate 20+j, count 30+j and
the column whose entry in row i is 100*i + j. -/
def deflateExample : pspec.Active Int Int :=
  { shifts := fun j => 10 + j, preimage := fun j => j, X := fun i j => 100 * i + j,
    ests := fun j => 20 + j, itCounts := fun j => 30 + j }

/-- The flags of the example. -/
def deflateFlags : Int → Int := fun j => if j = 1 ∨ j = 3 ∨ j = 4 then 1 else 0


/-- Two deflations of the example: the first on the whole window of 5 with the
flags of the example, the second on the remaining window of 2 with position 0
converged. -/
def deflateCalls : List (Int × (Int → Int)) :=
  [(5, deflateFlags), (2, fun j => if j = 0 then 1 else 0)]


namespace pspec

/-- The machine reals of the routine: the type `Real` is arbitrary, and so are the
operations on it that the routine uses (comparisons, `Abs`, subtraction,
division, `std::isnan`) and the value of `NormCap<Real>()`; floating-point
arithmetic is outside the sources. -/
structure Arith (Real : Type) where
  zero : Real
  normCap : Real
  sub : Real → Real → Real
  div : Real → Real → Real
  abs : Real → Real
  ge : Real → Real → Bool
  gt : Real → Real → Bool
  le : Real → Real → Bool
  isnan : Real → Bool

/-- The sequential `pspec::CapEstimates` on the n leading entries. -/
def CapEstimates {Real : Type} (F : Arith Real) (activeEsts : Int → Real) (n : Int) :
    Int → Real :=
  forLoop 0 n (fun j ests =>
    let alpha := ests j
    let alpha := if F.isnan alpha || F.ge alpha F.normCap then F.normCap else alpha
    Function.update ests j alpha) activeEsts

/-- The sequential `pspec::FindConverged`: the flags (`activeConverged`, zero
outside the window) and the updated iteration counts. -/
def FindConverged {Real : Type} (F : Arith Real) (lastActiveEsts activeEsts : Int → Real)
    (activeItCounts : Int → Int) (numActiveShifts : Int) (maxDiff : Real) :
    (Int → Int) × (Int → Int) :=
  let normCap := F.normCap
  forLoop 0 numActiveShifts (fun j (st : (Int → Int) × (Int → Int)) =>
    let lastEst := lastActiveEsts j
    let currEst := activeEsts j
    let converged :=
      if F.ge currEst normCap then true
      else if F.gt (F.abs currEst) F.zero then
        F.le (F.div (F.abs (F.sub lastEst currEst)) (F.abs currEst)) maxDiff
      else false
    if converged then (Function.update st.1 j 1, st.2)
    else (st.1, Function.update st.2 j (st.2 j + 1)))
    (fun _ => 0, activeItCounts)

/-- The variables of `TriangularPower` that its sweep loop updates, with the
locals of the last sweep. -/
structure PowerState (C Real : Type) where
  active : Active C Real
  lastActiveEsts : Int → Real
  numIts : Int
  numDone : Int
  numActive : Int
  activeConverged : Int → Int
  numActiveDone : Int

/-- The external solves of one sweep (`MultiShiftTrsm`, `FixColumns`,
`MultiShiftTrsm`, `ColumnNorms` on the active views, with the matrix `U`
fixed): from the sweep number, the size of the window, the shifts and the
vectors to the new vectors and column norms of the window. -/
abbrev Solves (C Real : Type) :=
  Int → Int → (Int → C) → (Int → Int → C) → (Int → Int → C) × (Int → Real)

namespace TriangularPower

/-- One pass through the body of `while( true )` up to `++numIts`. -/
def sweep {C Real : Type} (F : Arith Real) (solves : Solves C Real) (numShifts : Int)
    (deflate : Bool) (tol : Real) (st : PowerState C Real) : PowerState C Real :=
  let numActive := if deflate then numShifts - st.numDone else numShifts
  let solved := solves st.numIts numActive st.active.shifts st.active.X
  let X := fun i j => if 0 ≤ j ∧ j < numActive then solved.1 i j else st.active.X i j
  let ests := fun j => if 0 ≤ j ∧ j < numActive then solved.2 j else st.active.ests j
  let ests := CapEstimates F ests numActive
  let found := FindConverged F st.lastActiveEsts ests st.active.itCounts numActive tol
  let activeConverged := found.1
  let numActiveDone := ZeroNorm activeConverged numActive
  let numDone := if deflate then st.numDone + numActiveDone else numActiveDone
  { active := { st.active with X := X, ests := ests, itCounts := found.2 }
    lastActiveEsts := st.lastActiveEsts
    numIts := st.numIts + 1
    numDone := numDone
    numActive := numActive
    activeConverged := activeConverged
    numActiveDone := numActiveDone }

/-- The rest of the body when neither `break` is taken: deflation and
`lastActiveEsts = activeEsts`. -/
def proceed {C Real : Type} (deflate : Bool) (st : PowerState C Real) : PowerState C Real :=
  let active :=
    if deflate ∧ st.numActiveDone ≠ 0 then
      Deflate st.numActive st.activeConverged st.active
    else st.active
  { st with active := active, lastActiveEsts := active.ests }

/-- The loop `while( true )`: the state at the `break`, or `none` when `fuel`
sweeps did not reach a `break`. -/
def loop {C Real : Type} (F : Arith Real) (solves : Solves C Real) (numShifts : Int)
    (deflate : Bool) (maxIts : Int) (tol : Real) :
    Nat → PowerState C Real → Option (PowerState C Real)
  | 0, _ => none
  | fuel + 1, st =>
    let st := sweep F solves numShifts deflate tol st
    if st.numIts ≥ maxIts then some st
    else if st.numDone = numShifts then some st
    else loop F solves numShifts deflate maxIts tol fuel (proceed deflate st)

/-- The state of `TriangularPower` when it enters the loop; `X0` is the matrix
`X` after `Gaussian` and `FixColumns`. -/
def start {C Real : Type} (F : Arith Real) (shifts : Int → C) (X0 : Int → Int → C)
    (numShifts : Int) (deflate : Bool) : PowerState C Real :=
  let itCounts : Int → Int := fun _ => 1
  let preimage : Int → Int :=
    if deflate then forLoop 0 numShifts (fun j p => Function.update p j j) (fun _ => 0)
    else fun _ => 0
  let estimates : Int → Real := fun _ => F.zero
  { active := { shifts := shifts, preimage := preimage, X := X0, ests := estimates,
                itCounts := itCounts }
    lastActiveEsts := estimates
    numIts := 0
    numDone := 0
    numActive := 0
    activeConverged := fun _ => 0
    numActiveDone := 0 }

/-- The state in which the sweep loop of `TriangularPower` is left, with
max(1, maxIts) sweeps of fuel. -/
def run {C Real : Type} (F : Arith Real) (solves : Solves C Real) (shifts : Int → C)
    (X0 : Int → Int → C) (numShifts : Int) (deflate : Bool) (maxIts : Int) (tol : Real) :
    Option (PowerState C Real) :=
  loop F solves numShifts deflate maxIts tol (max 1 maxIts).toNat
    (start F shifts X0 numShifts deflate)

end TriangularPower

/-- The sequential `pspec::TriangularPower`: the result is `invNorms` as written
through the reference argument and the returned `itCounts`; `none` only if
the loop did not end within its fuel. -/
def TriangularPower {C Real : Type} (F : Arith Real) (solves : Solves C Real)
    (shifts : Int → C) (X0 : Int → Int → C) (numShifts : Int) (deflate : Bool) (maxIts : Int)
    (tol : Real) : Option (Except Error ((Int → Real) × (Int → Int))) :=
  match TriangularPower.run F solves shifts X0 numShifts deflate maxIts tol with
  | none => none
  | some st =>
    if st.numDone ≠ numShifts then
      some (Except.error (Error.RuntimeError "Two-norm estimates did not converge in time"))
    else
      let invNorms := st.active.ests
      let itCounts := st.active.itCounts
      if deflate then
        some (Except.ok (RestoreOrdering numShifts st.active.preimage invNorms itCounts))
      else
        some (Except.ok (invNorms, itCounts))

end pspec


/-- The vector `preimage` is a permutation of {0..N-1}: on these positions it
agrees with a bijection of the integers that fixes every other position. -/
def IsPermutationOn (N : Int) (preimage : Int → Int) : Prop :=
  ∃ p : Equiv.Perm Int, (∀ j, j < 0 ∨ N ≤ j → p j = j) ∧
    ∀ j, 0 ≤ j → j < N → preimage j = p j


/-- What holds of the iteration counts whenever `TriangularPower` is at the head of
its sweep loop, for N shifts. With deflation the positions below N - numDone
(the active window) have been counted in every sweep so far and the other
positions in at most numIts of them, and the preimage is a permutation; without
deflation every count is at most numIts + 1. -/
def CountsAtHead {C Real : Type} (N : Int) (deflate : Bool) (st : pspec.PowerState C Real) :
    Prop :=
  0 ≤ st.numIts ∧
  (deflate = true →
    0 ≤ st.numDone ∧ st.numDone ≤ N ∧
    (∀ j, 0 ≤ j → j < N - st.numDone → st.active.itCounts j = st.numIts + 1) ∧
    (∀ j, N - st.numDone ≤ j → j < N →
      1 ≤ st.active.itCounts j ∧ st.active.itCounts j ≤ st.numIts) ∧
    IsPermutationOn N st.active.preimage) ∧
  (deflate = false →
    ∀ j, 0 ≤ j → j < N → 1 ≤ st.active.itCounts j ∧ st.active.itCounts j ≤ st.numIts + 1)

/-- What holds of the iteration counts when the loop is left with every shift done. -/
def CountsAtExit {C Real : Type} (N : Int) (deflate : Bool) (ex : pspec.PowerState C Real) :
    Prop :=
  ex.numDone = N →
    (∀ j, 0 ≤ j → j < N → 1 ≤ ex.active.itCounts j ∧ ex.active.itCounts j ≤ ex.numIts) ∧
    (deflate = true → IsPermutationOn N ex.active.preimage)

/-- Integers as machine reals for the examples: exact operations, no NaN, cap 1000. -/
def intArith : pspec.Arith Int :=
  { zero := 0, normCap := 1000, sub := fun a b => a - b, div := fun a b => a / b,
    abs := fun a => |a|, ge := fun a b => decide (a ≥ b), gt := fun a b => decide (a > b),
    le := fun a b => decide (a ≤ b), isnan := fun _ => false }

/-- Solves for the examples: the vectors are kept, and the column norm of a shift
is 1000 (the cap) from the sweep whose number is the value of the shift on, and
0 before. -/
def exampleSolves : pspec.Solves Int Int :=
  fun numIts _ activeShifts activeX =>
    (activeX, fun j => if activeShifts j ≤ numIts then 1000 else 0)

/-- The shifts 2, 0, 1 of the examples. -/
def exampleShifts : Int → Int := fun j => if j = 0 then 2 else if j = 1 then 0 else 1

/-! ## HPD determinant through Cholesky (`lapack-like/props/Determinant/Cholesky.hpp`) -/

/-- Modelled from the spec: the exception classes are declared outside the
sources at hand.  What can leave `elem::Cholesky`: the "not positive definite"
signal `NonHPDMatrixException`, or any other exception of the library. -/
inductive Exception where
  | NonHPDMatrixException
  | other (e : Error)
  deriving DecidableEq, Repr

/-- Modelled from the spec: `SafeProduct<F>` is declared outside the sources at
hand; the sources read and assign its members `rho` and `kappa`, and construct
it from the number of entries `n`. -/
structure SafeProduct (F R : Type) where
  rho : F
  kappa : R
  n : Int

namespace hpd_det

/-- The scalar operations the determinant routines use, all defined outside the
sources at hand: the conversions `F(0)`, `F(1)`, `R(0)`, `R(n)`, the operators
`+` and `/` of the base field `R = Base<F>`, `RealPart`, `Log`, and the values
the constructor `SafeProduct<F>(n)` gives to `rho` and `kappa`. -/
structure Scalars (F R : Type) where
  zeroF : F
  oneF : F
  zeroR : R
  ofInt : Int → R
  add : R → R → R
  div : R → R → R
  RealPart : F → R
  Log : R → R
  initRho : F
  initKappa : R

/-- Modelled from the spec: the constructor `SafeProduct<F> det( n )`. -/
def SafeProduct.new {F R : Type} (S : Scalars F R) (n : Int) : SafeProduct F R :=
  { rho := S.initRho, kappa := S.initKappa, n := n }

/-- Modelled from the spec: `A.GetDiagonal( d )` for a local matrix is defined
outside the sources at hand; entry (i,0) of the column vector `d` is entry
(i,i) of `A`. -/
def GetDiagonal {F : Type} (A : Matrix) (buf : Buffer F) : Int → F :=
  fun i => buf (A.Buffer i i)

/-- The sequential `hpd_det::AfterCholesky( uplo, A )`. -/
def AfterCholesky {F R : Type} (S : Scalars F R) (_uplo : UpperOrLower) (A : Matrix)
    (buf : Buffer F) : SafeProduct F R :=
  let n := A.Height
  let d := GetDiagonal A buf
  let det := SafeProduct.new S n
  let det := { det with rho := S.oneF }
  let scale := S.div (S.ofInt n) (S.ofInt 2)
  forLoop 0 n (fun i (det : SafeProduct F R) =>
    let delta := S.RealPart (d i)
    { det with kappa := S.add det.kappa (S.div (S.Log delta) scale) }) det

/-- The sequential `hpd_det::Cholesky( uplo, A )`.  The factorization
`elem::Cholesky` is defined outside the sources at hand and is the parameter
`factor`: it returns the overwritten matrix or throws.  The result is the
returned `SafeProduct`, or the exception that leaves the function. -/
def Cholesky {F R : Type} (S : Scalars F R)
    (factor : UpperOrLower → Matrix → Buffer F → Except Exception (Matrix × Buffer F))
    (uplo : UpperOrLower) (A : Matrix) (buf : Buffer F) : Except Exception (SafeProduct F R) :=
  let det := SafeProduct.new S A.Height
  match factor uplo A buf with
  | Except.ok (A', buf') =>
    let det := AfterCholesky S uplo A' buf'
    Except.ok det
  | Except.error Exception.NonHPDMatrixException =>
    let det := { det with rho := S.zeroF }
    let det := { det with kappa := S.zeroR }
    Except.ok det
  | Except.error e => Except.error e

/-- Modelled from the spec: the diagonal of a distributed matrix as a
`DistMatrix<F,MD,STAR>` on one process; that distribution and
`A.GetDiagonal( d )` are defined outside the sources at hand, so what the
routine reads of `d` is recorded: whether the process participates, its
local height and its local entries. -/
structure LocalDiagonal (F : Type) where
  Participating : Bool
  LocalHeight : Int
  GetLocal : Int → Int → F

/-- Modelled from the spec: `mpi::AllReduce( value, comm )` with the default
operation, the sum: every member leaves with the sum over the ranks of the
communicator of the values held on entry. -/
def AllReduce {F R : Type} (S : Scalars F R) (held : Int × Int → R) (comm : mpi.Comm) : R :=
  forLoop 1 comm.size (fun k acc => S.add acc (held (comm.member k))) (held (comm.member 0))

/-- The variable `localKappa` of the distributed `AfterCholesky` when the process
enters the all-reduce. -/
def DistMatrix.localKappa {F R : Type} (S : Scalars F R) (n : Int) (d : LocalDiagonal F) : R :=
  let localKappa := S.zeroR
  if d.Participating then
    let scale := S.div (S.ofInt n) (S.ofInt 2)
    let nLocalDiag := d.LocalHeight
    forLoop 0 nLocalDiag (fun iLoc localKappa =>
      let delta := S.RealPart (d.GetLocal iLoc 0)
      S.add localKappa (S.div (S.Log delta) scale)) localKappa
  else localKappa

/-- The distributed `hpd_det::AfterCholesky( uplo, A )` on the process whose state
is `W p`; `diagonal q` is what `A.GetDiagonal( d )` leaves on the process at
grid coordinates `q`. -/
def DistMatrix.AfterCholesky {F R : Type} (S : Scalars F R)
    (diagonal : World F → Int × Int → LocalDiagonal F) (_uplo : UpperOrLower)
    (W : World F) (p : Int × Int) : SafeProduct F R :=
  let A := (W p).1
  let n := A.Height
  let g := A.grid_
  let det := SafeProduct.new S n
  let det := { det with
    kappa := AllReduce S (fun q => DistMatrix.localKappa S n (diagonal W q)) g.VCComm }
  let det := { det with rho := S.oneF }
  det

/-- The distributed `hpd_det::Cholesky( uplo, A )` on the process whose state is
`W p`.  The factorization `elem::Cholesky` is defined outside the sources at
hand and is the parameter `factor`: a collective that returns the overwritten
matrix on every process or throws. -/
def DistMatrix.Cholesky {F R : Type} (S : Scalars F R)
    (factor : UpperOrLower → World F → Except Exception (World F))
    (diagonal : World F → Int × Int → LocalDiagonal F) (uplo : UpperOrLower)
    (W : World F) (p : Int × Int) : Except Exception (SafeProduct F R) :=
  let det := SafeProduct.new S (W p).1.Height
  match factor uplo W with
  | Except.ok W' =>
    let det := DistMatrix.AfterCholesky S diagonal uplo W' p
    Except.ok det
  | Except.error Exception.NonHPDMatrixException =>
    let det := { det with rho := S.zeroF }
    let det := { det with kappa := S.zeroR }
    Except.ok det
  | Except.error e => Except.error e

end hpd_det

/-- Integers as scalars for the examples; the logarithm is replaced by the
predecessor and a fresh `SafeProduct` has rho 7 and kappa 9. -/
def intScalars : hpd_det.Scalars Int Int :=
  { zeroF := 0, oneF := 1, zeroR := 0, ofInt := fun n => n, add := fun a b => a + b,
    div := fun a b => a.tdiv b, RealPart := fun a => a, Log := fun a => a - 1,
    initRho := 7, initKappa := 9 }

/-- A factorization for the examples: it refuses a matrix whose entry (0,0) is
not positive and otherwise overwrites that entry with 4. -/
def exampleFactor (_uplo : UpperOrLower) (A : Matrix) (buf : Buffer Int) :
    Except Exception (Matrix × Buffer Int) :=
  if buf (A.Buffer 0 0) ≤ 0 then Except.error Exception.NonHPDMatrixException
  else Except.ok (A, Function.update buf (A.Buffer 0 0) 4)

/-- A collective factorization for the examples: it refuses when entry (0,0) of
the local matrix of process (0,0) is not positive and otherwise leaves every
process as it is. -/
def exampleDistFactor (_uplo : UpperOrLower) (W : World Int) : Except Exception (World Int) :=
  if (W (0, 0)).2 ((W (0, 0)).1.matrix_.Buffer 0 0) ≤ 0 then
    Except.error Exception.NonHPDMatrixException
  else Except.ok W

/-- A diagonal for the examples: every process holds one entry, the first of its
local buffer. -/
def exampleDiagonal (W : World Int) (q : Int × Int) : hpd_det.LocalDiagonal Int :=
  { Participating := true, LocalHeight := 1, GetLocal := fun iLoc _ => (W q).2 iLoc }

/-- The world of `scenarioWorld` with every local buffer zeroed. -/
def zeroedWorld (q : Int × Int) : ProcState Int := ((scenarioWorld q).1, fun _ => 0)

/-- The 4 x 4 global matrix of which `triDistExample` is the part of process
(1,0) of a 2 x 2 grid: stored with leading dimension 4 from position 0; global
entry (i,j) holds what the process holds at local entry ((i-1)/2, j/2). -/
def triGlobalExample : Matrix × Buffer Int :=
  ({ viewType_ := ViewType.OWNER, height_ := 4, width_ := 4, ldim_ := 4, data_ := 0,
     memorySize_ := 16 }, fun k => 100 + (k % 4 - 1) / 2 + (k / 4 / 2) * 2)

/-! ## Shift consistency -/

/-- The shifts of `A` are the ones `SetShifts` assigns for its present grid, root
and alignments: `Shift(rank, align, stride)` in both dimensions on a
participating process, 0 and 0 on any other. -/
def ShiftsConsistent (D : Overrides) (A : AbstractDistMatrix) : Prop :=
  if Participating D A then
    A.ColShift = Shift (ColRank D A) A.ColAlign (ColStride D A) ∧
    A.RowShift = Shift (RowRank D A) A.RowAlign (RowStride D A)
  else A.ColShift = 0 ∧ A.RowShift = 0

instance (D : Overrides) (A : AbstractDistMatrix) : Decidable (ShiftsConsistent D A) := by
  unfold ShiftsConsistent
  infer_instance

/-- A 3 x 1 [VR,*] matrix constructed with column alignment 1, as held by the
process of rank 0 of a 1 x 2 grid. -/
def alignedExample : AbstractDistMatrix :=
  (DistMatrix.newAligned true VR_STAR 3 1 1 0 (procGrid 1 2 0 0) 0).state

/-- The matrix `alignedExample` after `Empty()` and `Resize(3,1)`. -/
def emptiedExample : AbstractDistMatrix :=
  (Resize true VR_STAR alignedExample.Empty 3 1).state

/-! ## Real and imaginary parts of an entry (`abstract.cpp`) -/

/-- What the sources use of the element type `T` with base field `R = Base<T>`,
all defined outside the sources at hand: the constant `IsComplex<T>::val`, the
real and the imaginary part of an element, complex conjugation, the element
with its imaginary part dropped, and the conversion `R(0)`. -/
structure Element (T R : Type) where
  IsComplex : Bool
  RealPart : T → R
  ImagPart : T → R
  Conj : T → T
  MakeReal : T → T
  zero : R

/-- Modelled from the spec: `Matrix<T>::GetRealPart(i,j)`, the real part of the
entry `Get(i,j)` reads. -/
def Matrix.GetRealPart {T R : Type} (E : Element T R) (debug : Bool) (M : Matrix)
    (buf : elem.Buffer T) (i j : Int) : Except Error R :=
  (M.Get debug buf i j).map E.RealPart

/-- Modelled from the spec: `Matrix<T>::GetImagPart(i,j)`, the imaginary part of
the entry `Get(i,j)` reads. -/
def Matrix.GetImagPart {T R : Type} (E : Element T R) (debug : Bool) (M : Matrix)
    (buf : elem.Buffer T) (i j : Int) : Except Error R :=
  (M.Get debug buf i j).map E.ImagPart

namespace AbstractDistMatrix

def GetLocalRealPart {T R : Type} (E : Element T R) (debug : Bool) (A : AbstractDistMatrix)
    (buf : Buffer T) (iLoc jLoc : Int) : Except Error R :=
  A.matrix_.GetRealPart E debug buf iLoc jLoc

def GetLocalImagPart {T R : Type} (E : Element T R) (debug : Bool) (A : AbstractDistMatrix)
    (buf : Buffer T) (iLoc jLoc : Int) : Except Error R :=
  A.matrix_.GetImagPart E debug buf iLoc jLoc

/-- Content of `value` of `GetRealPart` on the process at `q` when it enters
`mpi::Broadcast( value, owner, DistComm() )`. -/
def GetRealPart.held {T R : Type} (E : Element T R) (debug : Bool) (D : Overrides)
    (W : World T) (i j : Int) (q : Int × Int) : Except Error (Option R) :=
  let A := (W q).1
  let owner := Owner D A i j
  if owner == DistRank D A then
    let iLoc := (i - A.ColShift).tdiv (ColStride D A)
    let jLoc := (j - A.RowShift).tdiv (RowStride D A)
    (GetLocalRealPart E debug A (W q).2 iLoc jLoc).map some
  else pure none

/-- Content of `value` of `GetRealPart` on the process at `q` when it enters
`mpi::Broadcast( value, Root(), CrossComm() )`. -/
def GetRealPart.afterDist {T R : Type} (E : Element T R) (debug : Bool) (D : Overrides)
    (W : World T) (i j : Int) (q : Int × Int) : Except Error (Option R) :=
  let A := (W q).1
  if CrossRank D A == A.Root then
    let owner := Owner D A i j
    mpi.Broadcast (GetRealPart.held E debug D W i j) owner (D.DistComm A.grid_)
  else pure none

/-- The collective `GetRealPart(i,j)`: the value returned on the process at `q`. -/
def GetRealPart {T R : Type} (E : Element T R) (debug : Bool) (D : Overrides) (W : World T)
    (i j : Int) (q : Int × Int) : Except Error (Option R) := do
  let A := (W q).1
  DEBUG_ONLY debug
    (if !A.grid_.InGrid then
      Except.error (Error.LogicError "Get should only be called in-grid")
    else Except.ok ())
  mpi.Broadcast (GetRealPart.afterDist E debug D W i j) A.Root (D.CrossComm A.grid_)

/-- Content of `value` of `GetImagPart` on the process at `q` when it enters
`mpi::Broadcast( value, owner, DistComm() )`; the owner assigns
`GetLocalRealPart( iLoc, jLoc )`, as the source does. -/
def GetImagPart.held {T R : Type} (E : Element T R) (debug : Bool) (D : Overrides)
    (W : World T) (i j : Int) (q : Int × Int) : Except Error (Option R) :=
  let A := (W q).1
  let owner := Owner D A i j
  if owner == DistRank D A then
    let iLoc := (i - A.ColShift).tdiv (ColStride D A)
    let jLoc := (j - A.RowShift).tdiv (RowStride D A)
    (GetLocalRealPart E debug A (W q).2 iLoc jLoc).map some
  else pure none

/-- Content of `value` of `GetImagPart` on the process at `q` when it enters
`mpi::Broadcast( value, Root(), CrossComm() )`. -/
def GetImagPart.afterDist {T R : Type} (E : Element T R) (debug : Bool) (D : Overrides)
    (W : World T) (i j : Int) (q : Int × Int) : Except Error (Option R) :=
  let A := (W q).1
  if CrossRank D A == A.Root then
    let owner := Owner D A i j
    mpi.Broadcast (GetImagPart.held E debug D W i j) owner (D.DistComm A.grid_)
  else pure none

/-- The collective `GetImagPart(i,j)`: the value returned on the process at `q`. -/
def GetImagPart {T R : Type} (E : Element T R) (debug : Bool) (D : Overrides) (W : World T)
    (i j : Int) (q : Int × Int) : Except Error (Option R) := do
  let A := (W q).1
  DEBUG_ONLY debug
    (if !A.grid_.InGrid then
      Except.error (Error.LogicError "Get should only be called in-grid")
    else Except.ok ())
  if E.IsComplex then
    mpi.Broadcast (GetImagPart.afterDist E debug D W i j) A.Root (D.CrossComm A.grid_)
  else
    pure (some E.zero)

end AbstractDistMatrix

/-- Gaussian integers (real part, imaginary part) as a complex element type. -/
def gaussian : Element (Int × Int) Int :=
  { IsComplex := true, RealPart := fun z => z.1, ImagPart := fun z => z.2,
    Conj := fun z => (z.1, -z.2), MakeReal := fun z => (z.1, 0), zero := 0 }

/-- Integers as a real element type. -/
def realInt : Element Int Int :=
  { IsComplex := false, RealPart := fun x => x, ImagPart := fun _ => 0, Conj := fun x => x,
    MakeReal := fun x => x, zero := 0 }

/-- The 4 x 4 [MC,MR] matrix of the 2 x 2 scenario with Gaussian-integer entries:
every stored entry is 3 + 4i. -/
def complexWorld (q : Int × Int) : ProcState (Int × Int) :=
  ((scenarioWorld q).1, fun _ => (3, 4))

/-! ## Diagonal manipulation (`abstract.cpp`) -/

/-- Modelled from the spec: `Matrix<T>::MakeReal(i,j)` replaces entry (i,j) of the
window by the element with its imaginary part dropped. -/
def Matrix.MakeReal {T R : Type} (E : Element T R) (debug : Bool) (M : Matrix)
    (buf : elem.Buffer T) (i j : Int) : Outcome (elem.Buffer T) :=
  Outcome.check buf (DEBUG_ONLY debug (M.AssertValidEntry i j)) <|
  Outcome.check buf (DEBUG_ONLY debug M.AssertNotLocked) <|
  Outcome.ok (Function.update buf (M.Buffer i j) (E.MakeReal (buf (M.Buffer i j))))

/-- Modelled from the spec: `Matrix<T>::Conjugate(i,j)` replaces entry (i,j) of the
window by its complex conjugate. -/
def Matrix.Conjugate {T R : Type} (E : Element T R) (debug : Bool) (M : Matrix)
    (buf : elem.Buffer T) (i j : Int) : Outcome (elem.Buffer T) :=
  Outcome.check buf (DEBUG_ONLY debug (M.AssertValidEntry i j)) <|
  Outcome.check buf (DEBUG_ONLY debug M.AssertNotLocked) <|
  Outcome.ok (Function.update buf (M.Buffer i j) (E.Conj (buf (M.Buffer i j))))

namespace AbstractDistMatrix

def MakeLocalReal {T R : Type} (E : Element T R) (debug : Bool) (A : AbstractDistMatrix)
    (buf : Buffer T) (iLoc jLoc : Int) : Outcome (Buffer T) :=
  A.matrix_.MakeReal E debug buf iLoc jLoc

def ConjugateLocal {T R : Type} (E : Element T R) (debug : Bool) (A : AbstractDistMatrix)
    (buf : Buffer T) (iLoc jLoc : Int) : Outcome (Buffer T) :=
  A.matrix_.Conjugate E debug buf iLoc jLoc

/-- The member `MakeDiagonalReal( offset )` as run by one process on its own
state: what it leaves of the buffer of the process.  The parameter `offset`
is not read by the body, as in the source. -/
def MakeDiagonalReal {T R : Type} (E : Element T R) (debug : Bool) (D : Overrides)
    (A : AbstractDistMatrix) (buf : Buffer T) (_offset : Int) : Outcome (Buffer T) :=
  let height := A.Height
  let width := A.Width
  let minDim := Min height width
  let localWidth := A.LocalWidth
  let rowShift := A.RowShift
  let rowStride := RowStride D A
  forLoop 0 localWidth (fun jLoc (o : Outcome (Buffer T)) => o.andThen fun buf =>
    let j := rowShift + jLoc * rowStride
    if j < minDim ∧ IsLocal D A j j = true then
      match LocalRow debug D A j with
      | Except.ok iLoc => MakeLocalReal E debug A buf iLoc jLoc
      | Except.error e => Outcome.throw buf e
    else Outcome.ok buf) (Outcome.ok buf)

/-- The member `ConjugateDiagonal( offset )` as run by one process on its own
state.  The parameter `offset` is not read by the body, as in the source. -/
def ConjugateDiagonal {T R : Type} (E : Element T R) (debug : Bool) (D : Overrides)
    (A : AbstractDistMatrix) (buf : Buffer T) (_offset : Int) : Outcome (Buffer T) :=
  let height := A.Height
  let width := A.Width
  let minDim := Min height width
  let localWidth := A.LocalWidth
  let rowShift := A.RowShift
  let rowStride := RowStride D A
  forLoop 0 localWidth (fun jLoc (o : Outcome (Buffer T)) => o.andThen fun buf =>
    let j := rowShift + jLoc * rowStride
    if j < minDim ∧ IsLocal D A j j = true then
      match LocalRow debug D A j with
      | Except.ok iLoc => ConjugateLocal E debug A buf iLoc jLoc
      | Except.error e => Outcome.throw buf e
    else Outcome.ok buf) (Outcome.ok buf)

end AbstractDistMatrix

/-- An empty [VR,*] matrix constructed with column alignment 3 on the 2 x 2 grid,
over buffers of zeros: a destination whose constrained alignment differs from
the alignment 1 of `vrSourceWorld`. -/
def vrRotatedDest : World Int :=
  constructedWorld true VR_STAR 2 2 0 0 3 0 0 (fun _ _ => 0)

namespace mpi

/-- What a process hands to `AllGather` for sending: the send buffer and the number
of entries. -/
structure Contribution (T : Type) where
  buf : Buffer T
  count : Int

/-- Modelled from the spec: `AllGather( sbuf, sc, rbuf, rc, comm )`: the output is
indexed by source rank, the contribution of the member of rank k lands at
position k*rc of the receive buffer.  `out m` is what the process at grid
coordinates `m` hands over when it enters the call (`none` when it does not
enter it); the collective completes when every member enters it with `rc`
entries. -/
def AllGather {T : Type} (out : Int × Int → Option (Contribution T)) (recvBuf : Buffer T)
    (recvCount : Int) (comm : Comm) : Option (Buffer T) :=
  forLoop 0 comm.size (fun k (acc : Option (Buffer T)) =>
    match acc, out (comm.member k) with
    | some b, some m =>
      if m.count = recvCount then some (MemCopy b (k * recvCount) m.buf 0 recvCount) else none
    | _, _ => none) (some recvBuf)

end mpi

end elem

namespace elemental

open elem

/-- Modelled from the spec: `MaxLocalLength(n, modulus)` is declared outside the
sources at hand: the largest local length, that of shift 0. -/
def MaxLocalLength (n modulus : Int) : Int := LocalLength n 0 modulus

/-- Modelled from the spec: the class `DistMatrixBase<T,MR,MC>` is defined outside
the sources at hand.  The members the [*,MC] sources read of it are those of
the common base class and the column alignment; its rows are distributed over
the mesh columns and its columns over the mesh rows. -/
structure DistMatrixBase_MR_MC extends DistMatrixBase where
  _colAlignment : Int
  _colShift : Int

def DistMatrixBase_MR_MC.ColAlignment (A : DistMatrixBase_MR_MC) : Int := A._colAlignment

namespace DistMatrixBase

/-- A process of [*,MC] <- [MR,MC] at the moment it enters `AllGather`: `*this` as
resized, the packed portion, the portion size and the column alignment of A. -/
structure Gathering (T : Type) where
  B : DistMatrixBase
  originalData : Buffer T
  portionSize : Int
  colAlignmentOfA : Int

/-- Where a process stands when it has run [*,MC] <- [MR,MC] up to the collective:
it has left the routine, it enters `AllGather` (equal row alignments), or it
takes the branch for unequal row alignments, which is not followed here. -/
inductive Stage (T : Type) where
  | left (o : Outcome (DistMatrixBase × Buffer T))
  | gather (g : Gathering T)
  | unaligned (B : DistMatrixBase)

/-- The assignment `operator=( const DistMatrixBase<T,MR,MC>& A )` of
`DistMatrixBase<T,Star,MC>` on one process, up to `AllGather`.  The constant
`MinCollectContrib` is defined outside the sources at hand and is a parameter;
`aux` is the auxiliary memory.  The `RELEASE` build packs column by column with
`memcpy`, the other build entry by entry through `GetLocalEntry`. -/
def assignMRMC.enter {T : Type} (debug : Bool) (MinCollectContrib : Int) (B : DistMatrixBase)
    (bufB : Buffer T) (A : DistMatrixBase_MR_MC) (bufA aux : Buffer T) : Stage T :=
  match DEBUG_ONLY debug (do
      B.AssertNotLockedView
      B.AssertSameGrid A.toDistMatrixBase
      if B.Viewing then
        B.AssertSameSize A.toDistMatrixBase) with
  | Except.error e => Stage.left (Outcome.throw (B, bufB) e)
  | Except.ok _ =>
    let g := B.GetGrid
    let resized :=
      if !B.Viewing then
        let B :=
          if !B._constrainedRowAlignment then
            let B := { B with _rowAlignment := A.RowAlignment }
            { B with _rowShift := Shift g.MCRank B.RowAlignment g.Height }
          else B
        B.ResizeTo debug A.Height A.Width
      else Outcome.ok B
    match resized.thrown with
    | some e => Stage.left (Outcome.throw (resized.state, bufB) e)
    | none =>
      let B := resized.state
      if B.RowAlignment = A.RowAlignment then
        let c := g.Width
        let height := B.Height
        let localWidth := B.LocalWidth
        let localHeightOfA := A.LocalHeight
        let maxLocalHeightOfA := MaxLocalLength height c
        let portionSize := max (maxLocalHeightOfA * localWidth) MinCollectContrib
        let packed : Outcome (Buffer T) :=
          if debug then
            forLoop 0 localWidth (fun j o =>
              forLoop 0 localHeightOfA (fun i o =>
                o.andThen fun s =>
                  match A.GetLocalEntry debug bufA i j with
                  | Except.ok v => Outcome.ok (Function.update s (i + j * localHeightOfA) v)
                  | Except.error e => Outcome.throw s e) o) (Outcome.ok aux)
          else
            Outcome.ok (forLoop 0 localWidth (fun j s =>
              MemCopy s (j * localHeightOfA) bufA (A.LockedLocalBuffer 0 j) localHeightOfA) aux)
        match packed.thrown with
        | some e => Stage.left (Outcome.throw (B, bufB) e)
        | none =>
          Stage.gather { B := B, originalData := packed.state, portionSize := portionSize,
                         colAlignmentOfA := A.ColAlignment }
      else Stage.unaligned B

/-- The "Unpack" loops that follow `AllGather`: for each contributor k the shift
and the local height are recomputed and its portion is scattered into the
rows colShift + i*c. -/
def assignMRMC.unpack {T : Type} (debug : Bool) (g : Gathering T) (bufB gatheredData : Buffer T) :
    Outcome (DistMatrixBase × Buffer T) :=
  let B := g.B
  let c := B.GetGrid.Width
  let height := B.Height
  let localWidth := B.LocalWidth
  let colAlignmentOfA := g.colAlignmentOfA
  let out := forLoop 0 c (fun k (o : Outcome (Buffer T)) =>
    let data := k * g.portionSize
    let colShift := Shift k colAlignmentOfA c
    let localHeight := LocalLength height colShift c
    forLoop 0 localWidth (fun j o =>
      forLoop 0 localHeight (fun i o =>
        o.andThen fun b =>
          B.SetLocalEntry debug b (colShift + i * c) j
            (gatheredData (data + (i + j * localHeight)))) o) o) (Outcome.ok bufB)
  { state := (B, out.state), thrown := out.thrown }

/-- The collective `B = A` for A distributed [MR,MC], on the process at `q`:
`gatheredData q` is the part of the auxiliary memory of the process that
receives.  `none`: the process takes the branch for unequal alignments, or
the all-gather over `g.MRComm()` does not complete. -/
def assignMRMC {T : Type} (debug : Bool) (MinCollectContrib : Int)
    (WB : Int × Int → DistMatrixBase × Buffer T)
    (WA : Int × Int → DistMatrixBase_MR_MC × Buffer T)
    (aux gatheredData : Int × Int → Buffer T) (q : Int × Int) :
    Option (Outcome (DistMatrixBase × Buffer T)) :=
  match assignMRMC.enter debug MinCollectContrib (WB q).1 (WB q).2 (WA q).1 (WA q).2 (aux q) with
  | Stage.left o => some o
  | Stage.unaligned _ => none
  | Stage.gather g =>
    match mpi.AllGather
        (fun m =>
          match assignMRMC.enter debug MinCollectContrib (WB m).1 (WB m).2 (WA m).1 (WA m).2
              (aux m) with
          | Stage.gather gm => some { buf := gm.originalData, count := gm.portionSize }
          | _ => none)
        (gatheredData q) g.portionSize g.B.GetGrid.MRComm with
    | some gathered => some (assignMRMC.unpack debug g (WB q).2 gathered)
    | none => none

end DistMatrixBase

/-- What the redistribution assumes of the source, a H x Wd [MR,MC] matrix with
alignments (aC, aR) on an r x c grid: every process sees its own grid
coordinates, holds the shifts of its mesh column and mesh row, and a local
matrix of the size its distribution prescribes. -/
def MrMcStored {T : Type} (WA : Int × Int → DistMatrixBase_MR_MC × Buffer T)
    (r c H Wd aC aR : Int) : Prop :=
  ∀ q : Int × Int, 0 ≤ q.1 → q.1 < r → 0 ≤ q.2 → q.2 < c →
    (WA q).1._grid = procGrid r c q.1 q.2 ∧ (WA q).1._height = H ∧ (WA q).1._width = Wd ∧
    (WA q).1._colAlignment = aC ∧ (WA q).1._rowAlignment = aR ∧
    (WA q).1._colShift = Shift q.2 aC c ∧ (WA q).1._rowShift = Shift q.1 aR r ∧
    (WA q).1._localMatrix.height_ = LocalLength H (Shift q.2 aC c) c ∧
    (WA q).1._localMatrix.width_ = LocalLength Wd (Shift q.1 aR r) r

/-- What the redistribution assumes of the destination: every process sees its own
grid coordinates and holds an owner that is not a view, whose row alignment is
free or is already aR with the shift of its mesh row. -/
def StarMcDest {T : Type} (WB : Int × Int → DistMatrixBase × Buffer T) (r c aR : Int) : Prop :=
  ∀ q : Int × Int, 0 ≤ q.1 → q.1 < r → 0 ≤ q.2 → q.2 < c →
    (WB q).1._grid = procGrid r c q.1 q.2 ∧ (WB q).1._viewing = false ∧
    (WB q).1._localMatrix.viewType_ = ViewType.OWNER ∧
    ((WB q).1._constrainedRowAlignment = false ∨
      ((WB q).1._rowAlignment = aR ∧ (WB q).1._rowShift = Shift q.1 aR r))

/-- A 5 x 3 [MR,MC] matrix with column alignment 1 and row alignment 0 on the
2 x 2 grid; the process at (a,b) stores its local matrix with leading dimension
4 from position 1 of a buffer that holds 1000*a + 100*b + k at position k. -/
def mrMcSource (q : Int × Int) : DistMatrixBase_MR_MC × Buffer Int :=
  ({ _viewing := false, _lockedView := false, _height := 5, _width := 3,
     _constrainedRowAlignment := false, _rowAlignment := 0, _rowShift := Shift q.1 0 2,
     _localMatrix := { viewType_ := ViewType.OWNER,
                       height_ := LocalLength 5 (Shift q.2 1 2) 2,
                       width_ := LocalLength 3 (Shift q.1 0 2) 2, ldim_ := 4, data_ := 1,
                       memorySize_ := 8 },
     _grid := procGrid 2 2 q.1 q.2, _colAlignment := 1, _colShift := Shift q.2 1 2 },
   fun k => 1000 * q.1 + 100 * q.2 + k)

/-- A fresh [*,MC] matrix on every process of the 2 x 2 grid, over buffers of
zeros: the destination of the assignment. -/
def starMcFresh (q : Int × Int) : DistMatrixBase × Buffer Int :=
  (DistMatrixBase.new (procGrid 2 2 q.1 q.2), fun _ => 0)

end elemental

namespace elem

open AbstractDistMatrix

/-! ## LQ factorization (`include/elemental/lapack-like/factor/LQ.hpp`,
`LQ/PanelHouseholder.hpp`, `tests/lapack-like/LQ.cpp`)

The scalars are those of a commutative ring with the conjugation `Conj` as a
parameter, so the arithmetic is exact. In this section a local matrix is
given by its entries as a function of the row and column index, and a view is
a window of rows and columns of the same entries. -/

namespace lq

/-- The entries of a local matrix as a function of the row and column index. -/
abbrev Entries (F : Type) := Int → Int → F

/-- Modelled from the spec: the view `ViewRange( A, i0, j0, i1, j1 )` of rows
[i0,i1) and columns [j0,j1) of a matrix; the header that defines it is absent. -/
structure Range where
  i0 : Int
  j0 : Int
  i1 : Int
  j1 : Int
  deriving DecidableEq, Repr

namespace Range

def Height (V : Range) : Int := V.i1 - V.i0
def Width (V : Range) : Int := V.j1 - V.j0

/-- Entry (i,j) of the view: entry (i0+i, j0+j) of the viewed matrix. -/
def Get {F : Type} (V : Range) (A : Entries F) (i j : Int) : F := A (V.i0 + i) (V.j0 + j)

/-- Writing entry (i,j) of the view writes the viewed matrix. -/
def Set {F : Type} (V : Range) (A : Entries F) (i j : Int) (x : F) : Entries F :=
  fun a b => if a = V.i0 + i ∧ b = V.j0 + j then x else A a b

/-- Overwriting the whole view with the entries `X` writes the viewed matrix. -/
def Put {F : Type} (V : Range) (A : Entries F) (X : Entries F) : Entries F :=
  fun a b => if V.i0 ≤ a ∧ a < V.i1 ∧ V.j0 ≤ b ∧ b < V.j1 then X (a - V.i0) (b - V.j0)
    else A a b

end Range

/-- Modelled from the spec: `Gemv( NORMAL, alpha, A, x, beta, y )` of the absent
BLAS-like header: `y := alpha A x + beta y` for a matrix with `width` columns,
the sum taken column by column. -/
def Gemv {F : Type} [CommRing F] (alpha : F) (width : Int) (A : Entries F) (x : Int → F)
    (beta : F) (y : Int → F) : Int → F :=
  fun i => alpha * forLoop 0 width (fun j acc => acc + A i j * x j) 0 + beta * y i

/-- Modelled from the spec: `Ger( alpha, x, y, A )` of the absent BLAS-like
header: the conjugated rank-one update `A := A + alpha x y^H`. -/
def Ger {F : Type} [CommRing F] (Conj : F → F) (alpha : F) (x y : Int → F) (A : Entries F) :
    Entries F :=
  fun i j => A i j + alpha * x i * Conj (y j)

/-- Modelled from the spec: what `RightReflector( alpha11, a12 )` of the absent
reflector header produces: the returned coefficient `tau`, the value `beta`
it leaves in `alpha11` and the vector `v` it leaves in `a12`. -/
structure Reflection (F : Type) where
  tau : F
  beta : F
  v : Int → F

/-- Modelled from the spec: the contract of `RightReflector` as the comment in
`lq::PanelHouseholder` states it, for the row `x = |alpha11 a12|` of `width`
entries: with `u = |1 v|`, `x (I - tau u^T conj(u)) = |beta 0|`, and the
transform is a Householder transform, that is, `I - conj(tau) u^T conj(u)`
undoes it: `tau + conj(tau) = tau conj(tau) (conj(u) u^T)`. -/
def Reflection.Valid {F : Type} [CommRing F] (Conj : F → F) (width : Int) (x : Int → F)
    (r : Reflection F) : Prop :=
  let u : Int → F := fun j => if j = 0 then 1 else r.v (j - 1)
  (∀ j, 0 ≤ j → j < width →
    x j - r.tau * forLoop 0 width (fun l acc => acc + x l * u l) 0 * Conj (u j)
      = if j = 0 then r.beta else 0) ∧
  r.tau + Conj r.tau
    = r.tau * Conj r.tau * forLoop 0 width (fun l acc => acc + Conj (u l) * u l) 0

/-- One iteration (index k) of the loop of `lq::PanelHouseholder( Matrix<F>& A, Matrix<F>& t )`;
`RightReflector` is a parameter. -/
def PanelHouseholder.body {F : Type} [CommRing F] (Conj : F → F)
    (RightReflector : F → (Int → F) → Int → Reflection F) (m n k : Int)
    (s : Entries F × (Int → F)) : Entries F × (Int → F) :=
  let A := s.1
  let t := s.2
  let alpha11 : Range := ⟨k, k, k + 1, k + 1⟩
  let a12 : Range := ⟨k, k + 1, k + 1, n⟩
  let a1R : Range := ⟨k, k, k + 1, n⟩
  let A2R : Range := ⟨k + 1, k, m, n⟩
  let r := RightReflector (alpha11.Get A 0 0) (fun j => a12.Get A 0 j) a12.Width
  let A := a12.Put (alpha11.Set A 0 0 r.beta) (fun _ j => r.v j)
  let tau := r.tau
  let t := fun i => if i = k then tau else t i
  let alpha := alpha11.Get A 0 0
  let A := alpha11.Set A 0 0 1
  let z21 : Int → F := fun _ => 0
  let z21 := Gemv 1 A2R.Width (A2R.Get A) (fun j => a1R.Get A 0 j) 0 z21
  let A := A2R.Put A (Ger Conj (-tau) z21 (fun j => a1R.Get A 0 j) (A2R.Get A))
  let A := alpha11.Set A 0 0 alpha
  (A, t)

/-- The unblocked `lq::PanelHouseholder( Matrix<F>& A, Matrix<F>& t )` on an m x n
matrix: the overwritten A and the coefficients t. -/
def PanelHouseholder {F : Type} [CommRing F] (Conj : F → F)
    (RightReflector : F → (Int → F) → Int → Reflection F) (m n : Int) (A : Entries F)
    (t : Int → F) : Entries F × (Int → F) :=
  let minDim := Min m n
  forLoop 0 minDim (PanelHouseholder.body Conj RightReflector m n) (A, t)

/-- Modelled from the spec: `lq::Householder( A, t )`, whose header is absent: the
factorization the unblocked panel routine computes on the whole matrix. -/
def Householder {F : Type} [CommRing F] (Conj : F → F)
    (RightReflector : F → (Int → F) → Int → Reflection F) (m n : Int) (A : Entries F)
    (t : Int → F) : Entries F × (Int → F) :=
  PanelHouseholder Conj RightReflector m n A t

/-- Modelled from the spec: `lq::ApplyQ( RIGHT, NORMAL, A, t, B )`, whose header is
absent: B := B Q for the Q accumulated by the factorization, the reflectors
read from above the diagonal of A with an implicit unit diagonal and the
coefficients from t, applied from the last to the first, each as
`B_R := B_R - conj(tau) (B_R u^T) conj(u)` on the columns from k on;
`height` is the number of rows of B. -/
def ApplyQ {F : Type} [CommRing F] (Conj : F → F) (m n : Int) (A : Entries F) (t : Int → F)
    (height : Int) (B : Entries F) : Entries F :=
  forDown (Min m n).toNat (fun k B =>
    let u : Int → F := fun j => if j = 0 then 1 else A k (k + j)
    let BR : Range := ⟨0, k, height, n⟩
    let z := Gemv 1 BR.Width (BR.Get B) u 0 (fun _ => 0)
    BR.Put B (Ger Conj (-(Conj (t k))) z u (BR.Get B))) B

end lq

/-- `LQ( Matrix<F>& A, Matrix<F>& t )`. -/
def LQ {F : Type} [CommRing F] (Conj : F → F)
    (RightReflector : F → (Int → F) → Int → lq.Reflection F) (m n : Int) (A : lq.Entries F)
    (t : Int → F) : lq.Entries F × (Int → F) :=
  lq.Householder Conj RightReflector m n A t

namespace lq

/-- The matrix and the coefficients after the first k iterations of the loop of
`lq::PanelHouseholder`. -/
def PanelHouseholder.after {F : Type} [CommRing F] (Conj : F → F)
    (RightReflector : F → (Int → F) → Int → Reflection F) (m n : Int) (A : Entries F)
    (t : Int → F) (k : Int) : Entries F × (Int → F) :=
  forLoop 0 k (PanelHouseholder.body Conj RightReflector m n) (A, t)

/-- The row `|alpha11 a12|` that iteration k of `lq::PanelHouseholder` hands to
`RightReflector`. -/
def PanelHouseholder.row {F : Type} [CommRing F] (Conj : F → F)
    (RightReflector : F → (Int → F) → Int → Reflection F) (m n : Int) (A : Entries F)
    (t : Int → F) (k : Int) : Int → F :=
  fun j => (PanelHouseholder.after Conj RightReflector m n A t k).1 k (k + j)

/-- What `RightReflector` returns in iteration k of `lq::PanelHouseholder`. -/
def PanelHouseholder.reflection {F : Type} [CommRing F] (Conj : F → F)
    (RightReflector : F → (Int → F) → Int → Reflection F) (m n : Int) (A : Entries F)
    (t : Int → F) (k : Int) : Reflection F :=
  let S := (PanelHouseholder.after Conj RightReflector m n A t k).1
  RightReflector (S k k) (fun j => S k (k + 1 + j)) (n - (k + 1))

/-- The matrix the first k reflectors have made of A: the stored entries after k
iterations, with zero in place of the reflector vectors kept above the
diagonal of the rows already reduced. -/
def PanelHouseholder.reduced {F : Type} [CommRing F] (Conj : F → F)
    (RightReflector : F → (Int → F) → Int → Reflection F) (m n : Int) (A : Entries F)
    (t : Int → F) (k : Int) : Entries F :=
  fun i j => if i < k ∧ i < j then 0
    else (PanelHouseholder.after Conj RightReflector m n A t k).1 i j

end lq

namespace lq

/-- A local matrix that holds the m x n entries `A`, stored column-major with
leading dimension max(m,1) from position 0 of its buffer. -/
def Entries.store {F : Type} (m n : Int) (A : Entries F) : Matrix × Buffer F :=
  ({ viewType_ := ViewType.OWNER, height_ := m, width_ := n, ldim_ := max m 1, data_ := 0,
     memorySize_ := max m 1 * n },
   fun p => A (p % max m 1) (p / max m 1))

/-- The entries of a stored local matrix. -/
def Entries.ofStored {F : Type} (M : Matrix × Buffer F) : Entries F :=
  fun i j => M.2 (M.1.Buffer i j)

/-- The product `TestCorrectness` of `tests/lapack-like/LQ.cpp` forms from the
factored A and t: `auto L( A ); MakeTriangular( LOWER, L );
lq::ApplyQ( RIGHT, NORMAL, A, t, L );`. -/
def FormLQ {F : Type} [CommRing F] (Conj : F → F) (m n : Int) (A : Entries F) (t : Int → F) :
    Entries F :=
  let L := Entries.store m n A
  let L := MakeTriangular UpperOrLower.LOWER L.1 L.2
  ApplyQ Conj m n A t m (Entries.ofStored L)

/-- A reflector oracle on the integers, right on the rows it is used on below:
for a row |0 b 0 ... 0| the exchange of the first two entries with a change
of sign (tau = 1, v = |1 0 ... 0|), otherwise the identity (tau = 0). -/
def exampleReflector (alpha11 : Int) (a12 : Int → Int) (_width : Int) : Reflection Int :=
  if alpha11 = 0 then { tau := 1, beta := -(a12 0), v := fun j => if j = 0 then 1 else 0 }
  else { tau := 0, beta := alpha11, v := fun _ => 0 }

/-- The 2 x 3 integer matrix with rows |0 4 0| and |0 5 7|. -/
def exampleA : Entries Int :=
  fun i j => if i = 0 then (if j = 1 then 4 else 0)
    else if i = 1 then (if j = 1 then 5 else if j = 2 then 7 else 0) else 0

end lq

end elem

/-! # Theorems -/

namespace elem

open AbstractDistMatrix

/-! ## Arithmetic of the cyclic distribution -/

theorem tmod_eq_zero_iff_dvd (a b : Int) : a.tmod b = 0 ↔ b ∣ a :=
  ⟨Int.dvd_of_tmod_eq_zero, Int.tmod_eq_zero_of_dvd⟩

/-- Index `i` is congruent to the shift of the process of rank `rank` exactly when
that rank is the owner `(i + align) % stride`. -/
theorem shift_local_iff_owner (stride rank align i : Int) (hs : 1 ≤ stride)
    (hr0 : 0 ≤ rank) (hr1 : rank < stride) (hi : 0 ≤ i) (ha : 0 ≤ align) :
    (i - (rank - align) % stride).tmod stride = 0 ↔ rank = (i + align).tmod stride := by
  rw [tmod_eq_zero_iff_dvd, Int.tmod_eq_emod (by omega) (by omega), Int.dvd_iff_emod_eq_zero,
    ← Int.emod_eq_emod_iff_emod_sub_eq_zero, Int.emod_emod_of_dvd _ (dvd_refl stride),
    Int.emod_eq_emod_iff_emod_sub_eq_zero]
  have e : i - (rank - align) = (i + align) - rank := by ring
  rw [e, ← Int.emod_eq_emod_iff_emod_sub_eq_zero, Int.emod_eq_of_lt hr0 hr1]
  exact eq_comm

theorem owner_tmod_range (stride align i : Int) (hs : 1 ≤ stride) (hi : 0 ≤ i)
    (ha : 0 ≤ align) :
    (i + align).tmod stride = (i + align) % stride ∧ 0 ≤ (i + align).tmod stride ∧
      (i + align).tmod stride < stride := by
  rw [Int.tmod_eq_emod (by omega) (by omega)]
  exact ⟨rfl, Int.emod_nonneg _ (by omega), Int.emod_lt_of_pos _ (by omega)⟩

/-! ## C1: ownership uniqueness -/

/-- C1 (ownership uniqueness).  For strides sc, sr >= 1, alignments in range and a
global index (i, j) with i, j >= 0, the process at coordinate
(RowOwner(i), ColOwner(j)) = ((i + ca) mod sc, (j + ra) mod sr) lies in
[0,sc) x [0,sr) and satisfies IsLocal(i, j); no other coordinate in range does;
and Owner(i, j), evaluated on any process, is rc + rr*sc for that coordinate,
a value computed from (i, j, alignments, strides) alone. -/
theorem ownership_unique (D : Overrides) (A : Int → Int → AbstractDistMatrix)
    (sc sr ca ra i j : Int) (hsc : 1 ≤ sc) (hsr : 1 ≤ sr)
    (hca : 0 ≤ ca ∧ ca < sc) (hra : 0 ≤ ra ∧ ra < sr) (hi : 0 ≤ i) (hj : 0 ≤ j)
    (hA : OwnershipSetup D A sc sr ca ra) :
    ∃ rc rr, (0 ≤ rc ∧ rc < sc ∧ 0 ≤ rr ∧ rr < sr) ∧
      IsLocal D (A rc rr) i j = true ∧
      (∀ rc2 rr2, 0 ≤ rc2 → rc2 < sc → 0 ≤ rr2 → rr2 < sr →
        IsLocal D (A rc2 rr2) i j = true → rc2 = rc ∧ rr2 = rr) ∧
      rc = (i + ca) % sc ∧ rr = (j + ra) % sr ∧
      (∀ rc2 rr2, 0 ≤ rc2 → rc2 < sc → 0 ≤ rr2 → rr2 < sr →
        RowOwner D (A rc2 rr2) i = rc ∧ ColOwner D (A rc2 rr2) j = rr ∧
        Owner D (A rc2 rr2) i j = rc + rr * sc) := by
  obtain ⟨eR, hR0, hR1⟩ := owner_tmod_range sc ca i hsc hi hca.1
  obtain ⟨eC, hC0, hC1⟩ := owner_tmod_range sr ra j hsr hj hra.1
  have key : ∀ rc2 rr2, 0 ≤ rc2 → rc2 < sc → 0 ≤ rr2 → rr2 < sr →
      (IsLocal D (A rc2 rr2) i j = true ↔
        rc2 = (i + ca).tmod sc ∧ rr2 = (j + ra).tmod sr) := by
    intro rc2 rr2 h1 h2 h3 h4
    obtain ⟨hP, hcs, hrs, -, -, hsh, hsh2⟩ := hA rc2 rr2 h1 h2 h3 h4
    simp only [IsLocal, IsLocalRow, IsLocalCol, hP, hcs, hrs, hsh, hsh2, Bool.true_and,
      Bool.and_eq_true, beq_iff_eq]
    rw [shift_local_iff_owner sc rc2 ca i hsc h1 h2 hi hca.1,
      shift_local_iff_owner sr rr2 ra j hsr h3 h4 hj hra.1]
  refine ⟨(i + ca).tmod sc, (j + ra).tmod sr, ⟨hR0, hR1, hC0, hC1⟩, ?_, ?_, eR, eC, ?_⟩
  · exact (key _ _ hR0 hR1 hC0 hC1).2 ⟨rfl, rfl⟩
  · intro rc2 rr2 h1 h2 h3 h4 h
    exact (key rc2 rr2 h1 h2 h3 h4).1 h
  · intro rc2 rr2 h1 h2 h3 h4
    obtain ⟨-, hcs, hrs, hca2, hra2, -, -⟩ := hA rc2 rr2 h1 h2 h3 h4
    simp only [Owner, RowOwner, ColOwner, hcs, hrs, hca2, hra2, and_self]

theorem ownershipExample_setup : OwnershipSetup MC_MR ownershipExample 2 3 1 2 := by
  intro rc rr _ _ _ _
  simp [ownershipExample, SetShifts, Participating, CrossRank, ColStride, RowStride, ColRank,
    RowRank, ColAlign, RowAlign, ColShift, RowShift, MC_MR, procGrid, AbstractDistMatrix.new,
    Grid.InGrid, Grid.COMM_SELF, Grid.MCComm, Grid.MRComm, Grid.Height, Grid.Width,
    Grid.MCRank, Grid.MRRank, mpi.CommRank, Shift]

theorem ownership_unique_witness :
    ∃ rc rr, (0 ≤ rc ∧ rc < 2 ∧ 0 ≤ rr ∧ rr < 3) ∧
      IsLocal MC_MR (ownershipExample rc rr) 4 5 = true ∧
      (∀ rc2 rr2, 0 ≤ rc2 → rc2 < 2 → 0 ≤ rr2 → rr2 < 3 →
        IsLocal MC_MR (ownershipExample rc2 rr2) 4 5 = true → rc2 = rc ∧ rr2 = rr) ∧
      rc = (4 + 1) % 2 ∧ rr = (5 + 2) % 3 ∧
      (∀ rc2 rr2, 0 ≤ rc2 → rc2 < 2 → 0 ≤ rr2 → rr2 < 3 →
        RowOwner MC_MR (ownershipExample rc2 rr2) 4 = rc ∧
        ColOwner MC_MR (ownershipExample rc2 rr2) 5 = rr ∧
        Owner MC_MR (ownershipExample rc2 rr2) 4 5 = rc + rr * 2) :=
  ownership_unique MC_MR ownershipExample 2 3 1 2 4 5 (by decide) (by decide)
    (by decide) (by decide) (by decide) (by decide) ownershipExample_setup

/-! ## Local indices of an owned entry -/

/-- On the process whose shift `sh` is congruent to `i`, the local index
`(i - sh) / s` that the accessors compute lies inside the local length. -/
theorem localIndex_bounds (n s sh i : Int) (hs : 1 ≤ s) (hsh : 0 ≤ sh ∧ sh < s)
    (hi : 0 ≤ i) (hin : i < n) (hloc : (i - sh).tmod s = 0) :
    0 ≤ (i - sh).tdiv s ∧ (i - sh).tdiv s < Length n sh s ∧
      sh + (i - sh).tdiv s * s = i := by
  obtain ⟨k, hk⟩ := (tmod_eq_zero_iff_dvd _ _).1 hloc
  have hspos : 0 < s := by omega
  have hk0 : 0 ≤ k := by
    by_contra hneg
    have : k ≤ -1 := by omega
    have : s * k ≤ s * (-1) := Int.mul_le_mul_of_nonneg_left this (by omega)
    omega
  have hge : 0 ≤ i - sh := by rw [hk]; exact Int.mul_nonneg (by omega) hk0
  have hdiv : (i - sh).tdiv s = k := by
    rw [Int.tdiv_eq_ediv hge (by omega), hk, Int.mul_ediv_cancel_left _ (by omega)]
  rw [hdiv]
  refine ⟨hk0, ?_, ?_⟩
  · unfold Length
    have : (sh - n) / s < -k := by
      rw [Int.ediv_lt_iff_lt_mul hspos]
      have : -k * s = -(s * k) := by ring
      omega
    omega
  · have : k * s = s * k := by ring
    omega

/-! ## C2: Get/Set consistency -/

theorem matrix_set_ok {T : Type} (debug : Bool) (M : Matrix) (buf : Buffer T) (i j : Int)
    (alpha : T) (hv : M.AssertValidEntry i j = Except.ok ()) (hl : M.Locked = false) :
    M.Set debug buf i j alpha = Outcome.ok (Function.update buf (M.Buffer i j) alpha) := by
  cases debug <;>
    simp [Matrix.Set, DEBUG_ONLY, Outcome.check, Matrix.AssertNotLocked, hv, hl]

theorem matrix_get_ok {T : Type} (debug : Bool) (M : Matrix) (buf : Buffer T) (i j : Int)
    (hv : M.AssertValidEntry i j = Except.ok ()) :
    M.Get debug buf i j = Except.ok (buf (M.Buffer i j)) := by
  cases debug <;> simp [Matrix.Get, DEBUG_ONLY, hv, bind, Except.bind, pure, Except.pure]

theorem setAll_fst {T : Type} (debug : Bool) (D : Overrides) (W : World T) (i j : Int) (v : T)
    (q : Int × Int) : (SetAll debug D W i j v q).1 = (W q).1 := rfl

theorem scenarioWorld_fst (q : Int × Int) :
    (scenarioWorld q).1 =
      { viewType_ := ViewType.OWNER, height_ := 4, width_ := 4,
        matrix_ := { viewType_ := ViewType.OWNER, height_ := Length 4 (Shift q.1 0 2) 2,
                     width_ := Length 4 (Shift q.2 0 2) 2,
                     ldim_ := max (Length 4 (Shift q.1 0 2) 2) 1, data_ := 0,
                     memorySize_ := max (Length 4 (Shift q.1 0 2) 2) 1 *
                       Length 4 (Shift q.2 0 2) 2 },
        colConstrained_ := false, rowConstrained_ := false, colAlign_ := 0, rowAlign_ := 0,
        colShift_ := Shift q.1 0 2, rowShift_ := Shift q.2 0 2, root_ := 0,
        grid_ := procGrid 2 2 q.1 q.2 } := by
  simp [scenarioWorld, DistMatrix.new, Resize, SetShifts, AbstractDistMatrix.new, Participating,
    CrossRank, MC_MR, Grid.COMM_SELF, Grid.InGrid, procGrid, mpi.CommRank, AssertNotLocked,
    Locked, IsLocked, ColRank, RowRank, ColStride, RowStride, Grid.MCComm, Grid.MRComm,
    Grid.MCRank, Grid.MRRank, Grid.Height, Grid.Width, ColShift, RowShift, Matrix.Resize_,
    Matrix.Viewing, Matrix.empty, IsViewing, DEBUG_ONLY, Outcome.check, Outcome.ok]

theorem scenarioWorld_snd (q : Int × Int) : (scenarioWorld q).2 = fun _ => 0 := rfl

/-- The scenario of the spec: on the 2 x 2 grid, Set(2,1,7) on the 4 x 4 [MC,MR]
matrix with zero alignments writes 7 at local index (1,0) of the process at
mesh row 0, mesh column 1, and nowhere else. -/
theorem scenario_set_frame (a b : Int) (ha : a = 0 ∨ a = 1) (hb : b = 0 ∨ b = 1) :
    (SetAll true MC_MR scenarioWorld 2 1 7 (a, b)).1 = (scenarioWorld (a, b)).1 ∧
    (SetAll true MC_MR scenarioWorld 2 1 7 (a, b)).2 =
      if a = 0 ∧ b = 1 then
        Function.update (fun _ => 0) ((scenarioWorld (a, b)).1.matrix_.Buffer 1 0) 7
      else fun _ => 0 := by
  refine ⟨setAll_fst _ _ _ _ _ _ _, ?_⟩
  rcases ha with rfl | rfl <;> rcases hb with rfl | rfl <;>
    simp [SetAll, AbstractDistMatrix.Set, SetLocal, Matrix.Set, Matrix.AssertValidEntry,
      Matrix.Locked, IsLocked, Matrix.Buffer, scenarioWorld_fst, scenarioWorld_snd, MC_MR,
      procGrid, CrossRank, DistRank, Owner, RowOwner, ColOwner, ColStride, RowStride, Root,
      ColAlign, RowAlign, ColShift, RowShift, Grid.COMM_SELF, Grid.VCComm, Grid.VCRank,
      Grid.Height, Grid.Width, mpi.CommRank, Shift, Length, DEBUG_ONLY, Outcome.check,
      Outcome.ok, Matrix.AssertNotLocked, Int.tmod, Int.tdiv]

/-- In the older [*,MC] sources, built with the checks, an out-of-bounds (i,j) makes
`Set` and `Get` throw before anything else happens. -/
theorem star_mc_out_of_bounds {T : Type} (A : elemental.DistMatrixBase) (buf : Buffer T)
    (W : Int × Int → elemental.DistMatrixBase × Buffer T) (q : Int × Int) (i j : Int) (u : T)
    (h : i < 0 ∨ i ≥ A.Height ∨ j < 0 ∨ j ≥ A.Width)
    (hq : i < 0 ∨ i ≥ (W q).1.Height ∨ j < 0 ∨ j ≥ (W q).1.Width) :
    elemental.DistMatrixBase.Set true A buf i j u =
        Outcome.throw buf (Error.LogicError "Entry is out of bounds of matrix") ∧
      elemental.DistMatrixBase.Get true W i j q =
        Except.error (Error.LogicError "Entry is out of bounds of matrix") := by
  constructor
  · simp [elemental.DistMatrixBase.Set, elemental.DistMatrixBase.AssertValidEntry, h,
      DEBUG_ONLY, Outcome.check]
  · simp [elemental.DistMatrixBase.Get, elemental.DistMatrixBase.AssertValidEntry, hq,
      DEBUG_ONLY, bind, Except.bind]

/-- C4, the code at the failing input.  `AbstractDistMatrix::Set(-1, 0, 7)` on the
4 x 4 [MC,MR] matrix of the 2 x 2 scenario, built with the checks: on each of
the four processes the call returns normally, with the buffer as it was; no
bounds violation is raised. -/
theorem set_out_of_bounds_returns :
    AbstractDistMatrix.Set true MC_MR (scenarioWorld (0, 0)).1 (scenarioWorld (0, 0)).2 (-1) 0 7
        = Outcome.ok (scenarioWorld (0, 0)).2 ∧
      AbstractDistMatrix.Set true MC_MR (scenarioWorld (0, 1)).1 (scenarioWorld (0, 1)).2 (-1) 0 7
        = Outcome.ok (scenarioWorld (0, 1)).2 ∧
      AbstractDistMatrix.Set true MC_MR (scenarioWorld (1, 0)).1 (scenarioWorld (1, 0)).2 (-1) 0 7
        = Outcome.ok (scenarioWorld (1, 0)).2 ∧
      AbstractDistMatrix.Set true MC_MR (scenarioWorld (1, 1)).1 (scenarioWorld (1, 1)).2 (-1) 0 7
        = Outcome.ok (scenarioWorld (1, 1)).2 ∧
      AssertValidEntry (scenarioWorld (0, 0)).1 (-1) 0 =
        Except.error (Error.LogicError "Entry is out of bounds of matrix") := by
  have e : (-1 : Int).tmod 2 = -1 := by decide
  have e0 : (0 : Int).tmod 2 = 0 := by decide
  refine ⟨?_, ?_, ?_, ?_, ?_⟩ <;>
    simp [e, e0, AbstractDistMatrix.Set, AssertValidEntry, scenarioWorld_fst, scenarioWorld_snd, MC_MR,
      procGrid, CrossRank, DistRank, Owner, RowOwner, ColOwner, ColStride, RowStride, Root,
      ColAlign, RowAlign, Height, Width, Grid.COMM_SELF, Grid.VCComm, Grid.VCRank, Grid.Height,
      Grid.Width, mpi.CommRank]

/-! ## C5, C6: Resize -/

/-- For a positive stride the embedded `Length` is the spec's
`max(0, ceil((n - shift)/stride))`, the ceiling taken of the rational quotient. -/
theorem Length_eq_ceil (n sh s : Int) (hs : 0 < s) :
    Length n sh s = max 0 ⌈((n - sh : ℤ) : ℚ) / (s : ℚ)⌉ := by
  unfold Length
  congr 1
  obtain ⟨k, rfl⟩ := Int.eq_ofNat_of_zero_le hs.le
  have h : ((n - sh : ℤ) : ℚ) / ((k : ℤ) : ℚ) = -(((sh - n : ℤ) : ℚ) / ((k : ℕ) : ℚ)) := by
    push_cast
    ring
  rw [h, Int.ceil_neg, Rat.floor_intCast_div_natCast]

/-- C5.  Resize(H, W) on a matrix that is not a locked view returns normally with
Height() = H and Width() = W; on a participating process
LocalHeight() = max(0, ceil((H - colShift)/colStride)) and
LocalWidth() = max(0, ceil((W - rowShift)/rowStride)); on a non-participating
process the local matrix is the one before the call; alignments, constraint
flags, shifts, root, grid and view type are unchanged. -/
theorem resize_spec (debug : Bool) (D : Overrides) (A : AbstractDistMatrix) (H W : Int)
    (hl : A.Locked = false) (hcs : 0 < ColStride D A) (hrs : 0 < RowStride D A) :
    ∃ B, Resize debug D A H W = Outcome.ok B ∧
      B.Height = H ∧ B.Width = W ∧
      (Participating D A = true →
        B.LocalHeight = max 0 ⌈((H - A.ColShift : ℤ) : ℚ) / (ColStride D A : ℚ)⌉ ∧
        B.LocalWidth = max 0 ⌈((W - A.RowShift : ℤ) : ℚ) / (RowStride D A : ℚ)⌉) ∧
      (Participating D A = false → B.matrix_ = A.matrix_) ∧
      B.ColAlign = A.ColAlign ∧ B.RowAlign = A.RowAlign ∧
      B.ColConstrained = A.ColConstrained ∧ B.RowConstrained = A.RowConstrained ∧
      B.ColShift = A.ColShift ∧ B.RowShift = A.RowShift ∧
      B.Root = A.Root ∧ B.grid_ = A.grid_ ∧ B.viewType_ = A.viewType_ := by
  have hP : Participating D { A with height_ := H, width_ := W } = Participating D A := rfl
  cases hp : Participating D A
  · refine ⟨{ A with height_ := H, width_ := W }, ?_, rfl, rfl, ?_, ?_, rfl, rfl, rfl, rfl,
      rfl, rfl, rfl, rfl, rfl⟩
    · cases debug <;>
        simp [Resize, AssertNotLocked, DEBUG_ONLY, Outcome.check, hl, hP, hp]
    · intro h
      cases h
    · intro _
      rfl
  · refine ⟨{ A with height_ := H, width_ := W,
                     matrix_ := A.matrix_.Resize_ (Length H A.ColShift (ColStride D A))
                       (Length W A.RowShift (RowStride D A)) }, ?_, rfl, rfl, ?_, ?_, rfl, rfl,
      rfl, rfl, rfl, rfl, rfl, rfl, rfl⟩
    · cases debug <;>
        simp [Resize, AssertNotLocked, DEBUG_ONLY, Outcome.check, hl, hP, hp,
          ColShift, RowShift, ColStride, RowStride]
    · intro _
      rw [← Length_eq_ceil _ _ _ hcs, ← Length_eq_ceil _ _ _ hrs]
      constructor <;>
        (simp only [LocalHeight, LocalWidth, Matrix.Height, Matrix.Width, Matrix.Resize_]
         split <;> rfl)
    · intro h
      cases h

theorem resize_spec_witness :
    ∃ B, Resize true VR_STAR vrExample 5 3 = Outcome.ok B ∧
      B.Height = 5 ∧ B.Width = 3 ∧
      (Participating VR_STAR vrExample = true →
        B.LocalHeight =
          max 0 ⌈((5 - vrExample.ColShift : ℤ) : ℚ) / (ColStride VR_STAR vrExample : ℚ)⌉ ∧
        B.LocalWidth =
          max 0 ⌈((3 - vrExample.RowShift : ℤ) : ℚ) / (RowStride VR_STAR vrExample : ℚ)⌉) ∧
      (Participating VR_STAR vrExample = false → B.matrix_ = vrExample.matrix_) ∧
      B.ColAlign = vrExample.ColAlign ∧ B.RowAlign = vrExample.RowAlign ∧
      B.ColConstrained = vrExample.ColConstrained ∧
      B.RowConstrained = vrExample.RowConstrained ∧
      B.ColShift = vrExample.ColShift ∧ B.RowShift = vrExample.RowShift ∧
      B.Root = vrExample.Root ∧ B.grid_ = vrExample.grid_ ∧
      B.viewType_ = vrExample.viewType_ :=
  resize_spec true VR_STAR vrExample 5 3 (by decide) (by decide) (by decide)

/-- C6.  In a build with the checks, Resize(H, W) called on a LOCKED_VIEW throws
"Assertion that matrix not be a locked view failed" and the object it leaves
is the object before the call: height, width, local matrix and everything else
are unchanged, since the lock check is the first statement of Resize. -/
theorem resize_locked_view (D : Overrides) (A : AbstractDistMatrix) (H W : Int)
    (h : A.viewType_ = ViewType.LOCKED_VIEW) :
    (Resize true D A H W).thrown =
        some (Error.LogicError "Assertion that matrix not be a locked view failed") ∧
      (Resize true D A H W).state = A ∧
      (Resize true D A H W).state.Height = A.Height ∧
      (Resize true D A H W).state.Width = A.Width ∧
      (Resize true D A H W).state.matrix_ = A.matrix_ := by
  have e : Resize true D A H W =
      Outcome.throw A (Error.LogicError "Assertion that matrix not be a locked view failed") := by
    simp [Resize, DEBUG_ONLY, AssertNotLocked, Locked, IsLocked, h, Outcome.check]
  rw [e]
  exact ⟨rfl, rfl, rfl, rfl, rfl⟩

theorem resize_locked_view_witness :
    lockedExample.viewType_ = ViewType.LOCKED_VIEW ∧
    (Resize true VR_STAR lockedExample 7 9).thrown =
        some (Error.LogicError "Assertion that matrix not be a locked view failed") ∧
      (Resize true VR_STAR lockedExample 7 9).state = lockedExample ∧
      (Resize true VR_STAR lockedExample 7 9).state.Height = lockedExample.Height ∧
      (Resize true VR_STAR lockedExample 7 9).state.Width = lockedExample.Width ∧
      (Resize true VR_STAR lockedExample 7 9).state.matrix_ = lockedExample.matrix_ :=
  ⟨by decide, resize_locked_view VR_STAR lockedExample 7 9 (by decide)⟩

/-- C6, counterexample.  In a build without the checks `DEBUG_ONLY` removes the
lock check: Resize(7, 9) on the 4 x 3 locked view returns normally and leaves
it 7 x 9. -/
theorem resize_locked_view_unchecked :
    lockedExample.viewType_ = ViewType.LOCKED_VIEW ∧
    lockedExample.Height = 4 ∧ lockedExample.Width = 3 ∧
    (Resize false VR_STAR lockedExample 7 9).thrown = none ∧
    (Resize false VR_STAR lockedExample 7 9).state.Height = 7 ∧
    (Resize false VR_STAR lockedExample 7 9).state.Width = 9 ∧
    (Resize false VR_STAR lockedExample 7 9).state.matrix_ ≠ lockedExample.matrix_ := by
  decide

/-! ## C7: Align -/

/-- C7.  Align(ca, ra) on a matrix that is not a view returns normally with both
dimensions constrained, ColAlign() = ca and RowAlign() = ra; on a participating
process with positive strides ColShift() = (ColRank - ca) mod ColStride and
RowShift() = (RowRank - ra) mod RowStride, each in [0, stride); if (ca, ra)
differs from the previous alignment the matrix is emptied (0 x 0, local matrix
0 x 0 owning no storage); if it equals the previous alignment the height, the
width and the local matrix (hence the stored entries, as no buffer is written)
are those before the call. -/
theorem align_spec (debug : Bool) (D : Overrides) (A : AbstractDistMatrix) (ca ra : Int)
    (hv : A.Viewing = false) :
    (Align debug D A ca ra).thrown = none ∧
    (Align debug D A ca ra).state.ColConstrained = true ∧
    (Align debug D A ca ra).state.RowConstrained = true ∧
    (Align debug D A ca ra).state.ColAlign = ca ∧
    (Align debug D A ca ra).state.RowAlign = ra ∧
    (Participating D A = true → 0 < ColStride D A → 0 < RowStride D A →
      (Align debug D A ca ra).state.ColShift = (ColRank D A - ca) % ColStride D A ∧
      (Align debug D A ca ra).state.RowShift = (RowRank D A - ra) % RowStride D A ∧
      0 ≤ (Align debug D A ca ra).state.ColShift ∧
      (Align debug D A ca ra).state.ColShift < ColStride D A ∧
      0 ≤ (Align debug D A ca ra).state.RowShift ∧
      (Align debug D A ca ra).state.RowShift < RowStride D A) ∧
    ((A.ColAlign ≠ ca ∨ A.RowAlign ≠ ra) →
      (Align debug D A ca ra).state.Height = 0 ∧
      (Align debug D A ca ra).state.Width = 0 ∧
      (Align debug D A ca ra).state.LocalHeight = 0 ∧
      (Align debug D A ca ra).state.LocalWidth = 0 ∧
      (Align debug D A ca ra).state.matrix_.MemorySize = 0 ∧
      (Align debug D A ca ra).state.viewType_ = ViewType.OWNER) ∧
    ((A.ColAlign = ca ∧ A.RowAlign = ra) →
      (Align debug D A ca ra).state.Height = A.Height ∧
      (Align debug D A ca ra).state.Width = A.Width ∧
      (Align debug D A ca ra).state.matrix_ = A.matrix_) := by
  have hchk : DEBUG_ONLY debug
      (if A.Viewing ∧ (A.colAlign_ ≠ ca ∨ A.rowAlign_ ≠ ra) then
        Except.error (Error.LogicError "Tried to realign a view")
      else Except.ok ()) = Except.ok () := by
    cases debug <;> simp [DEBUG_ONLY, hv]
  have e : Align debug D A ca ra =
      Outcome.ok (SetShifts D
        { (if A.colAlign_ ≠ ca ∨ A.rowAlign_ ≠ ra then A.Empty else A) with
          colConstrained_ := true, rowConstrained_ := true, colAlign_ := ca, rowAlign_ := ra }) := by
    simp only [Align, hchk, Outcome.check]
  rw [e]
  simp only [Outcome.ok]
  by_cases hd : A.colAlign_ ≠ ca ∨ A.rowAlign_ ≠ ra
  · simp only [hd, if_true]
    refine ⟨trivial, ?_, ?_, ?_, ?_, ?_, ?_, ?_⟩
    · unfold SetShifts; split <;> rfl
    · unfold SetShifts; split <;> rfl
    · unfold SetShifts; split <;> rfl
    · unfold SetShifts; split <;> rfl
    · intro hP hcs hrs
      have hP2 : Participating D
          { A.Empty with colConstrained_ := true, rowConstrained_ := true, colAlign_ := ca,
                         rowAlign_ := ra } = true := hP
      simp only [SetShifts, hP2, if_true, ColShift, RowShift, Shift]
      exact ⟨rfl, rfl, Int.emod_nonneg _ hcs.ne', Int.emod_lt_of_pos _ hcs,
        Int.emod_nonneg _ hrs.ne', Int.emod_lt_of_pos _ hrs⟩
    · intro _
      unfold SetShifts
      split <;> exact ⟨rfl, rfl, rfl, rfl, rfl, rfl⟩
    · rintro ⟨h1, h2⟩
      simp only [ColAlign, RowAlign] at h1 h2
      rcases hd with hd | hd
      · exact absurd h1 hd
      · exact absurd h2 hd
  · simp only [hd, if_false]
    refine ⟨trivial, ?_, ?_, ?_, ?_, ?_, ?_, ?_⟩
    · unfold SetShifts; split <;> rfl
    · unfold SetShifts; split <;> rfl
    · unfold SetShifts; split <;> rfl
    · unfold SetShifts; split <;> rfl
    · intro hP hcs hrs
      have hP2 : Participating D
          { A with colConstrained_ := true, rowConstrained_ := true, colAlign_ := ca,
                   rowAlign_ := ra } = true := hP
      simp only [SetShifts, hP2, if_true, ColShift, RowShift, Shift]
      exact ⟨rfl, rfl, Int.emod_nonneg _ hcs.ne', Int.emod_lt_of_pos _ hcs,
        Int.emod_nonneg _ hrs.ne', Int.emod_lt_of_pos _ hrs⟩
    · intro h
      simp only [ColAlign, RowAlign] at h
      exact absurd h hd
    · intro _
      unfold SetShifts
      split <;> exact ⟨rfl, rfl, rfl⟩

theorem align_spec_witness :
    vrSized.Viewing = false ∧
    (Align true VR_STAR vrSized 1 0).thrown = none ∧
    (Align true VR_STAR vrSized 1 0).state.ColConstrained = true ∧
    (Align true VR_STAR vrSized 1 0).state.RowConstrained = true ∧
    (Align true VR_STAR vrSized 1 0).state.ColAlign = 1 ∧
    (Align true VR_STAR vrSized 1 0).state.RowAlign = 0 ∧
    (Participating VR_STAR vrSized = true → 0 < ColStride VR_STAR vrSized →
      0 < RowStride VR_STAR vrSized →
      (Align true VR_STAR vrSized 1 0).state.ColShift =
        (ColRank VR_STAR vrSized - 1) % ColStride VR_STAR vrSized ∧
      (Align true VR_STAR vrSized 1 0).state.RowShift =
        (RowRank VR_STAR vrSized - 0) % RowStride VR_STAR vrSized ∧
      0 ≤ (Align true VR_STAR vrSized 1 0).state.ColShift ∧
      (Align true VR_STAR vrSized 1 0).state.ColShift < ColStride VR_STAR vrSized ∧
      0 ≤ (Align true VR_STAR vrSized 1 0).state.RowShift ∧
      (Align true VR_STAR vrSized 1 0).state.RowShift < RowStride VR_STAR vrSized) ∧
    ((vrSized.ColAlign ≠ 1 ∨ vrSized.RowAlign ≠ 0) →
      (Align true VR_STAR vrSized 1 0).state.Height = 0 ∧
      (Align true VR_STAR vrSized 1 0).state.Width = 0 ∧
      (Align true VR_STAR vrSized 1 0).state.LocalHeight = 0 ∧
      (Align true VR_STAR vrSized 1 0).state.LocalWidth = 0 ∧
      (Align true VR_STAR vrSized 1 0).state.matrix_.MemorySize = 0 ∧
      (Align true VR_STAR vrSized 1 0).state.viewType_ = ViewType.OWNER) ∧
    ((vrSized.ColAlign = 1 ∧ vrSized.RowAlign = 0) →
      (Align true VR_STAR vrSized 1 0).state.Height = vrSized.Height ∧
      (Align true VR_STAR vrSized 1 0).state.Width = vrSized.Width ∧
      (Align true VR_STAR vrSized 1 0).state.matrix_ = vrSized.matrix_) :=
  ⟨by decide, align_spec true VR_STAR vrSized 1 0 (by decide)⟩

/-- The example matrix of the Align witness participates, holds a 1 x 3 local
matrix, and Align(1,0) empties it and moves its column shift from 2 to 1. -/
theorem align_example_values :
    Participating VR_STAR vrSized = true ∧ vrSized.LocalHeight = 1 ∧ vrSized.LocalWidth = 3 ∧
      vrSized.ColShift = 2 ∧ (Align true VR_STAR vrSized 1 0).state.ColShift = 1 ∧
      (Align true VR_STAR vrSized 1 0).state.Height = 0 := by
  decide

/-! ## C8: AlignWith of [VR,*] -/

/-- C8, counterexample.  A 5 x 3 [VR,*] matrix whose column alignment is constrained
(constructed with alignments (0,0)), aligned with the descriptor of a [VR,*]
matrix on the same grid whose column alignment is 1: AlignWith returns
normally, ColAlign() becomes 1, and height, width and local matrix are emptied. -/
theorem alignWith_overrides_constraint :
    vrConstrained.ColConstrained = true ∧ vrConstrained.ColAlign = 0 ∧
      vrConstrained.Height = 5 ∧ vrConstrained.Width = 3 ∧ vrConstrained.LocalHeight = 1 ∧
      vrConstrained.grid_.id = dataAlignedAtOne.grid.id ∧
      (VR_STAR.AlignWith true vrConstrained dataAlignedAtOne).thrown = none ∧
      (VR_STAR.AlignWith true vrConstrained dataAlignedAtOne).state.ColAlign = 1 ∧
      (VR_STAR.AlignWith true vrConstrained dataAlignedAtOne).state.Height = 0 ∧
      (VR_STAR.AlignWith true vrConstrained dataAlignedAtOne).state.Width = 0 ∧
      (VR_STAR.AlignWith true vrConstrained dataAlignedAtOne).state.LocalHeight = 0 ∧
      (VR_STAR.AlignWith true vrConstrained dataAlignedAtOne).state.ColAlign ≠
        vrConstrained.ColAlign ∧
      (VR_STAR.AlignWith true vrConstrained dataAlignedAtOne).state.Height ≠
        vrConstrained.Height ∧
      (VR_STAR.AlignWith true vrConstrained dataAlignedAtOne).state.matrix_ ≠
        vrConstrained.matrix_ := by
  decide

/-- C8, as amended.  AlignWith(data) on a [VR,*] matrix that is not a view, with data
on the same grid, returns normally and sets ColAlign() to data.colAlign when
data.colDist is MR or VR, and otherwise to data.rowAlign when data.rowDist is
MR or VR, whether or not the column alignment was constrained before; the
column alignment is constrained afterwards and the row alignment and its
constraint are untouched.  If the adopted alignment equals the previous
ColAlign(), the height, the width and the local matrix are unchanged; if it
differs, the matrix is emptied to 0 x 0 with no local storage. -/
theorem alignWith_spec (debug : Bool) (A : AbstractDistMatrix) (data : DistData)
    (hg : A.grid_.id = data.grid.id) (hv : A.Viewing = false)
    (hd : (data.colDist = Dist.MR ∨ data.colDist = Dist.VR) ∨
      (data.rowDist = Dist.MR ∨ data.rowDist = Dist.VR)) :
    (VR_STAR.AlignWith debug A data).thrown = none ∧
    (VR_STAR.AlignWith debug A data).state.ColAlign =
      (if data.colDist = Dist.MR ∨ data.colDist = Dist.VR then data.colAlign
       else data.rowAlign) ∧
    (VR_STAR.AlignWith debug A data).state.ColConstrained = true ∧
    (VR_STAR.AlignWith debug A data).state.RowAlign = A.RowAlign ∧
    (VR_STAR.AlignWith debug A data).state.RowConstrained = A.RowConstrained ∧
    ((if data.colDist = Dist.MR ∨ data.colDist = Dist.VR then data.colAlign
        else data.rowAlign) = A.ColAlign →
      (VR_STAR.AlignWith debug A data).state.Height = A.Height ∧
      (VR_STAR.AlignWith debug A data).state.Width = A.Width ∧
      (VR_STAR.AlignWith debug A data).state.matrix_ = A.matrix_) ∧
    ((if data.colDist = Dist.MR ∨ data.colDist = Dist.VR then data.colAlign
        else data.rowAlign) ≠ A.ColAlign →
      (VR_STAR.AlignWith debug A data).state.Height = 0 ∧
      (VR_STAR.AlignWith debug A data).state.Width = 0 ∧
      (VR_STAR.AlignWith debug A data).state.LocalHeight = 0 ∧
      (VR_STAR.AlignWith debug A data).state.LocalWidth = 0 ∧
      (VR_STAR.AlignWith debug A data).state.matrix_.MemorySize = 0) := by
  have hgrid : SetGrid VR_STAR A data.grid = A := by
    simp [SetGrid, hg]
  -- AlignCols on a matrix that is not a view
  have cols : ∀ a : Int,
      (AlignCols debug VR_STAR A a).thrown = none ∧
      (AlignCols debug VR_STAR A a).state.ColAlign = a ∧
      (AlignCols debug VR_STAR A a).state.ColConstrained = true ∧
      (AlignCols debug VR_STAR A a).state.RowAlign = A.RowAlign ∧
      (AlignCols debug VR_STAR A a).state.RowConstrained = A.RowConstrained ∧
      (a = A.ColAlign →
        (AlignCols debug VR_STAR A a).state.Height = A.Height ∧
        (AlignCols debug VR_STAR A a).state.Width = A.Width ∧
        (AlignCols debug VR_STAR A a).state.matrix_ = A.matrix_) ∧
      (a ≠ A.ColAlign →
        (AlignCols debug VR_STAR A a).state.Height = 0 ∧
        (AlignCols debug VR_STAR A a).state.Width = 0 ∧
        (AlignCols debug VR_STAR A a).state.LocalHeight = 0 ∧
        (AlignCols debug VR_STAR A a).state.LocalWidth = 0 ∧
        (AlignCols debug VR_STAR A a).state.matrix_.MemorySize = 0) := by
    intro a
    have hchk : DEBUG_ONLY debug
        (if A.Viewing ∧ A.colAlign_ ≠ a then
          Except.error (Error.LogicError "Tried to realign a view")
        else Except.ok ()) = Except.ok () := by
      cases debug <;> simp [DEBUG_ONLY, hv]
    have e : AlignCols debug VR_STAR A a =
        Outcome.ok (SetShifts VR_STAR
          { (if A.colAlign_ ≠ a then A.EmptyData else A) with
            colConstrained_ := true, colAlign_ := a }) := by
      simp only [AlignCols, hchk, Outcome.check]
    rw [e]
    simp only [Outcome.ok]
    by_cases hd : A.colAlign_ = a
    · rw [if_neg (not_not.mpr hd)]
      refine ⟨trivial, ?_, ?_, ?_, ?_, ?_, ?_⟩
      · unfold SetShifts; split <;> rfl
      · unfold SetShifts; split <;> rfl
      · unfold SetShifts; split <;> rfl
      · unfold SetShifts; split <;> rfl
      · intro _
        unfold SetShifts
        split <;> exact ⟨rfl, rfl, rfl⟩
      · intro h
        exact absurd hd.symm h
    · rw [if_pos hd]
      refine ⟨trivial, ?_, ?_, ?_, ?_, ?_, ?_⟩
      · unfold SetShifts; split <;> rfl
      · unfold SetShifts; split <;> rfl
      · unfold SetShifts; split <;> rfl
      · unfold SetShifts; split <;> rfl
      · intro h
        exact absurd h.symm hd
      · intro _
        unfold SetShifts
        split <;> exact ⟨rfl, rfl, rfl, rfl, rfl⟩
  unfold VR_STAR.AlignWith
  rw [hgrid]
  by_cases hc : data.colDist = Dist.MR ∨ data.colDist = Dist.VR
  · simp only [hc, if_true]
    exact cols data.colAlign
  · have hr : data.rowDist = Dist.MR ∨ data.rowDist = Dist.VR := by
      rcases hd with h | h
      · exact absurd h hc
      · exact h
    simp only [hc, hr, if_true, if_false]
    exact cols data.rowAlign

theorem alignWith_spec_witness :
    (VR_STAR.AlignWith true vrConstrained dataAlignedAtOne).thrown = none ∧
    (VR_STAR.AlignWith true vrConstrained dataAlignedAtOne).state.ColAlign =
      (if dataAlignedAtOne.colDist = Dist.MR ∨ dataAlignedAtOne.colDist = Dist.VR then
        dataAlignedAtOne.colAlign
       else dataAlignedAtOne.rowAlign) ∧
    (VR_STAR.AlignWith true vrConstrained dataAlignedAtOne).state.ColConstrained = true ∧
    (VR_STAR.AlignWith true vrConstrained dataAlignedAtOne).state.RowAlign =
      vrConstrained.RowAlign ∧
    (VR_STAR.AlignWith true vrConstrained dataAlignedAtOne).state.RowConstrained =
      vrConstrained.RowConstrained ∧
    ((if dataAlignedAtOne.colDist = Dist.MR ∨ dataAlignedAtOne.colDist = Dist.VR then
        dataAlignedAtOne.colAlign
        else dataAlignedAtOne.rowAlign) = vrConstrained.ColAlign →
      (VR_STAR.AlignWith true vrConstrained dataAlignedAtOne).state.Height =
        vrConstrained.Height ∧
      (VR_STAR.AlignWith true vrConstrained dataAlignedAtOne).state.Width =
        vrConstrained.Width ∧
      (VR_STAR.AlignWith true vrConstrained dataAlignedAtOne).state.matrix_ =
        vrConstrained.matrix_) ∧
    ((if dataAlignedAtOne.colDist = Dist.MR ∨ dataAlignedAtOne.colDist = Dist.VR then
        dataAlignedAtOne.colAlign
        else dataAlignedAtOne.rowAlign) ≠ vrConstrained.ColAlign →
      (VR_STAR.AlignWith true vrConstrained dataAlignedAtOne).state.Height = 0 ∧
      (VR_STAR.AlignWith true vrConstrained dataAlignedAtOne).state.Width = 0 ∧
      (VR_STAR.AlignWith true vrConstrained dataAlignedAtOne).state.LocalHeight = 0 ∧
      (VR_STAR.AlignWith true vrConstrained dataAlignedAtOne).state.LocalWidth = 0 ∧
      (VR_STAR.AlignWith true vrConstrained dataAlignedAtOne).state.matrix_.MemorySize = 0) :=
  alignWith_spec true vrConstrained dataAlignedAtOne (by decide) (by decide) (by decide)

/-! ## C9: sub-matrix views of [*,MC] -/

theorem sub_emod_emod (x y r : Int) : (x - y % r) % r = (x - y) % r := by
  rw [Int.sub_emod, Int.emod_emod_of_dvd _ (dvd_refl r), ← Int.sub_emod]

theorem emod_sub_emod (x y r : Int) : (x % r - y) % r = (x - y) % r := by
  rw [Int.sub_emod, Int.emod_emod_of_dvd _ (dvd_refl r), ← Int.sub_emod]

/-- A local index `k` is below the local length exactly when its global index
`s + k*r` is below `n`. -/
theorem lt_Length_iff (n s r k : Int) (hr : 0 < r) (hk : 0 ≤ k) :
    k < Length n s r ↔ s + k * r < n := by
  unfold Length
  have h1 : k < max 0 (-((s - n) / r)) ↔ (s - n) / r < -k := by omega
  rw [h1, Int.ediv_lt_iff_lt_mul hr]
  have : -k * r = -(k * r) := by ring
  omega

/-- The first index at or after `j` that is congruent to the shift `s` is
`s + Length(j, s, r) * r`, at distance `(s - j) mod r` from `j`. -/
theorem first_local_at_or_after (r s j : Int) (hr : 1 ≤ r) (hs : 0 ≤ s ∧ s < r) (hj : 0 ≤ j) :
    s + Length j s r * r = j + (s - j) % r ∧ 0 ≤ Length j s r := by
  have hpos : 0 < r := by omega
  have hdiv : (s - j) / r ≤ 0 := by
    have : (s - j) / r < 1 := by
      rw [Int.ediv_lt_iff_lt_mul hpos]
      omega
    omega
  have hL : Length j s r = -((s - j) / r) := by
    unfold Length
    omega
  have hdm := Int.emod_add_ediv (s - j) r
  rw [hL]
  constructor
  · have : -((s - j) / r) * r = -(r * ((s - j) / r)) := by ring
    omega
  · omega

/-- The shift of a view at column `j`: the columns of the parent that the process
holds at or after `j` start at distance `Shift(row, (al + j) mod r, r)` from `j`. -/
theorem view_shift (r row al j : Int) (hr : 1 ≤ r) (hj : 0 ≤ j) :
    Shift row al r + Length j (Shift row al r) r * r = j + Shift row ((al + j) % r) r := by
  have hpos : 0 < r := by omega
  unfold Shift
  have h := (first_local_at_or_after r ((row - al) % r) j hr
    ⟨Int.emod_nonneg _ (by omega), Int.emod_lt_of_pos _ hpos⟩ hj).1
  rw [h, emod_sub_emod, sub_emod_emod]
  congr 2
  ring

/-- The object `View(A, i, j, height, width)` leaves when its preconditions hold. -/
theorem view_state (debug : Bool) (B A : elemental.DistMatrixBase) (i j h w : Int)
    (hB1 : B._constrainedRowAlignment = false) (hB2 : B._localMatrix.MemorySize = 0)
    (hg : B._grid = A._grid) (hi : 0 ≤ i) (hj : 0 ≤ j) (hh : 0 ≤ h) (hw : 0 ≤ w)
    (hih : i + h ≤ A.Height) (hjw : j + w ≤ A.Width) :
    elemental.DistMatrixBase.View debug B A i j h w =
      Outcome.ok
        { B with
          _height := h, _width := w,
          _rowAlignment := (A.RowAlignment + j).tmod A.GetGrid.Height,
          _rowShift := Shift A.GetGrid.MCRank
            ((A.RowAlignment + j).tmod A.GetGrid.Height) A.GetGrid.Height,
          _localMatrix := elemental.Matrix.View A.LocalMatrix i
            (elemental.LocalLength j A.RowShift A.GetGrid.Height) h
            (elemental.LocalLength w
              (Shift A.GetGrid.MCRank ((A.RowAlignment + j).tmod A.GetGrid.Height)
                A.GetGrid.Height) A.GetGrid.Height),
          _viewing := true, _lockedView := false } := by
  have hchk : DEBUG_ONLY debug (do
      B.AssertFreeRowAlignment
      B.AssertNotStoringData
      B.AssertSameGrid A
      A.AssertValidSubmatrix i j h w) = Except.ok () := by
    cases debug
    · rfl
    · have n1 : ¬ (i < 0 ∨ j < 0) := by omega
      have n2 : ¬ (h < 0 ∨ w < 0) := by omega
      have n3 : ¬ (i + h > A.Height ∨ j + w > A.Width) := by omega
      simp [DEBUG_ONLY, elemental.DistMatrixBase.AssertFreeRowAlignment,
        elemental.DistMatrixBase.AssertNotStoringData, elemental.DistMatrixBase.AssertSameGrid,
        elemental.DistMatrixBase.AssertValidSubmatrix, hB1, hB2, hg, n1, n2, n3, bind,
        Except.bind, pure, Except.pure]
  have hG : B.GetGrid = A.GetGrid := hg
  simp only [elemental.DistMatrixBase.View, hchk, Outcome.check, hG,
    elemental.DistMatrixBase.RowAlignment, elemental.DistMatrixBase.RowShift]

/-- C9.  For a consistent [*,MC] matrix A on a grid of height r and an in-bounds
rectangle (i, j, h, w), View(A, i, j, h, w) returns normally and leaves a
mutable view V with V.RowAlignment = (A.RowAlignment + j) mod r,
V.RowShift = (mcRank - V.RowAlignment) mod r, size h x w and local size
h x LocalLength(w, V.RowShift, r), itself consistent.  Each local entry (a, bLoc) of V is the
buffer cell of A's local entry (i + a, LocalLength(j, A.RowShift, r) + bLoc),
whose global column is j + (V.RowShift + bLoc*r); the local window of V lies
inside the local window of A; column b of V and column j + b of A have the
same owner row and, there, the same cell, so V(a, b) aliases A(i + a, j + b);
a value written through V is read through A at the corresponding index, and
one written through an unlocked A is read through V.  View takes and returns
no buffer: nothing is copied. -/
theorem view_spec (debug : Bool) (B A V : elemental.DistMatrixBase) (i j h w : Int)
    (hA : A.Consistent)
    (hB1 : B._constrainedRowAlignment = false) (hB2 : B._localMatrix.MemorySize = 0)
    (hg : B._grid = A._grid) (hi : 0 ≤ i) (hj : 0 ≤ j) (hh : 0 ≤ h) (hw : 0 ≤ w)
    (hih : i + h ≤ A.Height) (hjw : j + w ≤ A.Width)
    (hV : V = (elemental.DistMatrixBase.View debug B A i j h w).state) :
    (elemental.DistMatrixBase.View debug B A i j h w).thrown = none ∧
    V.RowAlignment = (A.RowAlignment + j) % A.GetGrid.Height ∧
    V.RowShift = (A.GetGrid.MCRank - V.RowAlignment) % A.GetGrid.Height ∧
    V.Height = h ∧ V.Width = w ∧ V._viewing = true ∧ V._lockedView = false ∧
    V.GetGrid = A.GetGrid ∧
    V.LocalHeight = h ∧
    V.LocalWidth = elemental.LocalLength w V.RowShift A.GetGrid.Height ∧
    V.Consistent ∧
    (∀ a bLoc : Int, V.LocalMatrix.Buffer a bLoc =
      A.LocalMatrix.Buffer (i + a)
        (elemental.LocalLength j A.RowShift A.GetGrid.Height + bLoc)) ∧
    (∀ bLoc : Int,
      A.RowShift + (elemental.LocalLength j A.RowShift A.GetGrid.Height + bLoc) *
        A.GetGrid.Height = j + (V.RowShift + bLoc * A.GetGrid.Height)) ∧
    (∀ a bLoc : Int, 0 ≤ a → a < V.LocalHeight → 0 ≤ bLoc → bLoc < V.LocalWidth →
      0 ≤ i + a ∧ i + a < A.LocalHeight ∧
      0 ≤ elemental.LocalLength j A.RowShift A.GetGrid.Height + bLoc ∧
      elemental.LocalLength j A.RowShift A.GetGrid.Height + bLoc < A.LocalWidth) ∧
    (∀ a b : Int, 0 ≤ b →
      (b + V.RowAlignment).tmod A.GetGrid.Height =
        (j + b + A.RowAlignment).tmod A.GetGrid.Height ∧
      (A.GetGrid.MCRank = (b + V.RowAlignment).tmod A.GetGrid.Height →
        V.LocalMatrix.Buffer a ((b - V.RowShift).tdiv A.GetGrid.Height) =
          A.LocalMatrix.Buffer (i + a) ((j + b - A.RowShift).tdiv A.GetGrid.Height))) ∧
    (∀ (T : Type) (buf : Buffer T) (v : T) (a bLoc : Int),
      0 ≤ a → a < V.LocalHeight → 0 ≤ bLoc → bLoc < V.LocalWidth →
      (V.SetLocalEntry debug buf a bLoc v).thrown = none ∧
      A.GetLocalEntry debug (V.SetLocalEntry debug buf a bLoc v).state (i + a)
        (elemental.LocalLength j A.RowShift A.GetGrid.Height + bLoc) = Except.ok v ∧
      (A._localMatrix.Locked = false →
        (A.SetLocalEntry debug buf (i + a)
          (elemental.LocalLength j A.RowShift A.GetGrid.Height + bLoc) v).thrown = none ∧
        V.GetLocalEntry debug
          (A.SetLocalEntry debug buf (i + a)
            (elemental.LocalLength j A.RowShift A.GetGrid.Height + bLoc) v).state a bLoc =
          Except.ok v)) := by
  rw [view_state debug B A i j h w hB1 hB2 hg hi hj hh hw hih hjw] at hV ⊢
  simp only [Outcome.ok] at hV
  obtain ⟨hr, ⟨hrow0, hrow1⟩, ⟨hal0, hal1⟩, hsh, hlh, hlw⟩ := hA
  have hpos : 0 < A.GetGrid.Height := by omega
  -- the metadata of the view
  have eAl : V.RowAlignment = (A.RowAlignment + j) % A.GetGrid.Height := by
    rw [hV]
    exact Int.tmod_eq_emod (by omega) (by omega)
  have eSh0 : V.RowShift = Shift A.GetGrid.MCRank V.RowAlignment A.GetGrid.Height := by
    rw [hV]
    rfl
  have eH : V.LocalHeight = h := by rw [hV]; rfl
  have eW : V.LocalWidth = elemental.LocalLength w V.RowShift A.GetGrid.Height := by
    rw [hV]; rfl
  have eBuf : ∀ a bLoc : Int, V.LocalMatrix.Buffer a bLoc =
      A.LocalMatrix.Buffer (i + a)
        (elemental.LocalLength j A.RowShift A.GetGrid.Height + bLoc) := by
    intro a bLoc
    rw [hV]
    simp only [elemental.DistMatrixBase.LocalMatrix, elemental.Matrix.View, Matrix.Buffer]
    ring
  -- the shift relation
  have key : A.RowShift + elemental.LocalLength j A.RowShift A.GetGrid.Height *
      A.GetGrid.Height = j + V.RowShift := by
    rw [eSh0, eAl, hsh]
    exact view_shift _ _ _ _ hr hj
  have hVsh : 0 ≤ V.RowShift ∧ V.RowShift < A.GetGrid.Height := by
    rw [eSh0]
    exact ⟨Int.emod_nonneg _ (by omega), Int.emod_lt_of_pos _ hpos⟩
  have hAsh : 0 ≤ A.RowShift ∧ A.RowShift < A.GetGrid.Height := by
    rw [hsh]
    exact ⟨Int.emod_nonneg _ (by omega), Int.emod_lt_of_pos _ hpos⟩
  have hlwb : 0 ≤ elemental.LocalLength j A.RowShift A.GetGrid.Height :=
    (first_local_at_or_after _ _ _ hr hAsh hj).2
  have eGlob : ∀ bLoc : Int,
      A.RowShift + (elemental.LocalLength j A.RowShift A.GetGrid.Height + bLoc) *
        A.GetGrid.Height = j + (V.RowShift + bLoc * A.GetGrid.Height) := by
    intro bLoc
    have : (elemental.LocalLength j A.RowShift A.GetGrid.Height + bLoc) * A.GetGrid.Height =
        elemental.LocalLength j A.RowShift A.GetGrid.Height * A.GetGrid.Height +
          bLoc * A.GetGrid.Height := by ring
    omega
  have inWin : ∀ a bLoc : Int, 0 ≤ a → a < V.LocalHeight → 0 ≤ bLoc → bLoc < V.LocalWidth →
      0 ≤ i + a ∧ i + a < A.LocalHeight ∧
      0 ≤ elemental.LocalLength j A.RowShift A.GetGrid.Height + bLoc ∧
      elemental.LocalLength j A.RowShift A.GetGrid.Height + bLoc < A.LocalWidth := by
    intro a bLoc a0 a1 b0 b1
    rw [eH] at a1
    rw [eW] at b1
    rw [hlh, hlw]
    refine ⟨by omega, by omega, by omega, ?_⟩
    have hb := (lt_Length_iff w V.RowShift A.GetGrid.Height bLoc hpos b0).1 b1
    apply (lt_Length_iff A.Width A.RowShift A.GetGrid.Height _ hpos (by omega)).2
    have := eGlob bLoc
    omega
  have eG : V.GetGrid = A.GetGrid := by rw [hV]; exact hg
  have eHt : V.Height = h := by rw [hV]; rfl
  have hVal : 0 ≤ V.RowAlignment ∧ V.RowAlignment < A.GetGrid.Height := by
    rw [eAl]
    exact ⟨Int.emod_nonneg _ (by omega), Int.emod_lt_of_pos _ hpos⟩
  have cons : V.Consistent := by
    constructor
    · rw [eG]; exact hr
    · rw [eG]; exact ⟨hrow0, hrow1⟩
    · rw [eG]; exact hVal
    · rw [eG]; exact eSh0
    · rw [eH, eHt]
    · have eWd : V.Width = w := by rw [hV]; rfl
      rw [eG, eWd]; exact eW
  refine ⟨rfl, eAl, ?_, eHt, ?_, ?_, ?_, eG, eH, eW, cons, eBuf, eGlob, inWin, ?_, ?_⟩
  · rw [eSh0]; rfl
  · rw [hV]; rfl
  · rw [hV]
  · rw [hV]
  · -- global aliasing
    intro a b hb
    have eOwn : (b + V.RowAlignment).tmod A.GetGrid.Height =
        (j + b + A.RowAlignment).tmod A.GetGrid.Height := by
      rw [Int.tmod_eq_emod (by omega) (by omega), Int.tmod_eq_emod (by omega) (by omega), eAl,
        Int.add_emod, Int.emod_emod_of_dvd _ (dvd_refl _), ← Int.add_emod]
      congr 1
      ring
    refine ⟨eOwn, ?_⟩
    intro hown
    have hloc : (b - V.RowShift).tmod A.GetGrid.Height = 0 := by
      rw [eSh0]
      exact (shift_local_iff_owner _ _ _ b hr hrow0 hrow1 hb hVal.1).2 hown
    obtain ⟨k0, -, k2⟩ := localIndex_bounds (b + 1) _ _ b hr hVsh hb (by omega) hloc
    rw [eBuf]
    congr 1
    have e1 : j + b - A.RowShift =
        (elemental.LocalLength j A.RowShift A.GetGrid.Height +
          (b - V.RowShift).tdiv A.GetGrid.Height) * A.GetGrid.Height := by
      have := eGlob ((b - V.RowShift).tdiv A.GetGrid.Height)
      omega
    rw [e1, Int.tdiv_eq_ediv (Int.mul_nonneg (by omega) (by omega)) (by omega),
      Int.mul_ediv_cancel _ (by omega)]
  · -- writes through one are read through the other
    intro T buf v a bLoc a0 a1 b0 b1
    obtain ⟨w1, w2, w3, w4⟩ := inWin a bLoc a0 a1 b0 b1
    have vV : V._localMatrix.AssertValidEntry a bLoc = Except.ok () := by
      unfold Matrix.AssertValidEntry
      rw [if_neg]
      simp only [elemental.DistMatrixBase.LocalHeight, elemental.DistMatrixBase.LocalWidth,
        Matrix.Height, Matrix.Width] at a1 b1
      omega
    have vA : A._localMatrix.AssertValidEntry (i + a)
        (elemental.LocalLength j A.RowShift A.GetGrid.Height + bLoc) = Except.ok () := by
      unfold Matrix.AssertValidEntry
      rw [if_neg]
      simp only [elemental.DistMatrixBase.LocalHeight, elemental.DistMatrixBase.LocalWidth,
        Matrix.Height, Matrix.Width] at w2 w4
      omega
    have lV : V._localMatrix.Locked = false := by rw [hV]; rfl
    have eB := eBuf a bLoc
    simp only [elemental.DistMatrixBase.LocalMatrix] at eB
    simp only [elemental.DistMatrixBase.SetLocalEntry, elemental.DistMatrixBase.GetLocalEntry]
    rw [matrix_set_ok debug _ buf a bLoc v vV lV]
    refine ⟨rfl, ?_, ?_⟩
    · rw [matrix_get_ok debug _ _ _ _ vA]
      simp [Outcome.ok, ← eB]
    · intro lA
      rw [matrix_set_ok debug _ buf _ _ v vA lA]
      refine ⟨rfl, ?_⟩
      rw [matrix_get_ok debug _ _ _ _ vV]
      simp [Outcome.ok, eB]

theorem viewParent_consistent : elemental.viewParent.Consistent := by
  constructor <;> decide

theorem view_spec_witness :
    elemental.viewParent.Consistent ∧
    (elemental.DistMatrixBase.View true elemental.viewFresh elemental.viewParent 1 1 2 3).thrown = none ∧
    elemental.viewChild.RowAlignment = (elemental.viewParent.RowAlignment + 1) % elemental.viewParent.GetGrid.Height ∧
    elemental.viewChild.RowShift = (elemental.viewParent.GetGrid.MCRank - elemental.viewChild.RowAlignment) % elemental.viewParent.GetGrid.Height ∧
    elemental.viewChild.Height = 2 ∧ elemental.viewChild.Width = 3 ∧ elemental.viewChild._viewing = true ∧ elemental.viewChild._lockedView = false ∧
    elemental.viewChild.GetGrid = elemental.viewParent.GetGrid ∧
    elemental.viewChild.LocalHeight = 2 ∧
    elemental.viewChild.LocalWidth = elemental.LocalLength 3 elemental.viewChild.RowShift elemental.viewParent.GetGrid.Height ∧
    elemental.viewChild.Consistent ∧
    (∀ a bLoc : Int, elemental.viewChild.LocalMatrix.Buffer a bLoc =
      elemental.viewParent.LocalMatrix.Buffer (1 + a)
        (elemental.LocalLength 1 elemental.viewParent.RowShift elemental.viewParent.GetGrid.Height + bLoc)) ∧
    (∀ bLoc : Int,
      elemental.viewParent.RowShift + (elemental.LocalLength 1 elemental.viewParent.RowShift elemental.viewParent.GetGrid.Height + bLoc) *
        elemental.viewParent.GetGrid.Height = 1 + (elemental.viewChild.RowShift + bLoc * elemental.viewParent.GetGrid.Height)) ∧
    (∀ a bLoc : Int, 0 ≤ a → a < elemental.viewChild.LocalHeight → 0 ≤ bLoc → bLoc < elemental.viewChild.LocalWidth →
      0 ≤ 1 + a ∧ 1 + a < elemental.viewParent.LocalHeight ∧
      0 ≤ elemental.LocalLength 1 elemental.viewParent.RowShift elemental.viewParent.GetGrid.Height + bLoc ∧
      elemental.LocalLength 1 elemental.viewParent.RowShift elemental.viewParent.GetGrid.Height + bLoc < elemental.viewParent.LocalWidth) ∧
    (∀ a b : Int, 0 ≤ b →
      (b + elemental.viewChild.RowAlignment).tmod elemental.viewParent.GetGrid.Height =
        (1 + b + elemental.viewParent.RowAlignment).tmod elemental.viewParent.GetGrid.Height ∧
      (elemental.viewParent.GetGrid.MCRank = (b + elemental.viewChild.RowAlignment).tmod elemental.viewParent.GetGrid.Height →
        elemental.viewChild.LocalMatrix.Buffer a ((b - elemental.viewChild.RowShift).tdiv elemental.viewParent.GetGrid.Height) =
          elemental.viewParent.LocalMatrix.Buffer (1 + a) ((1 + b - elemental.viewParent.RowShift).tdiv elemental.viewParent.GetGrid.Height))) ∧
    (∀ (T : Type) (buf : Buffer T) (v : T) (a bLoc : Int),
      0 ≤ a → a < elemental.viewChild.LocalHeight → 0 ≤ bLoc → bLoc < elemental.viewChild.LocalWidth →
      (elemental.viewChild.SetLocalEntry true buf a bLoc v).thrown = none ∧
      elemental.viewParent.GetLocalEntry true (elemental.viewChild.SetLocalEntry true buf a bLoc v).state (1 + a)
        (elemental.LocalLength 1 elemental.viewParent.RowShift elemental.viewParent.GetGrid.Height + bLoc) = Except.ok v ∧
      (elemental.viewParent._localMatrix.Locked = false →
        (elemental.viewParent.SetLocalEntry true buf (1 + a)
          (elemental.LocalLength 1 elemental.viewParent.RowShift elemental.viewParent.GetGrid.Height + bLoc) v).thrown = none ∧
        elemental.viewChild.GetLocalEntry true
          (elemental.viewParent.SetLocalEntry true buf (1 + a)
            (elemental.LocalLength 1 elemental.viewParent.RowShift elemental.viewParent.GetGrid.Height + bLoc) v).state a bLoc =
          Except.ok v)) :=
  ⟨viewParent_consistent,
    view_spec true elemental.viewFresh elemental.viewParent elemental.viewChild 1 1 2 3
      viewParent_consistent (by decide) (by decide) (by decide) (by decide) (by decide)
      (by decide) (by decide) (by decide) (by decide) rfl⟩

/-- The values of the view example: alignment 1, shift 0, local size 2 x 2, local
entry (0,0) at the cell of the parent's local entry (1,0). -/
theorem view_example_values :
    elemental.viewChild.RowAlignment = 1 ∧ elemental.viewChild.RowShift = 0 ∧
      elemental.viewChild.LocalHeight = 2 ∧ elemental.viewChild.LocalWidth = 2 ∧
      elemental.viewParent.RowShift = 1 ∧
      elemental.viewChild.LocalMatrix.Buffer 0 0 = elemental.viewParent.LocalMatrix.Buffer 1 0 ∧
      elemental.viewChild.LocalMatrix.Buffer 1 1 = elemental.viewParent.LocalMatrix.Buffer 2 1 := by
  decide

/-! ## C10: a view cannot be realigned -/

/-- Resize never assigns to the alignments, whether it returns or throws. -/
theorem resize_keeps_alignments (debug : Bool) (D : Overrides) (A : AbstractDistMatrix)
    (H W : Int) :
    (Resize debug D A H W).state.ColAlign = A.ColAlign ∧
      (Resize debug D A H W).state.RowAlign = A.RowAlign := by
  unfold Resize Outcome.check
  split
  · dsimp only
    split <;> exact ⟨rfl, rfl⟩
  · exact ⟨rfl, rfl⟩

/-- C10.  For a matrix that is a VIEW or LOCKED_VIEW: in a build with the checks,
Align, AlignCols and AlignRows with an alignment different from the current
one throw "Tried to realign a view" and leave the object as it was; in every
build AlignAndResize, AlignColsAndResize and AlignRowsAndResize leave
ColAlign() and RowAlign() as they were, and with force = true and a requested
alignment different from the current one they throw ("Could not set
alignments", "Could not set col alignment", "Could not set row alignment")
and leave the object as it was. -/
theorem view_cannot_be_realigned (D : Overrides) (A : AbstractDistMatrix) (ca ra : Int)
    (hv : A.Viewing = true) :
    ((A.ColAlign ≠ ca ∨ A.RowAlign ≠ ra) →
      Align true D A ca ra = Outcome.throw A (Error.LogicError "Tried to realign a view")) ∧
    (A.ColAlign ≠ ca →
      AlignCols true D A ca = Outcome.throw A (Error.LogicError "Tried to realign a view")) ∧
    (A.RowAlign ≠ ra →
      AlignRows true D A ra = Outcome.throw A (Error.LogicError "Tried to realign a view")) ∧
    (∀ (debug : Bool) (H W : Int) (force : Bool),
      (AlignAndResize debug D A ca ra H W force).state.ColAlign = A.ColAlign ∧
      (AlignAndResize debug D A ca ra H W force).state.RowAlign = A.RowAlign ∧
      (AlignColsAndResize debug D A ca H W force).state.ColAlign = A.ColAlign ∧
      (AlignColsAndResize debug D A ca H W force).state.RowAlign = A.RowAlign ∧
      (AlignRowsAndResize debug D A ra H W force).state.ColAlign = A.ColAlign ∧
      (AlignRowsAndResize debug D A ra H W force).state.RowAlign = A.RowAlign) ∧
    (∀ (debug : Bool) (H W : Int),
      ((A.ColAlign ≠ ca ∨ A.RowAlign ≠ ra) →
        AlignAndResize debug D A ca ra H W true =
          Outcome.throw A (Error.LogicError "Could not set alignments")) ∧
      (A.ColAlign ≠ ca →
        AlignColsAndResize debug D A ca H W true =
          Outcome.throw A (Error.LogicError "Could not set col alignment")) ∧
      (A.RowAlign ≠ ra →
        AlignRowsAndResize debug D A ra H W true =
          Outcome.throw A (Error.LogicError "Could not set row alignment"))) := by
  refine ⟨?_, ?_, ?_, ?_, ?_⟩
  · intro h
    simp only [ColAlign, RowAlign] at h
    simp [Align, DEBUG_ONLY, Outcome.check, hv, h]
  · intro h
    simp only [ColAlign] at h
    simp [AlignCols, DEBUG_ONLY, Outcome.check, hv, h]
  · intro h
    simp only [RowAlign] at h
    simp [AlignRows, DEBUG_ONLY, Outcome.check, hv, h]
  · intro debug H W force
    have r := resize_keeps_alignments debug D A H W
    refine ⟨?_, ?_, ?_, ?_, ?_, ?_⟩
    · simp only [AlignAndResize, hv, Bool.not_true, Bool.false_eq_true, if_false]
      split
      · rfl
      · exact r.1
    · simp only [AlignAndResize, hv, Bool.not_true, Bool.false_eq_true, if_false]
      split
      · rfl
      · exact r.2
    · simp only [AlignColsAndResize, hv, Bool.not_true, Bool.false_and, Bool.false_eq_true,
        if_false]
      split
      · rfl
      · exact r.1
    · simp only [AlignColsAndResize, hv, Bool.not_true, Bool.false_and, Bool.false_eq_true,
        if_false]
      split
      · rfl
      · exact r.2
    · simp only [AlignRowsAndResize, hv, Bool.not_true, Bool.false_and, Bool.false_eq_true,
        if_false]
      split
      · rfl
      · exact r.1
    · simp only [AlignRowsAndResize, hv, Bool.not_true, Bool.false_and, Bool.false_eq_true,
        if_false]
      split
      · rfl
      · exact r.2
  · intro debug H W
    refine ⟨?_, ?_, ?_⟩
    · intro h
      simp only [ColAlign, RowAlign] at h
      simp [AlignAndResize, hv, h]
    · intro h
      simp only [ColAlign] at h
      simp [AlignColsAndResize, hv, h]
    · intro h
      simp only [RowAlign] at h
      simp [AlignRowsAndResize, hv, h]

theorem view_cannot_be_realigned_witness :
    viewExample.Viewing = true ∧
    ((viewExample.ColAlign ≠ 1 ∨ viewExample.RowAlign ≠ 0) →
      Align true VR_STAR viewExample 1 0 = Outcome.throw viewExample (Error.LogicError "Tried to realign a view")) ∧
    (viewExample.ColAlign ≠ 1 →
      AlignCols true VR_STAR viewExample 1 = Outcome.throw viewExample (Error.LogicError "Tried to realign a view")) ∧
    (viewExample.RowAlign ≠ 0 →
      AlignRows true VR_STAR viewExample 0 = Outcome.throw viewExample (Error.LogicError "Tried to realign a view")) ∧
    (∀ (debug : Bool) (H W : Int) (force : Bool),
      (AlignAndResize debug VR_STAR viewExample 1 0 H W force).state.ColAlign = viewExample.ColAlign ∧
      (AlignAndResize debug VR_STAR viewExample 1 0 H W force).state.RowAlign = viewExample.RowAlign ∧
      (AlignColsAndResize debug VR_STAR viewExample 1 H W force).state.ColAlign = viewExample.ColAlign ∧
      (AlignColsAndResize debug VR_STAR viewExample 1 H W force).state.RowAlign = viewExample.RowAlign ∧
      (AlignRowsAndResize debug VR_STAR viewExample 0 H W force).state.ColAlign = viewExample.ColAlign ∧
      (AlignRowsAndResize debug VR_STAR viewExample 0 H W force).state.RowAlign = viewExample.RowAlign) ∧
    (∀ (debug : Bool) (H W : Int),
      ((viewExample.ColAlign ≠ 1 ∨ viewExample.RowAlign ≠ 0) →
        AlignAndResize debug VR_STAR viewExample 1 0 H W true =
          Outcome.throw viewExample (Error.LogicError "Could not set alignments")) ∧
      (viewExample.ColAlign ≠ 1 →
        AlignColsAndResize debug VR_STAR viewExample 1 H W true =
          Outcome.throw viewExample (Error.LogicError "Could not set col alignment")) ∧
      (viewExample.RowAlign ≠ 0 →
        AlignRowsAndResize debug VR_STAR viewExample 0 H W true =
          Outcome.throw viewExample (Error.LogicError "Could not set row alignment"))) :=
  ⟨by decide, view_cannot_be_realigned VR_STAR viewExample 1 0 (by decide)⟩

/-- C10, counterexample.  In a build without the checks `DEBUG_ONLY` removes the
test for a view: on the 4 x 3 view with alignments (0, 0), Align(1, 0),
AlignCols(1) and AlignRows(1) return normally, install the requested
alignment and empty the matrix. -/
theorem view_realigned_unchecked :
    viewExample.Viewing = true ∧
    viewExample.ColAlign = 0 ∧ viewExample.RowAlign = 0 ∧ viewExample.Height = 4 ∧
    (Align false VR_STAR viewExample 1 0).thrown = none ∧
    (Align false VR_STAR viewExample 1 0).state.ColAlign = 1 ∧
    (Align false VR_STAR viewExample 1 0).state.Height = 0 ∧
    (AlignCols false VR_STAR viewExample 1).thrown = none ∧
    (AlignCols false VR_STAR viewExample 1).state.ColAlign = 1 ∧
    (AlignCols false VR_STAR viewExample 1).state.Height = 0 ∧
    (AlignRows false VR_STAR viewExample 1).thrown = none ∧
    (AlignRows false VR_STAR viewExample 1).state.RowAlign = 1 ∧
    (AlignRows false VR_STAR viewExample 1).state.Height = 0 := by
  decide

/-- The view of the witness has alignments (0, 0), so the requested (1, 0) differs;
the same holds of the locked view, on which Align throws as well. -/
theorem view_example_alignments :
    viewExample.ColAlign = 0 ∧ viewExample.RowAlign = 0 ∧
      viewExample.viewType_ = ViewType.VIEW ∧ lockedExample.viewType_ = ViewType.LOCKED_VIEW ∧
      (Align true VR_STAR lockedExample 1 0).thrown =
        some (Error.LogicError "Tried to realign a view") ∧
      (Align true VR_STAR lockedExample 1 0).state = lockedExample := by
  decide

/-! ## Constructed matrices form well-formed worlds -/

/-- The object that the aligned constructor leaves on a process in the grid whose
cross rank is the root. -/
theorem newAligned_state (debug : Bool) (D : Overrides) (H Wd ca ra : Int) (g : Grid)
    (root : Int) (hg : g.InGrid = true) (hcross : (D.CrossComm g).rank = root) :
    (DistMatrix.newAligned debug D H Wd ca ra g root).state =
      { viewType_ := ViewType.OWNER, height_ := H, width_ := Wd,
        matrix_ := Matrix.empty.Resize_
          (Length H (Shift (D.ColComm g).rank ca (D.ColStride g)) (D.ColStride g))
          (Length Wd (Shift (D.RowComm g).rank ra (D.RowStride g)) (D.RowStride g)),
        colConstrained_ := true, rowConstrained_ := true, colAlign_ := ca, rowAlign_ := ra,
        colShift_ := Shift (D.ColComm g).rank ca (D.ColStride g),
        rowShift_ := Shift (D.RowComm g).rank ra (D.RowStride g),
        root_ := root, grid_ := g } := by
  by_cases h : (0 : Int) ≠ ca ∨ (0 : Int) ≠ ra <;>
    cases debug <;>
    simp [DistMatrix.newAligned, Align, Resize, SetShifts, AbstractDistMatrix.new,
      AbstractDistMatrix.Empty, Participating, CrossRank, ColRank, RowRank, ColStride,
      RowStride, ColShift, RowShift, mpi.CommRank, AssertNotLocked, Locked, IsLocked, Viewing,
      IsViewing, DEBUG_ONLY, Outcome.check, Outcome.ok, Outcome.andThen, Matrix.Empty_, hg,
      hcross, h]

/-- Every [VR,*] matrix constructed on an r x c grid, of any size and with any
column alignment in range, gives a well-formed world. -/
theorem constructedWorld_VR_STAR_ok {T : Type} (debug : Bool) (r c H Wd ca : Int)
    (bufs : Int × Int → Buffer T) (hr : 1 ≤ r) (hc : 1 ≤ c) (hca : 0 ≤ ca ∧ ca < r * c) :
    WorldOK VR_STAR (constructedWorld debug VR_STAR r c H Wd ca 0 0 bufs) r c (r * c) 1 1
      H Wd ca 0 0 := by
  have hrc : 1 ≤ r * c := by
    have := Int.mul_le_mul hr hc (by omega) (by omega)
    omega
  have st : ∀ q : Int × Int, (constructedWorld debug VR_STAR r c H Wd ca 0 0 bufs q).1 = _ :=
    fun q => newAligned_state debug VR_STAR H Wd ca 0 (procGrid r c q.1 q.2) 0 rfl rfl
  constructor
  · exact hrc
  · exact le_refl _
  · exact hca
  · decide
  · decide
  · intro q _ _ _ _
    rw [st]
    rfl
  · intro q _ _ _ _
    rw [st]
    exact ⟨rfl, rfl⟩
  · intro q h1 h2 h3 h4
    rw [st]
    simp only [ColRank, RowRank, DistRank, VR_STAR, procGrid, Grid.InGrid, if_true, mpi.CommRank,
      Grid.VRComm, Grid.VRRank, Grid.COMM_SELF]
    have e1 : 0 ≤ q.1 * c := Int.mul_nonneg h1 (by omega)
    have e2 : (q.1 + 1) * c ≤ r * c := Int.mul_le_mul_of_nonneg_right (by omega) (by omega)
    have e3 : (q.1 + 1) * c = q.1 * c + c := by ring
    refine ⟨by omega, by omega, le_refl _, by decide, by omega⟩
  · intro q h1 h2 h3 h4 k k0 k1
    rw [st, st]
    simp only [DistRank, CrossRank, VR_STAR, procGrid, mpi.CommRank, Grid.VRComm, Grid.VRRank,
      Grid.COMM_SELF]
    have hcpos : 0 < c := by omega
    refine ⟨Int.ediv_nonneg k0 (by omega), ?_, Int.emod_nonneg _ (by omega),
      Int.emod_lt_of_pos _ hcpos, ?_, trivial⟩
    · rw [Int.ediv_lt_iff_lt_mul hcpos]
      rw [Int.mul_one] at k1
      exact k1
    · have := Int.emod_add_ediv k c
      have e : k / c * c = c * (k / c) := by ring
      omega
  · intro q h1 h2 h3 h4 k k0 k1
    rw [st, st]
    simp only [CrossRank, VR_STAR, procGrid, mpi.CommRank, Grid.COMM_SELF]
    exact ⟨h1, h2, h3, h4, by omega⟩
  · intro q _ _ _ _
    rw [st]
    exact ⟨rfl, rfl, rfl, rfl, rfl⟩
  · intro q _ _ _ _
    rw [st]
    simp [SetShifts, Participating, CrossRank, ColRank, RowRank, ColStride, RowStride, VR_STAR,
      procGrid, Grid.InGrid, Grid.COMM_SELF, mpi.CommRank]
  · intro q _ _ _ _ _
    rw [st]
    simp [LocalHeight, LocalWidth, Matrix.Height, Matrix.Width, Matrix.Resize_, Matrix.Viewing,
      Matrix.empty, IsViewing, ColShift, RowShift, VR_STAR, procGrid, Grid.Size]
  · intro q _ _ _ _
    rw [st]
    simp [Matrix.Locked, Matrix.Resize_, Matrix.Viewing, Matrix.empty, IsViewing, IsLocked]

/-- Every [MC,MR] matrix constructed on an r x c grid, of any size and with any
alignments in range, gives a well-formed world. -/
theorem constructedWorld_MC_MR_ok {T : Type} (debug : Bool) (r c H Wd ca ra : Int)
    (bufs : Int × Int → Buffer T) (hr : 1 ≤ r) (hc : 1 ≤ c) (hca : 0 ≤ ca ∧ ca < r)
    (hra : 0 ≤ ra ∧ ra < c) :
    WorldOK MC_MR (constructedWorld debug MC_MR r c H Wd ca ra 0 bufs) r c r c 1
      H Wd ca ra 0 := by
  have st : ∀ q : Int × Int, (constructedWorld debug MC_MR r c H Wd ca ra 0 bufs q).1 = _ :=
    fun q => newAligned_state debug MC_MR H Wd ca ra (procGrid r c q.1 q.2) 0 rfl rfl
  constructor
  · exact hr
  · exact hc
  · exact hca
  · exact hra
  · decide
  · intro q _ _ _ _
    rw [st]
    rfl
  · intro q _ _ _ _
    rw [st]
    exact ⟨rfl, rfl⟩
  · intro q h1 h2 h3 h4
    rw [st]
    simp only [ColRank, RowRank, DistRank, MC_MR, procGrid, Grid.InGrid, if_true, mpi.CommRank,
      Grid.VCComm, Grid.VCRank, Grid.MCComm, Grid.MRComm, Grid.MCRank, Grid.MRRank]
    exact ⟨h1, h2, h3, h4, trivial⟩
  · intro q h1 h2 h3 h4 k k0 k1
    rw [st, st]
    simp only [DistRank, CrossRank, MC_MR, procGrid, mpi.CommRank, Grid.VCComm, Grid.VCRank,
      Grid.COMM_SELF]
    have hrpos : 0 < r := by omega
    refine ⟨Int.emod_nonneg _ (by omega), Int.emod_lt_of_pos _ hrpos,
      Int.ediv_nonneg k0 (by omega), ?_, ?_, trivial⟩
    · rw [Int.ediv_lt_iff_lt_mul hrpos]
      have : c * r = r * c := by ring
      omega
    · have := Int.emod_add_ediv k r
      have e : k / r * r = r * (k / r) := by ring
      omega
  · intro q h1 h2 h3 h4 k k0 k1
    rw [st, st]
    simp only [CrossRank, MC_MR, procGrid, mpi.CommRank, Grid.COMM_SELF]
    exact ⟨h1, h2, h3, h4, by omega⟩
  · intro q _ _ _ _
    rw [st]
    exact ⟨rfl, rfl, rfl, rfl, rfl⟩
  · intro q _ _ _ _
    rw [st]
    simp [SetShifts, Participating, CrossRank, ColRank, RowRank, ColStride, RowStride, MC_MR,
      procGrid, Grid.InGrid, Grid.COMM_SELF, Grid.MCComm, Grid.MRComm, mpi.CommRank]
  · intro q _ _ _ _ _
    rw [st]
    simp [LocalHeight, LocalWidth, Matrix.Height, Matrix.Width, Matrix.Resize_, Matrix.Viewing,
      Matrix.empty, IsViewing, ColShift, RowShift, MC_MR, procGrid, Grid.Height, Grid.Width]
  · intro q _ _ _ _
    rw [st]
    simp [Matrix.Locked, Matrix.Resize_, Matrix.Viewing, Matrix.empty, IsViewing, IsLocked]


/-! ## Loops -/

theorem forLoop_empty {σ : Type} (lo hi : Int) (body : Int → σ → σ) (s : σ) (h : hi ≤ lo) :
    forLoop lo hi body s = s := by
  have : (hi - lo).toNat = 0 := by omega
  simp [forLoop, this]

theorem forLoop_succ {σ : Type} (lo hi : Int) (body : Int → σ → σ) (s : σ) (h : lo ≤ hi) :
    forLoop lo (hi + 1) body s = body hi (forLoop lo hi body s) := by
  have e : (hi + 1 - lo).toNat = (hi - lo).toNat + 1 := by omega
  have e2 : lo + ((hi - lo).toNat : Int) = hi := by omega
  unfold forLoop
  rw [e, List.range_succ, List.foldl_append]
  simp only [List.foldl_cons, List.foldl_nil]
  rw [e2]

/-- Invariant rule for `forLoop`. -/
theorem forLoop_inv {σ : Type} (P : Int → σ → Prop) (lo hi : Int) (body : Int → σ → σ)
    (s : σ) (h : lo ≤ hi) (h0 : P lo s)
    (hstep : ∀ j t, lo ≤ j → j < hi → P j t → P (j + 1) (body j t)) :
    P hi (forLoop lo hi body s) := by
  have key : ∀ n : Nat, lo + n ≤ hi → P (lo + n) (forLoop lo (lo + n) body s) := by
    intro n
    induction n with
    | zero =>
      intro _
      simpa [forLoop_empty] using h0
    | succ n ih =>
      intro hn
      have hn' : lo + (n : Int) ≤ hi := by push_cast at hn; omega
      have e : lo + ((n + 1 : Nat) : Int) = (lo + n) + 1 := by push_cast; ring
      rw [e, forLoop_succ _ _ _ _ (by omega)]
      exact hstep _ _ (by omega) (by push_cast at hn; omega) (ih hn')
  have := key (hi - lo).toNat (by omega)
  have e : lo + ((hi - lo).toNat : Int) = hi := by omega
  rwa [e] at this

/-- A loop of `MemZero` calls zeroes the union of the regions and nothing else. -/
theorem forLoop_MemZero {T : Type} [Zero T] (lo hi : Int) (off len : Int → Int)
    (buf : Buffer T) (k : Int) :
    ((∃ j, lo ≤ j ∧ j < hi ∧ off j ≤ k ∧ k < off j + len j) →
      forLoop lo hi (fun j b => MemZero b (off j) (len j)) buf k = 0) ∧
    ((∀ j, lo ≤ j → j < hi → ¬ (off j ≤ k ∧ k < off j + len j)) →
      forLoop lo hi (fun j b => MemZero b (off j) (len j)) buf k = buf k) := by
  by_cases h : lo ≤ hi
  · refine forLoop_inv
      (fun m t => ((∃ j, lo ≤ j ∧ j < m ∧ off j ≤ k ∧ k < off j + len j) → t k = 0) ∧
        ((∀ j, lo ≤ j → j < m → ¬ (off j ≤ k ∧ k < off j + len j)) → t k = buf k))
      lo hi _ buf h ?_ ?_
    · refine ⟨?_, fun _ => rfl⟩
      rintro ⟨j, a, b, _⟩
      omega
    · intro j t hj1 hj2 ih
      simp only [MemZero]
      by_cases hk : off j ≤ k ∧ k < off j + len j
      · rw [if_pos hk]
        exact ⟨fun _ => rfl, fun hn => absurd hk (hn j hj1 (by omega))⟩
      · rw [if_neg hk]
        constructor
        · rintro ⟨jp, a, b, c, d⟩
          have : jp ≠ j := by rintro rfl; exact hk ⟨c, d⟩
          exact ih.1 ⟨jp, a, by omega, c, d⟩
        · intro hn
          exact ih.2 (fun jp a b => hn jp a (by omega))
  · rw [forLoop_empty _ _ _ _ (by omega)]
    refine ⟨?_, fun _ => rfl⟩
    rintro ⟨j, a, b, _⟩
    omega

/-- Column-major addressing with leading dimension L separates the columns:
a position inside column jp is in no other column. -/
theorem column_unique (L i j jp x : Int) (hi0 : 0 ≤ i) (hiL : i < L)
    (h1 : jp * L ≤ i + j * L) (h2 : i + j * L < jp * L + x) (hx : x ≤ L) : jp = j := by
  have hL : 0 < L := by omega
  rcases lt_trichotomy jp j with h | h | h
  · have : (j - jp - 1) * L ≥ 0 := mul_nonneg (by omega) (by omega)
    have e : (j - jp - 1) * L = j * L - jp * L - L := by ring
    omega
  · exact h
  · have : (jp - j - 1) * L ≥ 0 := mul_nonneg (by omega) (by omega)
    have e : (jp - j - 1) * L = jp * L - j * L - L := by ring
    omega


/-! ## MakeTriangular -/

/-- The sequential `MakeTriangular` does not touch the descriptor. -/
theorem makeTriangular_fst {T : Type} [Zero T] (uplo : UpperOrLower) (A : Matrix)
    (buf : Buffer T) : (MakeTriangular uplo A buf).1 = A := by
  unfold MakeTriangular
  dsimp only
  split <;> rfl

/-- Entry (i,j) of the window after the sequential `MakeTriangular`. -/
theorem makeTriangular_entry {T : Type} [Zero T] (uplo : UpperOrLower) (A : Matrix)
    (buf : Buffer T) (hld : A.height_ ≤ A.ldim_) (i j : Int)
    (hi0 : 0 ≤ i) (hi1 : i < A.height_) (hj0 : 0 ≤ j) (hj1 : j < A.width_) :
    (MakeTriangular uplo A buf).2 (A.Buffer i j) =
      if uplo = UpperOrLower.LOWER then (if j ≤ i then buf (A.Buffer i j) else 0)
      else (if i ≤ j then buf (A.Buffer i j) else 0) := by
  unfold MakeTriangular
  simp only [Matrix.Buffer, Matrix.Height, Matrix.Width, Matrix.LDim, Min]
  by_cases hu : uplo = UpperOrLower.LOWER
  · rw [if_pos hu, if_pos hu]
    have key := forLoop_MemZero 1 A.width_ (fun j => A.data_ + 0 + 0 * A.ldim_ + j * A.ldim_)
      (fun j => min j A.height_) buf (A.data_ + i + j * A.ldim_)
    by_cases hij : j ≤ i
    · rw [if_pos hij]
      refine key.2 ?_
      rintro jp _ _ ⟨h1, h2⟩
      have hm : min jp A.height_ ≤ A.ldim_ := le_trans (min_le_right _ _) hld
      have := column_unique A.ldim_ i j jp (min jp A.height_) hi0 (by omega) (by omega)
        (by omega) hm
      subst this
      have : min jp A.height_ ≤ jp := min_le_left _ _
      omega
    · rw [if_neg hij]
      refine key.1 ⟨j, by omega, hj1, by omega, ?_⟩
      have : i < min j A.height_ := lt_min (by omega) hi1
      omega
  · rw [if_neg hu, if_neg hu]
    have key := forLoop_MemZero 0 (min A.width_ A.height_)
      (fun j => A.data_ + 0 + 0 * A.ldim_ + (j + 1 + j * A.ldim_))
      (fun j => A.height_ - (j + 1)) buf (A.data_ + i + j * A.ldim_)
    by_cases hij : i ≤ j
    · rw [if_pos hij]
      refine key.2 ?_
      rintro jp h0 _ ⟨h1, h2⟩
      have := column_unique A.ldim_ i j jp A.height_ hi0 (by omega) (by omega)
        (by omega) hld
      subst this
      omega
    · rw [if_neg hij]
      refine key.1 ⟨j, hj0, lt_min hj1 (by omega), by omega, by omega⟩

/-- Every position the sequential `MakeTriangular` changes is an entry of the
window. -/
theorem makeTriangular_frame {T : Type} [Zero T] (uplo : UpperOrLower) (A : Matrix)
    (buf : Buffer T) (k : Int)
    (hk : ∀ i j, 0 ≤ i → i < A.height_ → 0 ≤ j → j < A.width_ → k ≠ A.Buffer i j) :
    (MakeTriangular uplo A buf).2 k = buf k := by
  unfold MakeTriangular
  simp only [Matrix.Buffer, Matrix.Height, Matrix.Width, Matrix.LDim, Min]
  simp only [Matrix.Buffer] at hk
  by_cases hu : uplo = UpperOrLower.LOWER
  · rw [if_pos hu]
    refine (forLoop_MemZero 1 A.width_ (fun j => A.data_ + 0 + 0 * A.ldim_ + j * A.ldim_)
      (fun j => min j A.height_) buf k).2 ?_
    rintro jp h0 hw ⟨h1, h2⟩
    have : min jp A.height_ ≤ A.height_ := min_le_right _ _
    exact hk (k - A.data_ - jp * A.ldim_) jp (by omega) (by omega) (by omega) hw (by omega)
  · rw [if_neg hu]
    refine (forLoop_MemZero 0 (min A.width_ A.height_)
      (fun j => A.data_ + 0 + 0 * A.ldim_ + (j + 1 + j * A.ldim_))
      (fun j => A.height_ - (j + 1)) buf k).2 ?_
    rintro jp h0 hw ⟨h1, h2⟩
    have : min A.width_ A.height_ ≤ A.width_ := min_le_left _ _
    exact hk (k - A.data_ - jp * A.ldim_) jp (by omega) (by omega) (by omega) (by omega)
      (by omega)

/-- C14: the sequential MakeTriangular on an m x n matrix with leading dimension
at least m keeps the descriptor (so the dimensions), leaves entry (i,j) of the
window as it was when i >= j (LOWER) resp. i <= j (UPPER) and makes it 0
otherwise, and writes no position outside the m x n window. -/
theorem makeTriangular_spec {T : Type} [Zero T] (uplo : UpperOrLower) (A : Matrix)
    (buf : Buffer T) (hld : A.LDim ≥ A.Height) :
    (MakeTriangular uplo A buf).1 = A ∧
    (∀ i j, 0 ≤ i → i < A.Height → 0 ≤ j → j < A.Width →
      (MakeTriangular uplo A buf).2 (A.Buffer i j) =
        if uplo = UpperOrLower.LOWER then (if i ≥ j then buf (A.Buffer i j) else 0)
        else (if i ≤ j then buf (A.Buffer i j) else 0)) ∧
    (∀ k, (∀ i j, 0 ≤ i → i < A.Height → 0 ≤ j → j < A.Width → k ≠ A.Buffer i j) →
      (MakeTriangular uplo A buf).2 k = buf k) :=
  ⟨makeTriangular_fst uplo A buf,
   fun i j hi0 hi1 hj0 hj1 => makeTriangular_entry uplo A buf hld i j hi0 hi1 hj0 hj1,
   fun k hk => makeTriangular_frame uplo A buf k hk⟩

theorem makeTriangular_spec_witness :
    (triExample 2 3).1.LDim ≥ (triExample 2 3).1.Height ∧
    ((MakeTriangular UpperOrLower.LOWER (triExample 2 3).1 (triExample 2 3).2).1
        = (triExample 2 3).1 ∧
    (∀ i j, 0 ≤ i → i < (triExample 2 3).1.Height → 0 ≤ j → j < (triExample 2 3).1.Width →
      (MakeTriangular UpperOrLower.LOWER (triExample 2 3).1 (triExample 2 3).2).2
          ((triExample 2 3).1.Buffer i j) =
        if UpperOrLower.LOWER = UpperOrLower.LOWER then
          (if i ≥ j then (triExample 2 3).2 ((triExample 2 3).1.Buffer i j) else 0)
        else (if i ≤ j then (triExample 2 3).2 ((triExample 2 3).1.Buffer i j) else 0)) ∧
    (∀ k, (∀ i j, 0 ≤ i → i < (triExample 2 3).1.Height → 0 ≤ j →
        j < (triExample 2 3).1.Width → k ≠ (triExample 2 3).1.Buffer i j) →
      (MakeTriangular UpperOrLower.LOWER (triExample 2 3).1 (triExample 2 3).2).2 k
        = (triExample 2 3).2 k)) :=
  ⟨by decide, makeTriangular_spec UpperOrLower.LOWER (triExample 2 3).1 (triExample 2 3).2
    (by decide)⟩

/-- The 2 x 3 example, entry by entry (positions 5,6 | 8,9 | 11,12; position 7 is
the padding row of the leading dimension): LOWER zeroes (0,1), (0,2), (1,2),
UPPER zeroes (1,0). -/
theorem makeTriangular_example_values :
    (List.map (MakeTriangular UpperOrLower.LOWER (triExample 2 3).1 (triExample 2 3).2).2
        [4, 5, 6, 7, 8, 9, 10, 11, 12, 13, 14]
      = [104, 105, 106, 107, 0, 109, 110, 0, 0, 113, 114]) ∧
    (List.map (MakeTriangular UpperOrLower.UPPER (triExample 2 3).1 (triExample 2 3).2).2
        [4, 5, 6, 7, 8, 9, 10, 11, 12, 13, 14]
      = [104, 105, 0, 107, 108, 109, 110, 111, 112, 113, 114]) := by
  decide


theorem MemZero_nonpos {T : Type} [Zero T] (buf : Buffer T) (off n : Int) (h : n ≤ 0) :
    MemZero buf off n = buf := by
  funext k
  unfold MemZero
  rw [if_neg (by omega)]

theorem Length_nonneg (n s r : Int) : 0 ≤ Length n s r := by
  unfold Length
  exact le_max_left _ _

theorem Length_mono (n m s r : Int) (hr : 0 < r) (h : n ≤ m) : Length n s r ≤ Length m s r := by
  by_contra hc
  have h1 : Length m s r < Length n s r := by omega
  have h2 := (lt_Length_iff n s r (Length m s r) hr (Length_nonneg m s r)).1 h1
  have h3 := (lt_Length_iff m s r (Length m s r) hr (Length_nonneg m s r)).2 (by omega)
  omega

/-- The distributed `MakeTriangular` does not touch the descriptor. -/
theorem dist_makeTriangular_fst {T : Type} [Zero T] (uplo : UpperOrLower) (D : Overrides)
    (A : AbstractDistMatrix) (buf : Buffer T) :
    (DistMatrix.MakeTriangular uplo D A buf).1 = A := by
  unfold DistMatrix.MakeTriangular
  dsimp only
  split <;> rfl

/-- The two loops of the distributed `MakeTriangular` as loops of `MemZero`. -/
theorem dist_makeTriangular_snd {T : Type} [Zero T] (uplo : UpperOrLower) (D : Overrides)
    (A : AbstractDistMatrix) (buf : Buffer T) :
    (DistMatrix.MakeTriangular uplo D A buf).2 =
      if uplo = UpperOrLower.LOWER then
        forLoop 0 A.matrix_.width_ (fun jLoc b => MemZero b
          (A.matrix_.data_ + jLoc * A.matrix_.ldim_)
          (if 1 ≤ A.rowShift_ + jLoc * RowStride D A then
            Length (min (A.rowShift_ + jLoc * RowStride D A) A.height_) A.colShift_
              (ColStride D A) else 0)) buf
      else
        forLoop 0 A.matrix_.width_ (fun jLoc b => MemZero b
          (A.matrix_.data_ + jLoc * A.matrix_.ldim_ +
            Length (A.rowShift_ + jLoc * RowStride D A + 1) A.colShift_ (ColStride D A))
          (A.matrix_.height_ -
            Length (A.rowShift_ + jLoc * RowStride D A + 1) A.colShift_ (ColStride D A))) buf := by
  unfold DistMatrix.MakeTriangular
  simp only [Matrix.Buffer, Height, LocalHeight, LocalWidth, ColShift, RowShift, LDim,
    Matrix.Height, Matrix.Width, Matrix.LDim, Min, Length_]
  by_cases hu : uplo = UpperOrLower.LOWER
  · rw [if_pos hu, if_pos hu]
    dsimp only
    congr 1
    funext jLoc b
    by_cases h : 1 ≤ A.rowShift_ + jLoc * RowStride D A
    · rw [if_pos (by omega), if_pos h]
      have e1 : A.matrix_.data_ + 0 + 0 * A.matrix_.ldim_ + jLoc * A.matrix_.ldim_ =
          A.matrix_.data_ + jLoc * A.matrix_.ldim_ := by ring
      have e2 : A.rowShift_ + jLoc * RowStride D A - 1 + 1 =
          A.rowShift_ + jLoc * RowStride D A := by ring
      rw [e1, e2]
    · rw [if_neg (by omega), if_neg h, MemZero_nonpos _ _ _ le_rfl]
  · rw [if_neg hu, if_neg hu]
    dsimp only
    congr 1
    funext jLoc b
    have e3 : ∀ L : Int, A.matrix_.data_ + 0 + 0 * A.matrix_.ldim_ +
        (L + jLoc * A.matrix_.ldim_) = A.matrix_.data_ + jLoc * A.matrix_.ldim_ + L := by
      intro L
      ring
    rw [e3]
    split
    · rfl
    · rw [MemZero_nonpos _ _ _ (by omega)]

/-- Local entry (iLoc,jLoc) after the distributed `MakeTriangular`, in terms of
the global indices i = colShift + iLoc*colStride, j = rowShift + jLoc*rowStride. -/
theorem dist_makeTriangular_entry {T : Type} [Zero T] (uplo : UpperOrLower) (D : Overrides)
    (A : AbstractDistMatrix) (buf : Buffer T) (hcs : 0 < ColStride D A)
    (hsh : 0 ≤ A.colShift_)
    (hlh : A.matrix_.height_ = Length A.height_ A.colShift_ (ColStride D A))
    (hld : A.matrix_.height_ ≤ A.matrix_.ldim_) (iLoc jLoc : Int)
    (hi0 : 0 ≤ iLoc) (hi1 : iLoc < A.matrix_.height_) (hj0 : 0 ≤ jLoc)
    (hj1 : jLoc < A.matrix_.width_) :
    (DistMatrix.MakeTriangular uplo D A buf).2 (A.matrix_.Buffer iLoc jLoc) =
      if uplo = UpperOrLower.LOWER then
        (if A.rowShift_ + jLoc * RowStride D A ≤ A.colShift_ + iLoc * ColStride D A
          then buf (A.matrix_.Buffer iLoc jLoc) else 0)
      else
        (if A.colShift_ + iLoc * ColStride D A ≤ A.rowShift_ + jLoc * RowStride D A
          then buf (A.matrix_.Buffer iLoc jLoc) else 0) := by
  rw [dist_makeTriangular_snd]
  simp only [Matrix.Buffer]
  have hih : A.colShift_ + iLoc * ColStride D A < A.height_ :=
    (lt_Length_iff _ _ _ _ hcs hi0).1 (hlh ▸ hi1)
  have hinn : 0 ≤ iLoc * ColStride D A := mul_nonneg hi0 hcs.le
  by_cases hu : uplo = UpperOrLower.LOWER
  · rw [if_pos hu, if_pos hu]
    have key := forLoop_MemZero 0 A.matrix_.width_
      (fun jLoc => A.matrix_.data_ + jLoc * A.matrix_.ldim_)
      (fun jLoc => if 1 ≤ A.rowShift_ + jLoc * RowStride D A then
        Length (min (A.rowShift_ + jLoc * RowStride D A) A.height_) A.colShift_
          (ColStride D A) else 0) buf (A.matrix_.data_ + iLoc + jLoc * A.matrix_.ldim_)
    by_cases hij : A.rowShift_ + jLoc * RowStride D A ≤ A.colShift_ + iLoc * ColStride D A
    · rw [if_pos hij]
      refine key.2 ?_
      rintro jp _ _ ⟨h1, h2⟩
      have hlen : (if 1 ≤ A.rowShift_ + jp * RowStride D A then
          Length (min (A.rowShift_ + jp * RowStride D A) A.height_) A.colShift_
            (ColStride D A) else 0) ≤ A.matrix_.ldim_ := by
        split
        · have := Length_mono (min (A.rowShift_ + jp * RowStride D A) A.height_) A.height_
            A.colShift_ (ColStride D A) hcs (min_le_right _ _)
          omega
        · omega
      have := column_unique A.matrix_.ldim_ iLoc jLoc jp _ hi0 (by omega) (by omega)
        (by omega) hlen
      subst this
      split at h2
      · have h3 : iLoc < Length (min (A.rowShift_ + jp * RowStride D A) A.height_)
            A.colShift_ (ColStride D A) := by omega
        have h4 := (lt_Length_iff _ _ _ _ hcs hi0).1 h3
        have : min (A.rowShift_ + jp * RowStride D A) A.height_ ≤
            A.rowShift_ + jp * RowStride D A := min_le_left _ _
        omega
      · omega
    · rw [if_neg hij]
      refine key.1 ⟨jLoc, hj0, hj1, by omega, ?_⟩
      dsimp only
      rw [if_pos (by omega)]
      have : iLoc < Length (min (A.rowShift_ + jLoc * RowStride D A) A.height_)
          A.colShift_ (ColStride D A) :=
        (lt_Length_iff _ _ _ _ hcs hi0).2 (lt_min (by omega) hih)
      omega
  · rw [if_neg hu, if_neg hu]
    have key := forLoop_MemZero 0 A.matrix_.width_
      (fun jLoc => A.matrix_.data_ + jLoc * A.matrix_.ldim_ +
        Length (A.rowShift_ + jLoc * RowStride D A + 1) A.colShift_ (ColStride D A))
      (fun jLoc => A.matrix_.height_ -
        Length (A.rowShift_ + jLoc * RowStride D A + 1) A.colShift_ (ColStride D A))
      buf (A.matrix_.data_ + iLoc + jLoc * A.matrix_.ldim_)
    by_cases hij : A.colShift_ + iLoc * ColStride D A ≤ A.rowShift_ + jLoc * RowStride D A
    · rw [if_pos hij]
      refine key.2 ?_
      rintro jp _ _ ⟨h1, h2⟩
      have hn := Length_nonneg (A.rowShift_ + jp * RowStride D A + 1) A.colShift_
        (ColStride D A)
      have := column_unique A.matrix_.ldim_ iLoc jLoc jp A.matrix_.height_ hi0 (by omega)
        (by omega) (by omega) hld
      subst this
      have h4 := (lt_Length_iff (A.rowShift_ + jp * RowStride D A + 1) A.colShift_
        (ColStride D A) iLoc hcs hi0).2 (by omega)
      omega
    · rw [if_neg hij]
      refine key.1 ⟨jLoc, hj0, hj1, ?_, ?_⟩
      · dsimp only
        by_contra hc
        have h3 : iLoc < Length (A.rowShift_ + jLoc * RowStride D A + 1) A.colShift_
            (ColStride D A) := by omega
        have h4 := (lt_Length_iff _ _ _ _ hcs hi0).1 h3
        omega
      · dsimp only
        omega

/-- Every position the distributed `MakeTriangular` changes is an entry of the
local window. -/
theorem dist_makeTriangular_frame {T : Type} [Zero T] (uplo : UpperOrLower) (D : Overrides)
    (A : AbstractDistMatrix) (buf : Buffer T) (hcs : 0 < ColStride D A)
    (hlh : A.matrix_.height_ = Length A.height_ A.colShift_ (ColStride D A)) (k : Int)
    (hk : ∀ iLoc jLoc, 0 ≤ iLoc → iLoc < A.matrix_.height_ → 0 ≤ jLoc →
      jLoc < A.matrix_.width_ → k ≠ A.matrix_.Buffer iLoc jLoc) :
    (DistMatrix.MakeTriangular uplo D A buf).2 k = buf k := by
  rw [dist_makeTriangular_snd]
  simp only [Matrix.Buffer] at hk
  by_cases hu : uplo = UpperOrLower.LOWER
  · rw [if_pos hu]
    refine (forLoop_MemZero 0 A.matrix_.width_ _ _ buf k).2 ?_
    rintro jp h0 hw ⟨h1, h2⟩
    have hlen : (if 1 ≤ A.rowShift_ + jp * RowStride D A then
        Length (min (A.rowShift_ + jp * RowStride D A) A.height_) A.colShift_
          (ColStride D A) else 0) ≤ A.matrix_.height_ := by
      split
      · have := Length_mono (min (A.rowShift_ + jp * RowStride D A) A.height_) A.height_
          A.colShift_ (ColStride D A) hcs (min_le_right _ _)
        omega
      · rw [hlh]
        exact Length_nonneg _ _ _
    exact hk (k - A.matrix_.data_ - jp * A.matrix_.ldim_) jp (by omega) (by omega) h0 hw
      (by omega)
  · rw [if_neg hu]
    refine (forLoop_MemZero 0 A.matrix_.width_ _ _ buf k).2 ?_
    rintro jp h0 hw ⟨h1, h2⟩
    have hn := Length_nonneg (A.rowShift_ + jp * RowStride D A + 1) A.colShift_
      (ColStride D A)
    exact hk (k - A.matrix_.data_ - jp * A.matrix_.ldim_) jp (by omega) (by omega) h0 hw
      (by omega)

/-- Running a loop of `MemZero` calls a second time changes nothing. -/
theorem forLoop_MemZero_idem {T : Type} [Zero T] (lo hi : Int) (off len : Int → Int)
    (buf : Buffer T) :
    forLoop lo hi (fun j b => MemZero b (off j) (len j))
        (forLoop lo hi (fun j b => MemZero b (off j) (len j)) buf) =
      forLoop lo hi (fun j b => MemZero b (off j) (len j)) buf := by
  funext k
  by_cases h : ∃ j, lo ≤ j ∧ j < hi ∧ off j ≤ k ∧ k < off j + len j
  · rw [(forLoop_MemZero lo hi off len _ k).1 h, (forLoop_MemZero lo hi off len buf k).1 h]
  · rw [(forLoop_MemZero lo hi off len _ k).2 (fun j a b c => h ⟨j, a, b, c.1, c.2⟩)]

/-- C15: MakeTriangular(LOWER, MakeTriangular(UPPER, A)) is diag(A), for the
sequential routine on a matrix whose leading dimension is at least its height,
and for the distributed routine on every process whose local matrix is consistent
with the distribution: entry (i,j) is A(i,i) when i = j and 0 otherwise. -/
theorem makeTriangular_lower_upper_diag {T : Type} [Zero T] (A : Matrix) (buf : Buffer T)
    (D : Overrides) (B : AbstractDistMatrix) (bufB : Buffer T)
    (hld : A.LDim ≥ A.Height) (hcs : 0 < ColStride D B) (hsh : 0 ≤ B.ColShift)
    (hlh : B.LocalHeight = Length B.Height B.ColShift (ColStride D B))
    (hldB : B.LDim ≥ B.LocalHeight) :
    (∀ i j, 0 ≤ i → i < A.Height → 0 ≤ j → j < A.Width →
      (MakeTriangular UpperOrLower.LOWER (MakeTriangular UpperOrLower.UPPER A buf).1
          (MakeTriangular UpperOrLower.UPPER A buf).2).2 (A.Buffer i j) =
        if i = j then buf (A.Buffer i i) else 0) ∧
    (∀ iLoc jLoc, 0 ≤ iLoc → iLoc < B.LocalHeight → 0 ≤ jLoc → jLoc < B.LocalWidth →
      (DistMatrix.MakeTriangular UpperOrLower.LOWER D
          (DistMatrix.MakeTriangular UpperOrLower.UPPER D B bufB).1
          (DistMatrix.MakeTriangular UpperOrLower.UPPER D B bufB).2).2
          (B.matrix_.Buffer iLoc jLoc) =
        if B.ColShift + iLoc * ColStride D B = B.RowShift + jLoc * RowStride D B
        then bufB (B.matrix_.Buffer iLoc jLoc) else 0) := by
  constructor
  · intro i j hi0 hi1 hj0 hj1
    rw [makeTriangular_fst, makeTriangular_entry _ A _ hld i j hi0 hi1 hj0 hj1,
      makeTriangular_entry _ A _ hld i j hi0 hi1 hj0 hj1]
    simp only [if_true, reduceCtorEq, if_false]
    by_cases h1 : j ≤ i
    · by_cases h2 : i ≤ j
      · have : i = j := by omega
        subst this
        simp
      · rw [if_pos h1, if_neg h2, if_neg (by omega)]
    · rw [if_neg h1, if_neg (by omega)]
  · intro iLoc jLoc hi0 hi1 hj0 hj1
    rw [dist_makeTriangular_fst,
      dist_makeTriangular_entry _ D B _ hcs hsh hlh hldB iLoc jLoc hi0 hi1 hj0 hj1,
      dist_makeTriangular_entry _ D B _ hcs hsh hlh hldB iLoc jLoc hi0 hi1 hj0 hj1]
    simp only [if_true, reduceCtorEq, if_false, ColShift, RowShift]
    by_cases h1 : B.rowShift_ + jLoc * RowStride D B ≤ B.colShift_ + iLoc * ColStride D B
    · by_cases h2 : B.colShift_ + iLoc * ColStride D B ≤ B.rowShift_ + jLoc * RowStride D B
      · rw [if_pos h1, if_pos h2, if_pos (by omega)]
      · rw [if_pos h1, if_neg h2, if_neg (by omega)]
    · rw [if_neg h1, if_neg (by omega)]

/-- C16: MakeTriangular(LOWER, .) is idempotent, for the sequential routine and,
on every process, for the distributed one: the second application leaves the
whole buffer (and the descriptor) as the first left it. -/
theorem makeTriangular_lower_idempotent {T : Type} [Zero T] (A : Matrix) (buf : Buffer T)
    (D : Overrides) (B : AbstractDistMatrix) (bufB : Buffer T) :
    MakeTriangular UpperOrLower.LOWER (MakeTriangular UpperOrLower.LOWER A buf).1
        (MakeTriangular UpperOrLower.LOWER A buf).2 =
      MakeTriangular UpperOrLower.LOWER A buf ∧
    DistMatrix.MakeTriangular UpperOrLower.LOWER D
        (DistMatrix.MakeTriangular UpperOrLower.LOWER D B bufB).1
        (DistMatrix.MakeTriangular UpperOrLower.LOWER D B bufB).2 =
      DistMatrix.MakeTriangular UpperOrLower.LOWER D B bufB := by
  constructor
  · rw [makeTriangular_fst]
    refine Prod.ext (by rw [makeTriangular_fst, makeTriangular_fst]) ?_
    unfold MakeTriangular
    simp only [if_true]
    exact forLoop_MemZero_idem _ _ (fun j => A.Buffer 0 0 + j * A.LDim)
      (fun j => Min j A.Height) buf
  · rw [dist_makeTriangular_fst]
    refine Prod.ext (by rw [dist_makeTriangular_fst, dist_makeTriangular_fst]) ?_
    rw [dist_makeTriangular_snd, dist_makeTriangular_snd]
    simp only [if_true]
    exact forLoop_MemZero_idem _ _ _ _ bufB

theorem makeTriangular_lower_upper_diag_witness :
    ((triExample 3 3).1.LDim ≥ (triExample 3 3).1.Height ∧
      0 < ColStride MC_MR triDistExample.1 ∧ 0 ≤ triDistExample.1.ColShift ∧
      triDistExample.1.LocalHeight =
        Length triDistExample.1.Height triDistExample.1.ColShift
          (ColStride MC_MR triDistExample.1) ∧
      triDistExample.1.LDim ≥ triDistExample.1.LocalHeight) ∧
    ((∀ i j, 0 ≤ i → i < (triExample 3 3).1.Height → 0 ≤ j → j < (triExample 3 3).1.Width →
      (MakeTriangular UpperOrLower.LOWER
          (MakeTriangular UpperOrLower.UPPER (triExample 3 3).1 (triExample 3 3).2).1
          (MakeTriangular UpperOrLower.UPPER (triExample 3 3).1 (triExample 3 3).2).2).2
          ((triExample 3 3).1.Buffer i j) =
        if i = j then (triExample 3 3).2 ((triExample 3 3).1.Buffer i i) else 0) ∧
    (∀ iLoc jLoc, 0 ≤ iLoc → iLoc < triDistExample.1.LocalHeight → 0 ≤ jLoc →
        jLoc < triDistExample.1.LocalWidth →
      (DistMatrix.MakeTriangular UpperOrLower.LOWER MC_MR
          (DistMatrix.MakeTriangular UpperOrLower.UPPER MC_MR triDistExample.1
            triDistExample.2).1
          (DistMatrix.MakeTriangular UpperOrLower.UPPER MC_MR triDistExample.1
            triDistExample.2).2).2
          (triDistExample.1.matrix_.Buffer iLoc jLoc) =
        if triDistExample.1.ColShift + iLoc * ColStride MC_MR triDistExample.1 =
            triDistExample.1.RowShift + jLoc * RowStride MC_MR triDistExample.1
        then triDistExample.2 (triDistExample.1.matrix_.Buffer iLoc jLoc) else 0)) :=
  ⟨by decide,
   makeTriangular_lower_upper_diag (triExample 3 3).1 (triExample 3 3).2 MC_MR
    triDistExample.1 triDistExample.2 (by decide) (by decide) (by decide) (by decide)
    (by decide)⟩

/-- The distributed example, entry by entry: the process at (1,0) of the 2 x 2 grid
holds rows 1,3 and columns 0,2 of the 4 x 4 matrix at positions 0,1 | 2,3;
LOWER zeroes global (1,2), UPPER zeroes global (1,0), (3,0), (3,2). -/
theorem dist_makeTriangular_example_values :
    (List.map (DistMatrix.MakeTriangular UpperOrLower.LOWER MC_MR triDistExample.1
        triDistExample.2).2 [-1, 0, 1, 2, 3, 4] = [99, 100, 101, 0, 103, 104]) ∧
    (List.map (DistMatrix.MakeTriangular UpperOrLower.UPPER MC_MR triDistExample.1
        triDistExample.2).2 [-1, 0, 1, 2, 3, 4] = [99, 0, 0, 102, 0, 104]) := by
  decide


/-- A loop of `MemCopy` calls from a buffer that the loop does not write: a
position holds what the last call covering it copied there, the other positions
are not written. -/
theorem forLoop_MemCopy {T : Type} (lo hi : Int) (dOff sOff len : Int → Int)
    (dest source : Buffer T) (k : Int) :
    (∀ j, lo ≤ j → j < hi → dOff j ≤ k → k < dOff j + len j →
      (∀ jp, j < jp → jp < hi → ¬ (dOff jp ≤ k ∧ k < dOff jp + len jp)) →
      forLoop lo hi (fun j b => MemCopy b (dOff j) source (sOff j) (len j)) dest k =
        source (sOff j + (k - dOff j))) ∧
    ((∀ j, lo ≤ j → j < hi → ¬ (dOff j ≤ k ∧ k < dOff j + len j)) →
      forLoop lo hi (fun j b => MemCopy b (dOff j) source (sOff j) (len j)) dest k =
        dest k) := by
  by_cases h : lo ≤ hi
  · refine forLoop_inv
      (fun m t =>
        (∀ j, lo ≤ j → j < m → dOff j ≤ k → k < dOff j + len j →
          (∀ jp, j < jp → jp < m → ¬ (dOff jp ≤ k ∧ k < dOff jp + len jp)) →
          t k = source (sOff j + (k - dOff j))) ∧
        ((∀ j, lo ≤ j → j < m → ¬ (dOff j ≤ k ∧ k < dOff j + len j)) → t k = dest k))
      lo hi _ dest h ?_ ?_
    · refine ⟨?_, fun _ => rfl⟩
      intro j a b
      omega
    · intro j t hj1 hj2 ih
      simp only [MemCopy]
      by_cases hk : dOff j ≤ k ∧ k < dOff j + len j
      · rw [if_pos hk]
        constructor
        · intro jp a b c d hlast
          by_cases e : jp = j
          · rw [e]
          · exact absurd hk (hlast j (by omega) (by omega))
        · intro hn
          exact absurd hk (hn j hj1 (by omega))
      · rw [if_neg hk]
        constructor
        · intro jp a b c d hlast
          have : jp ≠ j := by rintro rfl; exact hk ⟨c, d⟩
          exact ih.1 jp a (by omega) c d (fun jq x y => hlast jq x (by omega))
        · intro hn
          exact ih.2 (fun jp a b => hn jp a (by omega))
  · rw [forLoop_empty _ _ _ _ (by omega)]
    refine ⟨?_, fun _ => rfl⟩
    intro j a b
    omega

/-- Copying `h` entries into each of the columns `lo..hi-1` of a column-major
window with leading dimension `dl >= h`: entry (i,j) of the window receives entry
i of the j-th source column, and only entries of the window are written. -/
theorem forLoop_copyColumns {T : Type} (lo hi d dl h : Int) (sOff : Int → Int)
    (dest source : Buffer T) (hdl : h ≤ dl) :
    (∀ i j, 0 ≤ i → i < h → lo ≤ j → j < hi →
      forLoop lo hi (fun j b => MemCopy b (d + j * dl) source (sOff j) h) dest
          (d + i + j * dl) = source (sOff j + i)) ∧
    (∀ k, (∀ i j, 0 ≤ i → i < h → lo ≤ j → j < hi → k ≠ d + i + j * dl) →
      forLoop lo hi (fun j b => MemCopy b (d + j * dl) source (sOff j) h) dest k =
        dest k) := by
  constructor
  · intro i j hi0 hi1 hj0 hj1
    have key := (forLoop_MemCopy lo hi (fun j => d + j * dl) sOff (fun _ => h) dest source
      (d + i + j * dl)).1 j hj0 hj1 (by omega) (by omega) ?_
    · rw [key]
      congr 1
      omega
    · rintro jp a b ⟨c, e⟩
      have := column_unique dl i j jp h hi0 (by omega) (by omega) (by omega) hdl
      omega
  · intro k hk
    refine (forLoop_MemCopy lo hi (fun j => d + j * dl) sOff (fun _ => h) dest source k).2 ?_
    rintro jp a b ⟨c, e⟩
    exact hk (k - d - jp * dl) jp (by omega) (by omega) a b (by omega)


/-! ## [*,MC] <- [*,*] -/

theorem MemCopy_nonpos {T : Type} (dest source : Buffer T) (dOff sOff n : Int) (h : n ≤ 0) :
    MemCopy dest dOff source sOff n = dest := by
  funext k
  unfold MemCopy
  rw [if_neg (by omega)]

theorem MemCopy_succ {T : Type} (dest source : Buffer T) (dOff sOff n : Int) (h : 0 ≤ n) :
    MemCopy dest dOff source sOff (n + 1) =
      Function.update (MemCopy dest dOff source sOff n) (dOff + n) (source (sOff + n)) := by
  funext k
  unfold MemCopy
  by_cases e : k = dOff + n
  · subst e
    rw [if_pos (by omega), Function.update_same]
    congr 1
    omega
  · rw [Function.update_noteq e]
    by_cases c : dOff ≤ k ∧ k < dOff + n
    · rw [if_pos c, if_pos (by omega)]
    · rw [if_neg c, if_neg (by omega)]

/-- With valid indices and an unlocked destination, the entry-by-entry inner loop
of the checked build copies one column, as the `memcpy` of the `RELEASE` build. -/
theorem star_inner_loop {T : Type} (debug : Bool) (B A : elemental.DistMatrixBase)
    (bufA b : Buffer T) (j col : Int) (hj : 0 ≤ j ∧ j < B._localMatrix.width_)
    (hcol : 0 ≤ col ∧ col < A._localMatrix.width_)
    (hh : B._localMatrix.height_ ≤ A._localMatrix.height_)
    (hl : B._localMatrix.Locked = false) :
    forLoop 0 B.LocalHeight (fun i o =>
        Outcome.andThen o fun b =>
          match A.GetLocalEntry debug bufA i col with
          | Except.ok v => B.SetLocalEntry debug b i j v
          | Except.error e => Outcome.throw b e) (Outcome.ok b) =
      Outcome.ok (MemCopy b (B.LocalBuffer 0 j) bufA (A.LockedLocalBuffer 0 col)
        B.LocalHeight) := by
  by_cases h0 : 0 ≤ B.LocalHeight
  · refine forLoop_inv
      (fun m (o : Outcome (Buffer T)) => o = Outcome.ok (MemCopy b (B.LocalBuffer 0 j) bufA
        (A.LockedLocalBuffer 0 col) m)) 0 B.LocalHeight _ _ h0 ?_ ?_
    · dsimp only
      rw [MemCopy_nonpos _ _ _ _ _ le_rfl]
    · intro i o hi0 hi1 ho
      simp only [elemental.DistMatrixBase.LocalHeight, Matrix.Height] at hi1
      subst ho
      have hg : A.GetLocalEntry debug bufA i col = Except.ok (bufA (A._localMatrix.Buffer i col)) :=
        matrix_get_ok debug _ bufA i col (by
          simp only [Matrix.AssertValidEntry]
          rw [if_neg (by omega)])
      simp only [Outcome.andThen, Outcome.ok, hg]
      have hs := matrix_set_ok debug B._localMatrix
        (MemCopy b (B.LocalBuffer 0 j) bufA (A.LockedLocalBuffer 0 col) i) i j
        (bufA (A._localMatrix.Buffer i col)) (by
          simp only [Matrix.AssertValidEntry]
          rw [if_neg (by omega)]) hl
      simp only [elemental.DistMatrixBase.SetLocalEntry, hs, Outcome.ok]
      rw [MemCopy_succ _ _ _ _ _ hi0]
      simp only [elemental.DistMatrixBase.LocalBuffer, elemental.DistMatrixBase.LockedLocalBuffer,
        Matrix.Buffer]
      have e1 : B._localMatrix.data_ + 0 + j * B._localMatrix.ldim_ + i =
          B._localMatrix.data_ + i + j * B._localMatrix.ldim_ := by ring
      have e2 : A._localMatrix.data_ + 0 + col * A._localMatrix.ldim_ + i =
          A._localMatrix.data_ + i + col * A._localMatrix.ldim_ := by ring
      rw [e1, e2]
  · rw [forLoop_empty _ _ _ _ (by omega), MemCopy_nonpos _ _ _ _ _ (by omega)]

/-- With valid indices and an unlocked destination, the double loop of the checked
build raises nothing and leaves the buffer that the column loop of the `RELEASE`
build leaves. -/
theorem star_outer_loop {T : Type} (debug : Bool) (B A : elemental.DistMatrixBase)
    (bufA bufB : Buffer T) (r s : Int) (hr : 0 < r) (hs : 0 ≤ s)
    (hw : ∀ j, 0 ≤ j → j < B._localMatrix.width_ → s + j * r < A._localMatrix.width_)
    (hh : B._localMatrix.height_ ≤ A._localMatrix.height_)
    (hl : B._localMatrix.Locked = false) :
    forLoop 0 B.LocalWidth (fun j o =>
      forLoop 0 B.LocalHeight (fun i o =>
        Outcome.andThen o fun b =>
          match A.GetLocalEntry debug bufA i (s + j * r) with
          | Except.ok v => B.SetLocalEntry debug b i j v
          | Except.error e => Outcome.throw b e) o) (Outcome.ok bufB) =
      Outcome.ok (forLoop 0 B.LocalWidth (fun j b =>
        MemCopy b (B.LocalBuffer 0 j) bufA (A.LockedLocalBuffer 0 (s + j * r))
          B.LocalHeight) bufB) := by
  by_cases h0 : 0 ≤ B.LocalWidth
  · refine forLoop_inv
      (fun m (o : Outcome (Buffer T)) => o = Outcome.ok (forLoop 0 m (fun j b =>
        MemCopy b (B.LocalBuffer 0 j) bufA (A.LockedLocalBuffer 0 (s + j * r))
          B.LocalHeight) bufB)) 0 B.LocalWidth _ _ h0 ?_ ?_
    · dsimp only
      rw [forLoop_empty _ _ _ _ le_rfl]
    · intro j o hj0 hj1 ho
      simp only [elemental.DistMatrixBase.LocalWidth, Matrix.Width] at hj1
      subst ho
      have hjr : 0 ≤ j * r := mul_nonneg hj0 hr.le
      rw [forLoop_succ _ _ _ _ hj0,
        star_inner_loop debug B A bufA _ j (s + j * r) ⟨hj0, hj1⟩
          ⟨by omega, hw j hj0 hj1⟩ hh hl]
  · rw [forLoop_empty _ _ _ _ (by omega), forLoop_empty _ _ _ _ (by omega)]

/-- The assignment [*,MC] <- [*,*] raises nothing on a destination that is an
owner, or a mutable view of the size of the source whose local matrix has the
size its distribution prescribes; it leaves a matrix of the size of the source
and the buffer that the column loop of the `RELEASE` build leaves. -/
theorem assignStarStar_eq {T : Type} (debug : Bool) (B A : elemental.DistMatrixBase)
    (bufB bufA : Buffer T) (hg : B._grid.id = A._grid.id)
    (hH : 0 ≤ A._height) (hW : 0 ≤ A._width)
    (hB : (B._viewing = false ∧ B._localMatrix.viewType_ = ViewType.OWNER) ∨
      (B._viewing = true ∧ B._lockedView = false ∧
        B._localMatrix.viewType_ = ViewType.VIEW ∧
        B._height = A._height ∧ B._width = A._width ∧
        B._localMatrix.height_ = B._height ∧
        B._localMatrix.width_ = elemental.LocalLength B._width B._rowShift B._grid.height_ ∧
        B._localMatrix.height_ ≤ B._localMatrix.ldim_))
    (hA : A._localMatrix.height_ = A._height ∧ A._localMatrix.width_ = A._width)
    (hr : 0 < B._grid.height_) (hs : 0 ≤ B._rowShift) :
    ∃ Bn : elemental.DistMatrixBase,
      elemental.DistMatrixBase.assignStarStar debug B bufB A bufA =
        Outcome.ok (Bn, forLoop 0 Bn.LocalWidth (fun j b =>
          MemCopy b (Bn.LocalBuffer 0 j) bufA
            (A.LockedLocalBuffer 0 (B._rowShift + j * B._grid.height_)) Bn.LocalHeight) bufB) ∧
      Bn._height = A._height ∧ Bn._width = A._width ∧ Bn._rowShift = B._rowShift ∧
      Bn._rowAlignment = B._rowAlignment ∧ Bn._grid = B._grid ∧
      Bn._localMatrix.height_ = A._height ∧
      Bn._localMatrix.width_ = Length A._width B._rowShift B._grid.height_ ∧
      Bn._localMatrix.height_ ≤ Bn._localMatrix.ldim_ := by
  obtain ⟨bv, blv, bh, bw, bc, bra, brs, blm, bg⟩ := B
  simp only at hg hB hr hs ⊢
  have hwid : ∀ w : Int, w = Length A._width brs bg.height_ →
      ∀ j, 0 ≤ j → j < w → brs + j * bg.height_ < A._localMatrix.width_ := by
    intro w e j hj0 hj1
    rw [hA.2]
    exact (lt_Length_iff _ _ _ _ hr hj0).1 (e ▸ hj1)
  rcases hB with ⟨hv, ho⟩ | ⟨hv, hlk, hvt, e1, e2, e3, e4, e5⟩
  · subst hv
    have hrz : blm.Resize_ A._height (Length A._width brs bg.height_) =
        { blm with height_ := A._height, width_ := Length A._width brs bg.height_,
                   ldim_ := max A._height 1, data_ := 0,
                   memorySize_ := max A._height 1 * Length A._width brs bg.height_ } := by
      simp [Matrix.Resize_, Matrix.Viewing, ho, IsViewing]
    have hchk : ∀ d : Bool, DEBUG_ONLY d (do
        elemental.DistMatrixBase.AssertNotLockedView ⟨false, blv, bh, bw, bc, bra, brs, blm, bg⟩
        elemental.DistMatrixBase.AssertSameGrid ⟨false, blv, bh, bw, bc, bra, brs, blm, bg⟩ A
        if elemental.DistMatrixBase.Viewing ⟨false, blv, bh, bw, bc, bra, brs, blm, bg⟩ then
          elemental.DistMatrixBase.AssertSameSize ⟨false, blv, bh, bw, bc, bra, brs, blm, bg⟩
            A) = Except.ok () := by
      intro d
      cases d
      · rfl
      · simp [DEBUG_ONLY, elemental.DistMatrixBase.AssertNotLockedView,
          elemental.DistMatrixBase.AssertSameGrid, elemental.DistMatrixBase.Viewing, hg,
          bind, Except.bind, pure, Except.pure]
    have hres : elemental.DistMatrixBase.ResizeTo debug
        ⟨false, blv, bh, bw, bc, bra, brs, blm, bg⟩ A.Height A.Width =
        Outcome.ok ⟨false, blv, A._height, A._width, bc, bra, brs,
          blm.Resize_ A._height (Length A._width brs bg.height_), bg⟩ := by
      cases debug <;>
        simp [elemental.DistMatrixBase.ResizeTo, DEBUG_ONLY, Outcome.check, Outcome.ok,
          elemental.DistMatrixBase.AssertNotLockedView, hH.not_lt, hW.not_lt,
          elemental.DistMatrixBase.Height, elemental.DistMatrixBase.Width,
          elemental.DistMatrixBase.RowShift, elemental.DistMatrixBase.GetGrid,
          elemental.LocalLength, Grid.Height, bind, Except.bind, pure, Except.pure]
    refine ⟨⟨false, blv, A._height, A._width, bc, bra, brs,
      blm.Resize_ A._height (Length A._width brs bg.height_), bg⟩, ?_, rfl, rfl, rfl,
      rfl, rfl, ?_, ?_, ?_⟩
    · have hloop := star_outer_loop debug
        ⟨false, blv, A._height, A._width, bc, bra, brs,
          blm.Resize_ A._height (Length A._width brs bg.height_), bg⟩ A bufA bufB
        bg.height_ brs hr hs (hwid _ (by rw [hrz])) (by rw [hrz, hA.1])
        (by rw [hrz]; simp [Matrix.Locked, ho, IsLocked])
      unfold elemental.DistMatrixBase.assignStarStar
      rw [hchk debug]
      simp only [Outcome.check, elemental.DistMatrixBase.Viewing, Bool.not_false, if_true]
      rw [hres]
      simp only [Outcome.ok, elemental.DistMatrixBase.RowShift,
        elemental.DistMatrixBase.GetGrid, Grid.Height]
      cases debug
      · simp
      · simp only [if_true]
        simp only [Outcome.ok, elemental.DistMatrixBase.RowShift,
          elemental.DistMatrixBase.GetGrid, Grid.Height] at hloop
        rw [hloop]
    · rw [hrz]
    · rw [hrz]
    · rw [hrz]
      exact le_max_left _ _
  · subst hv
    have hchk : ∀ d : Bool, DEBUG_ONLY d (do
        elemental.DistMatrixBase.AssertNotLockedView ⟨true, blv, bh, bw, bc, bra, brs, blm, bg⟩
        elemental.DistMatrixBase.AssertSameGrid ⟨true, blv, bh, bw, bc, bra, brs, blm, bg⟩ A
        if elemental.DistMatrixBase.Viewing ⟨true, blv, bh, bw, bc, bra, brs, blm, bg⟩ then
          elemental.DistMatrixBase.AssertSameSize ⟨true, blv, bh, bw, bc, bra, brs, blm, bg⟩
            A) = Except.ok () := by
      intro d
      cases d
      · rfl
      · simp [DEBUG_ONLY, elemental.DistMatrixBase.AssertNotLockedView,
          elemental.DistMatrixBase.AssertSameGrid, elemental.DistMatrixBase.Viewing,
          elemental.DistMatrixBase.AssertSameSize, elemental.DistMatrixBase.Height,
          elemental.DistMatrixBase.Width, hlk, hg, e1, e2, bind, Except.bind]
    refine ⟨⟨true, blv, bh, bw, bc, bra, brs, blm, bg⟩, ?_, e1, e2, rfl, rfl, rfl,
      by rw [e3, e1], ?_, e5⟩
    · have hloop := star_outer_loop debug ⟨true, blv, bh, bw, bc, bra, brs, blm, bg⟩ A
        bufA bufB bg.height_ brs hr hs
        (hwid _ (by rw [e4, e2]; rfl))
        (by rw [e3, e1, hA.1])
        (by simp [Matrix.Locked, hvt, IsLocked])
      unfold elemental.DistMatrixBase.assignStarStar
      rw [hchk debug]
      simp only [Outcome.check, elemental.DistMatrixBase.Viewing, Bool.not_true,
        Bool.false_eq_true, if_false]
      simp only [Outcome.ok, elemental.DistMatrixBase.RowShift,
        elemental.DistMatrixBase.GetGrid, Grid.Height]
      cases debug
      · simp
      · simp only [if_true]
        simp only [Outcome.ok, elemental.DistMatrixBase.RowShift,
          elemental.DistMatrixBase.GetGrid, Grid.Height] at hloop
        rw [hloop]
    · rw [e4, e2]
      rfl

/-- C13: the assignment [*,MC] <- [*,*] on one process, in both builds, for a
destination that is an owner, or a mutable view of the size of the source whose
local matrix has the size its distribution prescribes: it raises nothing, B has
the size of A, for every row i < height and local column jLoc < B.LocalWidth()
the column rowShift + jLoc*r is a column of A and B's local entry (i,jLoc) is A's
entry (i, rowShift + jLoc*r); hence for every global entry (i,j) whose column the
process holds, the local entry at column (j - rowShift)/r is A(i,j). The routine
reads only the process's own copy of A: nothing is communicated. -/
theorem assign_star_mc_from_star_star {T : Type} (debug : Bool)
    (B A : elemental.DistMatrixBase) (bufB bufA : Buffer T)
    (hg : B.GetGrid.id = A.GetGrid.id) (hH : 0 ≤ A.Height) (hW : 0 ≤ A.Width)
    (hB : (B._viewing = false ∧ B._localMatrix.viewType_ = ViewType.OWNER) ∨
      (B._viewing = true ∧ B._lockedView = false ∧
        B._localMatrix.viewType_ = ViewType.VIEW ∧
        B._height = A._height ∧ B._width = A._width ∧
        B._localMatrix.height_ = B._height ∧
        B._localMatrix.width_ = elemental.LocalLength B._width B._rowShift B._grid.height_ ∧
        B._localMatrix.height_ ≤ B._localMatrix.ldim_))
    (hA : A.LocalHeight = A.Height ∧ A.LocalWidth = A.Width)
    (hr : 0 < B.GetGrid.Height) (hs : 0 ≤ B.RowShift ∧ B.RowShift < B.GetGrid.Height) :
    (elemental.DistMatrixBase.assignStarStar debug B bufB A bufA).thrown = none ∧
    (elemental.DistMatrixBase.assignStarStar debug B bufB A bufA).state.1.Height = A.Height ∧
    (elemental.DistMatrixBase.assignStarStar debug B bufB A bufA).state.1.Width = A.Width ∧
    (∀ i jLoc, 0 ≤ i → i < A.Height → 0 ≤ jLoc →
      jLoc < (elemental.DistMatrixBase.assignStarStar debug B bufB A bufA).state.1.LocalWidth →
      B.RowShift + jLoc * B.GetGrid.Height < A.Width ∧
      (elemental.DistMatrixBase.assignStarStar debug B bufB A bufA).state.2
          ((elemental.DistMatrixBase.assignStarStar debug B bufB A bufA).state.1.LocalBuffer
            i jLoc) =
        bufA (A.LockedLocalBuffer i (B.RowShift + jLoc * B.GetGrid.Height))) ∧
    (∀ i j, 0 ≤ i → i < A.Height → 0 ≤ j → j < A.Width →
      (j - B.RowShift).tmod B.GetGrid.Height = 0 →
      (elemental.DistMatrixBase.assignStarStar debug B bufB A bufA).state.2
          ((elemental.DistMatrixBase.assignStarStar debug B bufB A bufA).state.1.LocalBuffer
            i ((j - B.RowShift).tdiv B.GetGrid.Height)) =
        bufA (A.LockedLocalBuffer i j)) := by
  obtain ⟨Bn, hR, h1, h2, h3, _, _, h6, h7, h8⟩ :=
    assignStarStar_eq debug B A bufB bufA hg hH hW hB hA hr hs.1
  simp only [elemental.DistMatrixBase.Height, elemental.DistMatrixBase.Width,
    elemental.DistMatrixBase.RowShift, elemental.DistMatrixBase.GetGrid, Grid.Height,
    elemental.DistMatrixBase.LocalWidth, Matrix.Width] at hH hW hr hs ⊢
  rw [hR]
  simp only [Outcome.ok]
  have local_entry : ∀ i jLoc, 0 ≤ i → i < A._height → 0 ≤ jLoc →
      jLoc < Bn._localMatrix.width_ →
      B._rowShift + jLoc * B._grid.height_ < A._width ∧
      forLoop 0 Bn.LocalWidth (fun j b =>
          MemCopy b (Bn.LocalBuffer 0 j) bufA
            (A.LockedLocalBuffer 0 (B._rowShift + j * B._grid.height_)) Bn.LocalHeight) bufB
          (Bn.LocalBuffer i jLoc) =
        bufA (A.LockedLocalBuffer i (B._rowShift + jLoc * B._grid.height_)) := by
    intro i jLoc hi0 hi1 hj0 hj1
    refine ⟨(lt_Length_iff _ _ _ _ hr hj0).1 (h7 ▸ hj1), ?_⟩
    have key := (forLoop_copyColumns 0 Bn._localMatrix.width_ Bn._localMatrix.data_
      Bn._localMatrix.ldim_ Bn._localMatrix.height_
      (fun j => A._localMatrix.data_ + 0 + (B._rowShift + j * B._grid.height_) *
        A._localMatrix.ldim_) bufB bufA h8).1 i jLoc hi0 (by omega) hj0 hj1
    simp only [elemental.DistMatrixBase.LocalBuffer, elemental.DistMatrixBase.LockedLocalBuffer,
      elemental.DistMatrixBase.LocalWidth, elemental.DistMatrixBase.LocalHeight,
      Matrix.Buffer, Matrix.Width, Matrix.Height]
    have e : ∀ j : Int, Bn._localMatrix.data_ + 0 + j * Bn._localMatrix.ldim_ =
        Bn._localMatrix.data_ + j * Bn._localMatrix.ldim_ := fun j => by ring
    simp only [e]
    rw [key]
    congr 1
    ring
  refine ⟨trivial, h1, h2, local_entry, ?_⟩
  intro i j hi0 hi1 hj0 hj1 hloc
  obtain ⟨b1, b2, b3⟩ := localIndex_bounds A._width B._grid.height_ B._rowShift j
    (by omega) hs hj0 hj1 hloc
  have := (local_entry i ((j - B._rowShift).tdiv B._grid.height_) hi0 hi1 b1
    (h7 ▸ b2)).2
  rw [b3] at this
  exact this

theorem assign_star_mc_from_star_star_witness :
    ((elemental.starMcDest.1.GetGrid.id = elemental.starStarExample.1.GetGrid.id) ∧
    (0 ≤ elemental.starStarExample.1.Height) ∧
    (0 ≤ elemental.starStarExample.1.Width) ∧
    ((elemental.starMcDest.1._viewing = false ∧ elemental.starMcDest.1._localMatrix.viewType_ = ViewType.OWNER) ∨
      (elemental.starMcDest.1._viewing = true ∧ elemental.starMcDest.1._lockedView = false ∧
        elemental.starMcDest.1._localMatrix.viewType_ = ViewType.VIEW ∧
        elemental.starMcDest.1._height = elemental.starStarExample.1._height ∧ elemental.starMcDest.1._width = elemental.starStarExample.1._width ∧
        elemental.starMcDest.1._localMatrix.height_ = elemental.starMcDest.1._height ∧
        elemental.starMcDest.1._localMatrix.width_ = elemental.LocalLength elemental.starMcDest.1._width elemental.starMcDest.1._rowShift elemental.starMcDest.1._grid.height_ ∧
        elemental.starMcDest.1._localMatrix.height_ ≤ elemental.starMcDest.1._localMatrix.ldim_)) ∧
    (elemental.starStarExample.1.LocalHeight = elemental.starStarExample.1.Height ∧ elemental.starStarExample.1.LocalWidth = elemental.starStarExample.1.Width) ∧
    (0 < elemental.starMcDest.1.GetGrid.Height) ∧
    (0 ≤ elemental.starMcDest.1.RowShift ∧ elemental.starMcDest.1.RowShift < elemental.starMcDest.1.GetGrid.Height)) ∧
    ((elemental.DistMatrixBase.assignStarStar true elemental.starMcDest.1 elemental.starMcDest.2 elemental.starStarExample.1 elemental.starStarExample.2).thrown = none ∧
    (elemental.DistMatrixBase.assignStarStar true elemental.starMcDest.1 elemental.starMcDest.2 elemental.starStarExample.1 elemental.starStarExample.2).state.1.Height = elemental.starStarExample.1.Height ∧
    (elemental.DistMatrixBase.assignStarStar true elemental.starMcDest.1 elemental.starMcDest.2 elemental.starStarExample.1 elemental.starStarExample.2).state.1.Width = elemental.starStarExample.1.Width ∧
    (∀ i jLoc, 0 ≤ i → i < elemental.starStarExample.1.Height → 0 ≤ jLoc →
      jLoc < (elemental.DistMatrixBase.assignStarStar true elemental.starMcDest.1 elemental.starMcDest.2 elemental.starStarExample.1 elemental.starStarExample.2).state.1.LocalWidth →
      elemental.starMcDest.1.RowShift + jLoc * elemental.starMcDest.1.GetGrid.Height < elemental.starStarExample.1.Width ∧
      (elemental.DistMatrixBase.assignStarStar true elemental.starMcDest.1 elemental.starMcDest.2 elemental.starStarExample.1 elemental.starStarExample.2).state.2
          ((elemental.DistMatrixBase.assignStarStar true elemental.starMcDest.1 elemental.starMcDest.2 elemental.starStarExample.1 elemental.starStarExample.2).state.1.LocalBuffer
            i jLoc) =
        elemental.starStarExample.2 (elemental.starStarExample.1.LockedLocalBuffer i (elemental.starMcDest.1.RowShift + jLoc * elemental.starMcDest.1.GetGrid.Height))) ∧
    (∀ i j, 0 ≤ i → i < elemental.starStarExample.1.Height → 0 ≤ j → j < elemental.starStarExample.1.Width →
      (j - elemental.starMcDest.1.RowShift).tmod elemental.starMcDest.1.GetGrid.Height = 0 →
      (elemental.DistMatrixBase.assignStarStar true elemental.starMcDest.1 elemental.starMcDest.2 elemental.starStarExample.1 elemental.starStarExample.2).state.2
          ((elemental.DistMatrixBase.assignStarStar true elemental.starMcDest.1 elemental.starMcDest.2 elemental.starStarExample.1 elemental.starStarExample.2).state.1.LocalBuffer
            i ((j - elemental.starMcDest.1.RowShift).tdiv elemental.starMcDest.1.GetGrid.Height)) =
        elemental.starStarExample.2 (elemental.starStarExample.1.LockedLocalBuffer i j))) :=
  ⟨by decide,
   assign_star_mc_from_star_star true elemental.starMcDest.1 elemental.starStarExample.1
    elemental.starMcDest.2 elemental.starStarExample.2 (by decide) (by decide) (by decide)
    (by decide) (by decide) (by decide) (by decide)⟩

/-- The example in both builds: the process at mesh row 1 of the 2 x 2 grid ends
with columns 1 and 3 of the 3 x 5 matrix, stored with leading dimension 3 from
position 0. -/
theorem assign_star_mc_example_values :
    (List.map (elemental.DistMatrixBase.assignStarStar true elemental.starMcDest.1
        elemental.starMcDest.2 elemental.starStarExample.1
        elemental.starStarExample.2).state.2 [-1, 0, 1, 2, 3, 4, 5, 6]
      = [0, 106, 107, 108, 114, 115, 116, 0]) ∧
    (List.map (elemental.DistMatrixBase.assignStarStar false elemental.starMcDest.1
        elemental.starMcDest.2 elemental.starStarExample.1
        elemental.starStarExample.2).state.2 [-1, 0, 1, 2, 3, 4, 5, 6]
      = [0, 106, 107, 108, 114, 115, 116, 0]) ∧
    (elemental.DistMatrixBase.assignStarStar true elemental.starMcDest.1
        elemental.starMcDest.2 elemental.starStarExample.1
        elemental.starStarExample.2).state.1._localMatrix =
      { viewType_ := ViewType.OWNER, height_ := 3, width_ := 2, ldim_ := 3, data_ := 0,
        memorySize_ := 6 } := by
  decide


/-! ## [VR,*] <- [VR,*] with matching alignments -/

/-- The copy of a local matrix into an owner: the destination takes the size of
the source and holds its entries. -/
theorem matrix_assign_owner {T : Type} (M A : Matrix) (buf bufA : Buffer T)
    (ho : M.viewType_ = ViewType.OWNER) :
    (Matrix.assign M buf A bufA).1.height_ = A.height_ ∧
    (Matrix.assign M buf A bufA).1.width_ = A.width_ ∧
    (∀ i j, 0 ≤ i → i < A.height_ → 0 ≤ j → j < A.width_ →
      (Matrix.assign M buf A bufA).2 ((Matrix.assign M buf A bufA).1.Buffer i j) =
        bufA (A.Buffer i j)) := by
  have hrz : M.Resize_ A.height_ A.width_ =
      { M with height_ := A.height_, width_ := A.width_, ldim_ := max A.height_ 1, data_ := 0,
               memorySize_ := max A.height_ 1 * A.width_ } := by
    simp [Matrix.Resize_, Matrix.Viewing, ho, IsViewing]
  simp only [Matrix.assign, ho, if_true, Matrix.Height, Matrix.Width, Matrix.LDim, hrz,
    Matrix.Buffer]
  refine ⟨trivial, trivial, ?_⟩
  intro i j hi0 hi1 hj0 hj1
  have key := (forLoop_copyColumns 0 A.width_ 0 (max A.height_ 1) A.height_
    (fun j => A.data_ + 0 + 0 * A.ldim_ + j * A.ldim_) buf bufA (le_max_left _ _)).1
    i j hi0 hi1 hj0 hj1
  have e : ∀ j : Int, (0 : Int) + 0 + 0 * max A.height_ 1 + j * max A.height_ 1 =
      0 + j * max A.height_ 1 := fun j => by ring
  simp only [e]
  rw [key]
  congr 1
  ring

/-- `Resize` on a matrix that is not locked, as one record. -/
theorem resize_eq (debug : Bool) (D : Overrides) (A : AbstractDistMatrix) (h w : Int)
    (hl : A.Locked = false) :
    Resize debug D A h w =
      Outcome.ok { A with
        height_ := h
        width_ := w
        matrix_ := if Participating D A then
            A.matrix_.Resize_ (Length h A.colShift_ (ColStride D A))
              (Length w A.rowShift_ (RowStride D A))
          else A.matrix_ } := by
  have hP : Participating D { A with height_ := h, width_ := w } = Participating D A := rfl
  have hc : DEBUG_ONLY debug A.AssertNotLocked = Except.ok () := by
    cases debug
    · rfl
    · simp [DEBUG_ONLY, AssertNotLocked, hl]
  unfold Resize
  rw [hc]
  simp only [Outcome.check, hP, ColShift, RowShift]
  split <;> rfl

/-- `AlignColsAndResize` without `force` on an owner whose column alignment is
free or already the requested one, as one record: the alignment is the
requested one, the shift `s` is the old one or the one `SetColShift` computes. -/
theorem alignColsAndResize_eq (debug : Bool) (D : Overrides) (A : AbstractDistMatrix)
    (a h w : Int) (ho : A.viewType_ = ViewType.OWNER)
    (hal : A.ColConstrained = false ∨ A.colAlign_ = a) :
    ∃ s : Int,
      AlignColsAndResize debug D A a h w false =
        Outcome.ok { A with
          colAlign_ := a
          colShift_ := s
          height_ := h
          width_ := w
          matrix_ := if Participating D A then
              A.matrix_.Resize_ (Length h s (ColStride D A))
                (Length w A.rowShift_ (RowStride D A))
            else A.matrix_ } ∧
      (s = A.colShift_ ∨
        s = if Participating D A then Shift (ColRank D A) a (ColStride D A) else 0) := by
  have hv : A.Viewing = false := by simp [Viewing, ho, IsViewing]
  by_cases hc : A.ColConstrained = false
  · refine ⟨if Participating D A then Shift (ColRank D A) a (ColStride D A) else 0, ?_,
      Or.inr rfl⟩
    have e : SetColShift D { A with colAlign_ := a } =
        { A with colAlign_ := a,
                 colShift_ := if Participating D A then Shift (ColRank D A) a (ColStride D A)
                   else 0 } := by
      unfold SetColShift
      have hP : Participating D { A with colAlign_ := a } = Participating D A := rfl
      rw [hP]
      split <;> rfl
    unfold AlignColsAndResize
    simp only [hv, hc, Bool.not_false, Bool.false_or, Bool.and_self, if_true,
      Bool.false_eq_true, false_and, if_false]
    rw [e, resize_eq _ _ _ _ _ (by simp [Locked, ho, IsLocked])]
    rfl
  · have ha : A.colAlign_ = a := by
      rcases hal with h1 | h1
      · exact absurd h1 hc
      · exact h1
    have hc1 : A.ColConstrained = true := by simpa using hc
    refine ⟨A.colShift_, ?_, Or.inl rfl⟩
    unfold AlignColsAndResize
    simp only [hv, hc1, Bool.not_false, Bool.false_or, Bool.not_true, Bool.and_false,
      Bool.false_eq_true, false_and, if_false]
    rw [resize_eq _ _ _ _ _ (by simp [Locked, ho, IsLocked])]
    subst ha
    rfl

/-- C12: in B[VR,*] = A[VR,*] on a process where B is an owner whose column
alignment is unconstrained or already that of A (same grid), the routine
leaves before the SendRecv branch (the process state at the exchange point is
"returned"), the collective returns that state, and in it B.ColAlign() =
A.ColAlign(), B has A's height and width, and if the process participates the
local matrix of B has the size of A's local matrix and equals it entry for
entry. -/
theorem assign_VR_STAR_aligned {T : Type} (debug : Bool) (WB WA : World T)
    (aux : Int × Int → Buffer T) (q : Int × Int)
    (ho : (WB q).1.viewType_ = ViewType.OWNER ∧ (WB q).1.matrix_.viewType_ = ViewType.OWNER)
    (hal : (WB q).1.ColConstrained = false ∨ (WB q).1.ColAlign = (WA q).1.ColAlign)
    (hg : (WB q).1.grid_.id = (WA q).1.grid_.id) :
    ∃ Bn : ProcState T,
      VR_STAR.assign_VR_STAR.enter debug (WB q).1 (WB q).2 (WA q).1 (WA q).2 (aux q) =
        Sum.inl (Outcome.ok Bn) ∧
      VR_STAR.assign_VR_STAR debug WB WA aux q = some (Outcome.ok Bn) ∧
      Bn.1.ColAlign = (WA q).1.ColAlign ∧ Bn.1.Height = (WA q).1.Height ∧
      Bn.1.Width = (WA q).1.Width ∧
      (Participating VR_STAR Bn.1 = true →
        Bn.1.LocalHeight = (WA q).1.LocalHeight ∧ Bn.1.LocalWidth = (WA q).1.LocalWidth ∧
        ∀ iLoc jLoc, 0 ≤ iLoc → iLoc < (WA q).1.LocalHeight → 0 ≤ jLoc →
          jLoc < (WA q).1.LocalWidth →
          Bn.2 (Bn.1.matrix_.Buffer iLoc jLoc) =
            (WA q).2 ((WA q).1.matrix_.Buffer iLoc jLoc)) := by
  have hchk : DEBUG_ONLY debug (do
      (WB q).1.AssertNotLocked
      (WB q).1.AssertSameGrid (WA q).1.grid_) = Except.ok () := by
    cases debug
    · rfl
    · simp [DEBUG_ONLY, AssertNotLocked, AbstractDistMatrix.AssertSameGrid, Locked, ho.1,
        IsLocked, hg, bind, Except.bind]
  obtain ⟨s, hres, -⟩ := alignColsAndResize_eq debug VR_STAR (WB q).1 (WA q).1.ColAlign
    (WA q).1.Height (WA q).1.Width ho.1 hal
  have henter : ∃ Bn : ProcState T,
      VR_STAR.assign_VR_STAR.enter debug (WB q).1 (WB q).2 (WA q).1 (WA q).2 (aux q) =
        Sum.inl (Outcome.ok Bn) ∧
      Bn.1.ColAlign = (WA q).1.ColAlign ∧ Bn.1.Height = (WA q).1.Height ∧
      Bn.1.Width = (WA q).1.Width ∧
      (Participating VR_STAR Bn.1 = true →
        Bn.1.LocalHeight = (WA q).1.LocalHeight ∧ Bn.1.LocalWidth = (WA q).1.LocalWidth ∧
        ∀ iLoc jLoc, 0 ≤ iLoc → iLoc < (WA q).1.LocalHeight → 0 ≤ jLoc →
          jLoc < (WA q).1.LocalWidth →
          Bn.2 (Bn.1.matrix_.Buffer iLoc jLoc) =
            (WA q).2 ((WA q).1.matrix_.Buffer iLoc jLoc)) := by
    unfold VR_STAR.assign_VR_STAR.enter
    rw [hchk]
    simp only [hres, Outcome.ok]
    by_cases hP : Participating VR_STAR (WB q).1 = true
    · have hP2 : ∀ (a b c d : Int) (M : Matrix), Participating VR_STAR
          { (WB q).1 with colAlign_ := a, colShift_ := b, height_ := c, width_ := d,
                          matrix_ := M } = true := fun _ _ _ _ _ => hP
      simp only [hP, if_true, hP2, Bool.not_true, Bool.false_eq_true, if_false, ColAlign]
      have hM := matrix_assign_owner
        ((WB q).1.matrix_.Resize_ (Length (WA q).1.Height s (ColStride VR_STAR (WB q).1))
          (Length (WA q).1.Width (WB q).1.rowShift_ (RowStride VR_STAR (WB q).1)))
        (WA q).1.matrix_ (WB q).2 (WA q).2
        (by simp [Matrix.Resize_, Matrix.Viewing, ho.2, IsViewing])
      exact ⟨_, rfl, rfl, rfl, rfl, fun _ => ⟨hM.1, hM.2.1, hM.2.2⟩⟩
    · have hP1 : Participating VR_STAR (WB q).1 = false := by simpa using hP
      have hP2 : ∀ (a b c d : Int) (M : Matrix), Participating VR_STAR
          { (WB q).1 with colAlign_ := a, colShift_ := b, height_ := c, width_ := d,
                          matrix_ := M } = false := fun _ _ _ _ _ => hP1
      simp only [hP1, Bool.false_eq_true, if_false, hP2, Bool.not_false, if_true]
      refine ⟨_, rfl, rfl, rfl, rfl, fun h => ?_⟩
      rw [hP2] at h
      exact absurd h (by simp)
  obtain ⟨Bn, h1, h2, h3, h4, h5⟩ := henter
  refine ⟨Bn, h1, ?_, h2, h3, h4, h5⟩
  simp only [VR_STAR.assign_VR_STAR, VR_STAR.exchange, h1]

theorem assign_VR_STAR_aligned_witness :
    (((vrDestWorld (1, 0)).1.viewType_ = ViewType.OWNER ∧
        (vrDestWorld (1, 0)).1.matrix_.viewType_ = ViewType.OWNER) ∧
      ((vrDestWorld (1, 0)).1.ColConstrained = false ∨
        (vrDestWorld (1, 0)).1.ColAlign = (vrSourceWorld (1, 0)).1.ColAlign) ∧
      (vrDestWorld (1, 0)).1.grid_.id = (vrSourceWorld (1, 0)).1.grid_.id) ∧
    ∃ Bn : ProcState Int,
      VR_STAR.assign_VR_STAR.enter true (vrDestWorld (1, 0)).1 (vrDestWorld (1, 0)).2
          (vrSourceWorld (1, 0)).1 (vrSourceWorld (1, 0)).2 (zeroAux (1, 0)) =
        Sum.inl (Outcome.ok Bn) ∧
      VR_STAR.assign_VR_STAR true vrDestWorld vrSourceWorld zeroAux (1, 0) =
        some (Outcome.ok Bn) ∧
      Bn.1.ColAlign = (vrSourceWorld (1, 0)).1.ColAlign ∧
      Bn.1.Height = (vrSourceWorld (1, 0)).1.Height ∧
      Bn.1.Width = (vrSourceWorld (1, 0)).1.Width ∧
      (Participating VR_STAR Bn.1 = true →
        Bn.1.LocalHeight = (vrSourceWorld (1, 0)).1.LocalHeight ∧
        Bn.1.LocalWidth = (vrSourceWorld (1, 0)).1.LocalWidth ∧
        ∀ iLoc jLoc, 0 ≤ iLoc → iLoc < (vrSourceWorld (1, 0)).1.LocalHeight → 0 ≤ jLoc →
          jLoc < (vrSourceWorld (1, 0)).1.LocalWidth →
          Bn.2 (Bn.1.matrix_.Buffer iLoc jLoc) =
            (vrSourceWorld (1, 0)).2 ((vrSourceWorld (1, 0)).1.matrix_.Buffer iLoc jLoc)) :=
  ⟨by decide,
   assign_VR_STAR_aligned true vrDestWorld vrSourceWorld zeroAux (1, 0) (by decide)
    (by decide) (by decide)⟩

/-- The example, evaluated: the process at (1,0) (row-major rank 2, shift 1 under
alignment 1) holds rows 1 and 5 of the 7 x 3 source at positions 0..5; after
the assignment the destination has alignment 1, shift 1, a 2 x 3 local matrix,
and the same six values. -/
theorem assign_VR_STAR_example_values :
    (VR_STAR.assign_VR_STAR true vrDestWorld vrSourceWorld zeroAux (1, 0)).map
        (fun o => (o.thrown, o.state.1.colAlign_, o.state.1.colShift_,
          o.state.1.matrix_.height_, o.state.1.matrix_.width_, o.state.1.matrix_.ldim_,
          List.map o.state.2 [-1, 0, 1, 2, 3, 4, 5, 6])) =
      some (none, 1, 1, 2, 3, 2, [0, 1000, 1001, 1002, 1003, 1004, 1005, 0]) := by
  rfl


theorem shift_partner (p x a y : Int) :
    (x + (p + y - (x - a) % p)) % p = (a + y) % p := by
  have h := Int.emod_add_ediv (x - a) p
  have e : x + (p + y - (x - a) % p) = (a + y) + (1 + (x - a) / p) * p := by
    linear_combination (-1 : Int) * h
  rw [e, Int.add_mul_emod_self]

theorem shift_of_partner (p a s : Int) (hs : 0 ≤ s ∧ s < p) :
    ((a + s) % p - a) % p = s := by
  have h : ((a + s) % p - a) % p = (a + s - a) % p := by
    rw [Int.sub_emod, Int.emod_emod_of_dvd _ (dvd_refl p), ← Int.sub_emod]
  rw [h]
  have : a + s - a = s := by ring
  rw [this]
  exact Int.emod_eq_of_lt hs.1 hs.2

theorem rank_of_shift (p a x : Int) (hx : 0 ≤ x ∧ x < p) :
    (a + (x - a) % p) % p = x := by
  rw [Int.add_emod, Int.emod_emod_of_dvd _ (dvd_refl p), ← Int.add_emod]
  have : a + (x - a) = x := by ring
  rw [this]
  exact Int.emod_eq_of_lt hx.1 hx.2

/-- Row-major rank k of an r x c grid: the coordinates (k / c, k % c) are in the
grid and have row-major rank k. -/
theorem vr_member (r c k : Int) (hc : 1 ≤ c) (hk : 0 ≤ k ∧ k < r * c) :
    0 ≤ k / c ∧ k / c < r ∧ 0 ≤ k % c ∧ k % c < c ∧ k % c + k / c * c = k := by
  have h1 := Int.emod_nonneg k (show c ≠ 0 by omega)
  have h2 := Int.emod_lt_of_pos k (show 0 < c by omega)
  have h3 := Int.emod_add_ediv k c
  have h4 : 0 ≤ k / c := Int.ediv_nonneg hk.1 (by omega)
  have h5 : k / c < r := by
    rw [Int.ediv_lt_iff_lt_mul (by omega)]
    exact hk.2
  have h6 : k / c * c = c * (k / c) := by ring
  exact ⟨h4, h5, h1, h2, by omega⟩

/-- The conversion of the column-major rank x of a process to its row-major rank,
as computed with truncating division: x/r + c*(x%r) is in range and its
row-major coordinates are (x % r, x / r), the column-major coordinates of x. -/
theorem cm_to_rm (r c x : Int) (hr : 1 ≤ r) (hc : 1 ≤ c) (hx : 0 ≤ x ∧ x < r * c) :
    0 ≤ x.tdiv r + c * x.tmod r ∧ x.tdiv r + c * x.tmod r < r * c ∧
    (x.tdiv r + c * x.tmod r) / c = x % r ∧ (x.tdiv r + c * x.tmod r) % c = x / r ∧
    0 ≤ x % r ∧ x % r < r ∧ 0 ≤ x / r ∧ x / r < c ∧ x % r + x / r * r = x := by
  rw [Int.tdiv_eq_ediv hx.1 (by omega), Int.tmod_eq_emod hx.1 (by omega)]
  have hrc : r * c = c * r := by ring
  obtain ⟨a1, a2, a3, a4, a5⟩ := vr_member c r x hr ⟨hx.1, by rw [← hrc]; exact hx.2⟩
  have d1 : (x / r + c * (x % r)) / c = x % r := by
    rw [Int.add_mul_ediv_left _ _ (show c ≠ 0 by omega), Int.ediv_eq_zero_of_lt a1 a2]
    ring
  have d2 : (x / r + c * (x % r)) % c = x / r := by
    rw [Int.add_mul_emod_self_left, Int.emod_eq_of_lt a1 a2]
  have d3 : 0 ≤ c * (x % r) := mul_nonneg (by omega) a3
  have d4 : c * (x % r) ≤ c * (r - 1) := mul_le_mul_of_nonneg_left (by omega) (by omega)
  have d5 : c * (r - 1) = r * c - c := by ring
  exact ⟨by omega, by omega, d1, d2, a3, a4, a1, a2, a5⟩

theorem vecAligned_VR {T : Type} {W : World T} {r c a : Int} (h : VecAligned VR_STAR W r c a)
    (q : Int × Int) (h1 : 0 ≤ q.1) (h2 : q.1 < r) (h3 : 0 ≤ q.2) (h4 : q.2 < c) :
    (W q).1.grid_ = procGrid r c q.1 q.2 ∧ Participating VR_STAR (W q).1 = true ∧
    (W q).1.colShift_ = (q.2 + q.1 * c - a) % (r * c) ∧ (W q).1.rowShift_ = 0 := by
  obtain ⟨hg, ha, hroot, hs⟩ := h q h1 h2 h3 h4
  have hP : Participating VR_STAR (W q).1 = true := by
    simp [Participating, CrossRank, VR_STAR, hg, hroot, procGrid, Grid.InGrid, Grid.COMM_SELF,
      mpi.CommRank]
  have e1 := congrArg AbstractDistMatrix.colShift_ hs
  have e2 := congrArg AbstractDistMatrix.rowShift_ hs
  unfold SetShifts at e1 e2
  rw [if_pos hP] at e1 e2
  simp only [Shift, ColRank, RowRank, ColStride, RowStride, VR_STAR, hg,
    procGrid, Grid.InGrid, Grid.VRComm, Grid.VRRank, Grid.COMM_SELF, Grid.Size, mpi.CommRank,
    ha, Int.emod_one] at e1 e2
  exact ⟨hg, hP, e1, e2⟩

theorem vecAligned_VC {T : Type} {W : World T} {r c a : Int} (h : VecAligned VC_STAR W r c a)
    (q : Int × Int) (h1 : 0 ≤ q.1) (h2 : q.1 < r) (h3 : 0 ≤ q.2) (h4 : q.2 < c) :
    (W q).1.grid_ = procGrid r c q.1 q.2 ∧ Participating VC_STAR (W q).1 = true ∧
    (W q).1.colShift_ = (q.1 + q.2 * r - a) % (r * c) ∧ (W q).1.rowShift_ = 0 := by
  obtain ⟨hg, ha, hroot, hs⟩ := h q h1 h2 h3 h4
  have hP : Participating VC_STAR (W q).1 = true := by
    simp [Participating, CrossRank, VC_STAR, hg, hroot, procGrid, Grid.InGrid, Grid.COMM_SELF,
      mpi.CommRank]
  have e1 := congrArg AbstractDistMatrix.colShift_ hs
  have e2 := congrArg AbstractDistMatrix.rowShift_ hs
  unfold SetShifts at e1 e2
  rw [if_pos hP] at e1 e2
  simp only [Shift, ColRank, RowRank, ColStride, RowStride, VC_STAR, hg,
    procGrid, Grid.InGrid, Grid.VCComm, Grid.VCRank, Grid.COMM_SELF, Grid.Size, mpi.CommRank,
    ha, Int.emod_one] at e1 e2
  exact ⟨hg, hP, e1, e2⟩

theorem Length_shift_le (n s p : Int) (hp : 0 < p) (hs : 0 ≤ s) :
    Length n s p ≤ Length n 0 p := by
  by_contra hc
  have h1 : Length n 0 p < Length n s p := by omega
  have h2 := (lt_Length_iff n s p (Length n 0 p) hp (Length_nonneg n 0 p)).1 h1
  have h3 := (lt_Length_iff n 0 p (Length n 0 p) hp (Length_nonneg n 0 p)).2 (by omega)
  omega

/-- Where a process of a well-formed world stands when it reaches `mpi::SendRecv`
in [VR,*] <- [VC,*]: it has resized, packed its local matrix of A, and passes
the partner ranks (aB + shift in A) mod p for sending and the row-major rank of
the process with column-major rank (aA + shift in B) mod p for receiving. -/
theorem assign_VC_STAR_enter_eq {T : Type} (debug : Bool) (WB WA : World T)
    (aux : Int × Int → Buffer T) (r c H Wd aA aB : Int) (hr : 1 ≤ r) (hc : 1 ≤ c)
    (hB : VecAligned VR_STAR WB r c aB)
    (hBo : ∀ q : Int × Int, 0 ≤ q.1 → q.1 < r → 0 ≤ q.2 → q.2 < c →
      (WB q).1.viewType_ = ViewType.OWNER ∧ (WB q).1.matrix_.viewType_ = ViewType.OWNER)
    (hA : VecAligned VC_STAR WA r c aA) (hAs : VecStored VC_STAR WA r c H Wd)
    (q : Int × Int) (h1 : 0 ≤ q.1) (h2 : q.1 < r) (h3 : 0 ≤ q.2) (h4 : q.2 < c) :
    VR_STAR.assign_VC_STAR.enter debug (WB q).1 (WB q).2 (WA q).1 (WA q).2 (aux q) =
      Sum.inr
        { B := { (WB q).1 with
                 height_ := H
                 width_ := Wd
                 matrix_ := (WB q).1.matrix_.Resize_
                   (Length H (WB q).1.colShift_ (r * c)) (Length Wd 0 1) }
          sendBuf := forLoop 0 Wd (fun j s =>
            MemCopy s (j * (WA q).1.matrix_.height_) (WA q).2
              ((WA q).1.matrix_.Buffer 0 0 + j * (WA q).1.matrix_.ldim_)
              (WA q).1.matrix_.height_) (aux q)
          sendCount := MaxLength H (r * c) * Wd
          sendRank := (aB + (WA q).1.colShift_) % (r * c)
          recvCount := MaxLength H (r * c) * Wd
          recvRank := ((aA + (WB q).1.colShift_) % (r * c)).tdiv r +
            c * ((aA + (WB q).1.colShift_) % (r * c)).tmod r } := by
  obtain ⟨hgB, hPB, hsB, hrB⟩ := vecAligned_VR hB q h1 h2 h3 h4
  obtain ⟨hgA, -, hsA, -⟩ := vecAligned_VC hA q h1 h2 h3 h4
  obtain ⟨hoB, hoM⟩ := hBo q h1 h2 h3 h4
  obtain ⟨hH, hW, -⟩ := hAs q h1 h2 h3 h4
  have hp : 0 < r * c := by
    have := Int.mul_le_mul hr hc (by omega) (by omega)
    omega
  have hchk : DEBUG_ONLY debug (do
      (WB q).1.AssertNotLocked
      (WB q).1.AssertSameGrid (WA q).1.grid_) = Except.ok () := by
    cases debug
    · rfl
    · simp [DEBUG_ONLY, AssertNotLocked, AbstractDistMatrix.AssertSameGrid, Locked, hoB,
        IsLocked, hgB, hgA, procGrid, bind, Except.bind]
  have hres := resize_eq debug VR_STAR (WB q).1 (WA q).1.Height (WA q).1.Width
    (by simp [Locked, hoB, IsLocked])
  have hP2 : ∀ (a b : Int) (M : Matrix), Participating VR_STAR
      { (WB q).1 with height_ := a, width_ := b, matrix_ := M } = true := fun _ _ _ => hPB
  have hsA0 : 0 ≤ (WA q).1.colShift_ ∧ (WA q).1.colShift_ < r * c := by
    rw [hsA]
    exact ⟨Int.emod_nonneg _ (by omega), Int.emod_lt_of_pos _ hp⟩
  have hsB0 : 0 ≤ (WB q).1.colShift_ ∧ (WB q).1.colShift_ < r * c := by
    rw [hsB]
    exact ⟨Int.emod_nonneg _ (by omega), Int.emod_lt_of_pos _ hp⟩
  have hvr : 0 ≤ q.2 + q.1 * c := by
    have := mul_nonneg h1 (show 0 ≤ c by omega)
    omega
  have hvc : 0 ≤ q.1 + q.2 * r := by
    have := mul_nonneg h3 (show 0 ≤ r by omega)
    omega
  have hsend : (q.2 + q.1 * c + (r * c + (WA q).1.colShift_ - (WB q).1.colShift_)).tmod (r * c) =
      (aB + (WA q).1.colShift_) % (r * c) := by
    rw [Int.tmod_eq_emod (by omega) (by omega), hsB, shift_partner]
  have hrecv : (q.1 + q.2 * r + (r * c + (WB q).1.colShift_ - (WA q).1.colShift_)).tmod (r * c) =
      (aA + (WB q).1.colShift_) % (r * c) := by
    rw [Int.tmod_eq_emod (by omega) (by omega), hsA, shift_partner]
  unfold VR_STAR.assign_VC_STAR.enter
  rw [hchk]
  simp only [hres, Outcome.ok, hPB, hP2, if_true, Bool.not_true, Bool.false_eq_true, if_false]
  simp only [hgB, procGrid, Grid.Height, Grid.Width, Grid.Size, Grid.VCRank, Grid.VRRank,
    Height, Width, LocalHeight, LDim, ColShift, Matrix.Height, Matrix.LDim, hsend, hrecv,
    ColStride, RowStride, VR_STAR, hrB]
  simp only [Height, Width] at hH hW
  rw [hH, hW]

/-- The "Pack" loop: entry (i,j) of the local matrix lands at position
j*localHeight + i of the send buffer. -/
theorem pack_entry {T : Type} (A : AbstractDistMatrix) (bufA aux : Buffer T) (Wd i j : Int)
    (hi : 0 ≤ i ∧ i < A.matrix_.height_) (hj : 0 ≤ j ∧ j < Wd) :
    forLoop 0 Wd (fun j s =>
        MemCopy s (j * A.matrix_.height_) bufA (A.matrix_.Buffer 0 0 + j * A.matrix_.ldim_)
          A.matrix_.height_) aux (j * A.matrix_.height_ + i) =
      bufA (A.matrix_.Buffer i j) := by
  have key := (forLoop_copyColumns 0 Wd 0 A.matrix_.height_ A.matrix_.height_
    (fun j => A.matrix_.Buffer 0 0 + j * A.matrix_.ldim_) aux bufA le_rfl).1 i j hi.1 hi.2
    hj.1 hj.2
  have e1 : ∀ j : Int, (0 : Int) + j * A.matrix_.height_ = j * A.matrix_.height_ :=
    fun j => by ring
  have e2 : (0 : Int) + i + j * A.matrix_.height_ = j * A.matrix_.height_ + i := by ring
  simp only [e1, e2] at key
  rw [key]
  simp only [Matrix.Buffer]
  congr 1
  ring

/-- The "Unpack" loop: entry (i,j) of the local matrix is taken from position
j*localHeight + i of the receive buffer. -/
theorem unpack_entry {T : Type} (bufB recvBuf : Buffer T) (e : VR_STAR.Exchange T) (i j : Int)
    (hld : e.B.matrix_.height_ ≤ e.B.matrix_.ldim_)
    (hi : 0 ≤ i ∧ i < e.B.matrix_.height_) (hj : 0 ≤ j ∧ j < e.B.width_) :
    (VR_STAR.unpack bufB e recvBuf).2 (e.B.matrix_.Buffer i j) =
      recvBuf (j * e.B.matrix_.height_ + i) := by
  have key := (forLoop_copyColumns 0 e.B.width_ e.B.matrix_.data_ e.B.matrix_.ldim_
    e.B.matrix_.height_ (fun j => j * e.B.matrix_.height_) bufB recvBuf hld).1 i j hi.1 hi.2
    hj.1 hj.2
  simp only [VR_STAR.unpack, Width, LocalHeight, LDim, Matrix.Height, Matrix.LDim, Matrix.Buffer]
  have e1 : ∀ j : Int, e.B.matrix_.data_ + 0 + 0 * e.B.matrix_.ldim_ + j * e.B.matrix_.ldim_ =
      e.B.matrix_.data_ + j * e.B.matrix_.ldim_ := fun j => by ring
  simp only [e1]
  exact key

/-- Positions of a packed portion are inside the portion of `maxLocalHeight * width`
entries that is exchanged. -/
theorem portion_bound (lh M Wd i j : Int) (hi : 0 ≤ i ∧ i < lh) (hj : 0 ≤ j ∧ j < Wd)
    (hM : lh ≤ M) : 0 ≤ j * lh + i ∧ j * lh + i < M * Wd := by
  have h1 : 0 ≤ j * lh := mul_nonneg hj.1 (by omega)
  have h2 : (j + 1) * lh ≤ Wd * lh := mul_le_mul_of_nonneg_right (by omega) (by omega)
  have h3 : Wd * lh ≤ Wd * M := mul_le_mul_of_nonneg_left hM (by omega)
  have h4 : (j + 1) * lh = j * lh + lh := by ring
  have h5 : Wd * M = M * Wd := by ring
  exact ⟨by omega, by omega⟩

/-- Column-major rank a + b*r of the process at (a,b): truncating division and
remainder by r give back b and a. -/
theorem vc_coords (r a b : Int) (ha : 0 ≤ a ∧ a < r) (hb : 0 ≤ b) :
    (a + b * r).tdiv r = b ∧ (a + b * r).tmod r = a := by
  have h0 : 0 ≤ a + b * r := by
    have := mul_nonneg hb (show 0 ≤ r by omega)
    omega
  rw [Int.tdiv_eq_ediv h0 (by omega), Int.tmod_eq_emod h0 (by omega),
    Int.add_mul_ediv_right _ _ (show r ≠ 0 by omega), Int.ediv_eq_zero_of_lt ha.1 ha.2,
    Int.add_mul_emod_self, Int.emod_eq_of_lt ha.1 ha.2]
  exact ⟨by ring, rfl⟩


/-- The exchange-point state of `assign_VC_STAR_enter_eq`, field by field. -/
theorem assign_VC_STAR_enter_fields {T : Type} (debug : Bool) (WB WA : World T)
    (aux : Int × Int → Buffer T) (r c H Wd aA aB : Int) (hr : 1 ≤ r) (hc : 1 ≤ c)
    (hB : VecAligned VR_STAR WB r c aB)
    (hBo : ∀ q : Int × Int, 0 ≤ q.1 → q.1 < r → 0 ≤ q.2 → q.2 < c →
      (WB q).1.viewType_ = ViewType.OWNER ∧ (WB q).1.matrix_.viewType_ = ViewType.OWNER)
    (hA : VecAligned VC_STAR WA r c aA) (hAs : VecStored VC_STAR WA r c H Wd)
    (q : Int × Int) (h1 : 0 ≤ q.1) (h2 : q.1 < r) (h3 : 0 ≤ q.2) (h4 : q.2 < c) :
    ∃ e : VR_STAR.Exchange T,
      VR_STAR.assign_VC_STAR.enter debug (WB q).1 (WB q).2 (WA q).1 (WA q).2 (aux q) =
        Sum.inr e ∧
      e.B.height_ = H ∧ e.B.width_ = Wd ∧ e.B.colAlign_ = aB ∧
      e.B.colShift_ = (WB q).1.colShift_ ∧ e.B.rowShift_ = 0 ∧
      e.B.grid_ = procGrid r c q.1 q.2 ∧ Participating VR_STAR e.B = true ∧
      e.B.matrix_.height_ = Length H (WB q).1.colShift_ (r * c) ∧
      e.B.matrix_.height_ ≤ e.B.matrix_.ldim_ ∧
      e.sendBuf = forLoop 0 Wd (fun j s =>
        MemCopy s (j * (WA q).1.matrix_.height_) (WA q).2
          ((WA q).1.matrix_.Buffer 0 0 + j * (WA q).1.matrix_.ldim_)
          (WA q).1.matrix_.height_) (aux q) ∧
      e.sendCount = MaxLength H (r * c) * Wd ∧
      e.sendRank = (aB + (WA q).1.colShift_) % (r * c) ∧
      e.recvCount = MaxLength H (r * c) * Wd ∧
      e.recvRank = ((aA + (WB q).1.colShift_) % (r * c)).tdiv r +
        c * ((aA + (WB q).1.colShift_) % (r * c)).tmod r := by
  obtain ⟨hgB, hPB, -, hrB⟩ := vecAligned_VR hB q h1 h2 h3 h4
  obtain ⟨-, hoM⟩ := hBo q h1 h2 h3 h4
  have hrz : ∀ a b : Int, (WB q).1.matrix_.Resize_ a b =
      { (WB q).1.matrix_ with height_ := a, width_ := b, ldim_ := max a 1, data_ := 0,
                              memorySize_ := max a 1 * b } := by
    intro a b
    simp [Matrix.Resize_, Matrix.Viewing, hoM, IsViewing]
  refine ⟨_, assign_VC_STAR_enter_eq debug WB WA aux r c H Wd aA aB hr hc hB hBo hA hAs q
    h1 h2 h3 h4, rfl, rfl, (hB q h1 h2 h3 h4).2.1, rfl, hrB, hgB, hPB, ?_, ?_, rfl, rfl, rfl,
    rfl, rfl⟩
  · simp only [hrz]
  · simp only [hrz]
    exact le_max_left _ _

/-- A process that enters the exchange and whose receive partner enters it with
this process as destination and no more entries than expected leaves the
collective with the unpacked portion of the partner. -/
theorem exchange_some {T : Type} (enter : Int × Int → Outcome (ProcState T) ⊕ VR_STAR.Exchange T)
    (WB : World T) (aux : Int × Int → Buffer T) (q : Int × Int) (e es : VR_STAR.Exchange T)
    (h1 : enter q = Sum.inr e)
    (h2 : enter ((e.B.grid_.VRComm).member e.recvRank) = Sum.inr es)
    (h3 : es.sendRank = (e.B.grid_.VRComm).rank) (h4 : es.sendCount ≤ e.recvCount) :
    VR_STAR.exchange enter WB aux q =
      some (Outcome.ok (VR_STAR.unpack (WB q).2 e
        (MemCopy (aux q) 0 es.sendBuf 0 es.sendCount))) := by
  simp [VR_STAR.exchange, mpi.SendRecv, h1, h2, h3, h4]

/-- C11: the collective B = A for A distributed [VC,*] and B an owner distributed
[VR,*], on an r x c grid with arbitrary size and column alignments aA, aB. On
every process q the call returns without error a matrix Bn of A's size; q
receives from the process src whose column shift in A is q's column shift in B
and sends to the process dst whose column shift in B is q's column shift in A;
src sends to q and dst receives from q (so the two partner maps are inverse to
each other on the p ranks); every local entry of Bn is the local entry of A on
src at the same local index; hence every global entry (i,j) that q holds in B
equals the entry (i,j) of A on whichever process holds it in A. -/
theorem assign_VC_STAR_lossless {T : Type} (debug : Bool) (WB WA : World T)
    (aux : Int × Int → Buffer T) (r c H Wd aA aB : Int) (hr : 1 ≤ r) (hc : 1 ≤ c)
    (hB : VecAligned VR_STAR WB r c aB)
    (hBo : ∀ q : Int × Int, 0 ≤ q.1 → q.1 < r → 0 ≤ q.2 → q.2 < c →
      (WB q).1.viewType_ = ViewType.OWNER ∧ (WB q).1.matrix_.viewType_ = ViewType.OWNER)
    (hA : VecAligned VC_STAR WA r c aA) (hAs : VecStored VC_STAR WA r c H Wd)
    (q : Int × Int) (h1 : 0 ≤ q.1) (h2 : q.1 < r) (h3 : 0 ≤ q.2) (h4 : q.2 < c) :
    ∃ (e : VR_STAR.Exchange T) (Bn : ProcState T) (src dst : Int × Int),
      VR_STAR.assign_VC_STAR.enter debug (WB q).1 (WB q).2 (WA q).1 (WA q).2 (aux q) =
        Sum.inr e ∧
      VR_STAR.assign_VC_STAR debug WB WA aux q = some (Outcome.ok Bn) ∧
      Bn.1.Height = H ∧ Bn.1.Width = Wd ∧ Bn.1.ColAlign = aB ∧
      Bn.1.ColShift = (WB q).1.ColShift ∧
      Bn.1.LocalHeight = Length H Bn.1.ColShift (ColStride VR_STAR Bn.1) ∧
      (0 ≤ e.recvRank ∧ e.recvRank < r * c ∧ 0 ≤ e.sendRank ∧ e.sendRank < r * c) ∧
      src = (e.B.grid_.VRComm).member e.recvRank ∧
      dst = (e.B.grid_.VRComm).member e.sendRank ∧
      (0 ≤ src.1 ∧ src.1 < r ∧ 0 ≤ src.2 ∧ src.2 < c) ∧
      (0 ≤ dst.1 ∧ dst.1 < r ∧ 0 ≤ dst.2 ∧ dst.2 < c) ∧
      (WA src).1.ColShift = Bn.1.ColShift ∧
      (WB dst).1.ColShift = (WA q).1.ColShift ∧
      (∃ es : VR_STAR.Exchange T,
        VR_STAR.assign_VC_STAR.enter debug (WB src).1 (WB src).2 (WA src).1 (WA src).2
          (aux src) = Sum.inr es ∧ es.sendRank = (e.B.grid_.VRComm).rank) ∧
      (∃ ed : VR_STAR.Exchange T,
        VR_STAR.assign_VC_STAR.enter debug (WB dst).1 (WB dst).2 (WA dst).1 (WA dst).2
          (aux dst) = Sum.inr ed ∧ ed.recvRank = (e.B.grid_.VRComm).rank) ∧
      (∀ iLoc j, 0 ≤ iLoc → iLoc < Bn.1.LocalHeight → 0 ≤ j → j < Wd →
        Bn.2 (Bn.1.matrix_.Buffer iLoc j) = (WA src).2 ((WA src).1.matrix_.Buffer iLoc j)) ∧
      (∀ i j, 0 ≤ i → i < H → 0 ≤ j → j < Wd →
        ∀ qA : Int × Int, 0 ≤ qA.1 → qA.1 < r → 0 ≤ qA.2 → qA.2 < c →
        IsLocal VR_STAR Bn.1 i j = true → IsLocal VC_STAR (WA qA).1 i j = true →
        Bn.2 (Bn.1.matrix_.Buffer
            ((i - Bn.1.ColShift).tdiv (ColStride VR_STAR Bn.1))
            ((j - Bn.1.RowShift).tdiv (RowStride VR_STAR Bn.1))) =
          (WA qA).2 ((WA qA).1.matrix_.Buffer
            ((i - (WA qA).1.ColShift).tdiv (ColStride VC_STAR (WA qA).1))
            ((j - (WA qA).1.RowShift).tdiv (RowStride VC_STAR (WA qA).1)))) := by
  have hp : 0 < r * c := by
    have := Int.mul_le_mul hr hc (by omega) (by omega)
    omega
  have hfields := assign_VC_STAR_enter_fields debug WB WA aux r c H Wd aA aB hr hc hB hBo hA hAs
  obtain ⟨-, -, hsB, -⟩ := vecAligned_VR hB q h1 h2 h3 h4
  obtain ⟨-, -, hsA, -⟩ := vecAligned_VC hA q h1 h2 h3 h4
  have hvr : 0 ≤ q.2 + q.1 * c ∧ q.2 + q.1 * c < r * c := by
    have a1 := mul_nonneg h1 (show 0 ≤ c by omega)
    have a2 : (q.1 + 1) * c ≤ r * c := mul_le_mul_of_nonneg_right (by omega) (by omega)
    have a3 : (q.1 + 1) * c = q.1 * c + c := by ring
    exact ⟨by omega, by omega⟩
  have hvcAll : ∀ m : Int × Int, 0 ≤ m.1 → m.1 < r → 0 ≤ m.2 → m.2 < c →
      0 ≤ m.1 + m.2 * r ∧ m.1 + m.2 * r < r * c := by
    intro m m1 m2 m3 m4
    have a1 := mul_nonneg m3 (show 0 ≤ r by omega)
    have a2 : (m.2 + 1) * r ≤ c * r := mul_le_mul_of_nonneg_right (by omega) (by omega)
    have a3 : (m.2 + 1) * r = m.2 * r + r := by ring
    have a4 : c * r = r * c := by ring
    exact ⟨by omega, by omega⟩
  have hvc := hvcAll q h1 h2 h3 h4
  have hsB0 : 0 ≤ (WB q).1.colShift_ ∧ (WB q).1.colShift_ < r * c := by
    rw [hsB]
    exact ⟨Int.emod_nonneg _ (by omega), Int.emod_lt_of_pos _ hp⟩
  have hsA0 : 0 ≤ (WA q).1.colShift_ ∧ (WA q).1.colShift_ < r * c := by
    rw [hsA]
    exact ⟨Int.emod_nonneg _ (by omega), Int.emod_lt_of_pos _ hp⟩
  -- the receive partner
  have hx : 0 ≤ (aA + (WB q).1.colShift_) % (r * c) ∧
      (aA + (WB q).1.colShift_) % (r * c) < r * c :=
    ⟨Int.emod_nonneg _ (by omega), Int.emod_lt_of_pos _ hp⟩
  obtain ⟨x1, x2, x3, x4, x5, x6, x7, x8, x9⟩ :=
    cm_to_rm r c ((aA + (WB q).1.colShift_) % (r * c)) hr hc hx
  -- the send partner
  have hy : 0 ≤ (aB + (WA q).1.colShift_) % (r * c) ∧
      (aB + (WA q).1.colShift_) % (r * c) < r * c :=
    ⟨Int.emod_nonneg _ (by omega), Int.emod_lt_of_pos _ hp⟩
  obtain ⟨y1, y2, y3, y4, y5⟩ := vr_member r c ((aB + (WA q).1.colShift_) % (r * c)) hc hy
  obtain ⟨src, hsrc⟩ : ∃ src : Int × Int, src =
      (((aA + (WB q).1.colShift_) % (r * c)) % r, ((aA + (WB q).1.colShift_) % (r * c)) / r) :=
    ⟨_, rfl⟩
  obtain ⟨dst, hdst⟩ : ∃ dst : Int × Int, dst =
      (((aB + (WA q).1.colShift_) % (r * c)) / c, ((aB + (WA q).1.colShift_) % (r * c)) % c) :=
    ⟨_, rfl⟩
  have s1 : 0 ≤ src.1 := by rw [hsrc]; exact x5
  have s2 : src.1 < r := by rw [hsrc]; exact x6
  have s3 : 0 ≤ src.2 := by rw [hsrc]; exact x7
  have s4 : src.2 < c := by rw [hsrc]; exact x8
  have d1 : 0 ≤ dst.1 := by rw [hdst]; exact y1
  have d2 : dst.1 < r := by rw [hdst]; exact y2
  have d3 : 0 ≤ dst.2 := by rw [hdst]; exact y3
  have d4 : dst.2 < c := by rw [hdst]; exact y4
  have hsrcShift : (WA src).1.colShift_ = (WB q).1.colShift_ := by
    rw [(vecAligned_VC hA src s1 s2 s3 s4).2.2.1, hsrc]
    simp only
    rw [x9]
    exact shift_of_partner (r * c) aA _ hsB0
  have hdstShift : (WB dst).1.colShift_ = (WA q).1.colShift_ := by
    rw [(vecAligned_VR hB dst d1 d2 d3 d4).2.2.1, hdst]
    simp only
    rw [y5]
    exact shift_of_partner (r * c) aB _ hsA0
  obtain ⟨e, he, eH, eW, eCA, eCS, eRS, eG, eP, eLH, eLD, eSB, eSC, eSR, eRC, eRR⟩ :=
    hfields q h1 h2 h3 h4
  obtain ⟨es, hes, -, -, -, -, -, -, -, -, -, sSB, sSC, sSR, -, -⟩ :=
    hfields src s1 s2 s3 s4
  obtain ⟨ed, hed, -, -, -, -, -, -, -, -, -, -, -, -, -, dRR⟩ :=
    hfields dst d1 d2 d3 d4
  have hmemS : (e.B.grid_.VRComm).member e.recvRank = src := by
    rw [eG, eRR, hsrc]
    exact Prod.ext x3 x4
  have hmemD : (e.B.grid_.VRComm).member e.sendRank = dst := by
    rw [eG, eSR, hdst]
    rfl
  have hrank : (e.B.grid_.VRComm).rank = q.2 + q.1 * c := by
    rw [eG]
    rfl
  have hsSend : es.sendRank = (e.B.grid_.VRComm).rank := by
    rw [sSR, hsrcShift, hsB, hrank]
    exact rank_of_shift (r * c) aB _ hvr
  have hdRecv : ed.recvRank = (e.B.grid_.VRComm).rank := by
    rw [dRR, hdstShift, hsA, rank_of_shift (r * c) aA _ hvc, hrank]
    obtain ⟨v1, v2⟩ := vc_coords r q.1 q.2 ⟨h1, h2⟩ h3
    rw [v1, v2]
    ring
  have hassign := exchange_some
    (fun m => VR_STAR.assign_VC_STAR.enter debug (WB m).1 (WB m).2 (WA m).1 (WA m).2 (aux m))
    WB aux q e es he (by rw [hmemS]; exact hes) hsSend (by rw [sSC, eRC])
  -- sizes
  have hstrA : ∀ m : Int × Int, 0 ≤ m.1 → m.1 < r → 0 ≤ m.2 → m.2 < c →
      ColStride VC_STAR (WA m).1 = r * c ∧ RowStride VC_STAR (WA m).1 = 1 ∧
      (WA m).1.matrix_.height_ = Length H (WA m).1.colShift_ (r * c) := by
    intro m m1 m2 m3 m4
    have hg := (vecAligned_VC hA m m1 m2 m3 m4).1
    have hcs : ColStride VC_STAR (WA m).1 = r * c := by
      simp only [ColStride, VC_STAR, hg, procGrid, Grid.Size]
    have hl := (hAs m m1 m2 m3 m4).2.2
    rw [hcs] at hl
    exact ⟨hcs, rfl, hl⟩
  have hstrB : ColStride VR_STAR e.B = r * c ∧ RowStride VR_STAR e.B = 1 := by
    constructor
    · simp only [ColStride, VR_STAR, eG, procGrid, Grid.Size]
    · rfl
  have hlhS : (WA src).1.matrix_.height_ = e.B.matrix_.height_ := by
    rw [(hstrA src s1 s2 s3 s4).2.2, hsrcShift, eLH]
  have hM : e.B.matrix_.height_ ≤ MaxLength H (r * c) := by
    rw [eLH]
    exact Length_shift_le H _ (r * c) hp hsB0.1
  have hentry : ∀ iLoc j, 0 ≤ iLoc → iLoc < e.B.matrix_.height_ → 0 ≤ j → j < Wd →
      (VR_STAR.unpack (WB q).2 e (MemCopy (aux q) 0 es.sendBuf 0 es.sendCount)).2
          (e.B.matrix_.Buffer iLoc j) =
        (WA src).2 ((WA src).1.matrix_.Buffer iLoc j) := by
    intro iLoc j i0 i1 j0 j1
    rw [unpack_entry _ _ e iLoc j eLD ⟨i0, i1⟩ ⟨j0, by rw [eW]; exact j1⟩]
    obtain ⟨b1, b2⟩ := portion_bound e.B.matrix_.height_ (MaxLength H (r * c)) Wd iLoc j
      ⟨i0, i1⟩ ⟨j0, j1⟩ hM
    unfold MemCopy
    rw [if_pos ⟨b1, by rw [sSC]; omega⟩, sSB]
    have e1 : (0 : Int) + (j * e.B.matrix_.height_ + iLoc - 0) =
        j * (WA src).1.matrix_.height_ + iLoc := by
      rw [hlhS]
      ring
    rw [e1]
    exact pack_entry (WA src).1 (WA src).2 (aux src) Wd iLoc j ⟨i0, by rw [hlhS]; exact i1⟩
      ⟨j0, j1⟩
  refine ⟨e, _, src, dst, he, hassign, eH, eW, eCA, eCS, ?_, ?_, hmemS.symm,
    hmemD.symm, ⟨s1, s2, s3, s4⟩, ⟨d1, d2, d3, d4⟩, ?_, hdstShift, ⟨es, hes, hsSend⟩,
    ⟨ed, hed, hdRecv⟩, hentry, ?_⟩
  · show e.B.matrix_.height_ = Length H e.B.colShift_ (ColStride VR_STAR e.B)
    rw [eLH, eCS, hstrB.1]
  · rw [eRR, eSR]
    exact ⟨x1, x2, hy.1, hy.2⟩
  · show (WA src).1.colShift_ = e.B.colShift_
    rw [hsrcShift, eCS]
  · intro i j i0 i1 j0 j1 qA a1 a2 a3 a4 hlB hlA
    have hlB1 : IsLocal VR_STAR e.B i j = true := hlB
    obtain ⟨hgA, hPA, hsAq, hrA⟩ := vecAligned_VC hA qA a1 a2 a3 a4
    obtain ⟨hcsA, hrsA, -⟩ := hstrA qA a1 a2 a3 a4
    simp only [IsLocal, IsLocalRow, IsLocalCol, eP, hPA, Bool.true_and, Bool.and_eq_true,
      beq_iff_eq, ColShift, hstrB.1, hcsA, eCS] at hlB1 hlA
    have hsQ0 : 0 ≤ (WA qA).1.colShift_ ∧ (WA qA).1.colShift_ < r * c := by
      rw [hsAq]
      exact ⟨Int.emod_nonneg _ (by omega), Int.emod_lt_of_pos _ hp⟩
    obtain ⟨k1, k2, k3⟩ := localIndex_bounds H (r * c) (WB q).1.colShift_ i (by omega) hsB0
      i0 i1 hlB1.1
    obtain ⟨m1, m2, m3⟩ := localIndex_bounds H (r * c) (WA qA).1.colShift_ i (by omega) hsQ0
      i0 i1 hlA.1
    have hsame : (WA qA).1.colShift_ = (WB q).1.colShift_ := by
      rcases lt_trichotomy ((i - (WB q).1.colShift_).tdiv (r * c))
        ((i - (WA qA).1.colShift_).tdiv (r * c)) with hlt | heq | hgt
      · have n1 : 0 ≤ ((i - (WA qA).1.colShift_).tdiv (r * c) -
            (i - (WB q).1.colShift_).tdiv (r * c) - 1) * (r * c) :=
          mul_nonneg (by omega) (by omega)
        have n2 : ((i - (WA qA).1.colShift_).tdiv (r * c) -
            (i - (WB q).1.colShift_).tdiv (r * c) - 1) * (r * c) =
            (i - (WA qA).1.colShift_).tdiv (r * c) * (r * c) -
            (i - (WB q).1.colShift_).tdiv (r * c) * (r * c) - r * c := by ring
        omega
      · rw [heq] at k3
        omega
      · have n1 : 0 ≤ ((i - (WB q).1.colShift_).tdiv (r * c) -
            (i - (WA qA).1.colShift_).tdiv (r * c) - 1) * (r * c) :=
          mul_nonneg (by omega) (by omega)
        have n2 : ((i - (WB q).1.colShift_).tdiv (r * c) -
            (i - (WA qA).1.colShift_).tdiv (r * c) - 1) * (r * c) =
            (i - (WB q).1.colShift_).tdiv (r * c) * (r * c) -
            (i - (WA qA).1.colShift_).tdiv (r * c) * (r * c) - r * c := by ring
        omega
    have hq : src = qA := by
      have hvq := hvcAll qA a1 a2 a3 a4
      have e1 : (aA + (WB q).1.colShift_) % (r * c) = qA.1 + qA.2 * r := by
        rw [← hsame, hsAq]
        exact rank_of_shift (r * c) aA _ hvq
      rw [hsrc, e1]
      refine Prod.ext ?_ ?_
      · simp only
        rw [Int.add_mul_emod_self, Int.emod_eq_of_lt a1 a2]
      · simp only
        rw [Int.add_mul_ediv_right _ _ (show r ≠ 0 by omega), Int.ediv_eq_zero_of_lt a1 a2]
        ring
    have hfin := hentry ((i - (WB q).1.colShift_).tdiv (r * c)) j k1 (by rw [eLH]; exact k2)
      j0 j1
    rw [hq] at hfin
    show (VR_STAR.unpack (WB q).2 e (MemCopy (aux q) 0 es.sendBuf 0 es.sendCount)).2
        (e.B.matrix_.Buffer ((i - e.B.colShift_).tdiv (ColStride VR_STAR e.B))
          ((j - e.B.rowShift_).tdiv (RowStride VR_STAR e.B))) = _
    simp only [ColShift, RowShift, hstrB.1, hstrB.2, hcsA, hrsA, eCS, eRS, hrA, hsame,
      Int.tdiv_one, sub_zero]
    exact hfin

/-- The worlds built by the constructor with explicit alignments satisfy the
assumptions of the redistribution, for every grid, size and column alignment. -/
theorem constructedWorld_VC_STAR_vec {T : Type} (debug : Bool) (r c H Wd ca : Int)
    (bufs : Int × Int → Buffer T) :
    VecAligned VC_STAR (constructedWorld debug VC_STAR r c H Wd ca 0 0 bufs) r c ca ∧
    VecStored VC_STAR (constructedWorld debug VC_STAR r c H Wd ca 0 0 bufs) r c H Wd := by
  have st : ∀ q : Int × Int, (constructedWorld debug VC_STAR r c H Wd ca 0 0 bufs q).1 = _ :=
    fun q => newAligned_state debug VC_STAR H Wd ca 0 (procGrid r c q.1 q.2) 0 rfl rfl
  constructor
  · intro q _ _ _ _
    rw [st]
    refine ⟨rfl, rfl, rfl, ?_⟩
    simp [SetShifts, Participating, CrossRank, ColRank, RowRank, ColStride, RowStride, VC_STAR,
      procGrid, Grid.InGrid, Grid.COMM_SELF, Grid.VCComm, mpi.CommRank]
  · intro q _ _ _ _
    rw [st]
    refine ⟨rfl, rfl, ?_⟩
    simp [LocalHeight, Matrix.Height, Matrix.Resize_, Matrix.Viewing, Matrix.empty, IsViewing,
      ColShift, ColStride]

theorem constructedWorld_VR_STAR_vec {T : Type} (debug : Bool) (r c H Wd ca : Int)
    (bufs : Int × Int → Buffer T) :
    VecAligned VR_STAR (constructedWorld debug VR_STAR r c H Wd ca 0 0 bufs) r c ca ∧
    (∀ q : Int × Int, 0 ≤ q.1 → q.1 < r → 0 ≤ q.2 → q.2 < c →
      (constructedWorld debug VR_STAR r c H Wd ca 0 0 bufs q).1.viewType_ = ViewType.OWNER ∧
      (constructedWorld debug VR_STAR r c H Wd ca 0 0 bufs q).1.matrix_.viewType_ =
        ViewType.OWNER) := by
  have st : ∀ q : Int × Int, (constructedWorld debug VR_STAR r c H Wd ca 0 0 bufs q).1 = _ :=
    fun q => newAligned_state debug VR_STAR H Wd ca 0 (procGrid r c q.1 q.2) 0 rfl rfl
  constructor
  · intro q _ _ _ _
    rw [st]
    refine ⟨rfl, rfl, rfl, ?_⟩
    simp [SetShifts, Participating, CrossRank, ColRank, RowRank, ColStride, RowStride, VR_STAR,
      procGrid, Grid.InGrid, Grid.COMM_SELF, Grid.VRComm, mpi.CommRank]
  · intro q _ _ _ _
    rw [st]
    refine ⟨rfl, ?_⟩
    simp [Matrix.Resize_, Matrix.Viewing, Matrix.empty, IsViewing]

theorem assign_VC_STAR_lossless_witness :
    (VecAligned VR_STAR vrAlignedDest 2 2 1 ∧
      (∀ q : Int × Int, 0 ≤ q.1 → q.1 < 2 → 0 ≤ q.2 → q.2 < 2 →
        (vrAlignedDest q).1.viewType_ = ViewType.OWNER ∧
        (vrAlignedDest q).1.matrix_.viewType_ = ViewType.OWNER) ∧
      VecAligned VC_STAR vcSourceWorld 2 2 3 ∧ VecStored VC_STAR vcSourceWorld 2 2 11 3) ∧
    ∃ (e : VR_STAR.Exchange Int) (Bn : ProcState Int) (src dst : Int × Int),
      VR_STAR.assign_VC_STAR.enter true (vrAlignedDest ((0, 1) : Int × Int)).1 (vrAlignedDest ((0, 1) : Int × Int)).2 (vcSourceWorld ((0, 1) : Int × Int)).1 (vcSourceWorld ((0, 1) : Int × Int)).2 (zeroAux ((0, 1) : Int × Int)) =
        Sum.inr e ∧
      VR_STAR.assign_VC_STAR true vrAlignedDest vcSourceWorld zeroAux ((0, 1) : Int × Int) = some (Outcome.ok Bn) ∧
      Bn.1.Height = 11 ∧ Bn.1.Width = 3 ∧ Bn.1.ColAlign = 1 ∧
      Bn.1.ColShift = (vrAlignedDest ((0, 1) : Int × Int)).1.ColShift ∧
      Bn.1.LocalHeight = Length 11 Bn.1.ColShift (ColStride VR_STAR Bn.1) ∧
      (0 ≤ e.recvRank ∧ e.recvRank < 2 * 2 ∧ 0 ≤ e.sendRank ∧ e.sendRank < 2 * 2) ∧
      src = (e.B.grid_.VRComm).member e.recvRank ∧
      dst = (e.B.grid_.VRComm).member e.sendRank ∧
      (0 ≤ src.1 ∧ src.1 < 2 ∧ 0 ≤ src.2 ∧ src.2 < 2) ∧
      (0 ≤ dst.1 ∧ dst.1 < 2 ∧ 0 ≤ dst.2 ∧ dst.2 < 2) ∧
      (vcSourceWorld src).1.ColShift = Bn.1.ColShift ∧
      (vrAlignedDest dst).1.ColShift = (vcSourceWorld ((0, 1) : Int × Int)).1.ColShift ∧
      (∃ es : VR_STAR.Exchange Int,
        VR_STAR.assign_VC_STAR.enter true (vrAlignedDest src).1 (vrAlignedDest src).2 (vcSourceWorld src).1 (vcSourceWorld src).2
          (zeroAux src) = Sum.inr es ∧ es.sendRank = (e.B.grid_.VRComm).rank) ∧
      (∃ ed : VR_STAR.Exchange Int,
        VR_STAR.assign_VC_STAR.enter true (vrAlignedDest dst).1 (vrAlignedDest dst).2 (vcSourceWorld dst).1 (vcSourceWorld dst).2
          (zeroAux dst) = Sum.inr ed ∧ ed.recvRank = (e.B.grid_.VRComm).rank) ∧
      (∀ iLoc j, 0 ≤ iLoc → iLoc < Bn.1.LocalHeight → 0 ≤ j → j < 3 →
        Bn.2 (Bn.1.matrix_.Buffer iLoc j) = (vcSourceWorld src).2 ((vcSourceWorld src).1.matrix_.Buffer iLoc j)) ∧
      (∀ i j, 0 ≤ i → i < 11 → 0 ≤ j → j < 3 →
        ∀ qA : Int × Int, 0 ≤ qA.1 → qA.1 < 2 → 0 ≤ qA.2 → qA.2 < 2 →
        IsLocal VR_STAR Bn.1 i j = true → IsLocal VC_STAR (vcSourceWorld qA).1 i j = true →
        Bn.2 (Bn.1.matrix_.Buffer
            ((i - Bn.1.ColShift).tdiv (ColStride VR_STAR Bn.1))
            ((j - Bn.1.RowShift).tdiv (RowStride VR_STAR Bn.1))) =
          (vcSourceWorld qA).2 ((vcSourceWorld qA).1.matrix_.Buffer
            ((i - (vcSourceWorld qA).1.ColShift).tdiv (ColStride VC_STAR (vcSourceWorld qA).1))
            ((j - (vcSourceWorld qA).1.RowShift).tdiv (RowStride VC_STAR (vcSourceWorld qA).1)))) :=
  ⟨⟨(constructedWorld_VR_STAR_vec true 2 2 0 0 1 _).1,
    (constructedWorld_VR_STAR_vec true 2 2 0 0 1 _).2,
    (constructedWorld_VC_STAR_vec true 2 2 11 3 3 _).1,
    (constructedWorld_VC_STAR_vec true 2 2 11 3 3 _).2⟩,
   assign_VC_STAR_lossless true vrAlignedDest vcSourceWorld zeroAux 2 2 11 3 3 1 (by decide)
    (by decide) (constructedWorld_VR_STAR_vec true 2 2 0 0 1 _).1
    (constructedWorld_VR_STAR_vec true 2 2 0 0 1 _).2
    (constructedWorld_VC_STAR_vec true 2 2 11 3 3 _).1
    (constructedWorld_VC_STAR_vec true 2 2 11 3 3 _).2 (0, 1) (by decide) (by decide)
    (by decide) (by decide)⟩

/-- The example, evaluated on the process at (0,1): row-major rank 1, shift 0 in B
(alignment 1), so it holds rows 0, 4, 8; in A (alignment 3) these rows are on the
process of column-major rank 3, the one at (1,1), whose buffer holds them at
positions 0..8; the process at (0,1) ends with exactly these nine values. -/
theorem assign_VC_STAR_example_values :
    (VR_STAR.assign_VC_STAR true vrAlignedDest vcSourceWorld zeroAux (0, 1)).map
        (fun o => (o.thrown, o.state.1.height_, o.state.1.width_, o.state.1.colShift_,
          o.state.1.matrix_.height_, o.state.1.matrix_.ldim_,
          List.map o.state.2 [-1, 0, 1, 2, 3, 4, 5, 6, 7, 8, 9])) =
      some (none, 11, 3, 0, 3, 3,
        [0, 1110, 1111, 1112, 1113, 1114, 1115, 1116, 1117, 1118, 0]) := by
  rfl


/-! ## Deflation -/

/-- The example: flags 0,1,0,1,1 move the items 0 and 2 to the front; every vector
is rearranged in the same way. -/
theorem deflate_example_values :
    List.map (pspec.Deflate 5 deflateFlags deflateExample).preimage [0, 1, 2, 3, 4, 5] =
      [0, 2, 1, 3, 4, 5] ∧
    List.map (pspec.Deflate 5 deflateFlags deflateExample).shifts [0, 1, 2, 3, 4, 5] =
      [10, 12, 11, 13, 14, 15] ∧
    List.map (pspec.Deflate 5 deflateFlags deflateExample).ests [0, 1, 2, 3, 4, 5] =
      [20, 22, 21, 23, 24, 25] ∧
    List.map (pspec.Deflate 5 deflateFlags deflateExample).itCounts [0, 1, 2, 3, 4, 5] =
      [30, 32, 31, 33, 34, 35] ∧
    List.map ((pspec.Deflate 5 deflateFlags deflateExample).X 7) [0, 1, 2, 3, 4, 5] =
      [700, 702, 701, 703, 704, 705] ∧
    ZeroNorm deflateFlags 5 = 3 := by
  decide

/-- Invariant rule for `forDown`. -/
theorem forDown_inv {σ : Type} (P : Int → σ → Prop) (n : Nat) (body : Int → σ → σ) (s : σ)
    (h0 : P n s)
    (hstep : ∀ (k : Nat) (t : σ), k < n → P ((k : Int) + 1) t → P k (body k t)) :
    P 0 (forDown n body s) := by
  induction n generalizing s with
  | zero => exact h0
  | succ n ih =>
    rw [forDown]
    refine ih _ (hstep n s (Nat.lt_succ_self n) ?_) (fun k t hk => hstep k t (by omega))
    have e : ((n + 1 : Nat) : Int) = (n : Int) + 1 := by push_cast; ring
    rw [← e]
    exact h0

theorem RowSwap_eq {α : Type} (A : Int → α) (i j : Int) :
    RowSwap A i j = A ∘ (Equiv.swap i j) := by
  funext k
  simp only [RowSwap, Function.comp, Equiv.swap_apply_def]
  split
  · rfl
  · split <;> rfl

theorem ColumnSwap_eq {α : Type} (A : Int → Int → α) (i j : Int) (row k : Int) :
    ColumnSwap A i j row k = A row (Equiv.swap i j k) := by
  simp only [ColumnSwap, Equiv.swap_apply_def]
  split
  · rfl
  · split <;> rfl

theorem ZeroNorm_zero (A : Int → Int) : ZeroNorm A 0 = 0 := by
  unfold ZeroNorm
  rw [forLoop_empty _ _ _ _ le_rfl]

theorem ZeroNorm_succ (A : Int → Int) (m : Int) (hm : 0 ≤ m) :
    ZeroNorm A (m + 1) = ZeroNorm A m + if A m ≠ 0 then 1 else 0 := by
  unfold ZeroNorm
  rw [forLoop_succ _ _ _ _ hm]
  split <;> simp

theorem ZeroNorm_bounds (A : Int → Int) (m : Nat) :
    0 ≤ ZeroNorm A m ∧ ZeroNorm A m ≤ m := by
  induction m with
  | zero =>
    rw [show ((0 : Nat) : Int) = 0 from rfl, ZeroNorm_zero]
    exact ⟨le_rfl, le_rfl⟩
  | succ m ih =>
    have e : ((m + 1 : Nat) : Int) = (m : Int) + 1 := by push_cast; ring
    rw [e, ZeroNorm_succ _ _ (by omega)]
    split <;> omega


/-- What deflation does: the five vectors are rearranged by one permutation `p`
of the positions, which fixes the positions outside the window, puts the
unconverged items at the positions below n - k and the converged ones at the
positions from n - k on, where k = ZeroNorm of the flags. -/
theorem deflate_perm {C Real : Type} (n : Int) (hn : 0 ≤ n) (conv : Int → Int)
    (a : pspec.Active C Real) :
    ∃ p : Equiv.Perm Int,
      (pspec.Deflate n conv a).shifts = a.shifts ∘ p ∧
      (pspec.Deflate n conv a).preimage = a.preimage ∘ p ∧
      (pspec.Deflate n conv a).ests = a.ests ∘ p ∧
      (pspec.Deflate n conv a).itCounts = a.itCounts ∘ p ∧
      (∀ i k, (pspec.Deflate n conv a).X i k = a.X i (p k)) ∧
      (∀ j, j < 0 ∨ n ≤ j → p j = j) ∧
      (∀ j, 0 ≤ j → j < n - ZeroNorm conv n → conv (p j) = 0 ∧ 0 ≤ p j ∧ p j < n) ∧
      (∀ j, n - ZeroNorm conv n ≤ j → j < n → conv (p j) ≠ 0 ∧ 0 ≤ p j ∧ p j < n) := by
  have hnn : ((n.toNat : Nat) : Int) = n := by omega
  have key := forDown_inv
    (fun (m : Int) (st : Int × pspec.Active C Real) =>
      ∃ p : Equiv.Perm Int,
        st.2.shifts = a.shifts ∘ p ∧ st.2.preimage = a.preimage ∘ p ∧
        st.2.ests = a.ests ∘ p ∧ st.2.itCounts = a.itCounts ∘ p ∧
        (∀ i k, st.2.X i k = a.X i (p k)) ∧
        st.1 = n - 1 - (ZeroNorm conv n - ZeroNorm conv m) ∧ m - 1 ≤ st.1 ∧ st.1 < n ∧
        (∀ j, j < m ∨ n ≤ j → p j = j) ∧
        (∀ j, m ≤ j → j ≤ st.1 → conv (p j) = 0 ∧ m ≤ p j ∧ p j < n) ∧
        (∀ j, st.1 < j → j < n → conv (p j) ≠ 0 ∧ m ≤ p j ∧ p j < n))
    n.toNat
    (fun swapFrom (st : Int × pspec.Active C Real) =>
      let swapTo := st.1
      let a := st.2
      if conv swapFrom ≠ 0 then
        let a :=
          if swapTo ≠ swapFrom then
            { shifts := RowSwap a.shifts swapFrom swapTo
              preimage := RowSwap a.preimage swapFrom swapTo
              ests := RowSwap a.ests swapFrom swapTo
              itCounts := RowSwap a.itCounts swapFrom swapTo
              X := ColumnSwap a.X swapFrom swapTo }
          else a
        (swapTo - 1, a)
      else (swapTo, a)) (n - 1, a) ?_ ?_
  · obtain ⟨p, h1, h2, h3, h4, h5, h6, -, -, h9, h10, h11⟩ := key
    refine ⟨p, h1, h2, h3, h4, h5, fun j hj => h9 j hj, ?_, ?_⟩
    · intro j j0 j1
      exact h10 j j0 (by rw [h6, ZeroNorm_zero]; omega)
    · intro j j0 j1
      exact h11 j (by rw [h6, ZeroNorm_zero]; omega) j1
  · refine ⟨1, rfl, rfl, rfl, rfl, fun _ _ => rfl, ?_, ?_, ?_, fun _ _ => rfl, ?_, ?_⟩
    · rw [hnn]
      simp
    · rw [hnn]
    · simp
    · intro j j0 j1
      simp only at j1
      omega
    · intro j j0 j1
      simp only at j0
      omega
  · intro k st hk ⟨p, h1, h2, h3, h4, h5, h6, h7, h8, h9, h10, h11⟩
    have hkn : (k : Int) < n := by omega
    have hk0 : (0 : Int) ≤ k := by omega
    have hZ := ZeroNorm_succ conv k hk0
    by_cases hc : conv k ≠ 0
    · rw [if_pos hc] at hZ
      by_cases ht : st.1 ≠ k
      · have htk : (k : Int) + 1 ≤ st.1 := by omega
        refine ⟨(Equiv.swap (k : Int) st.1).trans p, ?_, ?_, ?_, ?_, ?_, ?_, ?_, ?_, ?_, ?_, ?_⟩
        · simp only [if_pos hc, if_pos ht, RowSwap_eq, h1]
          rfl
        · simp only [if_pos hc, if_pos ht, RowSwap_eq, h2]
          rfl
        · simp only [if_pos hc, if_pos ht, RowSwap_eq, h3]
          rfl
        · simp only [if_pos hc, if_pos ht, RowSwap_eq, h4]
          rfl
        · intro i x
          simp only [if_pos hc, if_pos ht, ColumnSwap_eq, h5]
          rfl
        · simp only [if_pos hc]
          omega
        · simp only [if_pos hc]
          omega
        · simp only [if_pos hc]
          omega
        · intro j hj
          simp only [Equiv.trans_apply]
          rw [Equiv.swap_apply_of_ne_of_ne (by omega) (by omega)]
          exact h9 j (by omega)
        · intro j j0 j1
          simp only [if_pos hc] at j1
          simp only [Equiv.trans_apply]
          by_cases hjk : j = k
          · rw [hjk, Equiv.swap_apply_left]
            obtain ⟨c1, c2, c3⟩ := h10 st.1 htk le_rfl
            exact ⟨c1, by omega, c3⟩
          · rw [Equiv.swap_apply_of_ne_of_ne hjk (by omega)]
            obtain ⟨c1, c2, c3⟩ := h10 j (by omega) (by omega)
            exact ⟨c1, by omega, c3⟩
        · intro j j0 j1
          simp only [if_pos hc] at j0
          simp only [Equiv.trans_apply]
          by_cases hjt : j = st.1
          · rw [hjt, Equiv.swap_apply_right, h9 k (by omega)]
            exact ⟨hc, le_rfl, hkn⟩
          · rw [Equiv.swap_apply_of_ne_of_ne (by omega) hjt]
            obtain ⟨c1, c2, c3⟩ := h11 j (by omega) j1
            exact ⟨c1, by omega, c3⟩
      · have htk : st.1 = k := by omega
        refine ⟨p, ?_, ?_, ?_, ?_, ?_, ?_, ?_, ?_, ?_, ?_, ?_⟩
        · simp only [if_pos hc, if_neg ht, h1]
        · simp only [if_pos hc, if_neg ht, h2]
        · simp only [if_pos hc, if_neg ht, h3]
        · simp only [if_pos hc, if_neg ht, h4]
        · intro i x
          simp only [if_pos hc, if_neg ht, h5]
        · simp only [if_pos hc]
          omega
        · simp only [if_pos hc]
          omega
        · simp only [if_pos hc]
          omega
        · intro j hj
          exact h9 j (by omega)
        · intro j j0 j1
          simp only [if_pos hc] at j1
          omega
        · intro j j0 j1
          simp only [if_pos hc] at j0
          by_cases hjk : j = k
          · rw [hjk, h9 k (by omega)]
            exact ⟨hc, le_rfl, hkn⟩
          · obtain ⟨c1, c2, c3⟩ := h11 j (by omega) j1
            exact ⟨c1, by omega, c3⟩
    · rw [if_neg hc] at hZ
      have hc0 : conv k = 0 := by simpa using hc
      refine ⟨p, ?_, ?_, ?_, ?_, ?_, ?_, ?_, ?_, ?_, ?_, ?_⟩
      · simp only [if_neg hc, h1]
      · simp only [if_neg hc, h2]
      · simp only [if_neg hc, h3]
      · simp only [if_neg hc, h4]
      · intro i x
        simp only [if_neg hc, h5]
      · simp only [if_neg hc]
        omega
      · simp only [if_neg hc]
        omega
      · simp only [if_neg hc]
        omega
      · intro j hj
        exact h9 j (by omega)
      · intro j j0 j1
        simp only [if_neg hc] at j1
        by_cases hjk : j = k
        · rw [hjk, h9 k (by omega)]
          exact ⟨hc0, le_rfl, hkn⟩
        · obtain ⟨c1, c2, c3⟩ := h10 j (by omega) j1
          exact ⟨c1, by omega, c3⟩
      · intro j j0 j1
        simp only [if_neg hc] at j0
        obtain ⟨c1, c2, c3⟩ := h11 j j0 j1
        exact ⟨c1, by omega, c3⟩

/-- A permutation of the integers that fixes every position outside [0,n) maps
[0,n) onto itself. -/
theorem perm_window (p : Equiv.Perm Int) (n : Int) (hfix : ∀ j, j < 0 ∨ n ≤ j → p j = j) :
    (∀ j, 0 ≤ j → j < n → 0 ≤ p j ∧ p j < n) ∧
    (∀ i, 0 ≤ i → i < n → 0 ≤ p.symm i ∧ p.symm i < n) := by
  constructor
  · intro j j0 j1
    by_contra hc
    have h1 : p (p j) = p j := hfix (p j) (by omega)
    have h2 : p j = j := p.injective h1
    omega
  · intro i i0 i1
    by_contra hc
    have h1 : p (p.symm i) = p.symm i := hfix (p.symm i) (by omega)
    rw [Equiv.apply_symm_apply] at h1
    omega

/-- C17: the sequential pspec::Deflate on a window of numActive >= 0 items with
converged flags f, k = the number of non-zero flags: the shifts, preimages,
estimates, iteration counts and the columns of X are rearranged by one and the
same permutation p of the positions (position j receives the item that was at
p j), which leaves the positions outside the window alone; the positions
[0, numActive-k) hold unconverged items of the window and the positions
[numActive-k, numActive) converged ones, and every unconverged (converged) item
of the window is at one of the former (latter) positions, so no item is lost or
duplicated. -/
theorem deflate_compacts {C Real : Type} (numActive : Int) (hn : 0 ≤ numActive)
    (f : Int → Int) (a : pspec.Active C Real) :
    ∃ p : Equiv.Perm Int,
      (pspec.Deflate numActive f a).shifts = a.shifts ∘ p ∧
      (pspec.Deflate numActive f a).preimage = a.preimage ∘ p ∧
      (pspec.Deflate numActive f a).ests = a.ests ∘ p ∧
      (pspec.Deflate numActive f a).itCounts = a.itCounts ∘ p ∧
      (∀ i k, (pspec.Deflate numActive f a).X i k = a.X i (p k)) ∧
      (∀ j, j < 0 ∨ numActive ≤ j → p j = j) ∧
      (∀ j, 0 ≤ j → j < numActive - ZeroNorm f numActive →
        f (p j) = 0 ∧ 0 ≤ p j ∧ p j < numActive) ∧
      (∀ j, numActive - ZeroNorm f numActive ≤ j → j < numActive →
        f (p j) ≠ 0 ∧ 0 ≤ p j ∧ p j < numActive) ∧
      (∀ i, 0 ≤ i → i < numActive → f i = 0 →
        ∃ j, 0 ≤ j ∧ j < numActive - ZeroNorm f numActive ∧ p j = i) ∧
      (∀ i, 0 ≤ i → i < numActive → f i ≠ 0 →
        ∃ j, numActive - ZeroNorm f numActive ≤ j ∧ j < numActive ∧ p j = i) := by
  obtain ⟨p, h1, h2, h3, h4, h5, h6, h7, h8⟩ := deflate_perm numActive hn f a
  obtain ⟨-, w2⟩ := perm_window p numActive h6
  refine ⟨p, h1, h2, h3, h4, h5, h6, h7, h8, ?_, ?_⟩
  · intro i i0 i1 hi
    obtain ⟨s0, s1⟩ := w2 i i0 i1
    refine ⟨p.symm i, s0, ?_, Equiv.apply_symm_apply p i⟩
    by_contra hc
    have := (h8 (p.symm i) (by omega) s1).1
    rw [Equiv.apply_symm_apply] at this
    exact this hi
  · intro i i0 i1 hi
    obtain ⟨s0, s1⟩ := w2 i i0 i1
    refine ⟨p.symm i, ?_, s1, Equiv.apply_symm_apply p i⟩
    by_contra hc
    have := (h7 (p.symm i) s0 (by omega)).1
    rw [Equiv.apply_symm_apply] at this
    exact hi this

theorem deflate_compacts_witness :
    (0 : Int) ≤ 5 ∧
    ∃ p : Equiv.Perm Int,
      (pspec.Deflate 5 deflateFlags deflateExample).shifts = deflateExample.shifts ∘ p ∧
      (pspec.Deflate 5 deflateFlags deflateExample).preimage = deflateExample.preimage ∘ p ∧
      (pspec.Deflate 5 deflateFlags deflateExample).ests = deflateExample.ests ∘ p ∧
      (pspec.Deflate 5 deflateFlags deflateExample).itCounts = deflateExample.itCounts ∘ p ∧
      (∀ i k, (pspec.Deflate 5 deflateFlags deflateExample).X i k = deflateExample.X i (p k)) ∧
      (∀ j, j < 0 ∨ 5 ≤ j → p j = j) ∧
      (∀ j, 0 ≤ j → j < 5 - ZeroNorm deflateFlags 5 →
        deflateFlags (p j) = 0 ∧ 0 ≤ p j ∧ p j < 5) ∧
      (∀ j, 5 - ZeroNorm deflateFlags 5 ≤ j → j < 5 →
        deflateFlags (p j) ≠ 0 ∧ 0 ≤ p j ∧ p j < 5) ∧
      (∀ i, 0 ≤ i → i < 5 → deflateFlags i = 0 →
        ∃ j, 0 ≤ j ∧ j < 5 - ZeroNorm deflateFlags 5 ∧ p j = i) ∧
      (∀ i, 0 ≤ i → i < 5 → deflateFlags i ≠ 0 →
        ∃ j, 5 - ZeroNorm deflateFlags 5 ≤ j ∧ j < 5 ∧ p j = i) :=
  ⟨by decide, deflate_compacts 5 (by decide) deflateFlags deflateExample⟩


/-! ## Restoring the ordering -/

/-- A sequence of deflations, each on a window of at most N positions, rearranges
the five vectors by one permutation of the positions that fixes every position
outside [0,N). -/
theorem deflate_seq_perm {C Real : Type} (N : Int) (calls : List (Int × (Int → Int)))
    (hcalls : ∀ call ∈ calls, 0 ≤ call.1 ∧ call.1 ≤ N) (a : pspec.Active C Real) :
    ∃ p : Equiv.Perm Int,
      (calls.foldl (fun s call => pspec.Deflate call.1 call.2 s) a).shifts = a.shifts ∘ p ∧
      (calls.foldl (fun s call => pspec.Deflate call.1 call.2 s) a).preimage =
        a.preimage ∘ p ∧
      (calls.foldl (fun s call => pspec.Deflate call.1 call.2 s) a).ests = a.ests ∘ p ∧
      (calls.foldl (fun s call => pspec.Deflate call.1 call.2 s) a).itCounts =
        a.itCounts ∘ p ∧
      (∀ i k, (calls.foldl (fun s call => pspec.Deflate call.1 call.2 s) a).X i k =
        a.X i (p k)) ∧
      (∀ j, j < 0 ∨ N ≤ j → p j = j) := by
  induction calls generalizing a with
  | nil => exact ⟨1, rfl, rfl, rfl, rfl, fun _ _ => rfl, fun _ _ => rfl⟩
  | cons call rest ih =>
    obtain ⟨c0, c1⟩ := hcalls call (List.mem_cons_self _ _)
    obtain ⟨p, h1, h2, h3, h4, h5, h6, -, -⟩ := deflate_perm call.1 c0 call.2 a
    obtain ⟨q, g1, g2, g3, g4, g5, g6⟩ :=
      ih (fun x hx => hcalls x (List.mem_cons_of_mem _ hx)) (pspec.Deflate call.1 call.2 a)
    refine ⟨q.trans p, ?_, ?_, ?_, ?_, ?_, ?_⟩
    · rw [List.foldl_cons, g1, h1]
      rfl
    · rw [List.foldl_cons, g2, h2]
      rfl
    · rw [List.foldl_cons, g3, h3]
      rfl
    · rw [List.foldl_cons, g4, h4]
      rfl
    · intro i k
      rw [List.foldl_cons, g5, h5]
      rfl
    · intro j hj
      rw [Equiv.trans_apply, g6 j hj]
      exact h6 j (by omega)

/-- `RestoreOrdering` with a preimage that is injective on [0,numShifts) puts entry
j of both vectors at position preimage[j]. -/
theorem restoreOrdering_scatter {Real : Type} (numShifts : Int) (preimage : Int → Int)
    (invNorms : Int → Real) (itCounts : Int → Int)
    (hinj : ∀ j k, 0 ≤ j → j < numShifts → 0 ≤ k → k < numShifts →
      preimage j = preimage k → j = k) :
    ∀ j, 0 ≤ j → j < numShifts →
      (pspec.RestoreOrdering numShifts preimage invNorms itCounts).1 (preimage j) =
        invNorms j ∧
      (pspec.RestoreOrdering numShifts preimage invNorms itCounts).2 (preimage j) =
        itCounts j := by
  by_cases hN : 0 ≤ numShifts
  · unfold pspec.RestoreOrdering
    refine forLoop_inv
      (fun m (out : (Int → Real) × (Int → Int)) => m ≤ numShifts → ∀ j, 0 ≤ j → j < m →
        out.1 (preimage j) = invNorms j ∧ out.2 (preimage j) = itCounts j)
      0 numShifts _ _ hN ?_ ?_ le_rfl
    · intro _ j j0 j1
      omega
    · intro m out m0 m1 ih _ j j0 j1
      by_cases hjm : j = m
      · subst hjm
        simp only [Function.update_same, and_self]
      · have hne : preimage j ≠ preimage m := fun h =>
          hjm (hinj j m j0 (by omega) m0 m1 h)
        simp only [Function.update_noteq hne]
        exact ih (by omega) j j0 (by omega)
  · intro j j0 j1
    omega

/-- C18: start from any vectors whose preimage is the identity on
{0..numShifts-1} and apply any sequence of Deflate calls, each on a window of
at most numShifts positions (with any flags). Then the preimage is still a
permutation of {0..numShifts-1} (it maps the set into itself, injectively and
onto), the shift and vector at position j are the input shift and vector number
preimage[j], and RestoreOrdering(preimage, invNorms, itCounts) yields
invNorms'[preimage[j]] = invNorms[j] and itCounts'[preimage[j]] = itCounts[j]
for every j, so that index s of the results is the one of the s-th input shift. -/
theorem restoreOrdering_undoes_deflation {C Real : Type} (numShifts : Int)
    (calls : List (Int × (Int → Int)))
    (hcalls : ∀ call ∈ calls, 0 ≤ call.1 ∧ call.1 ≤ numShifts) (a : pspec.Active C Real)
    (hid : ∀ j, 0 ≤ j → j < numShifts → a.preimage j = j) :
    (∀ j, 0 ≤ j → j < numShifts →
      0 ≤ (calls.foldl (fun s call => pspec.Deflate call.1 call.2 s) a).preimage j ∧
      (calls.foldl (fun s call => pspec.Deflate call.1 call.2 s) a).preimage j < numShifts) ∧
    (∀ j k, 0 ≤ j → j < numShifts → 0 ≤ k → k < numShifts →
      (calls.foldl (fun s call => pspec.Deflate call.1 call.2 s) a).preimage j =
        (calls.foldl (fun s call => pspec.Deflate call.1 call.2 s) a).preimage k → j = k) ∧
    (∀ i, 0 ≤ i → i < numShifts → ∃ j, 0 ≤ j ∧ j < numShifts ∧
      (calls.foldl (fun s call => pspec.Deflate call.1 call.2 s) a).preimage j = i) ∧
    (∀ j, 0 ≤ j → j < numShifts →
      (calls.foldl (fun s call => pspec.Deflate call.1 call.2 s) a).shifts j =
        a.shifts ((calls.foldl (fun s call => pspec.Deflate call.1 call.2 s) a).preimage j) ∧
      ∀ i, (calls.foldl (fun s call => pspec.Deflate call.1 call.2 s) a).X i j =
        a.X i ((calls.foldl (fun s call => pspec.Deflate call.1 call.2 s) a).preimage j)) ∧
    (∀ (invNorms : Int → Real) (itCounts : Int → Int) (j : Int), 0 ≤ j → j < numShifts →
      (pspec.RestoreOrdering numShifts
          (calls.foldl (fun s call => pspec.Deflate call.1 call.2 s) a).preimage
          invNorms itCounts).1
        ((calls.foldl (fun s call => pspec.Deflate call.1 call.2 s) a).preimage j) =
          invNorms j ∧
      (pspec.RestoreOrdering numShifts
          (calls.foldl (fun s call => pspec.Deflate call.1 call.2 s) a).preimage
          invNorms itCounts).2
        ((calls.foldl (fun s call => pspec.Deflate call.1 call.2 s) a).preimage j) =
          itCounts j) := by
  obtain ⟨p, h1, h2, -, -, h5, h6⟩ := deflate_seq_perm numShifts calls hcalls a
  obtain ⟨w1, w2⟩ := perm_window p numShifts h6
  have hpre : ∀ j, 0 ≤ j → j < numShifts →
      (calls.foldl (fun s call => pspec.Deflate call.1 call.2 s) a).preimage j = p j := by
    intro j j0 j1
    rw [h2]
    exact hid (p j) (w1 j j0 j1).1 (w1 j j0 j1).2
  have hinj : ∀ j k, 0 ≤ j → j < numShifts → 0 ≤ k → k < numShifts →
      (calls.foldl (fun s call => pspec.Deflate call.1 call.2 s) a).preimage j =
        (calls.foldl (fun s call => pspec.Deflate call.1 call.2 s) a).preimage k → j = k := by
    intro j k j0 j1 k0 k1 h
    rw [hpre j j0 j1, hpre k k0 k1] at h
    exact p.injective h
  refine ⟨?_, hinj, ?_, ?_, ?_⟩
  · intro j j0 j1
    rw [hpre j j0 j1]
    exact w1 j j0 j1
  · intro i i0 i1
    obtain ⟨s0, s1⟩ := w2 i i0 i1
    exact ⟨p.symm i, s0, s1, by rw [hpre _ s0 s1, Equiv.apply_symm_apply]⟩
  · intro j j0 j1
    rw [hpre j j0 j1, h1]
    exact ⟨rfl, fun i => h5 i j⟩
  · intro invNorms itCounts j j0 j1
    exact restoreOrdering_scatter numShifts _ invNorms itCounts hinj j j0 j1

theorem restoreOrdering_undoes_deflation_witness :
    ((∀ call ∈ deflateCalls, 0 ≤ call.1 ∧ call.1 ≤ 5) ∧
      (∀ j, 0 ≤ j → j < 5 → deflateExample.preimage j = j)) ∧
    ((∀ j, 0 ≤ j → j < 5 →
      0 ≤ (deflateCalls.foldl (fun s call => pspec.Deflate call.1 call.2 s) deflateExample).preimage j ∧
      (deflateCalls.foldl (fun s call => pspec.Deflate call.1 call.2 s) deflateExample).preimage j < 5) ∧
    (∀ j k, 0 ≤ j → j < 5 → 0 ≤ k → k < 5 →
      (deflateCalls.foldl (fun s call => pspec.Deflate call.1 call.2 s) deflateExample).preimage j =
        (deflateCalls.foldl (fun s call => pspec.Deflate call.1 call.2 s) deflateExample).preimage k → j = k) ∧
    (∀ i, 0 ≤ i → i < 5 → ∃ j, 0 ≤ j ∧ j < 5 ∧
      (deflateCalls.foldl (fun s call => pspec.Deflate call.1 call.2 s) deflateExample).preimage j = i) ∧
    (∀ j, 0 ≤ j → j < 5 →
      (deflateCalls.foldl (fun s call => pspec.Deflate call.1 call.2 s) deflateExample).shifts j =
        deflateExample.shifts ((deflateCalls.foldl (fun s call => pspec.Deflate call.1 call.2 s) deflateExample).preimage j) ∧
      ∀ i, (deflateCalls.foldl (fun s call => pspec.Deflate call.1 call.2 s) deflateExample).X i j =
        deflateExample.X i ((deflateCalls.foldl (fun s call => pspec.Deflate call.1 call.2 s) deflateExample).preimage j)) ∧
    (∀ (invNorms : Int → Int) (itCounts : Int → Int) (j : Int), 0 ≤ j → j < 5 →
      (pspec.RestoreOrdering 5
          (deflateCalls.foldl (fun s call => pspec.Deflate call.1 call.2 s) deflateExample).preimage
          invNorms itCounts).1
        ((deflateCalls.foldl (fun s call => pspec.Deflate call.1 call.2 s) deflateExample).preimage j) =
          invNorms j ∧
      (pspec.RestoreOrdering 5
          (deflateCalls.foldl (fun s call => pspec.Deflate call.1 call.2 s) deflateExample).preimage
          invNorms itCounts).2
        ((deflateCalls.foldl (fun s call => pspec.Deflate call.1 call.2 s) deflateExample).preimage j) =
          itCounts j)) :=
  ⟨⟨by decide, fun _ _ _ => rfl⟩,
   restoreOrdering_undoes_deflation 5 deflateCalls (by decide) deflateExample
    (fun _ _ _ => rfl)⟩

/-- The example: after the two deflations the positions 0..4 hold the items
2, 0, 1, 3, 4; restoring the ordering of the estimates and counts found at the
positions puts those of item s back at index s. -/
theorem restoreOrdering_example_values :
    List.map (deflateCalls.foldl (fun s call => pspec.Deflate call.1 call.2 s)
        deflateExample).preimage [0, 1, 2, 3, 4] = [2, 0, 1, 3, 4] ∧
    List.map (deflateCalls.foldl (fun s call => pspec.Deflate call.1 call.2 s)
        deflateExample).ests [0, 1, 2, 3, 4] = [22, 20, 21, 23, 24] ∧
    List.map (pspec.RestoreOrdering 5
        (deflateCalls.foldl (fun s call => pspec.Deflate call.1 call.2 s)
          deflateExample).preimage
        (deflateCalls.foldl (fun s call => pspec.Deflate call.1 call.2 s)
          deflateExample).ests
        (deflateCalls.foldl (fun s call => pspec.Deflate call.1 call.2 s)
          deflateExample).itCounts).1 [0, 1, 2, 3, 4] = [20, 21, 22, 23, 24] ∧
    List.map (pspec.RestoreOrdering 5
        (deflateCalls.foldl (fun s call => pspec.Deflate call.1 call.2 s)
          deflateExample).preimage
        (deflateCalls.foldl (fun s call => pspec.Deflate call.1 call.2 s)
          deflateExample).ests
        (deflateCalls.foldl (fun s call => pspec.Deflate call.1 call.2 s)
          deflateExample).itCounts).2 [0, 1, 2, 3, 4] = [30, 31, 32, 33, 34] := by
  decide


/-! ## TriangularPower -/

/-- The sweep loop ends: with at least one sweep of fuel, and as many as the
iteration cap leaves, it reaches a `break` after at least one and at most
`fuel` sweeps, and at the `break` the cap is reached or every shift is done. -/
theorem loop_exits {C Real : Type} (F : pspec.Arith Real) (solves : pspec.Solves C Real)
    (numShifts : Int) (deflate : Bool) (maxIts : Int) (tol : Real) :
    ∀ (fuel : Nat) (st : pspec.PowerState C Real), 1 ≤ fuel → maxIts - st.numIts ≤ fuel →
      ∃ ex : pspec.PowerState C Real,
        pspec.TriangularPower.loop F solves numShifts deflate maxIts tol fuel st = some ex ∧
        st.numIts + 1 ≤ ex.numIts ∧ ex.numIts ≤ st.numIts + fuel ∧
        (ex.numIts ≥ maxIts ∨ ex.numDone = numShifts) := by
  intro fuel
  induction fuel with
  | zero =>
    intro st h
    omega
  | succ fuel ih =>
    intro st _ hcap
    have hs : (pspec.TriangularPower.sweep F solves numShifts deflate tol st).numIts =
        st.numIts + 1 := rfl
    rw [pspec.TriangularPower.loop]
    by_cases h1 : (pspec.TriangularPower.sweep F solves numShifts deflate tol st).numIts ≥ maxIts
    · refine ⟨_, by simp only [h1, if_true], by rw [hs], ?_, Or.inl h1⟩
      rw [hs]
      push_cast
      omega
    · by_cases h2 : (pspec.TriangularPower.sweep F solves numShifts deflate tol st).numDone =
          numShifts
      · refine ⟨_, by simp only [h1, h2, if_true, if_false], by rw [hs], ?_, Or.inr h2⟩
        rw [hs]
        push_cast
        omega
      · have hp : (pspec.TriangularPower.proceed deflate
            (pspec.TriangularPower.sweep F solves numShifts deflate tol st)).numIts =
            st.numIts + 1 := rfl
        rw [hs] at h1
        push_cast at hcap
        obtain ⟨ex, e1, e2, e3, e4⟩ := ih (pspec.TriangularPower.proceed deflate
          (pspec.TriangularPower.sweep F solves numShifts deflate tol st)) (by omega)
          (by rw [hp]; omega)
        rw [hp] at e2 e3
        refine ⟨ex, ?_, by omega, by push_cast; omega, e4⟩
        simp only [hs, h1, h2, if_false]
        exact e1

/-- C19: the sweep loop of pspec::TriangularPower always ends (within
max(1, maxIts) sweeps), at a state where the cap is reached or numDone =
numShifts; the routine returns normally if and only if numDone = numShifts at
that state, and otherwise (which can only be at the cap) it raises the runtime
error "Two-norm estimates did not converge in time", a result that carries
neither estimates nor counts. -/
theorem triangularPower_raises_iff {C Real : Type} (F : pspec.Arith Real)
    (solves : pspec.Solves C Real) (shifts : Int → C) (X0 : Int → Int → C) (numShifts : Int)
    (deflate : Bool) (maxIts : Int) (tol : Real) :
    ∃ ex : pspec.PowerState C Real,
      pspec.TriangularPower.run F solves shifts X0 numShifts deflate maxIts tol = some ex ∧
      (ex.numIts ≥ maxIts ∨ ex.numDone = numShifts) ∧
      ((∃ r, pspec.TriangularPower F solves shifts X0 numShifts deflate maxIts tol =
          some (Except.ok r)) ↔ ex.numDone = numShifts) ∧
      (pspec.TriangularPower F solves shifts X0 numShifts deflate maxIts tol =
          some (Except.error
            (Error.RuntimeError "Two-norm estimates did not converge in time")) ↔
        ex.numDone ≠ numShifts) ∧
      (ex.numDone ≠ numShifts → ex.numIts ≥ maxIts) := by
  obtain ⟨ex, e1, -, -, e4⟩ := loop_exits F solves numShifts deflate maxIts tol
    (max 1 maxIts).toNat (pspec.TriangularPower.start F shifts X0 numShifts deflate)
    (by omega) (by
      have : (pspec.TriangularPower.start F shifts X0 numShifts deflate).numIts = 0 := rfl
      rw [this]
      omega)
  have hrun : pspec.TriangularPower.run F solves shifts X0 numShifts deflate maxIts tol =
      some ex := e1
  refine ⟨ex, hrun, e4, ?_, ?_, ?_⟩
  · unfold pspec.TriangularPower
    rw [hrun]
    by_cases h : ex.numDone = numShifts
    · simp only [h, ne_eq, not_true_eq_false, if_false, iff_true]
      cases deflate
      · exact ⟨_, rfl⟩
      · exact ⟨_, rfl⟩
    · simp only [ne_eq, h, not_false_eq_true, if_true, iff_false]
      rintro ⟨r, hr⟩
      cases hr
  · unfold pspec.TriangularPower
    rw [hrun]
    by_cases h : ex.numDone = numShifts
    · simp only [h, ne_eq, not_true_eq_false, if_false, iff_false]
      cases deflate <;> simp
    · simp only [ne_eq, h, not_false_eq_true, if_true]
  · intro h
    rcases e4 with e | e
    · exact e
    · exact absurd e h


/-- What `FindConverged` leaves: inside the window an entry is flagged with 1 and
its count kept, or not flagged and its count incremented; outside the window
nothing is flagged and the counts are kept. -/
theorem findConverged_spec {Real : Type} (F : pspec.Arith Real) (last ests : Int → Real)
    (its : Int → Int) (n : Int) (tol : Real) :
    (∀ j, 0 ≤ j → j < n →
      ((pspec.FindConverged F last ests its n tol).1 j = 0 ∧
        (pspec.FindConverged F last ests its n tol).2 j = its j + 1) ∨
      ((pspec.FindConverged F last ests its n tol).1 j = 1 ∧
        (pspec.FindConverged F last ests its n tol).2 j = its j)) ∧
    (∀ j, j < 0 ∨ n ≤ j →
      (pspec.FindConverged F last ests its n tol).1 j = 0 ∧
      (pspec.FindConverged F last ests its n tol).2 j = its j) := by
  by_cases hn : 0 ≤ n
  · unfold pspec.FindConverged
    refine forLoop_inv
      (fun m (st : (Int → Int) × (Int → Int)) =>
        (∀ j, 0 ≤ j → j < m →
          (st.1 j = 0 ∧ st.2 j = its j + 1) ∨ (st.1 j = 1 ∧ st.2 j = its j)) ∧
        (∀ j, j < 0 ∨ m ≤ j → st.1 j = 0 ∧ st.2 j = its j))
      0 n _ _ hn ?_ ?_
    · exact ⟨fun j j0 j1 => by omega, fun _ _ => ⟨rfl, rfl⟩⟩
    · intro m st m0 m1 ⟨ih1, ih2⟩
      dsimp only
      generalize (if F.ge (ests m) F.normCap = true then true
        else if F.gt (F.abs (ests m)) F.zero = true then
          F.le (F.div (F.abs (F.sub (last m) (ests m))) (F.abs (ests m))) tol
        else false) = cv
      cases cv
      · simp only [Bool.false_eq_true, if_false]
        constructor
        · intro j j0 j1
          by_cases hjm : j = m
          · subst hjm
            left
            refine ⟨(ih2 j (Or.inr le_rfl)).1, ?_⟩
            rw [Function.update_same, (ih2 j (Or.inr le_rfl)).2]
          · rw [Function.update_noteq hjm]
            exact ih1 j j0 (by omega)
        · intro j hj
          have hjm : j ≠ m := by omega
          rw [Function.update_noteq hjm]
          exact ih2 j (by omega)
      · simp only [if_true]
        constructor
        · intro j j0 j1
          by_cases hjm : j = m
          · subst hjm
            right
            exact ⟨Function.update_same _ _ _, (ih2 j (Or.inr le_rfl)).2⟩
          · rw [Function.update_noteq hjm]
            exact ih1 j j0 (by omega)
        · intro j hj
          have hjm : j ≠ m := by omega
          rw [Function.update_noteq hjm]
          exact ih2 j (by omega)
  · unfold pspec.FindConverged
    rw [forLoop_empty _ _ _ _ (by omega)]
    exact ⟨fun j j0 j1 => by omega, fun _ _ => ⟨rfl, rfl⟩⟩

/-- `ZeroNorm` of the n leading entries is 0 only if none of them is flagged, and
n only if all of them are. -/
theorem ZeroNorm_extremes (A : Int → Int) (n : Nat) :
    (ZeroNorm A n = 0 → ∀ j, 0 ≤ j → j < (n : Int) → A j = 0) ∧
    (ZeroNorm A n = n → ∀ j, 0 ≤ j → j < (n : Int) → A j ≠ 0) := by
  induction n with
  | zero =>
    exact ⟨fun _ j j0 j1 => by simp at j1; omega, fun _ j j0 j1 => by simp at j1; omega⟩
  | succ n ih =>
    have e : ((n + 1 : Nat) : Int) = (n : Int) + 1 := by push_cast; ring
    have hb := ZeroNorm_bounds A n
    rw [e, ZeroNorm_succ _ _ (by omega)]
    by_cases h : A n ≠ 0
    · rw [if_pos h]
      constructor
      · intro hz
        omega
      · intro hz j j0 j1
        by_cases hjn : j = n
        · rw [hjn]
          exact h
        · exact ih.2 (by omega) j j0 (by omega)
    · rw [if_neg h]
      have h0 : A n = 0 := by simpa using h
      constructor
      · intro hz j j0 j1
        by_cases hjn : j = n
        · rw [hjn]
          exact h0
        · exact ih.1 (by omega) j j0 (by omega)
      · intro hz
        omega

/-- The initialisation loop `preimage.Set( j, 0, j )` leaves the identity on
{0..numShifts-1}. -/
theorem preimage_start (N : Int) (j : Int) (j0 : 0 ≤ j) (j1 : j < N) :
    forLoop 0 N (fun j (p : Int → Int) => Function.update p j j) (fun _ => 0) j = j := by
  have key := forLoop_inv
    (fun m (p : Int → Int) => ∀ k, 0 ≤ k → k < m → p k = k) 0 N
    (fun j (p : Int → Int) => Function.update p j j) (fun _ => 0) (by omega)
    (fun k k0 k1 => by omega) ?_
  · exact key j j0 j1
  · intro m p m0 m1 ih k k0 k1
    dsimp only
    by_cases hkm : k = m
    · subst hkm
      exact Function.update_same _ _ _
    · rw [Function.update_noteq hkm]
      exact ih k k0 (by omega)


theorem ZeroNorm_bounds_int (A : Int → Int) (n : Int) (hn : 0 ≤ n) :
    0 ≤ ZeroNorm A n ∧ ZeroNorm A n ≤ n ∧
    (ZeroNorm A n = 0 → ∀ j, 0 ≤ j → j < n → A j = 0) ∧
    (ZeroNorm A n = n → ∀ j, 0 ≤ j → j < n → A j ≠ 0) := by
  have e : ((n.toNat : Nat) : Int) = n := by omega
  have h1 := ZeroNorm_bounds A n.toNat
  have h2 := ZeroNorm_extremes A n.toNat
  rw [e] at h1 h2
  exact ⟨h1.1, h1.2, h2.1, h2.2⟩

/-- The state after a sweep, field by field, with what `FindConverged` guarantees
of the flags and counts. -/
theorem sweep_fields {C Real : Type} (F : pspec.Arith Real) (solves : pspec.Solves C Real)
    (N : Int) (deflate : Bool) (tol : Real) (st : pspec.PowerState C Real) :
    ∃ (conv its : Int → Int) (n : Int),
      n = (if deflate then N - st.numDone else N) ∧
      (pspec.TriangularPower.sweep F solves N deflate tol st).active.itCounts = its ∧
      (pspec.TriangularPower.sweep F solves N deflate tol st).activeConverged = conv ∧
      (pspec.TriangularPower.sweep F solves N deflate tol st).numActive = n ∧
      (pspec.TriangularPower.sweep F solves N deflate tol st).numActiveDone = ZeroNorm conv n ∧
      (pspec.TriangularPower.sweep F solves N deflate tol st).numDone =
        (if deflate then st.numDone + ZeroNorm conv n else ZeroNorm conv n) ∧
      (pspec.TriangularPower.sweep F solves N deflate tol st).numIts = st.numIts + 1 ∧
      (pspec.TriangularPower.sweep F solves N deflate tol st).active.preimage =
        st.active.preimage ∧
      (∀ j, 0 ≤ j → j < n →
        (conv j = 0 ∧ its j = st.active.itCounts j + 1) ∨
        (conv j = 1 ∧ its j = st.active.itCounts j)) ∧
      (∀ j, j < 0 ∨ n ≤ j → conv j = 0 ∧ its j = st.active.itCounts j) := by
  obtain ⟨h1, h2⟩ := findConverged_spec F st.lastActiveEsts
    (pspec.CapEstimates F
      (fun j => if 0 ≤ j ∧ j < (if deflate then N - st.numDone else N) then
        (solves st.numIts (if deflate then N - st.numDone else N) st.active.shifts
          st.active.X).2 j else st.active.ests j)
      (if deflate then N - st.numDone else N))
    st.active.itCounts (if deflate then N - st.numDone else N) tol
  exact ⟨_, _, _, rfl, rfl, rfl, rfl, rfl, rfl, rfl, rfl, h1, h2⟩

/-- A sweep that ends with every shift done leaves every count between 1 and the
number of sweeps. -/
theorem sweep_exit {C Real : Type} (F : pspec.Arith Real) (solves : pspec.Solves C Real)
    (N : Int) (hN : 0 ≤ N) (deflate : Bool) (tol : Real) (st : pspec.PowerState C Real)
    (hJ : CountsAtHead N deflate st) :
    CountsAtExit N deflate (pspec.TriangularPower.sweep F solves N deflate tol st) := by
  obtain ⟨conv, its, n, hn, f1, f2, f3, f4, f5, f6, f7, s1, s2⟩ :=
    sweep_fields F solves N deflate tol st
  obtain ⟨hi0, hd, hnd⟩ := hJ
  intro hdone
  rw [f5] at hdone
  rw [f1, f6, f7]
  cases deflate
  · simp only [Bool.false_eq_true, if_false] at hn hdone
    subst hn
    obtain ⟨-, -, -, z4⟩ := ZeroNorm_bounds_int conv n hN
    refine ⟨?_, fun h => absurd h (by simp)⟩
    intro j j0 j1
    have hc := z4 hdone j j0 j1
    rcases s1 j j0 j1 with ⟨c, -⟩ | ⟨-, e⟩
    · exact absurd c hc
    · rw [e]
      exact hnd rfl j j0 j1
  · simp only [if_true] at hn hdone
    obtain ⟨d0, d1, d2, d3, d4⟩ := hd rfl
    have hn0 : 0 ≤ n := by omega
    obtain ⟨-, -, -, z4⟩ := ZeroNorm_bounds_int conv n hn0
    refine ⟨?_, fun _ => d4⟩
    intro j j0 j1
    by_cases hj : j < n
    · have hc := z4 (by omega) j j0 hj
      rcases s1 j j0 hj with ⟨c, -⟩ | ⟨-, e⟩
      · exact absurd c hc
      · rw [e, d2 j j0 (by omega)]
        omega
    · rw [(s2 j (Or.inr (by omega))).2]
      have := d3 j (by omega) j1
      omega

/-- A sweep after which the loop goes on re-establishes the loop-head facts. -/
theorem sweep_proceed {C Real : Type} (F : pspec.Arith Real) (solves : pspec.Solves C Real)
    (N : Int) (hN : 0 ≤ N) (deflate : Bool) (tol : Real) (st : pspec.PowerState C Real)
    (hJ : CountsAtHead N deflate st) :
    CountsAtHead N deflate (pspec.TriangularPower.proceed deflate
      (pspec.TriangularPower.sweep F solves N deflate tol st)) := by
  obtain ⟨conv, its, n, hn, f1, f2, f3, f4, f5, f6, f7, s1, s2⟩ :=
    sweep_fields F solves N deflate tol st
  obtain ⟨hi0, hd, hnd⟩ := hJ
  cases deflate
  · simp only [Bool.false_eq_true, if_false] at hn
    subst hn
    refine ⟨?_, fun h => absurd h (by simp), fun _ => ?_⟩
    · show 0 ≤ (pspec.TriangularPower.sweep F solves n false tol st).numIts
      rw [f6]
      omega
    · intro j j0 j1
      show 1 ≤ (pspec.TriangularPower.sweep F solves n false tol st).active.itCounts j ∧
        (pspec.TriangularPower.sweep F solves n false tol st).active.itCounts j ≤
          (pspec.TriangularPower.sweep F solves n false tol st).numIts + 1
      rw [f1, f6]
      have := hnd rfl j j0 j1
      rcases s1 j j0 j1 with ⟨-, e⟩ | ⟨-, e⟩ <;> rw [e] <;> omega
  · simp only [if_true] at hn f5
    obtain ⟨d0, d1, d2, d3, d4⟩ := hd rfl
    have hn0 : 0 ≤ n := by omega
    obtain ⟨z1, z2, z3, -⟩ := ZeroNorm_bounds_int conv n hn0
    refine ⟨?_, fun _ => ?_, fun h => absurd h (by simp)⟩
    · show 0 ≤ (pspec.TriangularPower.sweep F solves N true tol st).numIts
      rw [f6]
      omega
    · have hnum : (pspec.TriangularPower.proceed true
          (pspec.TriangularPower.sweep F solves N true tol st)).numIts = st.numIts + 1 := f6
      have hdone : (pspec.TriangularPower.proceed true
          (pspec.TriangularPower.sweep F solves N true tol st)).numDone =
          st.numDone + ZeroNorm conv n := f5
      rw [hnum, hdone]
      by_cases hk : ZeroNorm conv n = 0
      · have hact : (pspec.TriangularPower.proceed true
            (pspec.TriangularPower.sweep F solves N true tol st)).active =
            (pspec.TriangularPower.sweep F solves N true tol st).active := by
          simp only [pspec.TriangularPower.proceed, f4, hk, ne_eq, not_true_eq_false, and_false,
            if_false]
        rw [hact, f1, f7, hk]
        refine ⟨by omega, by omega, ?_, ?_, d4⟩
        · intro j j0 j1
          rcases s1 j j0 (by omega) with ⟨-, e⟩ | ⟨c, -⟩
          · rw [e, d2 j j0 (by omega)]
          · have := z3 hk j j0 (by omega)
            omega
        · intro j j0 j1
          rw [(s2 j (Or.inr (by omega))).2]
          have := d3 j (by omega) j1
          omega
      · have hact : (pspec.TriangularPower.proceed true
            (pspec.TriangularPower.sweep F solves N true tol st)).active =
            pspec.Deflate n conv (pspec.TriangularPower.sweep F solves N true tol st).active := by
          simp only [pspec.TriangularPower.proceed, f4, f3, f2, hk, ne_eq, not_false_eq_true,
            and_self, if_true]
        obtain ⟨p, -, p2, -, p4, -, p6, p7, p8⟩ := deflate_perm n hn0 conv
          (pspec.TriangularPower.sweep F solves N true tol st).active
        rw [hact, p2, p4, f1, f7]
        refine ⟨by omega, by omega, ?_, ?_, ?_⟩
        · intro j j0 j1
          obtain ⟨c1, c2, c3⟩ := p7 j j0 (by omega)
          simp only [Function.comp]
          rcases s1 (p j) c2 c3 with ⟨-, e⟩ | ⟨c, -⟩
          · rw [e, d2 (p j) c2 (by omega)]
          · omega
        · intro j j0 j1
          simp only [Function.comp]
          by_cases hj : j < n
          · obtain ⟨c1, c2, c3⟩ := p8 j (by omega) hj
            rcases s1 (p j) c2 c3 with ⟨c, -⟩ | ⟨-, e⟩
            · exact absurd c c1
            · rw [e, d2 (p j) c2 (by omega)]
              omega
          · rw [p6 j (Or.inr (by omega)), (s2 j (Or.inr (by omega))).2]
            have := d3 j (by omega) j1
            omega
        · obtain ⟨P, P1, P2⟩ := d4
          have hpN : ∀ j, j < 0 ∨ N ≤ j → p j = j := fun j hj => p6 j (by omega)
          obtain ⟨w1, -⟩ := perm_window p N hpN
          refine ⟨p.trans P, ?_, ?_⟩
          · intro j hj
            rw [Equiv.trans_apply, hpN j hj]
            exact P1 j hj
          · intro j j0 j1
            simp only [Function.comp, Equiv.trans_apply]
            exact P2 (p j) (w1 j j0 j1).1 (w1 j j0 j1).2

/-- The loop-head facts carry through the sweep loop to the state it is left in. -/
theorem loop_counts {C Real : Type} (F : pspec.Arith Real) (solves : pspec.Solves C Real)
    (N : Int) (hN : 0 ≤ N) (deflate : Bool) (maxIts : Int) (tol : Real) :
    ∀ (fuel : Nat) (st ex : pspec.PowerState C Real), CountsAtHead N deflate st →
      pspec.TriangularPower.loop F solves N deflate maxIts tol fuel st = some ex →
      CountsAtExit N deflate ex := by
  intro fuel
  induction fuel with
  | zero =>
    intro st ex _ h
    simp [pspec.TriangularPower.loop] at h
  | succ fuel ih =>
    intro st ex hJ h
    rw [pspec.TriangularPower.loop] at h
    by_cases h1 : (pspec.TriangularPower.sweep F solves N deflate tol st).numIts ≥ maxIts
    · simp only [h1, if_true, Option.some.injEq] at h
      rw [← h]
      exact sweep_exit F solves N hN deflate tol st hJ
    · by_cases h2 : (pspec.TriangularPower.sweep F solves N deflate tol st).numDone = N
      · simp only [h1, h2, if_true, if_false, Option.some.injEq] at h
        rw [← h]
        exact sweep_exit F solves N hN deflate tol st hJ
      · simp only [h1, h2, if_false] at h
        exact ih _ ex (sweep_proceed F solves N hN deflate tol st hJ) h

/-- The loop-head facts hold when `TriangularPower` enters its loop. -/
theorem start_counts {C Real : Type} (F : pspec.Arith Real) (shifts : Int → C)
    (X0 : Int → Int → C) (N : Int) (hN : 0 ≤ N) (deflate : Bool) :
    CountsAtHead N deflate
      (pspec.TriangularPower.start F shifts X0 N deflate : pspec.PowerState C Real) := by
  refine ⟨le_rfl, fun hd => ⟨le_rfl, ?_, fun _ _ _ => rfl, ?_, ?_⟩, fun _ _ _ _ => ?_⟩
  · exact hN
  · intro j j0 j1
    simp only [pspec.TriangularPower.start] at j0
    omega
  · refine ⟨1, fun _ _ => rfl, ?_⟩
    intro j j0 j1
    simp only [pspec.TriangularPower.start, hd, if_true]
    exact preimage_start N j j0 j1
  · exact ⟨le_rfl, by simp [pspec.TriangularPower.start]⟩

/-- C20: for numShifts >= 0 the sweep loop of pspec::TriangularPower ends after at
least one and at most max(1, maxIts) sweeps (numIts at the break is the number
of sweeps performed), and whenever the routine returns normally every entry of
the returned iteration counts is at least 1 and at most that number. -/
theorem triangularPower_itCount_bounds {C Real : Type} (F : pspec.Arith Real)
    (solves : pspec.Solves C Real) (shifts : Int → C) (X0 : Int → Int → C) (numShifts : Int)
    (hN : 0 ≤ numShifts) (deflate : Bool) (maxIts : Int) (tol : Real) :
    ∃ ex : pspec.PowerState C Real,
      pspec.TriangularPower.run F solves shifts X0 numShifts deflate maxIts tol = some ex ∧
      1 ≤ ex.numIts ∧ ex.numIts ≤ max 1 maxIts ∧
      ∀ (invNorms : Int → Real) (itCounts : Int → Int),
        pspec.TriangularPower F solves shifts X0 numShifts deflate maxIts tol =
          some (Except.ok (invNorms, itCounts)) →
        ∀ j, 0 ≤ j → j < numShifts → 1 ≤ itCounts j ∧ itCounts j ≤ ex.numIts := by
  obtain ⟨ex, e1, e2, e3, -⟩ := loop_exits F solves numShifts deflate maxIts tol
    (max 1 maxIts).toNat (pspec.TriangularPower.start F shifts X0 numShifts deflate)
    (by omega) (by
      have : (pspec.TriangularPower.start F shifts X0 numShifts deflate).numIts = 0 := rfl
      rw [this]
      omega)
  have hrun : pspec.TriangularPower.run F solves shifts X0 numShifts deflate maxIts tol =
      some ex := e1
  have h0 : (pspec.TriangularPower.start F shifts X0 numShifts deflate).numIts = 0 := rfl
  rw [h0] at e2 e3
  have hE := loop_counts F solves numShifts hN deflate maxIts tol _ _ ex
    (start_counts F shifts X0 numShifts hN deflate) e1
  refine ⟨ex, hrun, by omega, by omega, ?_⟩
  intro invNorms itCounts hret j j0 j1
  unfold pspec.TriangularPower at hret
  rw [hrun] at hret
  by_cases hd : ex.numDone = numShifts
  · obtain ⟨hc, hp⟩ := hE hd
    simp only [hd, ne_eq, not_true_eq_false, if_false] at hret
    cases deflate
    · simp only [Bool.false_eq_true, if_false, Option.some.injEq, Except.ok.injEq,
        Prod.mk.injEq] at hret
      rw [← hret.2]
      exact hc j j0 j1
    · simp only [if_true, Option.some.injEq, Except.ok.injEq] at hret
      obtain ⟨P, P1, P2⟩ := hp rfl
      obtain ⟨-, w2⟩ := perm_window P numShifts P1
      obtain ⟨s0, s1⟩ := w2 j j0 j1
      have hinj : ∀ a b, 0 ≤ a → a < numShifts → 0 ≤ b → b < numShifts →
          ex.active.preimage a = ex.active.preimage b → a = b := by
        intro a b a0 a1 b0 b1 h
        rw [P2 a a0 a1, P2 b b0 b1] at h
        exact P.injective h
      have hsc := (restoreOrdering_scatter numShifts ex.active.preimage ex.active.ests
        ex.active.itCounts hinj (P.symm j) s0 s1).2
      rw [P2 _ s0 s1, Equiv.apply_symm_apply, hret] at hsc
      simp only at hsc
      rw [hsc]
      exact hc _ s0 s1
  · simp only [ne_eq, hd, not_false_eq_true, if_true, Option.some.injEq] at hret
    cases hret

theorem triangularPower_itCount_bounds_witness :
    (0 : Int) ≤ 3 ∧
    ∃ ex : pspec.PowerState Int Int,
      pspec.TriangularPower.run intArith exampleSolves exampleShifts (fun _ _ => 0) 3 true 10 0
        = some ex ∧
      1 ≤ ex.numIts ∧ ex.numIts ≤ max 1 10 ∧
      ∀ (invNorms : Int → Int) (itCounts : Int → Int),
        pspec.TriangularPower intArith exampleSolves exampleShifts (fun _ _ => 0) 3 true 10 0 =
          some (Except.ok (invNorms, itCounts)) →
        ∀ j, 0 ≤ j → j < 3 → 1 ≤ itCounts j ∧ itCounts j ≤ ex.numIts :=
  ⟨by decide,
   triangularPower_itCount_bounds intArith exampleSolves exampleShifts (fun _ _ => 0) 3
    (by decide) true 10 0⟩

/-- The examples, evaluated. Shifts 2, 0, 1 converge in the sweeps 3, 1, 2: with
deflation and without, the routine returns after 3 sweeps with the counts
3, 1, 2 (restored to the input order) and the capped estimates; with the cap
maxIts = 2 it raises the runtime error; with maxIts = 0 and no shifts it
performs one sweep and returns. -/
theorem triangularPower_example_values :
    (pspec.TriangularPower intArith exampleSolves exampleShifts (fun _ _ => 0) 3 true 10 0).map
        (fun r => match r with
          | Except.ok x => (List.map x.1 [0, 1, 2], List.map x.2 [0, 1, 2])
          | Except.error _ => ([], [])) = some ([1000, 1000, 1000], [3, 1, 2]) ∧
    (pspec.TriangularPower intArith exampleSolves exampleShifts (fun _ _ => 0) 3 false 10 0).map
        (fun r => match r with
          | Except.ok x => (List.map x.1 [0, 1, 2], List.map x.2 [0, 1, 2])
          | Except.error _ => ([], [])) = some ([1000, 1000, 1000], [3, 1, 2]) ∧
    (pspec.TriangularPower.run intArith exampleSolves exampleShifts (fun _ _ => 0) 3 true 10
        0).map (fun ex => (ex.numIts, ex.numDone)) = some (3, 3) ∧
    (pspec.TriangularPower intArith exampleSolves exampleShifts (fun _ _ => 0) 3 true 2 0).map
        (fun r => match r with
          | Except.ok _ => none
          | Except.error err => some err) =
      some (some (Error.RuntimeError "Two-norm estimates did not converge in time")) ∧
    (pspec.TriangularPower.run intArith exampleSolves exampleShifts (fun _ _ => 0) 0 true 0
        0).map (fun ex => (ex.numIts, ex.numDone)) = some (1, 0) := by
  refine ⟨by rfl, by rfl, by rfl, by rfl, by rfl⟩

/-! ## HPD determinant through Cholesky -/

theorem forLoop_preserves {σ : Type} (Q : σ → Prop) (lo hi : Int) (body : Int → σ → σ)
    (s : σ) (h0 : Q s) (hstep : ∀ j t, lo ≤ j → j < hi → Q t → Q (body j t)) :
    Q (forLoop lo hi body s) := by
  by_cases h : lo ≤ hi
  · exact forLoop_inv (fun _ t => Q t) lo hi body s h h0 hstep
  · rw [forLoop_empty lo hi body s (by omega)]
    exact h0

theorem afterCholesky_rho {F R : Type} (S : hpd_det.Scalars F R) (uplo : UpperOrLower)
    (A : Matrix) (buf : Buffer F) : (hpd_det.AfterCholesky S uplo A buf).rho = S.oneF := by
  unfold hpd_det.AfterCholesky
  dsimp only
  apply forLoop_preserves (fun (det : SafeProduct F R) => det.rho = S.oneF)
  · rfl
  · intro i det _ _ h
    exact h

/-- C21: `hpd_det::Cholesky` never lets the "not positive definite" exception of
the factorization out.  For both overloads (local and distributed matrix): if
the factorization throws `NonHPDMatrixException` the routine returns a
`SafeProduct` with rho = 0 and kappa = 0; if the factorization returns, the
routine returns what `AfterCholesky` computes from the factored matrix, and
the rho of that is 1; and in no case does `NonHPDMatrixException` leave the
routine. -/
theorem hpd_det_cholesky_recovers {F R : Type} (S : hpd_det.Scalars F R)
    (factor : UpperOrLower → Matrix → Buffer F → Except Exception (Matrix × Buffer F))
    (distFactor : UpperOrLower → World F → Except Exception (World F))
    (diagonal : World F → Int × Int → hpd_det.LocalDiagonal F)
    (uplo : UpperOrLower) (A : Matrix) (buf : Buffer F) (W : World F) (p : Int × Int) :
    (factor uplo A buf = Except.error Exception.NonHPDMatrixException →
      hpd_det.Cholesky S factor uplo A buf
        = Except.ok { rho := S.zeroF, kappa := S.zeroR, n := A.Height }) ∧
    (∀ A' buf', factor uplo A buf = Except.ok (A', buf') →
      hpd_det.Cholesky S factor uplo A buf = Except.ok (hpd_det.AfterCholesky S uplo A' buf') ∧
      (hpd_det.AfterCholesky S uplo A' buf').rho = S.oneF) ∧
    hpd_det.Cholesky S factor uplo A buf ≠ Except.error Exception.NonHPDMatrixException ∧
    (distFactor uplo W = Except.error Exception.NonHPDMatrixException →
      hpd_det.DistMatrix.Cholesky S distFactor diagonal uplo W p
        = Except.ok { rho := S.zeroF, kappa := S.zeroR, n := (W p).1.Height }) ∧
    (∀ W', distFactor uplo W = Except.ok W' →
      hpd_det.DistMatrix.Cholesky S distFactor diagonal uplo W p
        = Except.ok (hpd_det.DistMatrix.AfterCholesky S diagonal uplo W' p) ∧
      (hpd_det.DistMatrix.AfterCholesky S diagonal uplo W' p).rho = S.oneF) ∧
    hpd_det.DistMatrix.Cholesky S distFactor diagonal uplo W p
      ≠ Except.error Exception.NonHPDMatrixException := by
  refine ⟨?_, ?_, ?_, ?_, ?_, ?_⟩
  · intro h
    unfold hpd_det.Cholesky
    rw [h]
    rfl
  · intro A' buf' h
    refine ⟨?_, afterCholesky_rho S uplo A' buf'⟩
    unfold hpd_det.Cholesky
    rw [h]
  · unfold hpd_det.Cholesky
    cases h : factor uplo A buf with
    | ok r => simp
    | error e =>
      cases e with
      | NonHPDMatrixException => simp
      | other e => simp
  · intro h
    unfold hpd_det.DistMatrix.Cholesky
    rw [h]
    rfl
  · intro W' h
    refine ⟨?_, rfl⟩
    unfold hpd_det.DistMatrix.Cholesky
    rw [h]
  · unfold hpd_det.DistMatrix.Cholesky
    cases h : distFactor uplo W with
    | ok r => simp
    | error e =>
      cases e with
      | NonHPDMatrixException => simp
      | other e => simp

theorem hpd_det_cholesky_recovers_witness :
    (hpd_det.Cholesky intScalars exampleFactor UpperOrLower.LOWER (triExample 2 2).1
        (fun _ => 0)
      = Except.ok { rho := 0, kappa := 0, n := 2 }) ∧
    (hpd_det.Cholesky intScalars exampleFactor UpperOrLower.LOWER (triExample 2 2).1
        (triExample 2 2).2
      = Except.ok (hpd_det.AfterCholesky intScalars UpperOrLower.LOWER (triExample 2 2).1
          (Function.update (triExample 2 2).2 5 4))) ∧
    (hpd_det.DistMatrix.Cholesky intScalars exampleDistFactor exampleDiagonal
        UpperOrLower.LOWER zeroedWorld (0, 0)
      = Except.ok { rho := 0, kappa := 0, n := (zeroedWorld (0, 0)).1.Height }) :=
  ⟨(hpd_det_cholesky_recovers intScalars exampleFactor exampleDistFactor exampleDiagonal
      UpperOrLower.LOWER (triExample 2 2).1 (fun _ => 0) zeroedWorld (0, 0)).1 rfl,
   ((hpd_det_cholesky_recovers intScalars exampleFactor exampleDistFactor exampleDiagonal
      UpperOrLower.LOWER (triExample 2 2).1 (triExample 2 2).2 zeroedWorld (0, 0)).2.1
      (triExample 2 2).1 (Function.update (triExample 2 2).2 5 4) rfl).1,
   (hpd_det_cholesky_recovers intScalars exampleFactor exampleDistFactor exampleDiagonal
      UpperOrLower.LOWER (triExample 2 2).1 (fun _ => 0) zeroedWorld (0, 0)).2.2.2.1 rfl⟩

/-- The values of the sequential routine on the 2 x 2 example: the refused matrix
gives rho 0 and kappa 0 instead of the constructor's 7 and 9; the accepted one
gives rho 1 and kappa 9 + (4 - 1)/1 + (109 - 1)/1. -/
theorem hpd_det_cholesky_example_values :
    (hpd_det.Cholesky intScalars exampleFactor UpperOrLower.LOWER (triExample 2 2).1
        (fun _ => 0)).toOption.map (fun d => (d.rho, d.kappa, d.n)) = some (0, 0, 2) ∧
    (hpd_det.Cholesky intScalars exampleFactor UpperOrLower.LOWER (triExample 2 2).1
        (triExample 2 2).2).toOption.map (fun d => (d.rho, d.kappa, d.n))
      = some (1, 120, 2) := by
  constructor <;> rfl

/-! ## The distributed MakeTriangular refines the sequential one -/

/-- C23: the distributed MakeTriangular computes the global matrix the sequential
one computes.  On a process with strides at least 1, non-negative shifts and
local dimensions `Length(height, colShift, colStride)` by
`Length(width, rowShift, rowStride)` (leading dimension at least the local
height), the call keeps the descriptor, and local entry (iLoc,jLoc), whose
global indices are i = colShift + iLoc*colStride and j = rowShift +
jLoc*rowStride, is 0 when (i,j) is strictly in the opposite triangle (i < j for
LOWER, i > j for UPPER) and unchanged otherwise; if it held entry (i,j) of a
global matrix `G` before, it holds entry (i,j) of the sequential
`MakeTriangular(uplo, G)` afterwards.  No position outside the local window
is written, in particular none below the local height in a column. -/
theorem dist_makeTriangular_refines {T : Type} [Zero T] (uplo : UpperOrLower) (D : Overrides)
    (A : AbstractDistMatrix) (buf : Buffer T) (G : Matrix) (gbuf : Buffer T)
    (hcs : 1 ≤ ColStride D A) (hrs : 1 ≤ RowStride D A)
    (hcsh : 0 ≤ A.ColShift) (hrsh : 0 ≤ A.RowShift)
    (hlh : A.LocalHeight = Length A.Height A.ColShift (ColStride D A))
    (hlw : A.LocalWidth = Length A.Width A.RowShift (RowStride D A))
    (hld : A.LocalHeight ≤ A.LDim)
    (hGh : G.Height = A.Height) (hGw : G.Width = A.Width) (hGld : G.Height ≤ G.LDim) :
    (DistMatrix.MakeTriangular uplo D A buf).1 = A ∧
    (∀ iLoc jLoc, 0 ≤ iLoc → iLoc < A.LocalHeight → 0 ≤ jLoc → jLoc < A.LocalWidth →
      ((DistMatrix.MakeTriangular uplo D A buf).2 (A.matrix_.Buffer iLoc jLoc) =
        if uplo = UpperOrLower.LOWER then
          (if A.ColShift + iLoc * ColStride D A < A.RowShift + jLoc * RowStride D A
            then 0 else buf (A.matrix_.Buffer iLoc jLoc))
        else
          (if A.ColShift + iLoc * ColStride D A > A.RowShift + jLoc * RowStride D A
            then 0 else buf (A.matrix_.Buffer iLoc jLoc))) ∧
      (buf (A.matrix_.Buffer iLoc jLoc)
          = gbuf (G.Buffer (A.ColShift + iLoc * ColStride D A)
              (A.RowShift + jLoc * RowStride D A)) →
        (DistMatrix.MakeTriangular uplo D A buf).2 (A.matrix_.Buffer iLoc jLoc)
          = (MakeTriangular uplo G gbuf).2 (G.Buffer (A.ColShift + iLoc * ColStride D A)
              (A.RowShift + jLoc * RowStride D A)))) ∧
    (∀ k, (∀ iLoc jLoc, 0 ≤ iLoc → iLoc < A.LocalHeight → 0 ≤ jLoc → jLoc < A.LocalWidth →
        k ≠ A.matrix_.Buffer iLoc jLoc) →
      (DistMatrix.MakeTriangular uplo D A buf).2 k = buf k) ∧
    (∀ iLoc jLoc, A.LocalHeight ≤ iLoc → iLoc < A.LDim → 0 ≤ jLoc → jLoc < A.LocalWidth →
      (DistMatrix.MakeTriangular uplo D A buf).2 (A.matrix_.Buffer iLoc jLoc)
        = buf (A.matrix_.Buffer iLoc jLoc)) := by
  simp only [AbstractDistMatrix.LocalHeight, AbstractDistMatrix.LocalWidth,
    AbstractDistMatrix.LDim, AbstractDistMatrix.Height, AbstractDistMatrix.Width,
    AbstractDistMatrix.ColShift, AbstractDistMatrix.RowShift, Matrix.Height, Matrix.Width,
    Matrix.LDim] at *
  have hcs' : 0 < ColStride D A := by omega
  have hrs' : 0 < RowStride D A := by omega
  refine ⟨dist_makeTriangular_fst uplo D A buf, ?_,
    fun k hk => dist_makeTriangular_frame uplo D A buf hcs' hlh k hk, ?_⟩
  · intro iLoc jLoc hi0 hi1 hj0 hj1
    have hE := dist_makeTriangular_entry uplo D A buf hcs' hcsh hlh hld iLoc jLoc hi0 hi1
      hj0 hj1
    have hiH : A.colShift_ + iLoc * ColStride D A < A.height_ :=
      (lt_Length_iff _ _ _ _ hcs' hi0).1 (hlh ▸ hi1)
    have hjW : A.rowShift_ + jLoc * RowStride D A < A.width_ :=
      (lt_Length_iff _ _ _ _ hrs' hj0).1 (hlw ▸ hj1)
    have hi' : 0 ≤ A.colShift_ + iLoc * ColStride D A := by
      have := mul_nonneg hi0 (le_of_lt hcs')
      omega
    have hj' : 0 ≤ A.rowShift_ + jLoc * RowStride D A := by
      have := mul_nonneg hj0 (le_of_lt hrs')
      omega
    have hS := makeTriangular_entry uplo G gbuf hGld
      (A.colShift_ + iLoc * ColStride D A) (A.rowShift_ + jLoc * RowStride D A)
      hi' (by omega) hj' (by omega)
    constructor
    · rw [hE]
      by_cases hu : uplo = UpperOrLower.LOWER
      · rw [if_pos hu, if_pos hu]
        by_cases hc : A.colShift_ + iLoc * ColStride D A < A.rowShift_ + jLoc * RowStride D A
        · rw [if_pos hc, if_neg (by omega)]
        · rw [if_neg hc, if_pos (by omega)]
      · rw [if_neg hu, if_neg hu]
        by_cases hc : A.colShift_ + iLoc * ColStride D A > A.rowShift_ + jLoc * RowStride D A
        · rw [if_pos hc, if_neg (by omega)]
        · rw [if_neg hc, if_pos (by omega)]
    · intro hg
      rw [hE, hS, hg]
  · intro iLoc jLoc hi0 hi1 hj0 hj1
    refine dist_makeTriangular_frame uplo D A buf hcs' hlh _ ?_
    intro i' j' h0 h1 h2 h3 he
    simp only [Matrix.Buffer] at he
    have hn := Length_nonneg A.height_ A.colShift_ (ColStride D A)
    have := column_unique A.matrix_.ldim_ i' j' jLoc A.matrix_.ldim_ h0 (by omega)
      (by omega) (by omega) le_rfl
    subst this
    omega

theorem dist_makeTriangular_refines_witness :
    (1 ≤ ColStride MC_MR triDistExample.1) ∧ (1 ≤ RowStride MC_MR triDistExample.1) ∧
    (0 ≤ triDistExample.1.ColShift) ∧ (0 ≤ triDistExample.1.RowShift) ∧
    (triDistExample.1.LocalHeight = Length triDistExample.1.Height triDistExample.1.ColShift
      (ColStride MC_MR triDistExample.1)) ∧
    (triDistExample.1.LocalHeight ≤ triDistExample.1.LDim) ∧
    (DistMatrix.MakeTriangular UpperOrLower.LOWER MC_MR triDistExample.1 triDistExample.2).2
        (triDistExample.1.matrix_.Buffer 0 1)
      = (MakeTriangular UpperOrLower.LOWER triGlobalExample.1 triGlobalExample.2).2
          (triGlobalExample.1.Buffer 1 2) ∧
    (DistMatrix.MakeTriangular UpperOrLower.UPPER MC_MR triDistExample.1 triDistExample.2).2
        (triDistExample.1.matrix_.Buffer 1 0)
      = (MakeTriangular UpperOrLower.UPPER triGlobalExample.1 triGlobalExample.2).2
          (triGlobalExample.1.Buffer 3 0) :=
  ⟨by decide, by decide, by decide, by decide, by decide, by decide,
   ((dist_makeTriangular_refines UpperOrLower.LOWER MC_MR triDistExample.1 triDistExample.2
      triGlobalExample.1 triGlobalExample.2 (by decide) (by decide) (by decide) (by decide)
      (by decide) (by decide) (by decide) (by decide) (by decide) (by decide)).2.1 0 1
      (by decide) (by decide) (by decide) (by decide)).2 (by decide),
   ((dist_makeTriangular_refines UpperOrLower.UPPER MC_MR triDistExample.1 triDistExample.2
      triGlobalExample.1 triGlobalExample.2 (by decide) (by decide) (by decide) (by decide)
      (by decide) (by decide) (by decide) (by decide) (by decide) (by decide)).2.1 1 0
      (by decide) (by decide) (by decide) (by decide)).2 (by decide)⟩

/-- The local part of process (1,0) and the global matrix of the example agree
entry by entry before the call, and the two results at local entry (0,1),
global entry (1,2), are both 0 for LOWER. -/
theorem dist_makeTriangular_refines_example_values :
    (List.map (fun (q : Int × Int) => triDistExample.2 (triDistExample.1.matrix_.Buffer q.1 q.2))
        [(0, 0), (1, 0), (0, 1), (1, 1)]
      = List.map (fun (q : Int × Int) => triGlobalExample.2
          (triGlobalExample.1.Buffer (1 + q.1 * 2) (0 + q.2 * 2)))
        [(0, 0), (1, 0), (0, 1), (1, 1)]) ∧
    (MakeTriangular UpperOrLower.LOWER triGlobalExample.1 triGlobalExample.2).2
        (triGlobalExample.1.Buffer 1 2) = 0 ∧
    (MakeTriangular UpperOrLower.LOWER triGlobalExample.1 triGlobalExample.2).2
        (triGlobalExample.1.Buffer 3 2) = 103 := by
  decide

/-! ## The convergence test of the pseudospectrum iteration -/

/-- The flag and the count `FindConverged` leaves for shift j, by the value of the
test the code evaluates for it. -/
theorem findConverged_flag {Real : Type} (F : pspec.Arith Real) (last ests : Int → Real)
    (its : Int → Int) (n : Int) (tol : Real) (j : Int) (h0 : 0 ≤ j) (h1 : j < n) :
    ((pspec.FindConverged F last ests its n tol).1 j = 1 ∧
      (pspec.FindConverged F last ests its n tol).2 j = its j ∧
      (if F.ge (ests j) F.normCap = true then true
        else if F.gt (F.abs (ests j)) F.zero = true then
          F.le (F.div (F.abs (F.sub (last j) (ests j))) (F.abs (ests j))) tol
        else false) = true) ∨
    ((pspec.FindConverged F last ests its n tol).1 j = 0 ∧
      (pspec.FindConverged F last ests its n tol).2 j = its j + 1 ∧
      (if F.ge (ests j) F.normCap = true then true
        else if F.gt (F.abs (ests j)) F.zero = true then
          F.le (F.div (F.abs (F.sub (last j) (ests j))) (F.abs (ests j))) tol
        else false) = false) := by
  have hn : 0 ≤ n := by omega
  unfold pspec.FindConverged
  refine (forLoop_inv
    (fun m (st : (Int → Int) × (Int → Int)) =>
      (∀ j, 0 ≤ j → j < m →
        (st.1 j = 1 ∧ st.2 j = its j ∧
          (if F.ge (ests j) F.normCap = true then true
            else if F.gt (F.abs (ests j)) F.zero = true then
              F.le (F.div (F.abs (F.sub (last j) (ests j))) (F.abs (ests j))) tol
            else false) = true) ∨
        (st.1 j = 0 ∧ st.2 j = its j + 1 ∧
          (if F.ge (ests j) F.normCap = true then true
            else if F.gt (F.abs (ests j)) F.zero = true then
              F.le (F.div (F.abs (F.sub (last j) (ests j))) (F.abs (ests j))) tol
            else false) = false)) ∧
      (∀ j, j < 0 ∨ m ≤ j → st.1 j = 0 ∧ st.2 j = its j))
    0 n _ _ hn ?_ ?_).1 j h0 h1
  · exact ⟨fun j j0 j1 => by omega, fun _ _ => ⟨rfl, rfl⟩⟩
  · intro m st m0 m1 ⟨ih1, ih2⟩
    dsimp only
    cases hcv : (if F.ge (ests m) F.normCap = true then true
      else if F.gt (F.abs (ests m)) F.zero = true then
        F.le (F.div (F.abs (F.sub (last m) (ests m))) (F.abs (ests m))) tol
      else false)
    · simp only [Bool.false_eq_true, if_false]
      constructor
      · intro j j0 j1
        by_cases hjm : j = m
        · subst hjm
          right
          refine ⟨(ih2 j (Or.inr le_rfl)).1, ?_, hcv⟩
          rw [Function.update_same, (ih2 j (Or.inr le_rfl)).2]
        · rw [Function.update_noteq hjm]
          exact ih1 j j0 (by omega)
      · intro j hj
        have hjm : j ≠ m := by omega
        rw [Function.update_noteq hjm]
        exact ih2 j (by omega)
    · simp only [if_true]
      constructor
      · intro j j0 j1
        by_cases hjm : j = m
        · subst hjm
          left
          exact ⟨Function.update_same _ _ _, (ih2 j (Or.inr le_rfl)).2, hcv⟩
        · rw [Function.update_noteq hjm]
          exact ih1 j j0 (by omega)
      · intro j hj
        have hjm : j ≠ m := by omega
        rw [Function.update_noteq hjm]
        exact ih2 j (by omega)

/-- C26: `pspec::FindConverged` marks shift j (0 <= j < numActiveShifts) converged
exactly when currEst_j >= normCap, or currEst_j != 0 and
|lastEst_j - currEst_j| / |currEst_j| <= maxDiff; a shift that is not marked has
flag 0 and its iteration count incremented by exactly 1, a marked shift keeps
its count, and a shift whose current estimate is 0 and below the cap is not
marked.  `ne` is the operator `!=` of the machine reals; the code tests
`Abs(currEst) > 0` instead, and what is assumed of the arithmetic is that
`Abs(x) > 0` implies `x != 0`, that the converse fails only for a NaN, and that
a comparison with a quotient by the absolute value of a NaN is false.  Flags
and counts outside the range are not touched. -/
theorem findConverged_criterion {Real : Type} (F : pspec.Arith Real)
    (ne : Real → Real → Bool) (last ests : Int → Real) (its : Int → Int) (n : Int) (tol : Real)
    (habs : ∀ x, F.gt (F.abs x) F.zero = true → ne x F.zero = true)
    (hnan : ∀ x, ne x F.zero = true → F.gt (F.abs x) F.zero = false → F.isnan x = true)
    (hcmp : ∀ x y t, F.isnan x = true →
      F.le (F.div (F.abs (F.sub y x)) (F.abs x)) t = false) :
    (∀ j, 0 ≤ j → j < n →
      ((pspec.FindConverged F last ests its n tol).1 j = 1 ↔
        (F.ge (ests j) F.normCap = true ∨
          (ne (ests j) F.zero = true ∧
            F.le (F.div (F.abs (F.sub (last j) (ests j))) (F.abs (ests j))) tol = true))) ∧
      ((pspec.FindConverged F last ests its n tol).1 j = 1 →
        (pspec.FindConverged F last ests its n tol).2 j = its j) ∧
      ((pspec.FindConverged F last ests its n tol).1 j ≠ 1 →
        (pspec.FindConverged F last ests its n tol).1 j = 0 ∧
        (pspec.FindConverged F last ests its n tol).2 j = its j + 1) ∧
      (ne (ests j) F.zero = false → F.ge (ests j) F.normCap = false →
        (pspec.FindConverged F last ests its n tol).1 j = 0)) ∧
    (∀ j, j < 0 ∨ n ≤ j →
      (pspec.FindConverged F last ests its n tol).1 j = 0 ∧
      (pspec.FindConverged F last ests its n tol).2 j = its j) := by
  refine ⟨?_, (findConverged_spec F last ests its n tol).2⟩
  intro j h0 h1
  have hiff : (if F.ge (ests j) F.normCap = true then true
        else if F.gt (F.abs (ests j)) F.zero = true then
          F.le (F.div (F.abs (F.sub (last j) (ests j))) (F.abs (ests j))) tol
        else false) = true ↔
      (F.ge (ests j) F.normCap = true ∨
        (ne (ests j) F.zero = true ∧
          F.le (F.div (F.abs (F.sub (last j) (ests j))) (F.abs (ests j))) tol = true)) := by
    by_cases hge : F.ge (ests j) F.normCap = true
    · simp [hge]
    · rw [if_neg hge]
      by_cases hgt : F.gt (F.abs (ests j)) F.zero = true
      · rw [if_pos hgt]
        constructor
        · intro h
          exact Or.inr ⟨habs _ hgt, h⟩
        · rintro (h | ⟨_, h⟩)
          · exact absurd h hge
          · exact h
      · rw [if_neg hgt]
        constructor
        · intro h
          exact absurd h (by simp)
        · rintro (h | ⟨hne, h⟩)
          · exact absurd h hge
          · have hnn := hnan _ hne (by simpa using hgt)
            rw [hcmp _ _ _ hnn] at h
            exact absurd h (by simp)
  rcases findConverged_flag F last ests its n tol j h0 h1 with ⟨f1, c1, t1⟩ | ⟨f0, c0, t0⟩
  · refine ⟨⟨fun _ => hiff.1 t1, fun _ => f1⟩, fun _ => c1, fun h => absurd f1 h, ?_⟩
    intro hz hge
    rcases hiff.1 t1 with h | ⟨h, _⟩
    · rw [hge] at h
      exact absurd h (by simp)
    · rw [hz] at h
      exact absurd h (by simp)
  · refine ⟨⟨fun h => ?_, fun h => ?_⟩, fun h => ?_, fun _ => ⟨f0, c0⟩, fun _ _ => f0⟩
    · rw [f0] at h
      exact absurd h (by decide)
    · rw [hiff.2 h] at t0
      exact absurd t0 (by simp)
    · rw [f0] at h
      exact absurd h (by decide)

theorem findConverged_criterion_witness :
    ((pspec.FindConverged intArith (fun _ => 10) (fun j => [0, 9, 1000].getD j.toNat 0)
        (fun _ => 5) 3 0).1 1 = 1 ↔
      (intArith.ge ([0, 9, 1000].getD (1 : Int).toNat 0) intArith.normCap = true ∨
        (decide ([0, 9, 1000].getD (1 : Int).toNat 0 ≠ intArith.zero) = true ∧
          intArith.le (intArith.div (intArith.abs (intArith.sub 10
            ([0, 9, 1000].getD (1 : Int).toNat 0)))
            (intArith.abs ([0, 9, 1000].getD (1 : Int).toNat 0))) 0 = true))) ∧
    ((pspec.FindConverged intArith (fun _ => 10) (fun j => [0, 9, 1000].getD j.toNat 0)
        (fun _ => 5) 3 0).1 0 = 0) :=
  ⟨((findConverged_criterion intArith (fun a b => decide (a ≠ b))
      (fun _ => 10) (fun j => [0, 9, 1000].getD j.toNat 0) (fun _ => 5) 3 0
      (by intro x; simp [intArith])
      (by intro x; simp [intArith])
      (by intro x y t; simp [intArith])).1 1 (by decide) (by decide)).1,
   ((findConverged_criterion intArith (fun a b => decide (a ≠ b))
      (fun _ => 10) (fun j => [0, 9, 1000].getD j.toNat 0) (fun _ => 5) 3 0
      (by intro x; simp [intArith])
      (by intro x; simp [intArith])
      (by intro x y t; simp [intArith])).1 0 (by decide) (by decide)).2.2.2 (by decide)
      (by decide)⟩

/-- The example: estimates 0, 9, 1000 after 10, 10, 10 with tolerance 0 and cap
1000: |10 - 9| / |9| = 0 in integer division, so shifts 1 and 2 are marked and
keep their count 5; shift 0, whose estimate is 0, is not marked and its count
becomes 6. -/
theorem findConverged_example_values :
    List.map (pspec.FindConverged intArith (fun _ => 10)
        (fun j => [0, 9, 1000].getD j.toNat 0) (fun _ => 5) 3 0).1 [0, 1, 2, 3] = [0, 1, 1, 0] ∧
    List.map (pspec.FindConverged intArith (fun _ => 10)
        (fun j => [0, 9, 1000].getD j.toNat 0) (fun _ => 5) 3 0).2 [0, 1, 2, 3] = [6, 5, 5, 5] := by
  decide

/-! ## Local and global indices -/

/-- The example n = 5, s = 2: shift 1 holds the rows 1, 3 (two local rows), shift
0 the rows 0, 2, 4 (three); on process (1,0) of the 2 x 2 scenario (height 4,
column shift 1) the rows 1 and 3 are local with local indices 0 and 1, row 2
is not local. -/
theorem local_global_index_example_values :
    Length 5 1 2 = 2 ∧ Length 5 0 2 = 3 ∧ Length 1 1 2 = 0 ∧
    List.map (IsLocalRow MC_MR (scenarioWorld (1, 0)).1) [0, 1, 2, 3]
      = [false, true, false, true] ∧
    LocalRow true MC_MR (scenarioWorld (1, 0)).1 3 = Except.ok 1 ∧
    LocalRow true MC_MR (scenarioWorld (1, 0)).1 2
      = Except.error (Error.LogicError "Requested local index of non-local row") :=
  ⟨by decide, by decide, by decide, by decide, rfl, rfl⟩

/-! ## Shift consistency under reconfiguration -/

theorem setShifts_consistent (D : Overrides) (A : AbstractDistMatrix) :
    ShiftsConsistent D (SetShifts D A) := by
  unfold SetShifts
  by_cases hP : Participating D A = true
  · rw [if_pos hP]
    have hP' : Participating D { A with
        colShift_ := Shift (ColRank D A) A.colAlign_ (ColStride D A),
        rowShift_ := Shift (RowRank D A) A.rowAlign_ (RowStride D A) } = true := hP
    unfold ShiftsConsistent
    rw [if_pos hP']
    exact ⟨rfl, rfl⟩
  · rw [if_neg hP]
    have hP' : ¬ Participating D { A with colShift_ := 0, rowShift_ := 0 } = true := hP
    unfold ShiftsConsistent
    rw [if_neg hP']
    exact ⟨rfl, rfl⟩

/-- C27, the code at the failing input.  A 3 x 1 [VR,*] matrix with column
alignment 1 on the process of rank 0 of a 1 x 2 grid has consistent shifts
(column shift (0 - 1) mod 2 = 1).  `Empty()` resets the column alignment to 0
and leaves the column shift 1 on this participating process, where
`Shift(0, 0, 2)` is 0: the shifts are not consistent after `Empty()`.  After a
following `Resize(3,1)` the process owns rows 0 and 2, has one local row, and
`Get`/`Set` compute the local row 0 for both. -/
theorem empty_leaves_stale_shift :
    ShiftsConsistent VR_STAR alignedExample ∧
    Participating VR_STAR alignedExample.Empty = true ∧
    alignedExample.Empty.ColAlign = 0 ∧
    alignedExample.Empty.ColShift = 1 ∧
    Shift (ColRank VR_STAR alignedExample.Empty) alignedExample.Empty.ColAlign
      (ColStride VR_STAR alignedExample.Empty) = 0 ∧
    ¬ ShiftsConsistent VR_STAR alignedExample.Empty ∧
    (Resize true VR_STAR alignedExample.Empty 3 1).thrown = none ∧
    ¬ ShiftsConsistent VR_STAR emptiedExample ∧
    Owner VR_STAR emptiedExample 0 0 = DistRank VR_STAR emptiedExample ∧
    Owner VR_STAR emptiedExample 2 0 = DistRank VR_STAR emptiedExample ∧
    emptiedExample.LocalHeight = 1 ∧
    (0 - emptiedExample.ColShift).tdiv (ColStride VR_STAR emptiedExample) = 0 ∧
    (2 - emptiedExample.ColShift).tdiv (ColStride VR_STAR emptiedExample) = 0 := by
  decide

/-- Shift consistency reads only the grid, the root, the alignments and the shifts. -/
theorem shiftsConsistent_congr (D : Overrides) (A B : AbstractDistMatrix)
    (hg : B.grid_ = A.grid_) (hr : B.root_ = A.root_) (hca : B.colAlign_ = A.colAlign_)
    (hra : B.rowAlign_ = A.rowAlign_) (hcs : B.colShift_ = A.colShift_)
    (hrs : B.rowShift_ = A.rowShift_) (h : ShiftsConsistent D A) : ShiftsConsistent D B := by
  unfold ShiftsConsistent Participating CrossRank ColRank RowRank ColStride RowStride ColShift
    RowShift ColAlign RowAlign at *
  rw [hg, hr, hca, hra, hcs, hrs]
  exact h

theorem resize_keeps_shifts (debug : Bool) (D : Overrides) (A : AbstractDistMatrix)
    (height width : Int) (h : ShiftsConsistent D A) :
    ShiftsConsistent D (Resize debug D A height width).state := by
  refine shiftsConsistent_congr D A _ ?_ ?_ ?_ ?_ ?_ ?_ h <;>
  · unfold Resize Outcome.check
    split
    · dsimp only
      split <;> rfl
    · rfl

theorem setColShift_consistent (D : Overrides) (A : AbstractDistMatrix) (colAlign : Int)
    (h : ShiftsConsistent D A) :
    ShiftsConsistent D (SetColShift D { A with colAlign_ := colAlign }) := by
  unfold SetColShift
  by_cases hP : Participating D A = true
  · have hP1 : Participating D { A with colAlign_ := colAlign } = true := hP
    rw [if_pos hP1]
    have hP2 : Participating D { A with
        colAlign_ := colAlign,
        colShift_ := Shift (ColRank D { A with colAlign_ := colAlign }) colAlign
          (ColStride D { A with colAlign_ := colAlign }) } = true := hP
    unfold ShiftsConsistent at h ⊢
    rw [if_pos hP] at h
    rw [if_pos hP2]
    exact ⟨rfl, h.2⟩
  · have hP1 : ¬ Participating D { A with colAlign_ := colAlign } = true := hP
    rw [if_neg hP1]
    have hP2 : ¬ Participating D { A with colAlign_ := colAlign, colShift_ := 0 } = true := hP
    unfold ShiftsConsistent at h ⊢
    rw [if_neg hP] at h
    rw [if_neg hP2]
    exact ⟨rfl, h.2⟩

theorem setRowShift_consistent (D : Overrides) (A : AbstractDistMatrix) (rowAlign : Int)
    (h : ShiftsConsistent D A) :
    ShiftsConsistent D (SetRowShift D { A with rowAlign_ := rowAlign }) := by
  unfold SetRowShift
  by_cases hP : Participating D A = true
  · have hP1 : Participating D { A with rowAlign_ := rowAlign } = true := hP
    rw [if_pos hP1]
    have hP2 : Participating D { A with
        rowAlign_ := rowAlign,
        rowShift_ := Shift (RowRank D { A with rowAlign_ := rowAlign }) rowAlign
          (RowStride D { A with rowAlign_ := rowAlign }) } = true := hP
    unfold ShiftsConsistent at h ⊢
    rw [if_pos hP] at h
    rw [if_pos hP2]
    exact ⟨h.1, rfl⟩
  · have hP1 : ¬ Participating D { A with rowAlign_ := rowAlign } = true := hP
    rw [if_neg hP1]
    have hP2 : ¬ Participating D { A with rowAlign_ := rowAlign, rowShift_ := 0 } = true := hP
    unfold ShiftsConsistent at h ⊢
    rw [if_neg hP] at h
    rw [if_neg hP2]
    exact ⟨h.1, rfl⟩

/-- The reconfiguration members that do keep the shifts consistent: the `Align`
family and `Attach`/`LockedAttach` recompute them, `SetGrid` recomputes them
after its `Empty()`, `EmptyData` and `Resize` touch neither alignment nor
shift; `Empty` and `SetRoot` keep them only when they change no alignment
and no root. -/
theorem reconfiguration_keeps_shifts (debug : Bool) (D : Overrides) (A : AbstractDistMatrix)
    (h : ShiftsConsistent D A) :
    (∀ colAlign rowAlign, ShiftsConsistent D (Align debug D A colAlign rowAlign).state) ∧
    (∀ colAlign, ShiftsConsistent D (AlignCols debug D A colAlign).state) ∧
    (∀ rowAlign, ShiftsConsistent D (AlignRows debug D A rowAlign).state) ∧
    (∀ colAlign rowAlign height width force,
      ShiftsConsistent D (AlignAndResize debug D A colAlign rowAlign height width force).state) ∧
    (∀ height width colAlign rowAlign buffer ldim g root,
      ShiftsConsistent D (Attach D A height width colAlign rowAlign buffer ldim g root)) ∧
    (∀ height width colAlign rowAlign buffer ldim g root,
      ShiftsConsistent D (LockedAttach D A height width colAlign rowAlign buffer ldim g root)) ∧
    (∀ grid, ShiftsConsistent D (SetGrid D A grid)) ∧
    ShiftsConsistent D A.EmptyData ∧
    (∀ height width, ShiftsConsistent D (Resize debug D A height width).state) ∧
    (A.ColAlign = 0 → A.RowAlign = 0 → ShiftsConsistent D A.Empty) ∧
    ShiftsConsistent D (SetRoot debug D A A.Root).state := by
  refine ⟨?_, ?_, ?_, ?_, ?_, ?_, ?_, ?_, fun height width =>
    resize_keeps_shifts debug D A height width h, ?_, ?_⟩
  · intro colAlign rowAlign
    unfold Align Outcome.check
    split
    · exact setShifts_consistent D _
    · exact h
  · intro colAlign
    unfold AlignCols Outcome.check
    split
    · exact setShifts_consistent D _
    · exact h
  · intro rowAlign
    unfold AlignRows Outcome.check
    split
    · exact setShifts_consistent D _
    · exact h
  · intro colAlign rowAlign height width force
    have step1 : ∀ X : AbstractDistMatrix, ShiftsConsistent D X →
        ShiftsConsistent D (if (force || !X.ColConstrained) = true then
          SetColShift D { X with colAlign_ := colAlign } else X) := by
      intro X hX
      split
      · exact setColShift_consistent D X colAlign hX
      · exact hX
    have step2 : ∀ X : AbstractDistMatrix, ShiftsConsistent D X →
        ShiftsConsistent D (if (force || !X.RowConstrained) = true then
          SetRowShift D { X with rowAlign_ := rowAlign } else X) := by
      intro X hX
      split
      · exact setRowShift_consistent D X rowAlign hX
      · exact hX
    have step3 : ∀ X : AbstractDistMatrix, ShiftsConsistent D X →
        ShiftsConsistent D (if force = true ∧ (X.colAlign_ ≠ colAlign ∨ X.rowAlign_ ≠ rowAlign)
          then Outcome.throw X (Error.LogicError "Could not set alignments")
          else Resize debug D X height width).state := by
      intro X hX
      split
      · exact hX
      · exact resize_keeps_shifts debug D X height width hX
    by_cases hv : (!A.Viewing) = true
    · have key := step3 _ (step2 _ (step1 A h))
      unfold AlignAndResize
      rw [if_pos hv]
      exact key
    · have key := step3 A h
      unfold AlignAndResize
      rw [if_neg hv]
      exact key
  · intro height width colAlign rowAlign buffer ldim g root
    unfold Attach
    dsimp only
    split
    · exact shiftsConsistent_congr D _ _ rfl rfl rfl rfl rfl rfl (setShifts_consistent D _)
    · exact setShifts_consistent D _
  · intro height width colAlign rowAlign buffer ldim g root
    unfold LockedAttach
    dsimp only
    split
    · exact shiftsConsistent_congr D _ _ rfl rfl rfl rfl rfl rfl (setShifts_consistent D _)
    · exact setShifts_consistent D _
  · intro grid
    unfold SetGrid
    split
    · exact setShifts_consistent D _
    · exact h
  · exact shiftsConsistent_congr D A _ rfl rfl rfl rfl rfl rfl h
  · intro hca hra
    exact shiftsConsistent_congr D A _ rfl rfl hca.symm hra.symm rfl rfl h
  · unfold SetRoot Outcome.check
    split
    · rw [if_neg (by simp [Root])]
      exact h
    · exact h

/-- `Empty` and `SetRoot` never assign the shifts, whatever they do to the
alignments and the root. -/
theorem empty_setRoot_keep_shift_fields (debug : Bool) (D : Overrides) (A : AbstractDistMatrix)
    (root : Int) :
    A.Empty.colShift_ = A.colShift_ ∧ A.Empty.rowShift_ = A.rowShift_ ∧
    (SetRoot debug D A root).state.colShift_ = A.colShift_ ∧
    (SetRoot debug D A root).state.rowShift_ = A.rowShift_ := by
  refine ⟨rfl, rfl, ?_, ?_⟩ <;>
  · unfold SetRoot Outcome.check
    split
    · dsimp only
      split <;> rfl
    · rfl

/-! ## GetImagPart -/

/-- For a complex element type the collective `GetImagPart` is the collective
`GetRealPart`: both read the entry through `GetLocalRealPart`. -/
theorem getImagPart_eq_getRealPart {T R : Type} (E : Element T R) (hE : E.IsComplex = true)
    (debug : Bool) (D : Overrides) (W : World T) (i j : Int) (q : Int × Int) :
    GetImagPart E debug D W i j q = GetRealPart E debug D W i j q := by
  unfold GetImagPart GetRealPart
  rw [hE]
  rfl

/-- For a real element type `GetImagPart` returns 0 on every process in the grid. -/
theorem getImagPart_real {T R : Type} (E : Element T R) (hE : E.IsComplex = false)
    (debug : Bool) (D : Overrides) (W : World T) (i j : Int) (q : Int × Int)
    (hg : (W q).1.grid_.InGrid = true) :
    GetImagPart E debug D W i j q = Except.ok (some E.zero) := by
  cases debug <;> simp [GetImagPart, DEBUG_ONLY, hE, hg, bind, Except.bind, pure, Except.pure]

/-- C29, the code at the failing input.  On the 4 x 4 [MC,MR] matrix of the 2 x 2
grid whose entries are all 3 + 4i, `GetImagPart(0,0)` returns 3 on each of the
four processes, the real part, while `Get(0,0)` returns 3 + 4i, whose
imaginary part is 4, and `GetLocalImagPart(0,0)` on the owner returns 4. -/
theorem getImagPart_returns_real_part :
    AbstractDistMatrix.GetImagPart gaussian true MC_MR complexWorld 0 0 (0, 0)
      = Except.ok (some 3) ∧
    AbstractDistMatrix.GetImagPart gaussian true MC_MR complexWorld 0 0 (0, 1)
      = Except.ok (some 3) ∧
    AbstractDistMatrix.GetImagPart gaussian true MC_MR complexWorld 0 0 (1, 0)
      = Except.ok (some 3) ∧
    AbstractDistMatrix.GetImagPart gaussian true MC_MR complexWorld 0 0 (1, 1)
      = Except.ok (some 3) ∧
    AbstractDistMatrix.Get true MC_MR complexWorld 0 0 (0, 0) = Except.ok (some (3, 4)) ∧
    gaussian.ImagPart (3, 4) = 4 ∧
    AbstractDistMatrix.GetLocalImagPart gaussian true (complexWorld (0, 0)).1
      (complexWorld (0, 0)).2 0 0 = Except.ok 4 :=
  ⟨rfl, rfl, rfl, rfl, rfl, rfl, rfl⟩

/-! ## MakeDiagonalReal and ConjugateDiagonal -/

/-- Neither member reads its argument: every offset gives what offset 0 gives. -/
theorem diagonal_members_ignore_offset {T R : Type} (E : Element T R) (debug : Bool)
    (D : Overrides) (A : AbstractDistMatrix) (buf : Buffer T) (offset : Int) :
    MakeDiagonalReal E debug D A buf offset = MakeDiagonalReal E debug D A buf 0 ∧
    ConjugateDiagonal E debug D A buf offset = ConjugateDiagonal E debug D A buf 0 :=
  ⟨rfl, rfl⟩

/-- C30, the code at the failing input.  On the 4 x 4 [MC,MR] matrix of the 2 x 2
grid whose entries are all 3 + 4i, `MakeDiagonalReal(1)` and
`ConjugateDiagonal(1)` return normally; on process (0,0) they change the
local entries (0,0) and (1,1), which are the global entries (0,0) and (2,2)
of the main diagonal, to 3 and to 3 - 4i, and on process (0,1), which holds
the global entry (0,1) of the diagonal of offset 1 at its local entry (0,0),
they leave that entry 3 + 4i. -/
theorem diagonal_members_act_on_main_diagonal :
    (MakeDiagonalReal gaussian true MC_MR (complexWorld (0, 0)).1 (complexWorld (0, 0)).2
        1).thrown = none ∧
    (ConjugateDiagonal gaussian true MC_MR (complexWorld (0, 0)).1 (complexWorld (0, 0)).2
        1).thrown = none ∧
    (complexWorld (0, 0)).1.ColShift + 0 * ColStride MC_MR (complexWorld (0, 0)).1 = 0 ∧
    (complexWorld (0, 0)).1.RowShift + 0 * RowStride MC_MR (complexWorld (0, 0)).1 = 0 ∧
    (complexWorld (0, 0)).1.ColShift + 1 * ColStride MC_MR (complexWorld (0, 0)).1 = 2 ∧
    (complexWorld (0, 0)).1.RowShift + 1 * RowStride MC_MR (complexWorld (0, 0)).1 = 2 ∧
    (MakeDiagonalReal gaussian true MC_MR (complexWorld (0, 0)).1 (complexWorld (0, 0)).2
        1).state ((complexWorld (0, 0)).1.matrix_.Buffer 0 0) = (3, 0) ∧
    (MakeDiagonalReal gaussian true MC_MR (complexWorld (0, 0)).1 (complexWorld (0, 0)).2
        1).state ((complexWorld (0, 0)).1.matrix_.Buffer 1 1) = (3, 0) ∧
    (ConjugateDiagonal gaussian true MC_MR (complexWorld (0, 0)).1 (complexWorld (0, 0)).2
        1).state ((complexWorld (0, 0)).1.matrix_.Buffer 0 0) = (3, -4) ∧
    (ConjugateDiagonal gaussian true MC_MR (complexWorld (0, 0)).1 (complexWorld (0, 0)).2
        1).state ((complexWorld (0, 0)).1.matrix_.Buffer 1 1) = (3, -4) ∧
    (complexWorld (0, 1)).1.ColShift + 0 * ColStride MC_MR (complexWorld (0, 1)).1 = 0 ∧
    (complexWorld (0, 1)).1.RowShift + 0 * RowStride MC_MR (complexWorld (0, 1)).1 = 1 ∧
    (MakeDiagonalReal gaussian true MC_MR (complexWorld (0, 1)).1 (complexWorld (0, 1)).2
        1).state ((complexWorld (0, 1)).1.matrix_.Buffer 0 0) = (3, 4) ∧
    (ConjugateDiagonal gaussian true MC_MR (complexWorld (0, 1)).1 (complexWorld (0, 1)).2
        1).state ((complexWorld (0, 1)).1.matrix_.Buffer 0 0) = (3, 4) := by
  refine ⟨rfl, rfl, by decide, by decide, by decide, by decide, rfl, rfl, rfl, rfl,
    by decide, by decide, rfl, rfl⟩

/-! ## [VR,*] <- [VR,*] with different alignments -/

theorem alignColsAndResize_constrained (debug : Bool) (D : Overrides) (A : AbstractDistMatrix)
    (a h w : Int) (hc : A.ColConstrained = true) :
    AlignColsAndResize debug D A a h w false = Resize debug D A h w := by
  unfold AlignColsAndResize
  simp [hc]

/-- The partner ranks of the rotation, with the truncating remainder of the
source evaluated: for alignments in range the operand is not negative. -/
theorem rotation_rank (p x a b : Int) (hp : 0 < p) (hx : 0 ≤ x) (ha : 0 ≤ a) (hb : b < p) :
    (x + p + a - b).tmod p = (x + a - b) % p ∧
    (x + p + a - b).tmod p = (a + (x - b) % p) % p := by
  rw [Int.tmod_eq_emod (by omega) (by omega)]
  have e1 : x + p + a - b = x + a - b + p := by ring
  have e2 : x + a - b = a + (x - b) := by ring
  rw [e1, Int.add_emod_self]
  refine ⟨rfl, ?_⟩
  rw [e2]
  exact (Int.add_emod_emod _ _ _).symm

/-- Rotating by the alignment difference and back gives the rank again. -/
theorem rotation_inverse (p x a b : Int) (hx : 0 ≤ x ∧ x < p) :
    ((x + a - b) % p + b - a) % p = x := by
  have e1 : (x + a - b) % p + b - a = (x + a - b) % p + (b - a) := by ring
  rw [e1, Int.add_emod, Int.emod_emod_of_dvd _ (dvd_refl p), ← Int.add_emod]
  have e2 : x + a - b + (b - a) = x := by ring
  rw [e2]
  exact Int.emod_eq_of_lt hx.1 hx.2

/-- Where a process of a well-formed world stands when it reaches `mpi::SendRecv`
in [VR,*] <- [VR,*] with B constrained to an alignment aB other than aA. -/
theorem assign_VR_STAR_enter_fields {T : Type} (debug : Bool) (WB WA : World T)
    (aux : Int × Int → Buffer T) (r c H Wd aA aB : Int) (hne : aB ≠ aA)
    (hB : VecAligned VR_STAR WB r c aB)
    (hBo : ∀ q : Int × Int, 0 ≤ q.1 → q.1 < r → 0 ≤ q.2 → q.2 < c →
      (WB q).1.viewType_ = ViewType.OWNER ∧ (WB q).1.matrix_.viewType_ = ViewType.OWNER)
    (hBc : ∀ q : Int × Int, 0 ≤ q.1 → q.1 < r → 0 ≤ q.2 → q.2 < c →
      (WB q).1.ColConstrained = true)
    (hA : VecAligned VR_STAR WA r c aA) (hAs : VecStored VR_STAR WA r c H Wd)
    (q : Int × Int) (h1 : 0 ≤ q.1) (h2 : q.1 < r) (h3 : 0 ≤ q.2) (h4 : q.2 < c) :
    ∃ e : VR_STAR.Exchange T,
      VR_STAR.assign_VR_STAR.enter debug (WB q).1 (WB q).2 (WA q).1 (WA q).2 (aux q) =
        Sum.inr e ∧
      e.B.height_ = H ∧ e.B.width_ = Wd ∧ e.B.colAlign_ = aB ∧
      e.B.colShift_ = (WB q).1.colShift_ ∧ e.B.rowShift_ = 0 ∧
      e.B.grid_ = procGrid r c q.1 q.2 ∧ Participating VR_STAR e.B = true ∧
      e.B.matrix_.height_ = Length H (WB q).1.colShift_ (r * c) ∧
      e.B.matrix_.height_ ≤ e.B.matrix_.ldim_ ∧
      e.sendBuf = forLoop 0 Wd (fun j s =>
        MemCopy s (j * (WA q).1.matrix_.height_) (WA q).2
          ((WA q).1.matrix_.Buffer 0 0 + j * (WA q).1.matrix_.ldim_)
          (WA q).1.matrix_.height_) (aux q) ∧
      e.sendCount = (WA q).1.matrix_.height_ * Wd ∧
      e.sendRank = (q.2 + q.1 * c + r * c + aB - aA).tmod (r * c) ∧
      e.recvCount = Length H (WB q).1.colShift_ (r * c) * Wd ∧
      e.recvRank = (q.2 + q.1 * c + r * c + aA - aB).tmod (r * c) := by
  obtain ⟨hgB, hPB, -, hrB⟩ := vecAligned_VR hB q h1 h2 h3 h4
  obtain ⟨hgA, -, -, -⟩ := vecAligned_VR hA q h1 h2 h3 h4
  obtain ⟨hoB, hoM⟩ := hBo q h1 h2 h3 h4
  obtain ⟨hH, hW, -⟩ := hAs q h1 h2 h3 h4
  have hcaB := (hB q h1 h2 h3 h4).2.1
  have hcaA := (hA q h1 h2 h3 h4).2.1
  have hchk : DEBUG_ONLY debug (do
      (WB q).1.AssertNotLocked
      (WB q).1.AssertSameGrid (WA q).1.grid_) = Except.ok () := by
    cases debug
    · rfl
    · simp [DEBUG_ONLY, AssertNotLocked, AbstractDistMatrix.AssertSameGrid, Locked, hoB,
        IsLocked, hgB, hgA, procGrid, bind, Except.bind]
  have hres := resize_eq debug VR_STAR (WB q).1 (WA q).1.Height (WA q).1.Width
    (by simp [Locked, hoB, IsLocked])
  have hP2 : ∀ (a b : Int) (M : Matrix), Participating VR_STAR
      { (WB q).1 with height_ := a, width_ := b, matrix_ := M } = true := fun _ _ _ => hPB
  have hrz : ∀ a b : Int, (WB q).1.matrix_.Resize_ a b =
      { (WB q).1.matrix_ with height_ := a, width_ := b, ldim_ := max a 1, data_ := 0,
                              memorySize_ := max a 1 * b } := by
    intro a b
    simp [Matrix.Resize_, Matrix.Viewing, hoM, IsViewing]
  simp only [Height, Width] at hH hW
  have hneA : ¬ (WB q).1.colAlign_ = (WA q).1.colAlign_ := by
    rw [hcaB, hcaA]
    exact hne
  refine ⟨
    { B := { (WB q).1 with
             height_ := H
             width_ := Wd
             matrix_ := (WB q).1.matrix_.Resize_
               (Length H (WB q).1.colShift_ (r * c)) (Length Wd 0 1) }
      sendBuf := forLoop 0 Wd (fun j s =>
        MemCopy s (j * (WA q).1.matrix_.height_) (WA q).2
          ((WA q).1.matrix_.Buffer 0 0 + j * (WA q).1.matrix_.ldim_)
          (WA q).1.matrix_.height_) (aux q)
      sendCount := (WA q).1.matrix_.height_ * Wd
      sendRank := (q.2 + q.1 * c + r * c + aB - aA).tmod (r * c)
      recvCount := Length H (WB q).1.colShift_ (r * c) * Wd
      recvRank := (q.2 + q.1 * c + r * c + aA - aB).tmod (r * c) },
    ?_, rfl, rfl, hcaB, rfl, hrB, hgB, hPB, ?_, ?_, rfl, rfl, rfl, rfl, rfl⟩
  · unfold VR_STAR.assign_VR_STAR.enter
    rw [hchk, alignColsAndResize_constrained debug VR_STAR (WB q).1 _ _ _
      (hBc q h1 h2 h3 h4)]
    simp only [hres, Outcome.ok, hPB, hP2, if_true, Bool.not_true, Bool.false_eq_true,
      if_false, ColAlign, hneA]
    simp only [hgB, procGrid, Grid.Height, Grid.Width, Grid.Size, Grid.VRRank,
      Height, Width, LocalHeight, LDim, ColShift, Matrix.Height, Matrix.LDim,
      ColStride, RowStride, VR_STAR, hrB, hcaB, hcaA, hrz]
    rw [hH, hW]
  · simp only [hrz]
  · simp only [hrz]
    exact le_max_left _ _

theorem rotation_shift (p x a b : Int) : ((x + a - b) % p - a) % p = (x - b) % p := by
  rw [Int.sub_emod, Int.emod_emod_of_dvd _ (dvd_refl p), ← Int.sub_emod]
  have e : x + a - b - a = x - b := by ring
  rw [e]

/-- Two shifts in [0,p) under which the same index i in [0,H) is local are equal. -/
theorem shift_unique_of_local (H p s t i : Int) (hp : 1 ≤ p) (hs : 0 ≤ s ∧ s < p)
    (ht : 0 ≤ t ∧ t < p) (hi : 0 ≤ i ∧ i < H) (h1 : (i - s).tmod p = 0)
    (h2 : (i - t).tmod p = 0) : s = t := by
  obtain ⟨-, -, k3⟩ := localIndex_bounds H p s i hp hs hi.1 hi.2 h1
  obtain ⟨-, -, m3⟩ := localIndex_bounds H p t i hp ht hi.1 hi.2 h2
  rcases lt_trichotomy ((i - s).tdiv p) ((i - t).tdiv p) with hlt | heq | hgt
  · have n1 : 0 ≤ ((i - t).tdiv p - (i - s).tdiv p - 1) * p := mul_nonneg (by omega) (by omega)
    have n2 : ((i - t).tdiv p - (i - s).tdiv p - 1) * p =
        (i - t).tdiv p * p - (i - s).tdiv p * p - p := by ring
    omega
  · rw [heq] at k3
    omega
  · have n1 : 0 ≤ ((i - s).tdiv p - (i - t).tdiv p - 1) * p := mul_nonneg (by omega) (by omega)
    have n2 : ((i - s).tdiv p - (i - t).tdiv p - 1) * p =
        (i - s).tdiv p * p - (i - t).tdiv p * p - p := by ring
    omega

/-- The worlds built by the constructor with explicit alignments are stored and
constrained, for every grid, size and column alignment. -/
theorem constructedWorld_VR_STAR_stored {T : Type} (debug : Bool) (r c H Wd ca : Int)
    (bufs : Int × Int → Buffer T) :
    VecStored VR_STAR (constructedWorld debug VR_STAR r c H Wd ca 0 0 bufs) r c H Wd ∧
    (∀ q : Int × Int, 0 ≤ q.1 → q.1 < r → 0 ≤ q.2 → q.2 < c →
      (constructedWorld debug VR_STAR r c H Wd ca 0 0 bufs q).1.ColConstrained = true) := by
  have st : ∀ q : Int × Int, (constructedWorld debug VR_STAR r c H Wd ca 0 0 bufs q).1 = _ :=
    fun q => newAligned_state debug VR_STAR H Wd ca 0 (procGrid r c q.1 q.2) 0 rfl rfl
  constructor
  · intro q _ _ _ _
    rw [st]
    refine ⟨rfl, rfl, ?_⟩
    simp [LocalHeight, Matrix.Height, Matrix.Resize_, Matrix.Viewing, Matrix.empty, IsViewing,
      ColShift, ColStride]
  · intro q _ _ _ _
    rw [st]
    rfl

/-- C24: the collective B = A for A and B distributed [VR,*] on an r x c grid
(p = r*c processes), B an owner constrained to a column alignment aB other
than A's alignment aA, both in [0,p).  On every process q the call returns
without error a matrix Bn of A's size that keeps the alignment aB; q sends to
the rank (rank + aB - aA) mod p and receives from the rank
(rank + aA - aB) mod p; the receive partner src sends to q and the send
partner dst receives from q (the two rotations are inverse to each other);
the column shift of src in A is the column shift of q in B; what src sends,
its local height of A times the width, is what q expects, its local height
of B times the width; every local entry of Bn is the local entry of A on src
at the same local index; hence every global entry (i,j) that q holds in B
equals the entry (i,j) of A on whichever process holds it in A. -/
theorem assign_VR_STAR_rotation {T : Type} (debug : Bool) (WB WA : World T)
    (aux : Int × Int → Buffer T) (r c H Wd aA aB : Int) (hr : 1 ≤ r) (hc : 1 ≤ c)
    (haA : 0 ≤ aA ∧ aA < r * c) (haB : 0 ≤ aB ∧ aB < r * c) (hne : aB ≠ aA)
    (hB : VecAligned VR_STAR WB r c aB)
    (hBo : ∀ q : Int × Int, 0 ≤ q.1 → q.1 < r → 0 ≤ q.2 → q.2 < c →
      (WB q).1.viewType_ = ViewType.OWNER ∧ (WB q).1.matrix_.viewType_ = ViewType.OWNER)
    (hBc : ∀ q : Int × Int, 0 ≤ q.1 → q.1 < r → 0 ≤ q.2 → q.2 < c →
      (WB q).1.ColConstrained = true)
    (hA : VecAligned VR_STAR WA r c aA) (hAs : VecStored VR_STAR WA r c H Wd)
    (q : Int × Int) (h1 : 0 ≤ q.1) (h2 : q.1 < r) (h3 : 0 ≤ q.2) (h4 : q.2 < c) :
    ∃ (e : VR_STAR.Exchange T) (Bn : ProcState T) (src dst : Int × Int),
      VR_STAR.assign_VR_STAR.enter debug (WB q).1 (WB q).2 (WA q).1 (WA q).2 (aux q) =
        Sum.inr e ∧
      VR_STAR.assign_VR_STAR debug WB WA aux q = some (Outcome.ok Bn) ∧
      Bn.1.Height = H ∧ Bn.1.Width = Wd ∧ Bn.1.ColAlign = aB ∧
      Bn.1.ColShift = (WB q).1.ColShift ∧
      Bn.1.LocalHeight = Length H Bn.1.ColShift (ColStride VR_STAR Bn.1) ∧
      e.sendRank = ((e.B.grid_.VRComm).rank + aB - aA) % (r * c) ∧
      e.recvRank = ((e.B.grid_.VRComm).rank + aA - aB) % (r * c) ∧
      src = (e.B.grid_.VRComm).member e.recvRank ∧
      dst = (e.B.grid_.VRComm).member e.sendRank ∧
      (0 ≤ src.1 ∧ src.1 < r ∧ 0 ≤ src.2 ∧ src.2 < c) ∧
      (0 ≤ dst.1 ∧ dst.1 < r ∧ 0 ≤ dst.2 ∧ dst.2 < c) ∧
      (WA src).1.ColShift = Bn.1.ColShift ∧
      (∃ es : VR_STAR.Exchange T,
        VR_STAR.assign_VR_STAR.enter debug (WB src).1 (WB src).2 (WA src).1 (WA src).2
          (aux src) = Sum.inr es ∧ es.sendRank = (e.B.grid_.VRComm).rank ∧
        es.sendCount = (WA src).1.LocalHeight * Wd ∧ es.sendCount = e.recvCount) ∧
      (∃ ed : VR_STAR.Exchange T,
        VR_STAR.assign_VR_STAR.enter debug (WB dst).1 (WB dst).2 (WA dst).1 (WA dst).2
          (aux dst) = Sum.inr ed ∧ ed.recvRank = (e.B.grid_.VRComm).rank) ∧
      e.recvCount = Bn.1.LocalHeight * Wd ∧
      (∀ iLoc j, 0 ≤ iLoc → iLoc < Bn.1.LocalHeight → 0 ≤ j → j < Wd →
        Bn.2 (Bn.1.matrix_.Buffer iLoc j) = (WA src).2 ((WA src).1.matrix_.Buffer iLoc j)) ∧
      (∀ i j, 0 ≤ i → i < H → 0 ≤ j → j < Wd →
        ∀ qA : Int × Int, 0 ≤ qA.1 → qA.1 < r → 0 ≤ qA.2 → qA.2 < c →
        IsLocal VR_STAR Bn.1 i j = true → IsLocal VR_STAR (WA qA).1 i j = true →
        Bn.2 (Bn.1.matrix_.Buffer
            ((i - Bn.1.ColShift).tdiv (ColStride VR_STAR Bn.1))
            ((j - Bn.1.RowShift).tdiv (RowStride VR_STAR Bn.1))) =
          (WA qA).2 ((WA qA).1.matrix_.Buffer
            ((i - (WA qA).1.ColShift).tdiv (ColStride VR_STAR (WA qA).1))
            ((j - (WA qA).1.RowShift).tdiv (RowStride VR_STAR (WA qA).1)))) := by
  have hp : 0 < r * c := by
    have := Int.mul_le_mul hr hc (by omega) (by omega)
    omega
  have hfields := assign_VR_STAR_enter_fields debug WB WA aux r c H Wd aA aB hne hB hBo hBc hA
    hAs
  obtain ⟨-, -, hsB, -⟩ := vecAligned_VR hB q h1 h2 h3 h4
  have hvrAll : ∀ m : Int × Int, 0 ≤ m.1 → m.1 < r → 0 ≤ m.2 → m.2 < c →
      0 ≤ m.2 + m.1 * c ∧ m.2 + m.1 * c < r * c := by
    intro m m1 m2 m3 m4
    have a1 := mul_nonneg m1 (show 0 ≤ c by omega)
    have a2 : (m.1 + 1) * c ≤ r * c := mul_le_mul_of_nonneg_right (by omega) (by omega)
    have a3 : (m.1 + 1) * c = m.1 * c + c := by ring
    exact ⟨by omega, by omega⟩
  have hvr := hvrAll q h1 h2 h3 h4
  have hsB0 : 0 ≤ (WB q).1.colShift_ ∧ (WB q).1.colShift_ < r * c := by
    rw [hsB]
    exact ⟨Int.emod_nonneg _ (by omega), Int.emod_lt_of_pos _ hp⟩
  -- the partners
  have hx : 0 ≤ (q.2 + q.1 * c + aA - aB) % (r * c) ∧
      (q.2 + q.1 * c + aA - aB) % (r * c) < r * c :=
    ⟨Int.emod_nonneg _ (by omega), Int.emod_lt_of_pos _ hp⟩
  have hy : 0 ≤ (q.2 + q.1 * c + aB - aA) % (r * c) ∧
      (q.2 + q.1 * c + aB - aA) % (r * c) < r * c :=
    ⟨Int.emod_nonneg _ (by omega), Int.emod_lt_of_pos _ hp⟩
  obtain ⟨x1, x2, x3, x4, x5⟩ := vr_member r c _ hc hx
  obtain ⟨y1, y2, y3, y4, y5⟩ := vr_member r c _ hc hy
  obtain ⟨src, hsrc⟩ : ∃ src : Int × Int, src =
      ((q.2 + q.1 * c + aA - aB) % (r * c) / c, (q.2 + q.1 * c + aA - aB) % (r * c) % c) :=
    ⟨_, rfl⟩
  obtain ⟨dst, hdst⟩ : ∃ dst : Int × Int, dst =
      ((q.2 + q.1 * c + aB - aA) % (r * c) / c, (q.2 + q.1 * c + aB - aA) % (r * c) % c) :=
    ⟨_, rfl⟩
  have s1 : 0 ≤ src.1 := by rw [hsrc]; exact x1
  have s2 : src.1 < r := by rw [hsrc]; exact x2
  have s3 : 0 ≤ src.2 := by rw [hsrc]; exact x3
  have s4 : src.2 < c := by rw [hsrc]; exact x4
  have d1 : 0 ≤ dst.1 := by rw [hdst]; exact y1
  have d2 : dst.1 < r := by rw [hdst]; exact y2
  have d3 : 0 ≤ dst.2 := by rw [hdst]; exact y3
  have d4 : dst.2 < c := by rw [hdst]; exact y4
  have hsrcRank : src.2 + src.1 * c = (q.2 + q.1 * c + aA - aB) % (r * c) := by
    rw [hsrc]
    exact x5
  have hdstRank : dst.2 + dst.1 * c = (q.2 + q.1 * c + aB - aA) % (r * c) := by
    rw [hdst]
    exact y5
  have hsrcShift : (WA src).1.colShift_ = (WB q).1.colShift_ := by
    rw [(vecAligned_VR hA src s1 s2 s3 s4).2.2.1, hsrcRank, hsB]
    exact rotation_shift (r * c) _ aA aB
  obtain ⟨e, he, eH, eW, eCA, eCS, eRS, eG, eP, eLH, eLD, eSB, eSC, eSR, eRC, eRR⟩ :=
    hfields q h1 h2 h3 h4
  obtain ⟨es, hes, -, -, -, -, -, -, -, -, -, sSB, sSC, sSR, -, -⟩ :=
    hfields src s1 s2 s3 s4
  obtain ⟨ed, hed, -, -, -, -, -, -, -, -, -, -, -, -, -, dRR⟩ :=
    hfields dst d1 d2 d3 d4
  have eSR' : e.sendRank = (q.2 + q.1 * c + aB - aA) % (r * c) := by
    rw [eSR]
    exact (rotation_rank (r * c) _ aB aA hp hvr.1 haB.1 haA.2).1
  have eRR' : e.recvRank = (q.2 + q.1 * c + aA - aB) % (r * c) := by
    rw [eRR]
    exact (rotation_rank (r * c) _ aA aB hp hvr.1 haA.1 haB.2).1
  have hmemS : (e.B.grid_.VRComm).member e.recvRank = src := by
    rw [eG, eRR', hsrc]
    rfl
  have hmemD : (e.B.grid_.VRComm).member e.sendRank = dst := by
    rw [eG, eSR', hdst]
    rfl
  have hrank : (e.B.grid_.VRComm).rank = q.2 + q.1 * c := by
    rw [eG]
    rfl
  have hsSend : es.sendRank = (e.B.grid_.VRComm).rank := by
    rw [sSR, (rotation_rank (r * c) _ aB aA hp (hvrAll src s1 s2 s3 s4).1 haB.1 haA.2).1,
      hsrcRank, hrank]
    exact rotation_inverse (r * c) _ aA aB hvr
  have hdRecv : ed.recvRank = (e.B.grid_.VRComm).rank := by
    rw [dRR, (rotation_rank (r * c) _ aA aB hp (hvrAll dst d1 d2 d3 d4).1 haA.1 haB.2).1,
      hdstRank, hrank]
    exact rotation_inverse (r * c) _ aB aA hvr
  have hstrA : ∀ m : Int × Int, 0 ≤ m.1 → m.1 < r → 0 ≤ m.2 → m.2 < c →
      ColStride VR_STAR (WA m).1 = r * c ∧ RowStride VR_STAR (WA m).1 = 1 ∧
      (WA m).1.matrix_.height_ = Length H (WA m).1.colShift_ (r * c) := by
    intro m m1 m2 m3 m4
    have hg := (vecAligned_VR hA m m1 m2 m3 m4).1
    have hcs : ColStride VR_STAR (WA m).1 = r * c := by
      simp only [ColStride, VR_STAR, hg, procGrid, Grid.Size]
    have hl := (hAs m m1 m2 m3 m4).2.2
    rw [hcs] at hl
    exact ⟨hcs, rfl, hl⟩
  have hstrB : ColStride VR_STAR e.B = r * c ∧ RowStride VR_STAR e.B = 1 := by
    constructor
    · simp only [ColStride, VR_STAR, eG, procGrid, Grid.Size]
    · rfl
  have hlhS : (WA src).1.matrix_.height_ = e.B.matrix_.height_ := by
    rw [(hstrA src s1 s2 s3 s4).2.2, hsrcShift, eLH]
  have hcount : es.sendCount = e.recvCount := by
    rw [sSC, eRC, hlhS, eLH]
  have hassign := exchange_some
    (fun m => VR_STAR.assign_VR_STAR.enter debug (WB m).1 (WB m).2 (WA m).1 (WA m).2 (aux m))
    WB aux q e es he (by rw [hmemS]; exact hes) hsSend (le_of_eq hcount)
  have hentry : ∀ iLoc j, 0 ≤ iLoc → iLoc < e.B.matrix_.height_ → 0 ≤ j → j < Wd →
      (VR_STAR.unpack (WB q).2 e (MemCopy (aux q) 0 es.sendBuf 0 es.sendCount)).2
          (e.B.matrix_.Buffer iLoc j) =
        (WA src).2 ((WA src).1.matrix_.Buffer iLoc j) := by
    intro iLoc j i0 i1 j0 j1
    rw [unpack_entry _ _ e iLoc j eLD ⟨i0, i1⟩ ⟨j0, by rw [eW]; exact j1⟩]
    obtain ⟨b1, b2⟩ := portion_bound e.B.matrix_.height_ e.B.matrix_.height_ Wd iLoc j
      ⟨i0, i1⟩ ⟨j0, j1⟩ le_rfl
    unfold MemCopy
    rw [if_pos ⟨b1, by rw [sSC, hlhS]; omega⟩, sSB]
    have e1 : (0 : Int) + (j * e.B.matrix_.height_ + iLoc - 0) =
        j * (WA src).1.matrix_.height_ + iLoc := by
      rw [hlhS]
      ring
    rw [e1]
    exact pack_entry (WA src).1 (WA src).2 (aux src) Wd iLoc j ⟨i0, by rw [hlhS]; exact i1⟩
      ⟨j0, j1⟩
  refine ⟨e, _, src, dst, he, hassign, eH, eW, eCA, eCS, ?_, ?_, ?_, hmemS.symm,
    hmemD.symm, ⟨s1, s2, s3, s4⟩, ⟨d1, d2, d3, d4⟩, ?_, ⟨es, hes, hsSend, sSC, hcount⟩,
    ⟨ed, hed, hdRecv⟩, ?_, hentry, ?_⟩
  · show e.B.matrix_.height_ = Length H e.B.colShift_ (ColStride VR_STAR e.B)
    rw [eLH, eCS, hstrB.1]
  · rw [eSR', hrank]
  · rw [eRR', hrank]
  · show (WA src).1.colShift_ = e.B.colShift_
    rw [hsrcShift, eCS]
  · show e.recvCount = e.B.matrix_.height_ * Wd
    rw [eRC, eLH]
  · intro i j i0 i1 j0 j1 qA a1 a2 a3 a4 hlB hlA
    have hlB1 : IsLocal VR_STAR e.B i j = true := hlB
    obtain ⟨hgA, hPA, hsAq, hrA⟩ := vecAligned_VR hA qA a1 a2 a3 a4
    obtain ⟨hcsA, hrsA, -⟩ := hstrA qA a1 a2 a3 a4
    simp only [IsLocal, IsLocalRow, IsLocalCol, eP, hPA, Bool.true_and, Bool.and_eq_true,
      beq_iff_eq, ColShift, hstrB.1, hcsA, eCS] at hlB1 hlA
    have hsQ0 : 0 ≤ (WA qA).1.colShift_ ∧ (WA qA).1.colShift_ < r * c := by
      rw [hsAq]
      exact ⟨Int.emod_nonneg _ (by omega), Int.emod_lt_of_pos _ hp⟩
    obtain ⟨k1, k2, -⟩ := localIndex_bounds H (r * c) (WB q).1.colShift_ i (by omega) hsB0
      i0 i1 hlB1.1
    have hsame : (WA qA).1.colShift_ = (WB q).1.colShift_ :=
      shift_unique_of_local H (r * c) _ _ i (by omega) hsQ0 hsB0 ⟨i0, i1⟩ hlA.1 hlB1.1
    have hq : src = qA := by
      have hvq := hvrAll qA a1 a2 a3 a4
      have e1 : (q.2 + q.1 * c + aA - aB) % (r * c) = qA.2 + qA.1 * c := by
        have e2 := rank_of_shift (r * c) aA _ hvq
        rw [← hsAq, hsame, hsB] at e2
        rw [← e2]
        have e3 := rotation_rank (r * c) (q.2 + q.1 * c) aA aB hp hvr.1 haA.1 haB.2
        rw [← e3.1, e3.2]
      rw [hsrc, e1]
      refine Prod.ext ?_ ?_
      · simp only
        rw [Int.add_mul_ediv_right _ _ (show c ≠ 0 by omega), Int.ediv_eq_zero_of_lt a3 a4]
        ring
      · simp only
        rw [Int.add_mul_emod_self, Int.emod_eq_of_lt a3 a4]
    have hfin := hentry ((i - (WB q).1.colShift_).tdiv (r * c)) j k1 (by rw [eLH]; exact k2)
      j0 j1
    rw [hq] at hfin
    show (VR_STAR.unpack (WB q).2 e (MemCopy (aux q) 0 es.sendBuf 0 es.sendCount)).2
        (e.B.matrix_.Buffer ((i - e.B.colShift_).tdiv (ColStride VR_STAR e.B))
          ((j - e.B.rowShift_).tdiv (RowStride VR_STAR e.B))) = _
    simp only [ColShift, RowShift, hstrB.1, hstrB.2, hcsA, hrsA, eCS, eRS, hrA, hsame,
      Int.tdiv_one, sub_zero]
    exact hfin

theorem assign_VR_STAR_rotation_witness :
    ((1 : Int) ≤ 2 ∧ (1 : Int) ≤ 2 ∧ ((0 : Int) ≤ 1 ∧ (1 : Int) < 2 * 2) ∧
      ((0 : Int) ≤ 3 ∧ (3 : Int) < 2 * 2) ∧ (3 : Int) ≠ 1 ∧
      VecAligned VR_STAR vrRotatedDest 2 2 3 ∧
      (∀ q : Int × Int, 0 ≤ q.1 → q.1 < 2 → 0 ≤ q.2 → q.2 < 2 →
        (vrRotatedDest q).1.viewType_ = ViewType.OWNER ∧
        (vrRotatedDest q).1.matrix_.viewType_ = ViewType.OWNER) ∧
      (∀ q : Int × Int, 0 ≤ q.1 → q.1 < 2 → 0 ≤ q.2 → q.2 < 2 →
        (vrRotatedDest q).1.ColConstrained = true) ∧
      VecAligned VR_STAR vrSourceWorld 2 2 1 ∧ VecStored VR_STAR vrSourceWorld 2 2 7 3) ∧
    ∃ (e : VR_STAR.Exchange Int) (Bn : ProcState Int) (src dst : Int × Int),
      VR_STAR.assign_VR_STAR.enter true (vrRotatedDest ((0, 1) : Int × Int)).1 (vrRotatedDest ((0, 1) : Int × Int)).2 (vrSourceWorld ((0, 1) : Int × Int)).1 (vrSourceWorld ((0, 1) : Int × Int)).2 (zeroAux ((0, 1) : Int × Int)) =
        Sum.inr e ∧
      VR_STAR.assign_VR_STAR true vrRotatedDest vrSourceWorld zeroAux ((0, 1) : Int × Int) = some (Outcome.ok Bn) ∧
      Bn.1.Height = 7 ∧ Bn.1.Width = 3 ∧ Bn.1.ColAlign = 3 ∧
      Bn.1.ColShift = (vrRotatedDest ((0, 1) : Int × Int)).1.ColShift ∧
      Bn.1.LocalHeight = Length 7 Bn.1.ColShift (ColStride VR_STAR Bn.1) ∧
      e.sendRank = ((e.B.grid_.VRComm).rank + 3 - 1) % (2 * 2) ∧
      e.recvRank = ((e.B.grid_.VRComm).rank + 1 - 3) % (2 * 2) ∧
      src = (e.B.grid_.VRComm).member e.recvRank ∧
      dst = (e.B.grid_.VRComm).member e.sendRank ∧
      (0 ≤ src.1 ∧ src.1 < 2 ∧ 0 ≤ src.2 ∧ src.2 < 2) ∧
      (0 ≤ dst.1 ∧ dst.1 < 2 ∧ 0 ≤ dst.2 ∧ dst.2 < 2) ∧
      (vrSourceWorld src).1.ColShift = Bn.1.ColShift ∧
      (∃ es : VR_STAR.Exchange Int,
        VR_STAR.assign_VR_STAR.enter true (vrRotatedDest src).1 (vrRotatedDest src).2 (vrSourceWorld src).1 (vrSourceWorld src).2
          (zeroAux src) = Sum.inr es ∧ es.sendRank = (e.B.grid_.VRComm).rank ∧
        es.sendCount = (vrSourceWorld src).1.LocalHeight * 3 ∧ es.sendCount = e.recvCount) ∧
      (∃ ed : VR_STAR.Exchange Int,
        VR_STAR.assign_VR_STAR.enter true (vrRotatedDest dst).1 (vrRotatedDest dst).2 (vrSourceWorld dst).1 (vrSourceWorld dst).2
          (zeroAux dst) = Sum.inr ed ∧ ed.recvRank = (e.B.grid_.VRComm).rank) ∧
      e.recvCount = Bn.1.LocalHeight * 3 ∧
      (∀ iLoc j, 0 ≤ iLoc → iLoc < Bn.1.LocalHeight → 0 ≤ j → j < 3 →
        Bn.2 (Bn.1.matrix_.Buffer iLoc j) = (vrSourceWorld src).2 ((vrSourceWorld src).1.matrix_.Buffer iLoc j)) ∧
      (∀ i j, 0 ≤ i → i < 7 → 0 ≤ j → j < 3 →
        ∀ qA : Int × Int, 0 ≤ qA.1 → qA.1 < 2 → 0 ≤ qA.2 → qA.2 < 2 →
        IsLocal VR_STAR Bn.1 i j = true → IsLocal VR_STAR (vrSourceWorld qA).1 i j = true →
        Bn.2 (Bn.1.matrix_.Buffer
            ((i - Bn.1.ColShift).tdiv (ColStride VR_STAR Bn.1))
            ((j - Bn.1.RowShift).tdiv (RowStride VR_STAR Bn.1))) =
          (vrSourceWorld qA).2 ((vrSourceWorld qA).1.matrix_.Buffer
            ((i - (vrSourceWorld qA).1.ColShift).tdiv (ColStride VR_STAR (vrSourceWorld qA).1))
            ((j - (vrSourceWorld qA).1.RowShift).tdiv (RowStride VR_STAR (vrSourceWorld qA).1)))) :=
  ⟨⟨by decide, by decide, by decide, by decide, by decide,
    (constructedWorld_VR_STAR_vec true 2 2 0 0 3 _).1,
    (constructedWorld_VR_STAR_vec true 2 2 0 0 3 _).2,
    (constructedWorld_VR_STAR_stored true 2 2 0 0 3 _).2,
    (constructedWorld_VR_STAR_vec true 2 2 7 3 1 _).1,
    (constructedWorld_VR_STAR_stored true 2 2 7 3 1 _).1⟩,
   assign_VR_STAR_rotation true vrRotatedDest vrSourceWorld zeroAux 2 2 7 3 1 3 (by decide)
    (by decide) (by decide) (by decide) (by decide)
    (constructedWorld_VR_STAR_vec true 2 2 0 0 3 _).1
    (constructedWorld_VR_STAR_vec true 2 2 0 0 3 _).2
    (constructedWorld_VR_STAR_stored true 2 2 0 0 3 _).2
    (constructedWorld_VR_STAR_vec true 2 2 7 3 1 _).1
    (constructedWorld_VR_STAR_stored true 2 2 7 3 1 _).1 (0, 1) (by decide) (by decide)
    (by decide) (by decide)⟩

/-- The example, evaluated on the process at (0,1): row-major rank 1, shift
(1 - 3) mod 4 = 2 in B (alignment 3), so it holds rows 2 and 6; in A
(alignment 1) these rows are on the process of rank (1 + 1 - 3) mod 4 = 3, the
one at (1,1), which holds them at positions 0, 1 | 2, 3 | 4, 5 of its buffer;
the process at (0,1) ends with exactly these six values. -/
theorem assign_VR_STAR_rotation_example_values :
    (VR_STAR.assign_VR_STAR true vrRotatedDest vrSourceWorld zeroAux (0, 1)).map
        (fun o => (o.thrown, o.state.1.height_, o.state.1.width_, o.state.1.colAlign_,
          o.state.1.colShift_, o.state.1.matrix_.height_, o.state.1.matrix_.ldim_,
          List.map o.state.2 [-1, 0, 1, 2, 3, 4, 5, 6])) =
      some (none, 7, 3, 3, 2, 2, 2, [0, 1100, 1101, 1102, 1103, 1104, 1105, 0]) := by
  rfl

/-! ## [*,MC] <- [MR,MC]: the all-gather and its unpacking -/

/-- A loop over outcomes whose every step returns normally is the loop over the
states. -/
theorem forLoop_ok {σ : Type} (lo hi : Int) (body : Int → Outcome σ → Outcome σ)
    (g : Int → σ → σ) (s : σ)
    (h : ∀ t b, lo ≤ t → t < hi → body t (Outcome.ok b) = Outcome.ok (g t b)) :
    forLoop lo hi body (Outcome.ok s) = Outcome.ok (forLoop lo hi g s) := by
  by_cases hl : lo ≤ hi
  · refine forLoop_inv (fun m (o : Outcome σ) => o = Outcome.ok (forLoop lo m g s)) lo hi _ _ hl
      ?_ ?_
    · dsimp only
      rw [forLoop_empty _ _ _ _ le_rfl]
    · intro t o h0 h1 ho
      subst ho
      rw [forLoop_succ _ _ _ _ h0, h t _ h0 h1]
  · rw [forLoop_empty _ _ _ _ (by omega), forLoop_empty _ _ _ _ (by omega)]

/-- A loop whose step t writes `val p` at the positions p of `S t` and nothing
else: afterwards every position of some `S t` holds `val p` and every other
position is as before. -/
theorem forLoop_writes {T : Type} (lo hi : Int) (step : Int → Buffer T → Buffer T)
    (S : Int → Int → Prop) (val : Int → T) (buf : Buffer T)
    (hstep : ∀ t b, lo ≤ t → t < hi →
      (∀ p, S t p → step t b p = val p) ∧ (∀ p, ¬ S t p → step t b p = b p)) :
    (∀ p t, lo ≤ t → t < hi → S t p → forLoop lo hi step buf p = val p) ∧
    (∀ p, (∀ t, lo ≤ t → t < hi → ¬ S t p) → forLoop lo hi step buf p = buf p) := by
  by_cases hl : lo ≤ hi
  · refine forLoop_inv (fun m (b : Buffer T) =>
      (∀ p t, lo ≤ t → t < m → S t p → b p = val p) ∧
      (∀ p, (∀ t, lo ≤ t → t < m → ¬ S t p) → b p = buf p)) lo hi _ _ hl ?_ ?_
    · exact ⟨fun p t h0 h1 => by omega, fun _ _ => rfl⟩
    · intro m b m0 m1 ⟨ih1, ih2⟩
      obtain ⟨w1, w2⟩ := hstep m b m0 m1
      constructor
      · intro p t t0 t1 hS
        by_cases hm : S m p
        · exact w1 p hm
        · rw [w2 p hm]
          have : t ≠ m := fun e => hm (e ▸ hS)
          exact ih1 p t t0 (by omega) hS
      · intro p hp
        rw [w2 p (hp m m0 (by omega))]
        exact ih2 p (fun t t0 t1 => hp t t0 (by omega))
  · rw [forLoop_empty _ _ _ _ (by omega)]
    exact ⟨fun p t h0 h1 => by omega, fun _ _ => rfl⟩

/-- The all-gather completes when every member contributes `n` entries, and the
contribution of rank k is found from position k*n on. -/
theorem allGather_some {T : Type} (out : Int × Int → Option (mpi.Contribution T))
    (recvBuf : Buffer T) (n : Int) (comm : mpi.Comm) (bufs : Int → Buffer T) (hn : 0 ≤ n)
    (hs : 0 ≤ comm.size)
    (h : ∀ k, 0 ≤ k → k < comm.size → out (comm.member k) = some { buf := bufs k, count := n }) :
    ∃ G : Buffer T, mpi.AllGather out recvBuf n comm = some G ∧
      ∀ k t, 0 ≤ k → k < comm.size → 0 ≤ t → t < n → G (k * n + t) = bufs k t := by
  unfold mpi.AllGather
  refine forLoop_inv (fun m (acc : Option (Buffer T)) =>
    ∃ G : Buffer T, acc = some G ∧
      ∀ k t, 0 ≤ k → k < m → 0 ≤ t → t < n → G (k * n + t) = bufs k t) 0 comm.size _ _ hs ?_ ?_
  · exact ⟨recvBuf, rfl, fun k t h0 h1 => by omega⟩
  · rintro m acc m0 m1 ⟨G, rfl, hG⟩
    rw [h m m0 m1]
    simp only [if_true]
    refine ⟨_, rfl, ?_⟩
    intro k t k0 k1 t0 t1
    unfold MemCopy
    by_cases hk : k = m
    · subst hk
      rw [if_pos ⟨by omega, by omega⟩]
      congr 1
      omega
    · have e1 : (k + 1) * n ≤ m * n := mul_le_mul_of_nonneg_right (by omega) hn
      have e2 : (k + 1) * n = k * n + n := by ring
      rw [if_neg (by omega)]
      exact hG k t k0 (by omega) t0 t1

/-- The "Pack" loop of the `RELEASE` build: entry (i,j) of the local matrix lands
at position i + j*height of the portion. -/
theorem pack_entry_matrix {T : Type} (M : Matrix) (bufA aux : Buffer T) (lw i j : Int)
    (hi : 0 ≤ i ∧ i < M.height_) (hj : 0 ≤ j ∧ j < lw) :
    forLoop 0 lw (fun j s => MemCopy s (j * M.height_) bufA (M.Buffer 0 j) M.height_) aux
        (i + j * M.height_) = bufA (M.Buffer i j) := by
  have key := (forLoop_copyColumns 0 lw 0 M.height_ M.height_
    (fun j => M.Buffer 0 j) aux bufA le_rfl).1 i j hi.1 hi.2 hj.1 hj.2
  have e1 : ∀ j : Int, (0 : Int) + j * M.height_ = j * M.height_ := fun j => by ring
  have e2 : (0 : Int) + i + j * M.height_ = i + j * M.height_ := by ring
  simp only [e1, e2] at key
  rw [key]
  simp only [Matrix.Buffer]
  congr 1
  ring

theorem pack_inner_loop {T : Type} (debug : Bool) (A : elemental.DistMatrixBase)
    (bufA b : Buffer T) (j : Int) (hj : 0 ≤ j ∧ j < A._localMatrix.width_) :
    forLoop 0 A.LocalHeight (fun i (o : Outcome (Buffer T)) =>
        Outcome.andThen o fun (s : Buffer T) =>
          match A.GetLocalEntry debug bufA i j with
          | Except.ok v => Outcome.ok (Function.update s (i + j * A.LocalHeight) v)
          | Except.error e => Outcome.throw s e) (Outcome.ok b) =
      Outcome.ok (MemCopy b (j * A.LocalHeight) bufA (A.LockedLocalBuffer 0 j)
        A.LocalHeight) := by
  by_cases h0 : 0 ≤ A.LocalHeight
  · refine forLoop_inv
      (fun m (o : Outcome (Buffer T)) => o = Outcome.ok (MemCopy b (j * A.LocalHeight) bufA
        (A.LockedLocalBuffer 0 j) m)) 0 A.LocalHeight _ _ h0 ?_ ?_
    · dsimp only
      rw [MemCopy_nonpos _ _ _ _ _ le_rfl]
    · intro i o hi0 hi1 ho
      simp only [elemental.DistMatrixBase.LocalHeight, Matrix.Height] at hi1
      subst ho
      have hg : A.GetLocalEntry debug bufA i j = Except.ok (bufA (A._localMatrix.Buffer i j)) :=
        matrix_get_ok debug _ bufA i j (by
          simp only [Matrix.AssertValidEntry]
          rw [if_neg (by omega)])
      simp only [Outcome.andThen, Outcome.ok, hg]
      rw [MemCopy_succ _ _ _ _ _ hi0]
      simp only [elemental.DistMatrixBase.LockedLocalBuffer, Matrix.Buffer]
      have e1 : j * A.LocalHeight + i = i + j * A.LocalHeight := by ring
      have e2 : A._localMatrix.data_ + 0 + j * A._localMatrix.ldim_ + i =
          A._localMatrix.data_ + i + j * A._localMatrix.ldim_ := by ring
      rw [e1, e2]
  · rw [forLoop_empty _ _ _ _ (by omega), MemCopy_nonpos _ _ _ _ _ (by omega)]

/-- The "Pack" loops of the checked build raise nothing on a source whose local
matrix has at least `lw` columns and leave the portion that the column loop of
the `RELEASE` build leaves. -/
theorem pack_loops_eq {T : Type} (debug : Bool) (A : elemental.DistMatrixBase)
    (bufA aux : Buffer T) (lw : Int) (hw : lw ≤ A._localMatrix.width_) :
    forLoop 0 lw (fun j o =>
      forLoop 0 A.LocalHeight (fun i (o : Outcome (Buffer T)) =>
        Outcome.andThen o fun (s : Buffer T) =>
          match A.GetLocalEntry debug bufA i j with
          | Except.ok v => Outcome.ok (Function.update s (i + j * A.LocalHeight) v)
          | Except.error e => Outcome.throw s e) o) (Outcome.ok aux) =
      Outcome.ok (forLoop 0 lw (fun j s =>
        MemCopy s (j * A.LocalHeight) bufA (A.LockedLocalBuffer 0 j) A.LocalHeight) aux) := by
  refine forLoop_ok 0 lw _ _ aux ?_
  intro j b hj0 hj1
  exact pack_inner_loop debug A bufA b j ⟨hj0, by omega⟩

theorem outcome_ok_fields {σ : Type} (s : σ) :
    (Outcome.ok s).thrown = none ∧ (Outcome.ok s).state = s := ⟨rfl, rfl⟩

theorem resizeTo_ok (debug : Bool) (B : elemental.DistMatrixBase) (h w : Int)
    (hv : B._viewing = false) (h0 : 0 ≤ h) (w0 : 0 ≤ w) :
    elemental.DistMatrixBase.ResizeTo debug B h w =
      Outcome.ok { B with
        _height := h
        _width := w
        _localMatrix := B._localMatrix.Resize_ h
          (elemental.LocalLength w B._rowShift B._grid.height_) } := by
  have hc : DEBUG_ONLY debug (do
      B.AssertNotLockedView
      if h < 0 ∨ w < 0 then
        throw (Error.LogicError "Height and width must be non-negative.")) = Except.ok () := by
    cases debug
    · rfl
    · have hn : ¬ (h < 0 ∨ w < 0) := by omega
      simp [DEBUG_ONLY, elemental.DistMatrixBase.AssertNotLockedView, hv, hn, bind, Except.bind,
        pure, Except.pure]
  unfold elemental.DistMatrixBase.ResizeTo
  rw [hc]
  rfl

/-- Where a process of a well-formed world stands when it reaches `AllGather` in
[*,MC] <- [MR,MC]: it has adopted the row alignment of A if it was free, has
resized, and has packed its local matrix of A column after column. -/
theorem assignMRMC_enter_fields {T : Type} (debug : Bool) (M : Int)
    (WB : Int × Int → elemental.DistMatrixBase × Buffer T)
    (WA : Int × Int → elemental.DistMatrixBase_MR_MC × Buffer T)
    (aux : Int × Int → Buffer T) (r c H Wd aC aR : Int) (hH : 0 ≤ H) (hW : 0 ≤ Wd)
    (hB : elemental.StarMcDest WB r c aR) (hA : elemental.MrMcStored WA r c H Wd aC aR)
    (q : Int × Int) (h1 : 0 ≤ q.1) (h2 : q.1 < r) (h3 : 0 ≤ q.2) (h4 : q.2 < c) :
    ∃ g : elemental.DistMatrixBase.Gathering T,
      elemental.DistMatrixBase.assignMRMC.enter debug M (WB q).1 (WB q).2 (WA q).1 (WA q).2
        (aux q) = elemental.DistMatrixBase.Stage.gather g ∧
      g.B._height = H ∧ g.B._width = Wd ∧ g.B._rowAlignment = aR ∧
      g.B._rowShift = Shift q.1 aR r ∧ g.B._grid = procGrid r c q.1 q.2 ∧
      g.B._localMatrix = (WB q).1._localMatrix.Resize_ H
        (elemental.LocalLength Wd (Shift q.1 aR r) r) ∧
      g.originalData = forLoop 0 (elemental.LocalLength Wd (Shift q.1 aR r) r) (fun j s =>
        MemCopy s (j * (WA q).1._localMatrix.height_) (WA q).2
          ((WA q).1._localMatrix.Buffer 0 j) (WA q).1._localMatrix.height_) (aux q) ∧
      g.portionSize = max (elemental.MaxLocalLength H c *
        elemental.LocalLength Wd (Shift q.1 aR r) r) M ∧
      g.colAlignmentOfA = aC := by
  obtain ⟨gB, vB, oB, cB⟩ := hB q h1 h2 h3 h4
  obtain ⟨gA, eH, eW, eCA, eRA, -, -, eLH, eLW⟩ := hA q h1 h2 h3 h4
  have hchk : DEBUG_ONLY debug (do
      (WB q).1.AssertNotLockedView
      (WB q).1.AssertSameGrid (WA q).1.toDistMatrixBase
      if (WB q).1.Viewing then
        (WB q).1.AssertSameSize (WA q).1.toDistMatrixBase) = Except.ok () := by
    cases debug
    · rfl
    · simp [DEBUG_ONLY, elemental.DistMatrixBase.AssertNotLockedView,
        elemental.DistMatrixBase.AssertSameGrid, elemental.DistMatrixBase.Viewing, vB, gB, gA,
        procGrid, bind, Except.bind, pure, Except.pure]
  have hwA : (WA q).1.toDistMatrixBase.LocalHeight = (WA q).1._localMatrix.height_ := rfl
  have hpack : ∀ lw : Int, lw ≤ (WA q).1._localMatrix.width_ →
      (if debug = true then
        forLoop 0 lw (fun j (o : Outcome (Buffer T)) =>
          forLoop 0 (WA q).1.toDistMatrixBase.LocalHeight (fun i (o : Outcome (Buffer T)) =>
            Outcome.andThen o fun (s : Buffer T) =>
              match (WA q).1.toDistMatrixBase.GetLocalEntry debug (WA q).2 i j with
              | Except.ok v => Outcome.ok (Function.update s
                  (i + j * (WA q).1.toDistMatrixBase.LocalHeight) v)
              | Except.error e => Outcome.throw s e) o) (Outcome.ok (aux q))
      else
        Outcome.ok (forLoop 0 lw (fun j s =>
          MemCopy s (j * (WA q).1.toDistMatrixBase.LocalHeight) (WA q).2
            ((WA q).1.toDistMatrixBase.LockedLocalBuffer 0 j)
            (WA q).1.toDistMatrixBase.LocalHeight) (aux q))) =
      Outcome.ok (forLoop 0 lw (fun j s =>
          MemCopy s (j * (WA q).1._localMatrix.height_) (WA q).2
            ((WA q).1._localMatrix.Buffer 0 j) (WA q).1._localMatrix.height_) (aux q)) := by
    intro lw hlw
    split
    · exact pack_loops_eq debug (WA q).1.toDistMatrixBase (WA q).2 (aux q) lw hlw
    · rfl
  have hlw : elemental.LocalLength Wd (Shift q.1 aR r) r ≤ (WA q).1._localMatrix.width_ := by
    rw [eLW]
  have hshift : Shift (WB q).1._grid.MCRank aR (WB q).1._grid.Height = Shift q.1 aR r := by
    rw [gB]
    rfl
  have hgh : (WB q).1._grid.height_ = r := by rw [gB]; rfl
  have hgw : (WB q).1._grid.Width = c := by rw [gB]; rfl
  have hrzw : ∀ (Mx : Matrix) (a b : Int), (Mx.Resize_ a b).width_ = b := by
    intro Mx a b
    unfold Matrix.Resize_
    split <;> rfl
  unfold elemental.DistMatrixBase.assignMRMC.enter
  rw [hchk]
  simp only [elemental.DistMatrixBase.Viewing, vB, Bool.not_false, if_true,
    elemental.DistMatrixBase.GetGrid, elemental.DistMatrixBase.RowAlignment,
    elemental.DistMatrixBase.Height, elemental.DistMatrixBase.Width, eH, eW, eRA, hshift]
  by_cases hcon : (WB q).1._constrainedRowAlignment = true
  · have hal : (WB q).1._rowAlignment = aR ∧ (WB q).1._rowShift = Shift q.1 aR r := by
      rcases cB with hfree | h
      · rw [hfree] at hcon
        exact absurd hcon (by simp)
      · exact h
    simp only [hcon, Bool.not_true, Bool.false_eq_true, if_false]
    rw [resizeTo_ok debug (WB q).1 H Wd vB hH hW]
    simp only [(outcome_ok_fields _).1, (outcome_ok_fields _).2, hal.1, if_true,
      elemental.DistMatrixBase.LocalWidth, Matrix.Width,
      hrzw, hal.2, hgh, hgw, elemental.DistMatrixBase_MR_MC.ColAlignment, eCA]
    rw [hpack _ hlw]
    simp only [(outcome_ok_fields _).1, (outcome_ok_fields _).2]
    exact ⟨_, rfl, rfl, rfl, rfl, rfl, gB, rfl, rfl, rfl, rfl⟩
  · have hfree : (WB q).1._constrainedRowAlignment = false := by simpa using hcon
    simp only [hfree, Bool.not_false, if_true]
    rw [resizeTo_ok debug _ H Wd rfl hH hW]
    simp only [(outcome_ok_fields _).1, (outcome_ok_fields _).2, if_true,
      elemental.DistMatrixBase.LocalWidth, Matrix.Width,
      hrzw, hgh, hgw, elemental.DistMatrixBase_MR_MC.ColAlignment, eCA]
    rw [hpack _ hlw]
    simp only [(outcome_ok_fields _).1, (outcome_ok_fields _).2]
    exact ⟨_, rfl, rfl, rfl, rfl, rfl, gB, rfl, rfl, rfl, rfl⟩

/-- The shifts `Shift(k, a, c)` of the c contributors and the rows they hold:
every row of [0,H) is row `Shift(k,a,c) + iLoc*c` of exactly one contributor k
at exactly one local index iLoc below `LocalLength(H, Shift(k,a,c), c)`, and no
contributor holds a row outside [0,H). -/
theorem contributors_cover (c H a : Int) (hc : 1 ≤ c) :
    (∀ k, 0 ≤ Shift k a c ∧ Shift k a c < c) ∧
    (∀ k iLoc, 0 ≤ iLoc → iLoc < elemental.LocalLength H (Shift k a c) c →
      0 ≤ Shift k a c + iLoc * c ∧ Shift k a c + iLoc * c < H) ∧
    (∀ i, 0 ≤ i → i < H →
      (0 ≤ (i + a) % c ∧ (i + a) % c < c ∧ 0 ≤ i / c ∧
        i / c < elemental.LocalLength H (Shift ((i + a) % c) a c) c ∧
        Shift ((i + a) % c) a c + i / c * c = i) ∧
      ∀ k iLoc, 0 ≤ k → k < c → 0 ≤ iLoc → Shift k a c + iLoc * c = i →
        k = (i + a) % c ∧ iLoc = i / c) := by
  have hc0 : 0 < c := by omega
  have hsh : ∀ k, 0 ≤ Shift k a c ∧ Shift k a c < c := fun k =>
    ⟨Int.emod_nonneg _ (by omega), Int.emod_lt_of_pos _ hc0⟩
  have hown : ∀ i, Shift ((i + a) % c) a c = i % c := by
    intro i
    unfold Shift
    rw [Int.sub_emod, Int.emod_emod_of_dvd _ (dvd_refl c), ← Int.sub_emod]
    have e : i + a - a = i := by ring
    rw [e]
  refine ⟨hsh, ?_, ?_⟩
  · intro k iLoc h0 h1
    have := mul_nonneg h0 (show 0 ≤ c by omega)
    exact ⟨by have := (hsh k).1; omega, (lt_Length_iff H _ c iLoc hc0 h0).1 h1⟩
  · intro i i0 i1
    have d1 := Int.emod_add_ediv i c
    have d2 : i / c * c = c * (i / c) := by ring
    have d3 : 0 ≤ i / c := Int.ediv_nonneg i0 (by omega)
    refine ⟨⟨Int.emod_nonneg _ (by omega), Int.emod_lt_of_pos _ hc0, d3, ?_, ?_⟩, ?_⟩
    · rw [hown]
      exact (lt_Length_iff H _ c _ hc0 d3).2 (by omega)
    · rw [hown]
      omega
    · intro k iLoc k0 k1 l0 he
      have hs := hsh k
      have e1 : i % c = Shift k a c := by
        rw [← he, Int.add_mul_emod_self, Int.emod_eq_of_lt hs.1 hs.2]
      have e2 : i / c = iLoc := by
        rw [← he, Int.add_mul_ediv_right _ _ (show c ≠ 0 by omega),
          Int.ediv_eq_zero_of_lt hs.1 hs.2]
        ring
      refine ⟨?_, e2.symm⟩
      have e3 : (a + Shift k a c) % c = k := rank_of_shift c a k ⟨k0, k1⟩
      rw [← e3, ← e1, Int.add_emod_emod]
      congr 1
      ring

/-- The "Unpack" loops raise nothing on a destination whose local matrix has all
H rows, and leave: at row `Shift(k,a,c) + iLoc*c` of local column j the entry
`iLoc + j*localHeight_k` of the portion of contributor k; every position
outside the H x lw window as it was. -/
theorem unpack_loops {T : Type} (debug : Bool) (B : elemental.DistMatrixBase)
    (bufB G : Buffer T) (c H lw P a : Int) (hc : 1 ≤ c)
    (hBh : B._localMatrix.height_ = H) (hBw : B._localMatrix.width_ = lw)
    (hld : H ≤ B._localMatrix.ldim_) (hld1 : 1 ≤ B._localMatrix.ldim_)
    (hl : B._localMatrix.Locked = false) :
    ∃ out : Buffer T,
      forLoop 0 c (fun k (o : Outcome (Buffer T)) =>
        forLoop 0 lw (fun j (o : Outcome (Buffer T)) =>
          forLoop 0 (elemental.LocalLength H (Shift k a c) c) (fun i (o : Outcome (Buffer T)) =>
            Outcome.andThen o fun (b : Buffer T) =>
              B.SetLocalEntry debug b (Shift k a c + i * c) j
                (G (k * P + (i + j * elemental.LocalLength H (Shift k a c) c)))) o) o)
        (Outcome.ok bufB) = Outcome.ok out ∧
      (∀ k iLoc j, 0 ≤ k → k < c → 0 ≤ iLoc →
        iLoc < elemental.LocalLength H (Shift k a c) c → 0 ≤ j → j < lw →
        out (B._localMatrix.Buffer (Shift k a c + iLoc * c) j) =
          G (k * P + (iLoc + j * elemental.LocalLength H (Shift k a c) c))) ∧
      (∀ p, (∀ i j, 0 ≤ i → i < H → 0 ≤ j → j < lw → p ≠ B._localMatrix.Buffer i j) →
        out p = bufB p) := by
  obtain ⟨hsh, hin, hcov⟩ := contributors_cover c H a hc
  -- the loops over outcomes are loops over buffers
  have hplain : forLoop 0 c (fun k (o : Outcome (Buffer T)) =>
        forLoop 0 lw (fun j (o : Outcome (Buffer T)) =>
          forLoop 0 (elemental.LocalLength H (Shift k a c) c) (fun i (o : Outcome (Buffer T)) =>
            Outcome.andThen o fun (b : Buffer T) =>
              B.SetLocalEntry debug b (Shift k a c + i * c) j
                (G (k * P + (i + j * elemental.LocalLength H (Shift k a c) c)))) o) o)
        (Outcome.ok bufB) =
      Outcome.ok (forLoop 0 c (fun k (b : Buffer T) =>
        forLoop 0 lw (fun j (b : Buffer T) =>
          forLoop 0 (elemental.LocalLength H (Shift k a c) c) (fun i (b : Buffer T) =>
            Function.update b (B._localMatrix.Buffer (Shift k a c + i * c) j)
              (G (k * P + (i + j * elemental.LocalLength H (Shift k a c) c)))) b) b) bufB) := by
    refine forLoop_ok 0 c _ _ bufB ?_
    intro k b k0 k1
    refine forLoop_ok 0 lw _ _ b ?_
    intro j b j0 j1
    refine forLoop_ok 0 _ _ _ b ?_
    intro i b i0 i1
    obtain ⟨r0, r1⟩ := hin k i i0 i1
    have hs := matrix_set_ok debug B._localMatrix b (Shift k a c + i * c) j
      (G (k * P + (i + j * elemental.LocalLength H (Shift k a c) c))) (by
        simp only [Matrix.AssertValidEntry]
        rw [if_neg (by omega)]) hl
    simp only [Outcome.andThen, Outcome.ok, elemental.DistMatrixBase.SetLocalEntry] at hs ⊢
    exact hs
  refine ⟨_, hplain, ?_⟩
  -- the value that belongs at a position of the window
  obtain ⟨val, hval⟩ : ∃ val : Int → T, val = fun p =>
      G ((((p - B._localMatrix.data_) % B._localMatrix.ldim_ + a) % c) * P +
        (((p - B._localMatrix.data_) % B._localMatrix.ldim_) / c +
          ((p - B._localMatrix.data_) / B._localMatrix.ldim_) *
            elemental.LocalLength H
              (Shift (((p - B._localMatrix.data_) % B._localMatrix.ldim_ + a) % c) a c) c)) :=
    ⟨_, rfl⟩
  have hdec : ∀ k iLoc j, 0 ≤ k → k < c → 0 ≤ iLoc →
      iLoc < elemental.LocalLength H (Shift k a c) c →
      val (B._localMatrix.Buffer (Shift k a c + iLoc * c) j) =
        G (k * P + (iLoc + j * elemental.LocalLength H (Shift k a c) c)) := by
    intro k iLoc j k0 k1 l0 l1
    obtain ⟨r0, r1⟩ := hin k iLoc l0 l1
    obtain ⟨-, hu⟩ := hcov (Shift k a c + iLoc * c) r0 r1
    obtain ⟨u1, u2⟩ := hu k iLoc k0 k1 l0 rfl
    have e0 : B._localMatrix.Buffer (Shift k a c + iLoc * c) j - B._localMatrix.data_ =
        Shift k a c + iLoc * c + j * B._localMatrix.ldim_ := by
      simp only [Matrix.Buffer]
      ring
    have e1 : (Shift k a c + iLoc * c + j * B._localMatrix.ldim_) % B._localMatrix.ldim_ =
        Shift k a c + iLoc * c := by
      rw [Int.add_mul_emod_self, Int.emod_eq_of_lt r0 (by omega)]
    have e2 : (Shift k a c + iLoc * c + j * B._localMatrix.ldim_) / B._localMatrix.ldim_ = j := by
      rw [Int.add_mul_ediv_right _ _ (show B._localMatrix.ldim_ ≠ 0 by omega),
        Int.ediv_eq_zero_of_lt r0 (by omega)]
      ring
    rw [hval]
    simp only [e0, e1, e2]
    rw [← u1, ← u2]
  have hw := forLoop_writes 0 c
    (fun k (b : Buffer T) =>
      forLoop 0 lw (fun j (b : Buffer T) =>
        forLoop 0 (elemental.LocalLength H (Shift k a c) c) (fun i (b : Buffer T) =>
          Function.update b (B._localMatrix.Buffer (Shift k a c + i * c) j)
            (G (k * P + (i + j * elemental.LocalLength H (Shift k a c) c)))) b) b)
    (fun k p => ∃ j i, 0 ≤ j ∧ j < lw ∧ 0 ≤ i ∧ i < elemental.LocalLength H (Shift k a c) c ∧
      p = B._localMatrix.Buffer (Shift k a c + i * c) j)
    val bufB (by
      intro k b k0 k1
      have hj := forLoop_writes 0 lw
        (fun j (b : Buffer T) =>
          forLoop 0 (elemental.LocalLength H (Shift k a c) c) (fun i (b : Buffer T) =>
            Function.update b (B._localMatrix.Buffer (Shift k a c + i * c) j)
              (G (k * P + (i + j * elemental.LocalLength H (Shift k a c) c)))) b)
        (fun j p => ∃ i, 0 ≤ i ∧ i < elemental.LocalLength H (Shift k a c) c ∧
          p = B._localMatrix.Buffer (Shift k a c + i * c) j)
        val b (by
          intro j b j0 j1
          have hi := forLoop_writes 0 (elemental.LocalLength H (Shift k a c) c)
            (fun i (b : Buffer T) =>
              Function.update b (B._localMatrix.Buffer (Shift k a c + i * c) j)
                (G (k * P + (i + j * elemental.LocalLength H (Shift k a c) c))))
            (fun i p => p = B._localMatrix.Buffer (Shift k a c + i * c) j)
            val b (by
              intro i b i0 i1
              constructor
              · intro p hp
                subst hp
                dsimp only
                rw [Function.update_same, hdec k i j k0 k1 i0 i1]
              · intro p hp
                exact Function.update_noteq hp _ _)
          constructor
          · rintro p ⟨i, i0, i1, hp⟩
            exact hi.1 p i i0 i1 hp
          · intro p hp
            exact hi.2 p (fun i i0 i1 he => hp ⟨i, i0, i1, he⟩))
      constructor
      · rintro p ⟨j, i, j0, j1, i0, i1, hp⟩
        exact hj.1 p j j0 j1 ⟨i, i0, i1, hp⟩
      · intro p hp
        exact hj.2 p (fun j j0 j1 ⟨i, i0, i1, he⟩ => hp ⟨j, i, j0, j1, i0, i1, he⟩))
  constructor
  · intro k iLoc j k0 k1 l0 l1 j0 j1
    rw [hw.1 _ k k0 k1 ⟨j, iLoc, j0, j1, l0, l1, rfl⟩]
    exact hdec k iLoc j k0 k1 l0 l1
  · intro p hp
    refine hw.2 p ?_
    rintro k k0 k1 ⟨j, i, j0, j1, i0, i1, he⟩
    obtain ⟨r0, r1⟩ := hin k i i0 i1
    exact hp _ j r0 r1 j0 j1 he

/-- C25: the collective B = A for A distributed [MR,MC] and B an owner distributed
[*,MC] whose row alignment is free or already that of A, on an r x c grid.  On
every process q the call returns without error a matrix Bn of A's size with
all H rows; contributor k of the all-gather over the mesh row is the process
(q.1, k), whose column shift and local height in A are the `Shift(k, aC, c)`
and `LocalLength(H, Shift(k, aC, c), c)` that the unpacking recomputes; the
rows `Shift(k, aC, c) + iLoc*c` of the contributors are rows of [0,H) and
every row of [0,H) is such a row for exactly one (k, iLoc); local entry
(Shift(k, aC, c) + iLoc*c, jLoc) of Bn is local entry (iLoc, jLoc) of A on
contributor k, so that row i of Bn is row i of A, found on the process
(q.1, (i + aC) mod c) at local row i / c; and no position outside the
H x LocalWidth window of Bn is written. -/
theorem assign_star_mc_from_mr_mc {T : Type} (debug : Bool) (M : Int)
    (WB : Int × Int → elemental.DistMatrixBase × Buffer T)
    (WA : Int × Int → elemental.DistMatrixBase_MR_MC × Buffer T)
    (aux gatheredData : Int × Int → Buffer T) (r c H Wd aC aR : Int)
    (hc : 1 ≤ c) (hH : 0 ≤ H) (hW : 0 ≤ Wd)
    (hB : elemental.StarMcDest WB r c aR) (hA : elemental.MrMcStored WA r c H Wd aC aR)
    (q : Int × Int) (h1 : 0 ≤ q.1) (h2 : q.1 < r) (h3 : 0 ≤ q.2) (h4 : q.2 < c) :
    ∃ (g : elemental.DistMatrixBase.Gathering T) (Bn : elemental.DistMatrixBase × Buffer T),
      elemental.DistMatrixBase.assignMRMC.enter debug M (WB q).1 (WB q).2 (WA q).1 (WA q).2
        (aux q) = elemental.DistMatrixBase.Stage.gather g ∧
      elemental.DistMatrixBase.assignMRMC debug M WB WA aux gatheredData q =
        some (Outcome.ok Bn) ∧
      Bn.1.Height = H ∧ Bn.1.Width = Wd ∧ Bn.1.RowAlignment = aR ∧
      Bn.1.RowShift = Shift q.1 aR r ∧ Bn.1.LocalHeight = H ∧
      Bn.1.LocalWidth = elemental.LocalLength Wd (Shift q.1 aR r) r ∧
      (∀ k, 0 ≤ k → k < c →
        (g.B.GetGrid.MRComm).member k = (q.1, k) ∧
        (WA (q.1, k)).1._colShift = Shift k aC c ∧
        (WA (q.1, k)).1.LocalHeight = elemental.LocalLength H (Shift k aC c) c ∧
        (WA (q.1, k)).1.LocalWidth = Bn.1.LocalWidth) ∧
      (∀ k iLoc, 0 ≤ k → k < c → 0 ≤ iLoc →
        iLoc < elemental.LocalLength H (Shift k aC c) c →
        0 ≤ Shift k aC c + iLoc * c ∧ Shift k aC c + iLoc * c < H) ∧
      (∀ i, 0 ≤ i → i < H →
        ∃ k iLoc, (0 ≤ k ∧ k < c ∧ 0 ≤ iLoc ∧
            iLoc < elemental.LocalLength H (Shift k aC c) c ∧ Shift k aC c + iLoc * c = i) ∧
          ∀ k2 iLoc2, 0 ≤ k2 → k2 < c → 0 ≤ iLoc2 →
            iLoc2 < elemental.LocalLength H (Shift k2 aC c) c →
            Shift k2 aC c + iLoc2 * c = i → k2 = k ∧ iLoc2 = iLoc) ∧
      (∀ k iLoc jLoc, 0 ≤ k → k < c → 0 ≤ iLoc →
        iLoc < elemental.LocalLength H (Shift k aC c) c → 0 ≤ jLoc → jLoc < Bn.1.LocalWidth →
        Bn.2 (Bn.1.LocalBuffer (Shift k aC c + iLoc * c) jLoc) =
          (WA (q.1, k)).2 ((WA (q.1, k)).1.LockedLocalBuffer iLoc jLoc)) ∧
      (∀ i jLoc, 0 ≤ i → i < H → 0 ≤ jLoc → jLoc < Bn.1.LocalWidth →
        Bn.2 (Bn.1.LocalBuffer i jLoc) =
          (WA (q.1, (i + aC) % c)).2
            ((WA (q.1, (i + aC) % c)).1.LockedLocalBuffer (i / c) jLoc)) ∧
      (∀ p, (∀ i jLoc, 0 ≤ i → i < H → 0 ≤ jLoc → jLoc < Bn.1.LocalWidth →
          p ≠ Bn.1.LocalBuffer i jLoc) → Bn.2 p = (WB q).2 p) := by
  have hc0 : 0 < c := by omega
  obtain ⟨hsh, hin, hcov⟩ := contributors_cover c H aC hc
  have hfields := assignMRMC_enter_fields debug M WB WA aux r c H Wd aC aR hH hW hB hA
  obtain ⟨g, hg, gH, gW, gRA, gRS, gG, gLM, gOD, gP, gCA⟩ := hfields q h1 h2 h3 h4
  obtain ⟨-, -, oB, -⟩ := hB q h1 h2 h3 h4
  -- the local matrix of the resized destination
  have hrz : g.B._localMatrix =
      { (WB q).1._localMatrix with
        height_ := H
        width_ := elemental.LocalLength Wd (Shift q.1 aR r) r
        ldim_ := max H 1
        data_ := 0
        memorySize_ := max H 1 * elemental.LocalLength Wd (Shift q.1 aR r) r } := by
    rw [gLM]
    simp [Matrix.Resize_, Matrix.Viewing, oB, IsViewing]
  have mH : g.B._localMatrix.height_ = H := by rw [hrz]
  have mW : g.B._localMatrix.width_ = elemental.LocalLength Wd (Shift q.1 aR r) r := by rw [hrz]
  have mL : g.B._localMatrix.ldim_ = max H 1 := by rw [hrz]
  have mK : g.B._localMatrix.Locked = false := by
    rw [hrz]
    simp [Matrix.Locked, oB, IsLocked]
  have hlw0 : 0 ≤ elemental.LocalLength Wd (Shift q.1 aR r) r := Length_nonneg _ _ _
  have hmax0 : 0 ≤ elemental.MaxLocalLength H c := Length_nonneg _ _ _
  have hP0 : 0 ≤ g.portionSize := by
    rw [gP]
    exact le_trans (mul_nonneg hmax0 hlw0) (le_max_left _ _)
  -- the contributors
  have hmem : ∀ k, (g.B.GetGrid.MRComm).member k = (q.1, k) := by
    intro k
    simp only [elemental.DistMatrixBase.GetGrid, gG]
    rfl
  have hsize : (g.B.GetGrid.MRComm).size = c := by
    simp only [elemental.DistMatrixBase.GetGrid, gG]
    rfl
  have hout : ∀ k, 0 ≤ k → k < (g.B.GetGrid.MRComm).size →
      (fun m =>
        match elemental.DistMatrixBase.assignMRMC.enter debug M (WB m).1 (WB m).2 (WA m).1
            (WA m).2 (aux m) with
        | elemental.DistMatrixBase.Stage.gather gm =>
          some ({ buf := gm.originalData, count := gm.portionSize } : mpi.Contribution T)
        | _ => none) ((g.B.GetGrid.MRComm).member k) =
      some { buf := forLoop 0 (elemental.LocalLength Wd (Shift q.1 aR r) r) (fun j s =>
              MemCopy s (j * (WA (q.1, k)).1._localMatrix.height_) (WA (q.1, k)).2
                ((WA (q.1, k)).1._localMatrix.Buffer 0 j)
                (WA (q.1, k)).1._localMatrix.height_) (aux (q.1, k)),
             count := g.portionSize } := by
    intro k k0 k1
    rw [hsize] at k1
    obtain ⟨gm, hgm, -, -, -, -, -, -, mOD, mP, -⟩ := hfields (q.1, k) h1 h2 k0 k1
    rw [hmem k]
    simp only [hgm, mOD, mP, gP]
  obtain ⟨G, hG, hGv⟩ := allGather_some
    (fun m =>
      match elemental.DistMatrixBase.assignMRMC.enter debug M (WB m).1 (WB m).2 (WA m).1
          (WA m).2 (aux m) with
      | elemental.DistMatrixBase.Stage.gather gm =>
        some ({ buf := gm.originalData, count := gm.portionSize } : mpi.Contribution T)
      | _ => none)
    (gatheredData q) g.portionSize g.B.GetGrid.MRComm
    (fun k => forLoop 0 (elemental.LocalLength Wd (Shift q.1 aR r) r) (fun j s =>
      MemCopy s (j * (WA (q.1, k)).1._localMatrix.height_) (WA (q.1, k)).2
        ((WA (q.1, k)).1._localMatrix.Buffer 0 j)
        (WA (q.1, k)).1._localMatrix.height_) (aux (q.1, k)))
    hP0 (by rw [hsize]; omega) hout
  -- the unpacking
  obtain ⟨out, hout1, hout2, hout3⟩ := unpack_loops debug g.B (WB q).2 G c H
    (elemental.LocalLength Wd (Shift q.1 aR r) r) g.portionSize aC hc mH mW
    (by rw [mL]; exact le_max_left _ _) (by rw [mL]; exact le_max_right _ _) mK
  have hassign : elemental.DistMatrixBase.assignMRMC debug M WB WA aux gatheredData q =
      some (Outcome.ok (g.B, out)) := by
    unfold elemental.DistMatrixBase.assignMRMC
    simp only [hg, hG]
    unfold elemental.DistMatrixBase.assignMRMC.unpack
    simp only [elemental.DistMatrixBase.GetGrid, gG, procGrid, Grid.Width,
      elemental.DistMatrixBase.Height, gH, elemental.DistMatrixBase.LocalWidth, Matrix.Width, mW,
      gCA]
    rw [hout1]
    rfl
  have hAk : ∀ k, 0 ≤ k → k < c →
      (WA (q.1, k)).1._colShift = Shift k aC c ∧
      (WA (q.1, k)).1._localMatrix.height_ = elemental.LocalLength H (Shift k aC c) c ∧
      (WA (q.1, k)).1._localMatrix.width_ = elemental.LocalLength Wd (Shift q.1 aR r) r := by
    intro k k0 k1
    obtain ⟨-, -, -, -, -, a6, -, a8, a9⟩ := hA (q.1, k) h1 h2 k0 k1
    exact ⟨a6, a8, a9⟩
  have hentry : ∀ k iLoc jLoc, 0 ≤ k → k < c → 0 ≤ iLoc →
      iLoc < elemental.LocalLength H (Shift k aC c) c → 0 ≤ jLoc →
      jLoc < elemental.LocalLength Wd (Shift q.1 aR r) r →
      out (g.B._localMatrix.Buffer (Shift k aC c + iLoc * c) jLoc) =
        (WA (q.1, k)).2 ((WA (q.1, k)).1._localMatrix.Buffer iLoc jLoc) := by
    intro k iLoc jLoc k0 k1 l0 l1 j0 j1
    obtain ⟨-, aLH, -⟩ := hAk k k0 k1
    rw [hout2 k iLoc jLoc k0 k1 l0 l1 j0 j1]
    have hM : elemental.LocalLength H (Shift k aC c) c ≤ elemental.MaxLocalLength H c :=
      Length_shift_le H _ c hc0 (hsh k).1
    obtain ⟨b1, b2⟩ := portion_bound _ _ _ iLoc jLoc ⟨l0, l1⟩ ⟨j0, j1⟩ hM
    have b3 : elemental.MaxLocalLength H c * elemental.LocalLength Wd (Shift q.1 aR r) r ≤
        g.portionSize := by
      rw [gP]
      exact le_max_left _ _
    have e1 : iLoc + jLoc * elemental.LocalLength H (Shift k aC c) c =
        jLoc * elemental.LocalLength H (Shift k aC c) c + iLoc := by ring
    rw [hGv k _ k0 (by rw [hsize]; exact k1) (by omega) (by omega), ← aLH]
    exact pack_entry_matrix (WA (q.1, k)).1._localMatrix (WA (q.1, k)).2 (aux (q.1, k)) _ iLoc
      jLoc ⟨l0, by rw [aLH]; exact l1⟩ ⟨j0, j1⟩
  refine ⟨g, (g.B, out), hg, hassign, gH, gW, gRA, gRS, mH, mW, ?_,
    fun k iLoc _ _ l0 l1 => hin k iLoc l0 l1, ?_, ?_, ?_, ?_⟩
  · intro k k0 k1
    obtain ⟨a1, a2, a3⟩ := hAk k k0 k1
    exact ⟨hmem k, a1, a2, a3.trans mW.symm⟩
  · intro i i0 i1
    obtain ⟨⟨c1, c2, c3, c4, c5⟩, cu⟩ := hcov i i0 i1
    exact ⟨_, _, ⟨c1, c2, c3, c4, c5⟩, fun k2 l2 k0 k1 l0 _ he => cu k2 l2 k0 k1 l0 he⟩
  · intro k iLoc jLoc k0 k1 l0 l1 j0 j1
    exact hentry k iLoc jLoc k0 k1 l0 l1 j0 (by
      simp only [elemental.DistMatrixBase.LocalWidth, Matrix.Width, mW] at j1
      exact j1)
  · intro i jLoc i0 i1 j0 j1
    obtain ⟨⟨c1, c2, c3, c4, c5⟩, -⟩ := hcov i i0 i1
    have := hentry _ _ jLoc c1 c2 c3 c4 j0 (by
      simp only [elemental.DistMatrixBase.LocalWidth, Matrix.Width, mW] at j1
      exact j1)
    rw [c5] at this
    exact this
  · intro p hp
    refine hout3 p ?_
    intro i j i0 i1 j0 j1
    exact hp i j i0 i1 j0 (by
      simp only [elemental.DistMatrixBase.LocalWidth, Matrix.Width, mW]
      exact j1)

theorem starMcFresh_dest : elemental.StarMcDest elemental.starMcFresh 2 2 0 :=
  fun _ _ _ _ _ => ⟨rfl, rfl, rfl, Or.inl rfl⟩

theorem mrMcSource_stored : elemental.MrMcStored elemental.mrMcSource 2 2 5 3 1 0 :=
  fun _ _ _ _ _ => ⟨rfl, rfl, rfl, rfl, rfl, rfl, rfl, rfl, rfl⟩

theorem assign_star_mc_from_mr_mc_witness :
    ((1 : Int) ≤ 2 ∧ (0 : Int) ≤ 5 ∧ (0 : Int) ≤ 3 ∧
      elemental.StarMcDest elemental.starMcFresh 2 2 0 ∧
      elemental.MrMcStored elemental.mrMcSource 2 2 5 3 1 0) ∧
    ∃ (g : elemental.DistMatrixBase.Gathering Int) (Bn : elemental.DistMatrixBase × Buffer Int),
      elemental.DistMatrixBase.assignMRMC.enter true 0 (elemental.starMcFresh ((1, 0) : Int × Int)).1 (elemental.starMcFresh ((1, 0) : Int × Int)).2 (elemental.mrMcSource ((1, 0) : Int × Int)).1 (elemental.mrMcSource ((1, 0) : Int × Int)).2
        (zeroAux ((1, 0) : Int × Int)) = elemental.DistMatrixBase.Stage.gather g ∧
      elemental.DistMatrixBase.assignMRMC true 0 elemental.starMcFresh elemental.mrMcSource zeroAux zeroAux ((1, 0) : Int × Int) =
        some (Outcome.ok Bn) ∧
      Bn.1.Height = 5 ∧ Bn.1.Width = 3 ∧ Bn.1.RowAlignment = 0 ∧
      Bn.1.RowShift = Shift ((1, 0) : Int × Int).1 0 2 ∧ Bn.1.LocalHeight = 5 ∧
      Bn.1.LocalWidth = elemental.LocalLength 3 (Shift ((1, 0) : Int × Int).1 0 2) 2 ∧
      (∀ k, 0 ≤ k → k < 2 →
        (g.B.GetGrid.MRComm).member k = (((1, 0) : Int × Int).1, k) ∧
        (elemental.mrMcSource (((1, 0) : Int × Int).1, k)).1._colShift = Shift k 1 2 ∧
        (elemental.mrMcSource (((1, 0) : Int × Int).1, k)).1.LocalHeight = elemental.LocalLength 5 (Shift k 1 2) 2 ∧
        (elemental.mrMcSource (((1, 0) : Int × Int).1, k)).1.LocalWidth = Bn.1.LocalWidth) ∧
      (∀ k iLoc, 0 ≤ k → k < 2 → 0 ≤ iLoc →
        iLoc < elemental.LocalLength 5 (Shift k 1 2) 2 →
        0 ≤ Shift k 1 2 + iLoc * 2 ∧ Shift k 1 2 + iLoc * 2 < 5) ∧
      (∀ i, 0 ≤ i → i < 5 →
        ∃ k iLoc, (0 ≤ k ∧ k < 2 ∧ 0 ≤ iLoc ∧
            iLoc < elemental.LocalLength 5 (Shift k 1 2) 2 ∧ Shift k 1 2 + iLoc * 2 = i) ∧
          ∀ k2 iLoc2, 0 ≤ k2 → k2 < 2 → 0 ≤ iLoc2 →
            iLoc2 < elemental.LocalLength 5 (Shift k2 1 2) 2 →
            Shift k2 1 2 + iLoc2 * 2 = i → k2 = k ∧ iLoc2 = iLoc) ∧
      (∀ k iLoc jLoc, 0 ≤ k → k < 2 → 0 ≤ iLoc →
        iLoc < elemental.LocalLength 5 (Shift k 1 2) 2 → 0 ≤ jLoc → jLoc < Bn.1.LocalWidth →
        Bn.2 (Bn.1.LocalBuffer (Shift k 1 2 + iLoc * 2) jLoc) =
          (elemental.mrMcSource (((1, 0) : Int × Int).1, k)).2 ((elemental.mrMcSource (((1, 0) : Int × Int).1, k)).1.LockedLocalBuffer iLoc jLoc)) ∧
      (∀ i jLoc, 0 ≤ i → i < 5 → 0 ≤ jLoc → jLoc < Bn.1.LocalWidth →
        Bn.2 (Bn.1.LocalBuffer i jLoc) =
          (elemental.mrMcSource (((1, 0) : Int × Int).1, (i + 1) % 2)).2
            ((elemental.mrMcSource (((1, 0) : Int × Int).1, (i + 1) % 2)).1.LockedLocalBuffer (i / 2) jLoc)) ∧
      (∀ p, (∀ i jLoc, 0 ≤ i → i < 5 → 0 ≤ jLoc → jLoc < Bn.1.LocalWidth →
          p ≠ Bn.1.LocalBuffer i jLoc) → Bn.2 p = (elemental.starMcFresh ((1, 0) : Int × Int)).2 p) :=
  ⟨⟨by decide, by decide, by decide, starMcFresh_dest, mrMcSource_stored⟩,
   assign_star_mc_from_mr_mc true 0 elemental.starMcFresh elemental.mrMcSource zeroAux zeroAux
    2 2 5 3 1 0 (by decide) (by decide) (by decide) starMcFresh_dest mrMcSource_stored (1, 0)
    (by decide) (by decide) (by decide) (by decide)⟩

/-- The example, evaluated on the process at (1,0): mesh row 1 holds column 1 of
the 5 x 3 matrix.  Contributor 0, the process itself, has shift
(0 - 1) mod 2 = 1 in A and holds rows 1, 3 at positions 1, 2 of its buffer
(values 1001, 1002); contributor 1, the process at (1,1), has shift 0 and
holds rows 0, 2, 4 at positions 1, 2, 3 (values 1101, 1102, 1103).  The
process ends with the five rows in order, in positions 0..4, and nothing
else written. -/
theorem assignMRMC_example_values :
    (elemental.DistMatrixBase.assignMRMC true 0 elemental.starMcFresh elemental.mrMcSource
        zeroAux zeroAux (1, 0)).map
      (fun o => (o.thrown, o.state.1._height, o.state.1._width, o.state.1._rowShift,
        o.state.1._localMatrix.height_, o.state.1._localMatrix.width_,
        o.state.1._localMatrix.ldim_,
        List.map o.state.2 [-1, 0, 1, 2, 3, 4, 5, 6])) =
      some (none, 5, 3, 1, 5, 1, 5, [0, 1101, 1001, 1102, 1002, 1103, 0, 0]) := by
  rfl

theorem rowSum_succ {F : Type} [CommRing F] (f : Int → F) (w : Int) (h : 0 ≤ w) :
    forLoop 0 (w + 1) (fun j acc => acc + f j) 0 = forLoop 0 w (fun j acc => acc + f j) 0 + f w :=
  forLoop_succ 0 w (fun j acc => acc + f j) 0 h

theorem rowSum_nonpos {F : Type} [CommRing F] (f : Int → F) (w : Int) (h : w ≤ 0) :
    forLoop 0 w (fun j acc => acc + f j) 0 = 0 :=
  forLoop_empty 0 w (fun j acc => acc + f j) 0 h

theorem rowSum_rel {F : Type} [CommRing F] (P : Int → F → F → Prop) (f g : Int → F) (w : Int)
    (h0 : ∀ k, k ≤ 0 → P k 0 0)
    (hs : ∀ k a b, 0 ≤ k → k < w → P k a b → P (k + 1) (a + f k) (b + g k)) :
    P w (forLoop 0 w (fun j acc => acc + f j) 0) (forLoop 0 w (fun j acc => acc + g j) 0) := by
  by_cases hw : 0 ≤ w
  · have key : ∀ n : Nat, (n : Int) ≤ w →
        P n (forLoop 0 n (fun j acc => acc + f j) 0) (forLoop 0 n (fun j acc => acc + g j) 0) := by
      intro n
      induction n with
      | zero =>
        intro _
        rw [rowSum_nonpos f _ (by simp), rowSum_nonpos g _ (by simp)]
        exact h0 _ (by simp)
      | succ n ih =>
        intro hn
        have e : ((n + 1 : Nat) : Int) = (n : Int) + 1 := by push_cast; ring
        rw [e] at hn
        rw [e, rowSum_succ f _ (by omega), rowSum_succ g _ (by omega)]
        exact hs _ _ _ (by omega) (by omega) (ih (by omega))
    obtain ⟨n, rfl⟩ := Int.eq_ofNat_of_zero_le hw
    exact key n le_rfl
  · rw [rowSum_nonpos f _ (by omega), rowSum_nonpos g _ (by omega)]
    exact h0 _ (by omega)

theorem rowSum_congr {F : Type} [CommRing F] (f g : Int → F) (w : Int)
    (h : ∀ j, 0 ≤ j → j < w → f j = g j) :
    forLoop 0 w (fun j acc => acc + f j) 0 = forLoop 0 w (fun j acc => acc + g j) 0 := by
  refine rowSum_rel (fun _ a b => a = b) f g w (fun _ _ => rfl) ?_
  intro k a b hk0 hk1 hab
  rw [hab, h k hk0 hk1]

theorem rowSum_zero {F : Type} [CommRing F] (f : Int → F) (w : Int)
    (h : ∀ j, 0 ≤ j → j < w → f j = 0) :
    forLoop 0 w (fun j acc => acc + f j) 0 = 0 := by
  have key := rowSum_rel (fun _ a _ => a = 0) f f w (fun _ _ => rfl) (by
    intro k a b hk0 hk1 ha
    rw [ha, h k hk0 hk1, add_zero])
  exact key

theorem rowSum_sub_mul {F : Type} [CommRing F] (f g : Int → F) (c : F) (w : Int) :
    forLoop 0 w (fun j acc => acc + (f j - c * g j)) 0
      = forLoop 0 w (fun j acc => acc + f j) 0
        - c * forLoop 0 w (fun j acc => acc + g j) 0 := by
  by_cases hw : 0 ≤ w
  · obtain ⟨n, rfl⟩ := Int.eq_ofNat_of_zero_le hw
    induction n with
    | zero => simp [rowSum_nonpos]
    | succ n ih =>
      have e : ((n + 1 : Nat) : Int) = (n : Int) + 1 := by push_cast; ring
      rw [e, rowSum_succ _ _ (by omega), rowSum_succ f _ (by omega), rowSum_succ g _ (by omega),
        ih (by omega)]
      ring
  · rw [rowSum_nonpos _ _ (by omega), rowSum_nonpos f _ (by omega), rowSum_nonpos g _ (by omega)]
    ring

/-- Applying the reflector with coefficient tau and then the one with the
coefficient that satisfies the Householder relation gives the row back. -/
theorem reflect_undo {F : Type} [CommRing F] (Conj : F → F) (w : Int) (u x : Int → F)
    (tau tau' : F)
    (hU : tau + tau' = tau * tau' * forLoop 0 w (fun l acc => acc + Conj (u l) * u l) 0)
    (j : Int) :
    (x j - tau * forLoop 0 w (fun l acc => acc + x l * u l) 0 * Conj (u j))
      - tau' * forLoop 0 w (fun l acc => acc +
          (x l - tau * forLoop 0 w (fun l acc => acc + x l * u l) 0 * Conj (u l)) * u l) 0
        * Conj (u j) = x j := by
  have e : forLoop 0 w (fun l acc => acc +
          (x l - tau * forLoop 0 w (fun l acc => acc + x l * u l) 0 * Conj (u l)) * u l) 0
      = forLoop 0 w (fun l acc => acc + x l * u l) 0
        - (tau * forLoop 0 w (fun l acc => acc + x l * u l) 0)
          * forLoop 0 w (fun l acc => acc + Conj (u l) * u l) 0 := by
    rw [← rowSum_sub_mul (fun l => x l * u l) (fun l => Conj (u l) * u l)]
    apply rowSum_congr
    intro l _ _
    ring
  rw [e]
  linear_combination (-(forLoop 0 w (fun l acc => acc + x l * u l) 0) * Conj (u j)) * hU
/-- The coefficients after one iteration of the panel loop. -/
theorem panel_body_snd {F : Type} [CommRing F] (Conj : F → F)
    (RightReflector : F → (Int → F) → Int → lq.Reflection F) (m n k : Int)
    (S : lq.Entries F) (t : Int → F) (i : Int) :
    (lq.PanelHouseholder.body Conj RightReflector m n k (S, t)).2 i
      = if i = k then
          (RightReflector (S k k) (fun j => S k (k + 1 + j)) (n - (k + 1))).tau
        else t i := by
  simp [lq.PanelHouseholder.body, lq.Range.Get, lq.Range.Width]

/-- The entries after one iteration of the panel loop. -/
theorem panel_body_fst {F : Type} [CommRing F] (Conj : F → F)
    (RightReflector : F → (Int → F) → Int → lq.Reflection F) (m n k : Int)
    (S : lq.Entries F) (t : Int → F) (i j : Int) :
    (lq.PanelHouseholder.body Conj RightReflector m n k (S, t)).1 i j
      = if i = k then
          (if j = k then (RightReflector (S k k) (fun j => S k (k + 1 + j)) (n - (k + 1))).beta
           else if k < j ∧ j < n then
            (RightReflector (S k k) (fun j => S k (k + 1 + j)) (n - (k + 1))).v (j - (k + 1))
           else S k j)
        else if k + 1 ≤ i ∧ i < m ∧ k ≤ j ∧ j < n then
          S i j - (RightReflector (S k k) (fun j => S k (k + 1 + j)) (n - (k + 1))).tau
            * forLoop 0 (n - k) (fun l acc => acc + S i (k + l) *
                (if l = 0 then 1
                 else (RightReflector (S k k) (fun j => S k (k + 1 + j)) (n - (k + 1))).v (l - 1))) 0
            * Conj (if j - k = 0 then 1
                 else (RightReflector (S k k) (fun j => S k (k + 1 + j)) (n - (k + 1))).v
                  (j - k - 1))
        else S i j := by
  generalize hr : RightReflector (S k k) (fun j => S k (k + 1 + j)) (n - (k + 1)) = r
  simp only [lq.PanelHouseholder.body, lq.Range.Get, lq.Range.Width, lq.Range.Set,
    lq.Range.Put, lq.Gemv, lq.Ger, add_zero, hr]
  by_cases hik : i = k
  · subst hik
    by_cases hjk : j = i
    · subst hjk
      simp
    · simp [hjk]
      by_cases hw : i < j ∧ j < n
      · have : i + 1 ≤ j := by omega
        simp [hw, this]
      · have : ¬ (i + 1 ≤ j ∧ j < n) := by omega
        simp [hw, this]
  · rw [if_neg hik]
    by_cases hw : k + 1 ≤ i ∧ i < m ∧ k ≤ j ∧ j < n
    · rw [if_pos hw]
      simp only [hik, hw, false_and, and_false, if_false, and_self, if_true]
      have e1 : k + 1 + (i - (k + 1)) = i := by ring
      have e2 : k + (j - k) = j := by ring
      have h1 : ¬ (k ≤ i ∧ i < k + 1 ∧ k + 1 ≤ j ∧ j < n) := by omega
      rw [e1, e2, if_neg h1]
      have hsum : forLoop 0 (n - k) (fun j acc => acc +
            (if i = k ∧ k + j = k then 1
              else if k ≤ i ∧ i < k + 1 ∧ k + 1 ≤ k + j ∧ k + j < n then r.v (k + j - (k + 1))
              else if i = k ∧ k + j = k then r.beta else S i (k + j)) *
            if True ∧ k + j = k then 1
              else if k ≤ k ∧ k < k + 1 ∧ k + 1 ≤ k + j ∧ k + j < n then r.v (k + j - (k + 1))
              else if True ∧ k + j = k then r.beta else S k (k + j)) 0
          = forLoop 0 (n - k) (fun l acc => acc + S i (k + l) *
              if l = 0 then 1 else r.v (l - 1)) 0 := by
        apply rowSum_congr
        intro l hl0 hl1
        have a1 : ¬ (k ≤ i ∧ i < k + 1 ∧ k + 1 ≤ k + l ∧ k + l < n) := by omega
        rw [if_neg (by omega), if_neg a1, if_neg (by omega)]
        by_cases hl : l = 0
        · subst hl
          simp
        · have a2 : ¬ (True ∧ k + l = k) := by omega
          have a3 : k ≤ k ∧ k < k + 1 ∧ k + 1 ≤ k + l ∧ k + l < n := by omega
          have a4 : k + l - (k + 1) = l - 1 := by ring
          rw [if_neg a2, if_pos a3, if_neg hl, a4]
      rw [hsum]
      have hc : (if True ∧ j = k then (1 : F)
          else if k ≤ k ∧ k < k + 1 ∧ k + 1 ≤ j ∧ j < n then r.v (j - (k + 1))
            else if True ∧ j = k then r.beta else S k j)
          = if j - k = 0 then 1 else r.v (j - k - 1) := by
        by_cases hj : j = k
        · subst hj
          simp
        · have a2 : ¬ (True ∧ j = k) := by simp [hj]
          have a3 : k ≤ k ∧ k < k + 1 ∧ k + 1 ≤ j ∧ j < n := by omega
          have a4 : j - (k + 1) = j - k - 1 := by ring
          have a5 : ¬ (j - k = 0) := by omega
          rw [if_neg a2, if_pos a3, if_neg a5, a4]
      have h0 : ¬ (i = k ∧ j = k) := by omega
      rw [hc]
      simp only [if_neg h0]
      ring
    · rw [if_neg hw]
      simp only [hik, hw, false_and, and_false, if_false]
      split
      · omega
      · rfl
theorem panel_after_zero {F : Type} [CommRing F] (Conj : F → F)
    (RightReflector : F → (Int → F) → Int → lq.Reflection F) (m n : Int) (A : lq.Entries F)
    (t : Int → F) :
    lq.PanelHouseholder.after Conj RightReflector m n A t 0 = (A, t) :=
  forLoop_empty 0 0 _ _ le_rfl

theorem panel_after_succ {F : Type} [CommRing F] (Conj : F → F)
    (RightReflector : F → (Int → F) → Int → lq.Reflection F) (m n : Int) (A : lq.Entries F)
    (t : Int → F) (k : Int) (hk : 0 ≤ k) :
    lq.PanelHouseholder.after Conj RightReflector m n A t (k + 1)
      = lq.PanelHouseholder.body Conj RightReflector m n k
          (lq.PanelHouseholder.after Conj RightReflector m n A t k) :=
  forLoop_succ 0 k _ _ hk

/-- Iteration k leaves in row k, right of the diagonal, the vector of its
reflector and in t its coefficient, and no later iteration touches them. -/
theorem panel_after_frozen {F : Type} [CommRing F] (Conj : F → F)
    (RightReflector : F → (Int → F) → Int → lq.Reflection F) (m n : Int) (A : lq.Entries F)
    (t : Int → F) (k : Int) (hk : 0 ≤ k) (d : Nat) :
    (∀ j, k < j → j < n →
      (lq.PanelHouseholder.after Conj RightReflector m n A t (k + 1 + d)).1 k j
        = (lq.PanelHouseholder.reflection Conj RightReflector m n A t k).v (j - (k + 1))) ∧
    (lq.PanelHouseholder.after Conj RightReflector m n A t (k + 1 + d)).2 k
        = (lq.PanelHouseholder.reflection Conj RightReflector m n A t k).tau := by
  induction d with
  | zero =>
    simp only [Nat.cast_zero, add_zero]
    rw [panel_after_succ Conj RightReflector m n A t k hk]
    refine ⟨fun j hj0 hj1 => ?_, ?_⟩
    · have h := panel_body_fst Conj RightReflector m n k
        (lq.PanelHouseholder.after Conj RightReflector m n A t k).1
        (lq.PanelHouseholder.after Conj RightReflector m n A t k).2 k j
      rw [h, if_pos rfl, if_neg (by omega), if_pos ⟨hj0, hj1⟩]
      rfl
    · have h := panel_body_snd Conj RightReflector m n k
        (lq.PanelHouseholder.after Conj RightReflector m n A t k).1
        (lq.PanelHouseholder.after Conj RightReflector m n A t k).2 k
      rw [h, if_pos rfl]
      rfl
  | succ d ih =>
    have e : k + 1 + ((d + 1 : Nat) : Int) = (k + 1 + d) + 1 := by push_cast; ring
    rw [e, panel_after_succ Conj RightReflector m n A t (k + 1 + d) (by omega)]
    refine ⟨fun j hj0 hj1 => ?_, ?_⟩
    · have h := panel_body_fst Conj RightReflector m n (k + 1 + d)
        (lq.PanelHouseholder.after Conj RightReflector m n A t (k + 1 + d)).1
        (lq.PanelHouseholder.after Conj RightReflector m n A t (k + 1 + d)).2 k j
      have a1 : ¬ (k + 1 + (d : Int) + 1 ≤ k ∧ k < m ∧ k + 1 + (d : Int) ≤ j ∧ j < n) := by
        omega
      rw [h, if_neg (by omega), if_neg a1]
      exact ih.1 j hj0 hj1
    · have h := panel_body_snd Conj RightReflector m n (k + 1 + d)
        (lq.PanelHouseholder.after Conj RightReflector m n A t (k + 1 + d)).1
        (lq.PanelHouseholder.after Conj RightReflector m n A t (k + 1 + d)).2 k
      rw [h, if_neg (by omega)]
      exact ih.2
/-- Iteration k multiplies the reduced matrix on the right by the reflector
it has chosen. -/
theorem panel_reduced_succ {F : Type} [CommRing F] (Conj : F → F)
    (RightReflector : F → (Int → F) → Int → lq.Reflection F) (m n : Int) (A : lq.Entries F)
    (t : Int → F) (k : Int) (hk0 : 0 ≤ k) (hkm : k < m)
    (hv : lq.Reflection.Valid Conj (n - k)
      (lq.PanelHouseholder.row Conj RightReflector m n A t k)
      (lq.PanelHouseholder.reflection Conj RightReflector m n A t k))
    (i j : Int) (hi1 : i < m) (hj1 : j < n) :
    lq.PanelHouseholder.reduced Conj RightReflector m n A t (k + 1) i j
      = if k ≤ j then
          lq.PanelHouseholder.reduced Conj RightReflector m n A t k i j
            - (lq.PanelHouseholder.reflection Conj RightReflector m n A t k).tau
              * forLoop 0 (n - k) (fun l acc => acc +
                  lq.PanelHouseholder.reduced Conj RightReflector m n A t k i (k + l) *
                  (if l = 0 then 1
                   else (lq.PanelHouseholder.reflection Conj RightReflector m n A t k).v
                    (l - 1))) 0
              * Conj (if j - k = 0 then 1
                  else (lq.PanelHouseholder.reflection Conj RightReflector m n A t k).v
                    (j - k - 1))
        else lq.PanelHouseholder.reduced Conj RightReflector m n A t k i j := by
  have hb := panel_body_fst Conj RightReflector m n k
    (lq.PanelHouseholder.after Conj RightReflector m n A t k).1
    (lq.PanelHouseholder.after Conj RightReflector m n A t k).2 i j
  have hr : RightReflector ((lq.PanelHouseholder.after Conj RightReflector m n A t k).1 k k)
      (fun j => (lq.PanelHouseholder.after Conj RightReflector m n A t k).1 k (k + 1 + j))
      (n - (k + 1)) = lq.PanelHouseholder.reflection Conj RightReflector m n A t k := rfl
  rw [hr] at hb
  have hred : ∀ a b, lq.PanelHouseholder.reduced Conj RightReflector m n A t k a b
      = if a < k ∧ a < b then 0
        else (lq.PanelHouseholder.after Conj RightReflector m n A t k).1 a b := fun _ _ => rfl
  have hred1 : lq.PanelHouseholder.reduced Conj RightReflector m n A t (k + 1) i j
      = if i < k + 1 ∧ i < j then 0
        else (lq.PanelHouseholder.body Conj RightReflector m n k
          (lq.PanelHouseholder.after Conj RightReflector m n A t k)).1 i j := by
    unfold lq.PanelHouseholder.reduced
    rw [panel_after_succ Conj RightReflector m n A t k hk0]
  rw [hred1]
  generalize lq.PanelHouseholder.reflection Conj RightReflector m n A t k = r at hb hv ⊢
  obtain ⟨hv1, -⟩ := hv
  beta_reduce at hv1
  rcases lt_trichotomy i k with hik | hik | hik
  · -- a row already reduced
    have hz : forLoop 0 (n - k) (fun l acc => acc +
        lq.PanelHouseholder.reduced Conj RightReflector m n A t k i (k + l) *
          (if l = 0 then 1 else r.v (l - 1))) 0 = 0 := by
      apply rowSum_zero
      intro l hl0 _
      rw [hred, if_pos (by omega), zero_mul]
    rw [hz, mul_zero, zero_mul, sub_zero, ite_self, hred]
    have a1 : ¬ (k + 1 ≤ i ∧ i < m ∧ k ≤ j ∧ j < n) := by omega
    have a0 : ¬ (i = k) := by omega
    by_cases hij : i < j
    · have b1 : i < k + 1 ∧ i < j := by omega
      have b2 : i < k ∧ i < j := by omega
      rw [if_pos b1, if_pos b2]
    · have b1 : ¬ (i < k + 1 ∧ i < j) := by omega
      have b2 : ¬ (i < k ∧ i < j) := by omega
      rw [if_neg b1, if_neg b2]
      exact hb.trans (by rw [if_neg a0, if_neg a1])
  · -- the row handed to the reflector
    subst hik
    have hrow : ∀ l, lq.PanelHouseholder.reduced Conj RightReflector m n A t i i (i + l)
        = lq.PanelHouseholder.row Conj RightReflector m n A t i l := by
      intro l
      rw [hred, if_neg (by omega)]
      rfl
    simp only [hrow]
    have hb' := hb.trans (if_pos rfl)
    by_cases hij : i < j
    · have h := hv1 (j - i) (by omega) (by omega)
      have e : lq.PanelHouseholder.reduced Conj RightReflector m n A t i i j
          = lq.PanelHouseholder.row Conj RightReflector m n A t i (j - i) := by
        rw [← hrow]
        congr 1
        ring
      have a5 : ¬ (j - i = 0) := by omega
      have b1 : i < i + 1 ∧ i < j := by omega
      have b2 : i ≤ j := by omega
      rw [if_pos b1, if_pos b2, e, if_neg a5]
      rw [if_neg a5, if_neg a5] at h
      exact h.symm
    · have b1 : ¬ (i < i + 1 ∧ i < j) := by omega
      rw [if_neg b1]
      refine hb'.trans ?_
      by_cases hji : j = i
      · subst hji
        have h := hv1 0 (by omega) (by omega)
        have e : lq.PanelHouseholder.reduced Conj RightReflector m n A t j j j
            = lq.PanelHouseholder.row Conj RightReflector m n A t j 0 := by
          rw [← hrow]
          congr 1
          ring
        rw [if_pos rfl, if_pos le_rfl, e]
        rw [if_pos rfl, if_pos rfl] at h
        simp only [sub_self, if_true]
        exact h.symm
      · have a1 : ¬ (i < j ∧ j < n) := by omega
        have a2 : ¬ (i ≤ j) := by omega
        have a3 : ¬ (i < i ∧ i < j) := by omega
        rw [if_neg hji, if_neg a1, if_neg a2, hred, if_neg a3]
  · -- a row below
    have hrow : ∀ b, lq.PanelHouseholder.reduced Conj RightReflector m n A t k i b
        = (lq.PanelHouseholder.after Conj RightReflector m n A t k).1 i b := by
      intro b
      rw [hred, if_neg (by omega)]
    simp only [hrow]
    have b1 : ¬ (i < k + 1 ∧ i < j) := by omega
    have a0 : ¬ (i = k) := by omega
    rw [if_neg b1]
    refine hb.trans ?_
    rw [if_neg a0]
    by_cases hkj : k ≤ j
    · have a1 : k + 1 ≤ i ∧ i < m ∧ k ≤ j ∧ j < n := by omega
      rw [if_pos a1, if_pos hkj]
    · have a1 : ¬ (k + 1 ≤ i ∧ i < m ∧ k ≤ j ∧ j < n) := by omega
      rw [if_neg a1, if_neg hkj]
/-- One step of the modelled `lq::ApplyQ( RIGHT, NORMAL, A, t, B )`, entry by entry. -/
theorem applyQ_body {F : Type} [CommRing F] (Conj : F → F) (n : Int) (S : lq.Entries F)
    (t : Int → F) (height k : Int) (B : lq.Entries F) (i j : Int) :
    (lq.Range.mk 0 k height n).Put B
        (lq.Ger Conj (-(Conj (t k)))
          (lq.Gemv 1 (lq.Range.mk 0 k height n).Width ((lq.Range.mk 0 k height n).Get B)
            (fun j => if j = 0 then 1 else S k (k + j)) 0 (fun _ => 0))
          (fun j => if j = 0 then 1 else S k (k + j)) ((lq.Range.mk 0 k height n).Get B)) i j
      = if 0 ≤ i ∧ i < height ∧ k ≤ j ∧ j < n then
          B i j - Conj (t k)
            * forLoop 0 (n - k) (fun l acc => acc + B i (k + l) *
                (if l = 0 then 1 else S k (k + l))) 0
            * Conj (if j - k = 0 then 1 else S k (k + (j - k)))
        else B i j := by
  simp only [lq.Range.Put, lq.Range.Get, lq.Range.Width, lq.Gemv, lq.Ger]
  by_cases hw : 0 ≤ i ∧ i < height ∧ k ≤ j ∧ j < n
  · rw [if_pos hw, if_pos hw]
    have e1 : (0 : Int) + (i - 0) = i := by ring
    have e2 : k + (j - k) = j := by ring
    rw [e1, e2]
    ring
  · rw [if_neg hw, if_neg hw]

/-- The round trip on entries: undoing the reflectors from the last to the
first takes the lower triangle left by the panel loop back to A. -/
theorem applyQ_lower {F : Type} [CommRing F] (Conj : F → F)
    (RightReflector : F → (Int → F) → Int → lq.Reflection F) (m n : Int) (A : lq.Entries F)
    (t : Int → F) (hm : 0 ≤ m) (hmn : m ≤ n)
    (hv : ∀ k, 0 ≤ k → k < m → lq.Reflection.Valid Conj (n - k)
      (lq.PanelHouseholder.row Conj RightReflector m n A t k)
      (lq.PanelHouseholder.reflection Conj RightReflector m n A t k))
    (L : lq.Entries F)
    (hL : ∀ i j, 0 ≤ i → i < m → 0 ≤ j → j < n →
      L i j = if j ≤ i then (lq.PanelHouseholder Conj RightReflector m n A t).1 i j else 0)
    (i j : Int) (hi0 : 0 ≤ i) (hi1 : i < m) (hj0 : 0 ≤ j) (hj1 : j < n) :
    lq.ApplyQ Conj m n (lq.PanelHouseholder Conj RightReflector m n A t).1
      (lq.PanelHouseholder Conj RightReflector m n A t).2 m L i j = A i j := by
  have hmin : Min m n = m := min_eq_left hmn
  have hfin : lq.PanelHouseholder Conj RightReflector m n A t
      = lq.PanelHouseholder.after Conj RightReflector m n A t m := by
    unfold lq.PanelHouseholder lq.PanelHouseholder.after
    rw [hmin]
  rw [hfin] at hL ⊢
  unfold lq.ApplyQ
  rw [hmin]
  have key := forDown_inv
    (fun (k : Int) (B : lq.Entries F) => ∀ i j, 0 ≤ i → i < m → 0 ≤ j → j < n →
      B i j = lq.PanelHouseholder.reduced Conj RightReflector m n A t k i j)
    m.toNat
    (fun k B =>
      let u : Int → F := fun j => if j = 0 then 1
        else (lq.PanelHouseholder.after Conj RightReflector m n A t m).1 k (k + j)
      let BR : lq.Range := ⟨0, k, m, n⟩
      let z := lq.Gemv 1 BR.Width (BR.Get B) u 0 (fun _ => 0)
      BR.Put B (lq.Ger Conj
        (-(Conj ((lq.PanelHouseholder.after Conj RightReflector m n A t m).2 k))) z u
        (BR.Get B))) L ?_ ?_
  · have h := key i j hi0 hi1 hj0 hj1
    rw [h]
    unfold lq.PanelHouseholder.reduced
    rw [if_neg (by omega), panel_after_zero]
  · intro a b ha0 ha1 hb0 hb1
    have e : ((m.toNat : Nat) : Int) = m := Int.toNat_of_nonneg hm
    rw [e, hL a b ha0 ha1 hb0 hb1]
    unfold lq.PanelHouseholder.reduced
    by_cases hba : b ≤ a
    · rw [if_pos hba, if_neg (by omega)]
    · rw [if_neg hba, if_pos (by omega)]
  · intro k B hk hP a b ha0 ha1 hb0 hb1
    have hk1 : (k : Int) < m := by omega
    have hk0 : (0 : Int) ≤ k := by omega
    dsimp only
    rw [applyQ_body]
    obtain ⟨d, hd⟩ : ∃ d : Nat, m = (k : Int) + 1 + d := ⟨(m - (k + 1)).toNat, by omega⟩
    have hfr := panel_after_frozen Conj RightReflector m n A t k hk0 d
    rw [← hd] at hfr
    have hred := panel_reduced_succ Conj RightReflector m n A t k hk0 hk1 (hv k hk0 hk1)
    have hU := (hv k hk0 hk1).2
    generalize lq.PanelHouseholder.reflection Conj RightReflector m n A t k = r at hfr hred hU
    beta_reduce at hU
    rw [hfr.2]
    have E1 : ∀ c, 0 ≤ c → c < n → B a c
        = if (k : Int) ≤ c then
            lq.PanelHouseholder.reduced Conj RightReflector m n A t k a c
              - r.tau * forLoop 0 (n - k) (fun l acc => acc +
                  lq.PanelHouseholder.reduced Conj RightReflector m n A t k a (k + l) *
                  (if l = 0 then 1 else r.v (l - 1))) 0
                * Conj (if c - k = 0 then 1 else r.v (c - k - 1))
          else lq.PanelHouseholder.reduced Conj RightReflector m n A t k a c := by
      intro c hc0 hc1
      rw [hP a c ha0 ha1 hc0 hc1]
      exact hred a c ha1 hc1
    have E2 : ∀ l, 0 ≤ l → l < n - k →
        (if l = 0 then (1 : F)
          else (lq.PanelHouseholder.after Conj RightReflector m n A t m).1 k (k + l))
        = if l = 0 then 1 else r.v (l - 1) := by
      intro l hl0 hl1
      by_cases hl : l = 0
      · rw [if_pos hl, if_pos hl]
      · rw [if_neg hl, if_neg hl, hfr.1 (k + l) (by omega) (by omega)]
        congr 1
        ring
    by_cases hkb : (k : Int) ≤ b
    · have hw : 0 ≤ a ∧ a < m ∧ (k : Int) ≤ b ∧ b < n := ⟨ha0, ha1, hkb, hb1⟩
      rw [if_pos hw]
      have hsum : forLoop 0 (n - k) (fun l acc => acc + B a (k + l) *
            (if l = 0 then 1
              else (lq.PanelHouseholder.after Conj RightReflector m n A t m).1 k (k + l))) 0
          = forLoop 0 (n - k) (fun l acc => acc +
              (lq.PanelHouseholder.reduced Conj RightReflector m n A t k a (k + l)
                - r.tau * forLoop 0 (n - k) (fun l acc => acc +
                    lq.PanelHouseholder.reduced Conj RightReflector m n A t k a (k + l) *
                    (if l = 0 then 1 else r.v (l - 1))) 0
                  * Conj (if l = 0 then 1 else r.v (l - 1)))
              * (if l = 0 then 1 else r.v (l - 1))) 0 := by
        apply rowSum_congr
        intro l hl0 hl1
        have e3 : (k : Int) + l - k = l := by ring
        rw [E2 l hl0 hl1, E1 (k + l) (by omega) (by omega), if_pos (by omega), e3]
      have e2 : (k : Int) + (b - k) = b := by ring
      have hc := E2 (b - k) (by omega) (by omega)
      rw [hsum, hc, E1 b hb0 hb1, if_pos hkb]
      have h := reflect_undo Conj (n - k) (fun l => if l = 0 then 1 else r.v (l - 1))
        (fun l => lq.PanelHouseholder.reduced Conj RightReflector m n A t k a (k + l))
        r.tau (Conj r.tau) hU (b - k)
      beta_reduce at h
      rw [e2] at h
      exact h
    · have hw : ¬ (0 ≤ a ∧ a < m ∧ (k : Int) ≤ b ∧ b < n) := by omega
      rw [if_neg hw, E1 b hb0 hb1, if_neg hkb]
/-- The lower triangle `MakeTriangular( LOWER, . )` leaves of a stored copy. -/
theorem stored_lower {F : Type} [CommRing F] (m n : Int) (S : lq.Entries F) (i j : Int)
    (hi0 : 0 ≤ i) (hi1 : i < m) (hj0 : 0 ≤ j) (hj1 : j < n) :
    lq.Entries.ofStored (MakeTriangular UpperOrLower.LOWER (lq.Entries.store m n S).1
        (lq.Entries.store m n S).2) i j
      = if j ≤ i then S i j else 0 := by
  have hld : (lq.Entries.store m n S).1.height_ ≤ (lq.Entries.store m n S).1.ldim_ :=
    le_max_left m 1
  have h := makeTriangular_entry UpperOrLower.LOWER (lq.Entries.store m n S).1
    (lq.Entries.store m n S).2 hld i j hi0 hi1 hj0 hj1
  unfold lq.Entries.ofStored
  rw [makeTriangular_fst, h, if_pos rfl]
  have hpos : (0 : Int) < max m 1 := lt_of_lt_of_le one_pos (le_max_right m 1)
  have hlt : i < max m 1 := lt_of_lt_of_le hi1 (le_max_left m 1)
  have e1 : (0 + i + j * max m 1) % max m 1 = i := by
    rw [zero_add, Int.add_mul_emod_self, Int.emod_eq_of_lt hi0 hlt]
  have e2 : (0 + i + j * max m 1) / max m 1 = j := by
    rw [zero_add, Int.add_mul_ediv_right _ _ (ne_of_gt hpos), Int.ediv_eq_zero_of_lt hi0 hlt,
      zero_add]
  have e : (lq.Entries.store m n S).2 ((lq.Entries.store m n S).1.Buffer i j) = S i j := by
    show S ((0 + i + j * max m 1) % max m 1) ((0 + i + j * max m 1) / max m 1) = S i j
    rw [e1, e2]
  rw [e]

/-- On the integer example every row handed to the reflector oracle gets a
reflection that meets the contract. -/
theorem example_reflections_valid :
    ∀ k, 0 ≤ k → k < 2 → lq.Reflection.Valid (fun x => x) (3 - k)
      (lq.PanelHouseholder.row (fun x => x) lq.exampleReflector 2 3 lq.exampleA (fun _ => 0) k)
      (lq.PanelHouseholder.reflection (fun x => x) lq.exampleReflector 2 3 lq.exampleA
        (fun _ => 0) k) := by
  intro k hk0 hk1
  interval_cases k
  · refine ⟨fun j hj0 hj1 => ?_, by decide⟩
    interval_cases j <;> decide
  · refine ⟨fun j hj0 hj1 => ?_, by decide⟩
    interval_cases j <;> decide

/-- C22. LQ round trip in exact arithmetic: for an m x n matrix A with m ≤ n,
when every reflection `RightReflector` returns during `LQ( A, t )` meets its
contract, the lower triangle L of the overwritten A (formed by
`MakeTriangular( LOWER, . )`) multiplied by Q with
`lq::ApplyQ( RIGHT, NORMAL, A, t, L )` equals the original A in every entry. -/
theorem lq_round_trip {F : Type} [CommRing F] (Conj : F → F)
    (RightReflector : F → (Int → F) → Int → lq.Reflection F) (m n : Int) (A : lq.Entries F)
    (t : Int → F) (hm : 0 ≤ m) (hmn : m ≤ n)
    (hv : ∀ k, 0 ≤ k → k < m → lq.Reflection.Valid Conj (n - k)
      (lq.PanelHouseholder.row Conj RightReflector m n A t k)
      (lq.PanelHouseholder.reflection Conj RightReflector m n A t k)) :
    ∀ i j, 0 ≤ i → i < m → 0 ≤ j → j < n →
      lq.FormLQ Conj m n (LQ Conj RightReflector m n A t).1 (LQ Conj RightReflector m n A t).2
        i j = A i j := by
  intro i j hi0 hi1 hj0 hj1
  unfold lq.FormLQ LQ lq.Householder
  exact applyQ_lower Conj RightReflector m n A t hm hmn hv _
    (fun a b ha0 ha1 hb0 hb1 => stored_lower m n _ a b ha0 ha1 hb0 hb1) i j hi0 hi1 hj0 hj1

theorem lq_round_trip_witness :
    (0 : Int) ≤ 2 ∧ (2 : Int) ≤ 3 ∧
    (∀ k, 0 ≤ k → k < 2 → lq.Reflection.Valid (fun x => x) (3 - k)
      (lq.PanelHouseholder.row (fun x => x) lq.exampleReflector 2 3 lq.exampleA (fun _ => 0) k)
      (lq.PanelHouseholder.reflection (fun x => x) lq.exampleReflector 2 3 lq.exampleA
        (fun _ => 0) k)) ∧
    (∀ i j, 0 ≤ i → i < 2 → 0 ≤ j → j < 3 →
      lq.FormLQ (fun x => x) 2 3
        (LQ (fun x => x) lq.exampleReflector 2 3 lq.exampleA (fun _ => 0)).1
        (LQ (fun x => x) lq.exampleReflector 2 3 lq.exampleA (fun _ => 0)).2 i j
        = lq.exampleA i j) :=
  ⟨by decide, by decide, example_reflections_valid,
   lq_round_trip (fun x => x) lq.exampleReflector 2 3 lq.exampleA (fun _ => 0) (by decide)
     (by decide) example_reflections_valid⟩

/-- The factorization of the integer example: the overwritten A has rows
|-4 1 0| and |-5 -7 1|, both coefficients are 1, and the product formed from
them has the rows of the original matrix. -/
theorem lq_example_values :
    (LQ (fun x => x) lq.exampleReflector 2 3 lq.exampleA (fun _ => 0)).1 0 0 = -4 ∧
    (LQ (fun x => x) lq.exampleReflector 2 3 lq.exampleA (fun _ => 0)).1 0 1 = 1 ∧
    (LQ (fun x => x) lq.exampleReflector 2 3 lq.exampleA (fun _ => 0)).1 0 2 = 0 ∧
    (LQ (fun x => x) lq.exampleReflector 2 3 lq.exampleA (fun _ => 0)).1 1 0 = -5 ∧
    (LQ (fun x => x) lq.exampleReflector 2 3 lq.exampleA (fun _ => 0)).1 1 1 = -7 ∧
    (LQ (fun x => x) lq.exampleReflector 2 3 lq.exampleA (fun _ => 0)).1 1 2 = 1 ∧
    (LQ (fun x => x) lq.exampleReflector 2 3 lq.exampleA (fun _ => 0)).2 0 = 1 ∧
    (LQ (fun x => x) lq.exampleReflector 2 3 lq.exampleA (fun _ => 0)).2 1 = 1 ∧
    lq.FormLQ (fun x => x) 2 3
      (LQ (fun x => x) lq.exampleReflector 2 3 lq.exampleA (fun _ => 0)).1
      (LQ (fun x => x) lq.exampleReflector 2 3 lq.exampleA (fun _ => 0)).2 1 1 = 5 ∧
    lq.FormLQ (fun x => x) 2 3
      (LQ (fun x => x) lq.exampleReflector 2 3 lq.exampleA (fun _ => 0)).1
      (LQ (fun x => x) lq.exampleReflector 2 3 lq.exampleA (fun _ => 0)).2 1 2 = 7 := by
  decide

end elem
